import Mathlib

/-!
# Transport manager: network store, route-graph builder, query processor

A shallow embedding of `transport_manager.{h,cpp}`, `transport_manager_main.cpp`,
`requests.{h,cpp}` and `json.{h,cpp}` (the typed accessors, the reader `Load` and
the printer `Print`).

Conventions of the embedding.

* `std::unordered_map<K, V>` is an association list with unique keys
  (`UMap`); the iteration order of an unordered map is never used by the code.
* A `ConstStopRawPtr` / `ConstBusRawPtr` points at a node of `stops_` /
  `buses_`; nodes are never erased and keys are unique, so a pointer is
  modelled by the key (the stop or bus name) and `nullptr` by `none`.
* `double` values are idealised as exact rationals (`ℚ`): no rounding.  The
  libm functions `sin`, `cos`, `acos` are a parameter (`Libm`), whose values may
  be rounded ones.  The NaN that `acos` returns outside `[-1, 1]` is kept by
  `ComputeDistanceForCoords.asDouble` and `GetDistance.asDouble`.
* Exceptions are `Except Error`.
* A `std::istream` is the list of the characters not extracted yet with
  `eofbit` and `failbit`; what `Print` writes is a list of characters.  The
  recursion of the reader is bounded by fuel, one unit per call of `LoadNode`
  and per iteration of a loop.  The conversion between a `double` and its text
  is a parameter (`DoubleText`).
-/

namespace TransportGuide

/-- Exceptions thrown by the code; `invalid_pointer` stands for dereferencing a
pointer or index that does not designate an element (undefined behaviour in
C++). -/
inductive Error where
  | invalid_argument (what : String)
  | out_of_range
  | bad_variant_access
  | invalid_pointer
  deriving DecidableEq, Repr

deriving instance DecidableEq for Except

/-! ## `std::unordered_map` -/

namespace UMap

/-- Value stored under `k` (`find` followed by a dereference of the iterator). -/
def find {κ υ : Type} [DecidableEq κ] : List (κ × υ) → κ → Option υ
  | [], _ => none
  | (k', v) :: rest, k => if k' = k then some v else find rest k

/-- The map after `emplace(k, v)` / `insert({k, v})`: nothing changes when the key is present. -/
def emplace {κ υ : Type} [DecidableEq κ] (m : List (κ × υ)) (k : κ) (v : υ) : List (κ × υ) :=
  match find m k with
  | some _ => m
  | none => m ++ [(k, v)]

/-- The map after `m[k] = v`. -/
def set {κ υ : Type} [DecidableEq κ] : List (κ × υ) → κ → υ → List (κ × υ)
  | [], k, v => [(k, v)]
  | (k', v') :: rest, k, v => if k' = k then (k, v) :: rest else (k', v') :: set rest k v

/-- The map after mutating in place the value stored under `k` (no effect when absent). -/
def modify {κ υ : Type} [DecidableEq κ] : List (κ × υ) → κ → (υ → υ) → List (κ × υ)
  | [], _, _ => []
  | (k', v') :: rest, k, f => if k' = k then (k', f v') :: rest else (k', v') :: modify rest k f

/-- Number of elements, `size()`. -/
def size {κ υ : Type} (m : List (κ × υ)) : Nat := m.length

end UMap

/-! ## Geodesic distance -/

/-- Coordinates in radians. -/
structure GeoCoordinates where
  latitude_ : ℚ
  longitude_ : ℚ
  deriving DecidableEq, Repr

def PI : ℚ := 3.1415926535

def EARTH_RADIUS : ℚ := 6371000

def GeoCoordinates.ToRadian (degree : ℚ) : ℚ := degree * (PI / 180)

/-- The constructor `GeoCoordinates(latitude_degree, longitude_degree)`. -/
def GeoCoordinates.ofDegrees (latitude_degree longitude_degree : ℚ) : GeoCoordinates :=
  ⟨GeoCoordinates.ToRadian latitude_degree, GeoCoordinates.ToRadian longitude_degree⟩

/-- The `<cmath>` functions used by `ComputeDistanceForCoords`. -/
structure Libm where
  sin : ℚ → ℚ
  cos : ℚ → ℚ
  acos : ℚ → ℚ

/-- `ComputeDistanceForCoords`, as a number: the value returned when the argument of
`acos` is within `[-1, 1]`.  For the NaN that `acos` returns outside of it see
`ComputeDistanceForCoords.asDouble`. -/
def ComputeDistanceForCoords (lm : Libm) (lhs rhs : GeoCoordinates) : ℚ :=
  let arc_distance :=
    lm.sin lhs.latitude_ * lm.sin rhs.latitude_ +
    lm.cos lhs.latitude_ * lm.cos rhs.latitude_ *
    lm.cos (lhs.longitude_ - rhs.longitude_)
  lm.acos arc_distance * EARTH_RADIUS

/-! ## Graph -/

abbrev VertexId := Nat

abbrev EdgeId := Nat

inductive EdgeType where
  | BUS
  | WAIT
  deriving DecidableEq, Repr

structure EdgeWeight where
  type_ : EdgeType
  weight_ : ℚ
  deriving DecidableEq, Repr

/-- Modelled from the spec: `Graph::Edge` of the graph library (`router.h` and the
graph header it includes are not among the sources): an edge has a source
vertex, a target vertex and a weight. -/
structure Edge where
  from_ : VertexId
  to_ : VertexId
  weight : EdgeWeight
  deriving DecidableEq, Repr

/-- Modelled from the spec: `Graph::DirectedWeightedGraph` of the graph library
(not among the sources): constructed with a vertex count, it stores its edges
in insertion order and the id of an edge is its position. -/
structure DirectedWeightedGraph where
  vertex_count : Nat
  edges_ : List Edge
  deriving DecidableEq, Repr

/-- Modelled from the spec: `DirectedWeightedGraph::AddEdge` appends the edge and
returns its fresh id (ids depend only on insertion order). -/
def DirectedWeightedGraph.AddEdge (g : DirectedWeightedGraph) (e : Edge) :
    DirectedWeightedGraph × EdgeId :=
  ({ g with edges_ := g.edges_ ++ [e] }, g.edges_.length)

/-- Modelled from the spec: `DirectedWeightedGraph::GetEdge`, the edge with the given id. -/
def DirectedWeightedGraph.GetEdge (g : DirectedWeightedGraph) (id : EdgeId) : Except Error Edge :=
  match g.edges_[id]? with
  | some e => .ok e
  | none => .error .invalid_pointer

/-! ## The network store (`TransportManager`) -/

/-- `TransportManager::Stop`; `buses_` is the `std::set<std::string_view>` as the
list of its elements in iteration (ascending) order. -/
structure Stop where
  coords_ : GeoCoordinates
  buses_ : List String
  deriving DecidableEq, Repr

/-- `TransportManager::Bus::Type`. -/
inductive BusType where
  | CIRCULAR
  | REGULAR
  deriving DecidableEq, Repr

structure Bus where
  type_ : BusType := BusType.REGULAR
  stops_ : List String := []
  deriving DecidableEq, Repr

structure Distance where
  raw_ : ℚ := 0
  by_default_ : ℚ := 0
  deriving DecidableEq, Repr

structure RoutingSettings where
  wait_time : Int
  velocity : ℚ
  deriving DecidableEq, Repr

/-- The constructor `RoutingSettings(wait, velocity_in_kmph)`. -/
def RoutingSettings.make (wait : Int) (velocity_in_kmph : ℚ) : RoutingSettings :=
  ⟨wait, velocity_in_kmph / 60⟩

structure EdgeInfo where
  stops_count : Int := 0
  bus_ptr : Option String := none
  deriving DecidableEq, Repr

structure TransportManager where
  settings : RoutingSettings
  stops_ : List (String × Stop)
  buses_ : List (String × Bus)
  distances_ : List (String × List (String × ℚ))
  vertex_id_to_stop : List (VertexId × String)
  stop_to_vertex_id : List (String × VertexId)
  wait_stop_to_vertex_id : List (String × VertexId)
  edge_id_to_info : List (EdgeId × EdgeInfo)
  graph : DirectedWeightedGraph
  deriving DecidableEq, Repr

namespace TransportManager

/-- The private constructor `TransportManager(stops_count, bus_wait_time, bus_velocity_in_kmph)`. -/
def make (stops_count : Nat) (bus_wait_time : Int) (bus_velocity_in_kmph : ℚ) : TransportManager :=
  { settings := RoutingSettings.make bus_wait_time bus_velocity_in_kmph
    stops_ := []
    buses_ := []
    distances_ := []
    vertex_id_to_stop := []
    stop_to_vertex_id := []
    wait_stop_to_vertex_id := []
    edge_id_to_info := []
    graph := ⟨stops_count, []⟩ }

/-- `SetStop`: the store after the `emplace`; the returned pointer is `stop_id`. -/
def SetStop (m : TransportManager) (stop_id : String) (stop : Stop) : TransportManager :=
  { m with stops_ := UMap.emplace m.stops_ stop_id stop }

/-- `GetStop`: a pointer to the stop, `none` for `nullptr`. -/
def GetStop (m : TransportManager) (stop_id : String) : Option String :=
  match UMap.find m.stops_ stop_id with
  | some _ => some stop_id
  | none => none

/-- `SetBus`: the store after the `emplace`; the returned pointer is `bus_id`. -/
def SetBus (m : TransportManager) (bus_id : String) (info : Bus) : TransportManager :=
  { m with buses_ := UMap.emplace m.buses_ bus_id info }

/-- `GetBus`: a pointer to the bus, `none` for `nullptr`. -/
def GetBus (m : TransportManager) (bus_id : String) : Option String :=
  match UMap.find m.buses_ bus_id with
  | some _ => some bus_id
  | none => none

/-- Dereference of a stop pointer, `ptr->second`. -/
def derefStop (m : TransportManager) (ptr : String) : Except Error Stop :=
  match UMap.find m.stops_ ptr with
  | some s => .ok s
  | none => .error .invalid_pointer

/-- Dereference of a bus pointer, `ptr->second`. -/
def derefBus (m : TransportManager) (ptr : String) : Except Error Bus :=
  match UMap.find m.buses_ ptr with
  | some b => .ok b
  | none => .error .invalid_pointer

/-- `unordered_map::at` on a pointer-keyed or id-keyed table. -/
def tableAt {κ υ : Type} [DecidableEq κ] (t : List (κ × υ)) (k : Option κ) : Except Error υ :=
  match k with
  | none => .error .out_of_range
  | some k =>
    match UMap.find t k with
    | some v => .ok v
    | none => .error .out_of_range

def GetStopByVertexId (m : TransportManager) (id : VertexId) : Except Error String :=
  tableAt m.vertex_id_to_stop (some id)

def GetVertexIdByStop (m : TransportManager) (stop_id : String) : Except Error VertexId :=
  tableAt m.stop_to_vertex_id (m.GetStop stop_id)

def GetVertexIdByWaitStop (m : TransportManager) (stop_id : String) : Except Error VertexId :=
  tableAt m.wait_stop_to_vertex_id (m.GetStop stop_id)

def GetEdgeInfoByEdgeId (m : TransportManager) (id : EdgeId) : Except Error EdgeInfo :=
  tableAt m.edge_id_to_info (some id)

def GetGraphEdge (m : TransportManager) (edge_id : EdgeId) : Except Error Edge :=
  m.graph.GetEdge edge_id

def GetBusWaitTime (m : TransportManager) : Int := m.settings.wait_time

def GetBusVelocity (m : TransportManager) : ℚ := m.settings.velocity

/-- The entry `distances_[from][to]`, if both levels have the key. -/
def storedDistance (d : List (String × List (String × ℚ))) (from_ptr to_ptr : String) : Option ℚ :=
  match UMap.find d from_ptr with
  | none => none
  | some row => UMap.find row to_ptr

def GetDistance (lm : Libm) (m : TransportManager) (from_ to_ : String) : Except Error ℚ :=
  match UMap.find m.stops_ from_, UMap.find m.stops_ to_ with
  | some from_stop, some to_stop =>
    match storedDistance m.distances_ from_ to_ with
    | none => .ok (ComputeDistanceForCoords lm from_stop.coords_ to_stop.coords_)
    | some d => .ok d
  | _, _ => .error (.invalid_argument ("Valid stops expected: " ++ from_ ++ "&&" ++ to_))

end TransportManager

/-! ## Base requests and the builder (`TransportManagerBuilder`) -/

/-- A well-typed `Stop` base request: `name`, `latitude`, `longitude` and the
entries of `road_distances` in the iteration order of the decoded
`std::map` (empty when the key is absent). -/
structure StopRequest where
  name : String
  latitude : ℚ
  longitude : ℚ
  road_distances : List (String × Int)
  deriving DecidableEq, Repr

/-- A well-typed `Bus` base request: `name`, `is_roundtrip`, `stops`. -/
structure BusRequest where
  name : String
  is_roundtrip : Bool
  stops : List String
  deriving DecidableEq, Repr

/-- A base request, by its `type` field. -/
inductive BaseRequest where
  | Stop (r : StopRequest)
  | Bus (r : BusRequest)
  | Other (type : String)
  deriving DecidableEq, Repr

structure TransportManagerBuilder where
  wait_time_ : Int := 0
  velocity_in_kmph_ : ℚ := 0
  stop_requests_ : List StopRequest := []
  bus_requests_ : List BusRequest := []
  distances_ : List StopRequest := []
  deriving DecidableEq, Repr

/-- The `operator<` of `std::string` and `std::string_view`: lexicographic
comparison, character by character. -/
abbrev strLess (a b : String) : Prop := a.data < b.data

/-- The element count and iteration order of a `std::set<std::string_view>`
after `insert(x)`; the set is the ascending list of its elements. -/
def setInsert (x : String) : List String → List String
  | [] => [x]
  | y :: ys =>
    if strLess x y then x :: y :: ys else if x = y then y :: ys else y :: setInsert x ys

namespace TransportManagerBuilder

def SetBusSettings (b : TransportManagerBuilder) (wait_time : Int) (velocity_in_kmph : ℚ) :
    TransportManagerBuilder :=
  { b with wait_time_ := wait_time, velocity_in_kmph_ := velocity_in_kmph }

def AddQuery (b : TransportManagerBuilder) (node : BaseRequest) : TransportManagerBuilder :=
  match node with
  | .Stop r =>
    let b1 := { b with stop_requests_ := b.stop_requests_ ++ [r] }
    if r.road_distances.length > 0 then { b1 with distances_ := b1.distances_ ++ [r] } else b1
  | .Bus r => { b with bus_requests_ := b.bus_requests_ ++ [r] }
  | .Other _ => b

/-- One iteration of the loop of `BuildStops`. -/
def BuildStops.step (manager : TransportManager) (stop_request : StopRequest) : TransportManager :=
  let manager := manager.SetStop stop_request.name
    ⟨GeoCoordinates.ofDegrees stop_request.latitude stop_request.longitude, []⟩
  let stop_ptr := stop_request.name
  let fresh := UMap.size manager.stop_to_vertex_id + UMap.size manager.wait_stop_to_vertex_id
  let manager := { manager with
    stop_to_vertex_id := UMap.emplace manager.stop_to_vertex_id stop_ptr fresh }
  let it_second := (UMap.find manager.stop_to_vertex_id stop_ptr).getD fresh
  let manager := { manager with
    vertex_id_to_stop := UMap.emplace manager.vertex_id_to_stop it_second stop_ptr }
  let fresh_wait := UMap.size manager.stop_to_vertex_id + UMap.size manager.wait_stop_to_vertex_id
  let manager := { manager with
    wait_stop_to_vertex_id := UMap.emplace manager.wait_stop_to_vertex_id stop_ptr fresh_wait }
  let wait_it_second := (UMap.find manager.wait_stop_to_vertex_id stop_ptr).getD fresh_wait
  { manager with
    graph := (manager.graph.AddEdge
      ⟨wait_it_second, it_second, ⟨EdgeType.WAIT, (manager.GetBusWaitTime : ℚ)⟩⟩).1 }

def BuildStops (manager : TransportManager) (stop_requests : List StopRequest) : TransportManager :=
  stop_requests.foldl BuildStops.step manager

/-- The table after `distances_[from_ptr][to_ptr] = distance`. -/
def setDistance (d : List (String × List (String × ℚ))) (from_ptr to_ptr : String) (distance : ℚ) :
    List (String × List (String × ℚ)) :=
  UMap.set d from_ptr (UMap.set ((UMap.find d from_ptr).getD []) to_ptr distance)

/-- The body of the inner loop of `BuildDistances` once both pointers are known to be non-null. -/
def BuildDistances.store (d : List (String × List (String × ℚ))) (from_ptr to_ptr : String)
    (distance : ℚ) : List (String × List (String × ℚ)) :=
  let d := setDistance d from_ptr to_ptr distance
  match TransportManager.storedDistance d to_ptr from_ptr with
  | none => setDistance d to_ptr from_ptr distance
  | some _ => d

/-- The inner loop of `BuildDistances`, over the entries of `road_distances`. -/
def BuildDistances.inner (name : String) (from_ptr : Option String) :
    TransportManager → List (String × Int) → Except Error TransportManager
  | manager, [] => .ok manager
  | manager, stop_to_distance :: rest =>
    let to_ptr := manager.GetStop stop_to_distance.1
    let distance : ℚ := (stop_to_distance.2 : ℚ)
    match from_ptr with
    | none =>
      .error (.invalid_argument
        ("Valid Stops were expected: " ++ name ++ "&&" ++ stop_to_distance.1))
    | some from_ptr' =>
      match to_ptr with
      | none =>
        .error (.invalid_argument
          ("Valid Stops were expected: " ++ name ++ "&&" ++ stop_to_distance.1))
      | some to_ptr' =>
        BuildDistances.inner name from_ptr
          { manager with
            distances_ := BuildDistances.store manager.distances_ from_ptr' to_ptr' distance }
          rest

def BuildDistances : TransportManager → List StopRequest → Except Error TransportManager
  | manager, [] => .ok manager
  | manager, distances_from_stop :: rest =>
    match BuildDistances.inner distances_from_stop.name (manager.GetStop distances_from_stop.name)
        manager distances_from_stop.road_distances with
    | .error e => .error e
    | .ok manager => BuildDistances manager rest

/-- The shared body of the inner loops of `BuildEdgesForBus`, `BuildReversedEdgesForBus`
and `BuildBackEdgesForRegularBus`: one more hop from `last_stop_ptr` to
`next_stop_ptr`, and the edge to the wait vertex of `next_stop_ptr`.
Returns the manager, `stops_count` and `weight`. -/
def addBusEdge (lm : Libm) (manager : TransportManager) (bus_ptr : String) (vertex_id : VertexId)
    (last_stop_ptr next_stop_ptr : String) (stops_count : Int) (weight : ℚ) :
    Except Error (TransportManager × Int × ℚ) :=
  let stops_count := stops_count + 1
  match manager.GetDistance lm last_stop_ptr next_stop_ptr with
  | .error e => .error e
  | .ok distance =>
    let weight := weight + distance / 1000 / manager.GetBusVelocity
    match manager.GetVertexIdByWaitStop next_stop_ptr with
    | .error e => .error e
    | .ok to_id =>
      let added := manager.graph.AddEdge ⟨vertex_id, to_id, ⟨EdgeType.BUS, weight⟩⟩
      .ok ({ manager with
              graph := added.1
              edge_id_to_info :=
                UMap.emplace manager.edge_id_to_info added.2 ⟨stops_count, some bus_ptr⟩ },
            stops_count, weight)

/-- The loop of `BuildBackEdgesForRegularBus` over the reversed stops, once
`last_stop_opt` is set. -/
def BuildBackEdgesForRegularBus.loop (lm : Libm) (bus_ptr : String) (vertex_id : VertexId) :
    TransportManager → String → List String → Int → ℚ → Except Error TransportManager
  | manager, _, [], _, _ => .ok manager
  | manager, last_stop, next_stop_ptr :: rest, stops_count, weight =>
    match addBusEdge lm manager bus_ptr vertex_id last_stop next_stop_ptr stops_count weight with
    | .error e => .error e
    | .ok (manager, stops_count, weight) =>
      BuildBackEdgesForRegularBus.loop lm bus_ptr vertex_id manager next_stop_ptr rest
        stops_count weight

def BuildBackEdgesForRegularBus (lm : Libm) (manager : TransportManager) (stops : List String)
    (bus_ptr : String) (vertex_id : VertexId) (stops_count : Int) (weight : ℚ) :
    Except Error TransportManager :=
  match stops.reverse with
  | [] => .ok manager
  | first :: rest =>
    BuildBackEdgesForRegularBus.loop lm bus_ptr vertex_id manager first rest stops_count weight

/-- The inner loop of `BuildEdgesForBus` and of `BuildReversedEdgesForBus`, over
`Range(next(it), stops.end())`. -/
def BuildEdgesForBus.inner (lm : Libm) (bus_ptr : String) (vertex_id : VertexId) :
    TransportManager → String → List String → Int → ℚ →
      Except Error (TransportManager × Int × ℚ)
  | manager, _, [], stops_count, weight => .ok (manager, stops_count, weight)
  | manager, last_stop_ptr, next_stop_ptr :: rest, stops_count, weight =>
    match addBusEdge lm manager bus_ptr vertex_id last_stop_ptr next_stop_ptr stops_count
        weight with
    | .error e => .error e
    | .ok (manager, stops_count, weight) =>
      BuildEdgesForBus.inner lm bus_ptr vertex_id manager next_stop_ptr rest stops_count weight

/-- The outer loop of `BuildEdgesForBus`; the last argument is the part of
`stops` from `it` on. -/
def BuildEdgesForBus.outer (lm : Libm) (stops : List String) (bus_ptr : String)
    (needs_wayback : Bool) : TransportManager → List String → Except Error TransportManager
  | manager, [] => .ok manager
  | manager, stop_ptr :: rest =>
    match manager.GetVertexIdByStop stop_ptr with
    | .error e => .error e
    | .ok vertex_id =>
      match BuildEdgesForBus.inner lm bus_ptr vertex_id manager stop_ptr rest 0 0 with
      | .error e => .error e
      | .ok (manager, stops_count, weight) =>
        if needs_wayback then
          match BuildBackEdgesForRegularBus lm manager stops bus_ptr vertex_id stops_count
              weight with
          | .error e => .error e
          | .ok manager => BuildEdgesForBus.outer lm stops bus_ptr needs_wayback manager rest
        else
          BuildEdgesForBus.outer lm stops bus_ptr needs_wayback manager rest

def BuildEdgesForBus (lm : Libm) (manager : TransportManager) (stops : List String)
    (bus_ptr : String) (needs_wayback : Bool) : Except Error TransportManager :=
  BuildEdgesForBus.outer lm stops bus_ptr needs_wayback manager stops

/-- The outer loop of `BuildReversedEdgesForBus`. -/
def BuildReversedEdgesForBus.outer (lm : Libm) (bus_ptr : String) :
    TransportManager → List String → Except Error TransportManager
  | manager, [] => .ok manager
  | manager, stop_ptr :: rest =>
    match manager.GetVertexIdByStop stop_ptr with
    | .error e => .error e
    | .ok vertex_id =>
      match BuildEdgesForBus.inner lm bus_ptr vertex_id manager stop_ptr rest 0 0 with
      | .error e => .error e
      | .ok (manager, _, _) => BuildReversedEdgesForBus.outer lm bus_ptr manager rest

/-- `BuildReversedEdgesForBus`; `stops` is the container it is given (the caller
passes the reversed view of the bus's stops). -/
def BuildReversedEdgesForBus (lm : Libm) (manager : TransportManager) (stops : List String)
    (bus_ptr : String) : Except Error TransportManager :=
  BuildReversedEdgesForBus.outer lm bus_ptr manager stops

/-- The loop of `BuildBuses` over the stop names of one request: `push_back` on
the bus's stops and `insert` into the stop's set of buses. -/
def BuildBuses.addStops (bus_ptr : String) :
    TransportManager → List String → Except Error TransportManager
  | manager, [] => .ok manager
  | manager, stop :: rest =>
    match manager.GetStop stop with
    | none => .error (.invalid_argument ("valid stop expected: " ++ stop))
    | some stop_ptr =>
      BuildBuses.addStops bus_ptr
        { manager with
          buses_ := UMap.modify manager.buses_ bus_ptr
            (fun bus => { bus with stops_ := bus.stops_ ++ [stop_ptr] })
          stops_ := UMap.modify manager.stops_ stop_ptr
            (fun s => { s with buses_ := setInsert bus_ptr s.buses_ }) }
        rest

/-- One iteration of the loop of `BuildBuses`. -/
def BuildBuses.step (lm : Libm) (manager : TransportManager) (bus_request : BusRequest) :
    Except Error TransportManager :=
  let manager := manager.SetBus bus_request.name {}
  let bus_ptr := bus_request.name
  let type_ := if bus_request.is_roundtrip then BusType.CIRCULAR else BusType.REGULAR
  let manager := { manager with
    buses_ := UMap.modify manager.buses_ bus_ptr (fun bus => { bus with type_ := type_ }) }
  match BuildBuses.addStops bus_ptr manager bus_request.stops with
  | .error e => .error e
  | .ok manager =>
    match manager.derefBus bus_ptr with
    | .error e => .error e
    | .ok bus =>
      match BuildEdgesForBus lm manager bus.stops_ bus_ptr (bus.type_ = BusType.REGULAR) with
      | .error e => .error e
      | .ok manager =>
        if bus.type_ = BusType.REGULAR then
          BuildReversedEdgesForBus lm manager bus.stops_.reverse bus_ptr
        else
          .ok manager

def BuildBuses (lm : Libm) : TransportManager → List BusRequest → Except Error TransportManager
  | manager, [] => .ok manager
  | manager, bus_request :: rest =>
    match BuildBuses.step lm manager bus_request with
    | .error e => .error e
    | .ok manager => BuildBuses lm manager rest

def Build (lm : Libm) (b : TransportManagerBuilder) : Except Error TransportManager :=
  let manager :=
    TransportManager.make (b.stop_requests_.length * 2) b.wait_time_ b.velocity_in_kmph_
  let manager := BuildStops manager b.stop_requests_
  match BuildDistances manager b.distances_ with
  | .error e => .error e
  | .ok manager => BuildBuses lm manager b.bus_requests_

end TransportManagerBuilder

/-- `ParseBaseRequests` on well-typed requests and routing settings
(`bus_wait_time`, `bus_velocity`). -/
def ParseBaseRequests (requests : List BaseRequest) (bus_wait_time : Int) (bus_velocity : ℚ) :
    TransportManagerBuilder :=
  requests.foldl TransportManagerBuilder.AddQuery
    (TransportManagerBuilder.SetBusSettings {} bus_wait_time bus_velocity)

/-! ## Distance aggregate of a bus -/

/-- A `double` that may be the result of a division: finite values are exact
rationals, and a division by zero gives the IEEE-754 special values. -/
inductive Double where
  | finite (value : ℚ)
  | pos_inf
  | neg_inf
  | nan
  deriving DecidableEq, Repr

/-- The quotient `a / b` of two finite doubles (the divisor `+0.0` when zero). -/
def Double.div (a b : ℚ) : Double :=
  if b = 0 then
    if a = 0 then Double.nan else if 0 < a then Double.pos_inf else Double.neg_inf
  else Double.finite (a / b)

/-- The comparison `x <= y` of doubles; false whenever an operand is NaN. -/
def Double.le : Double → Double → Prop
  | .nan, _ => False
  | _, .nan => False
  | .neg_inf, _ => True
  | _, .pos_inf => True
  | .finite a, .finite b => a ≤ b
  | .finite _, .neg_inf => False
  | .pos_inf, .finite _ => False
  | .pos_inf, .neg_inf => False

def Distance.Curvature (d : Distance) : Double := Double.div d.by_default_ d.raw_

/-! ## The geodesic distance and `GetDistance` as doubles -/

/-- The comparison `x == y` of doubles; false whenever an operand is NaN. -/
def Double.eq : Double → Double → Bool
  | .nan, _ => false
  | _, .nan => false
  | .finite a, .finite b => decide (a = b)
  | .pos_inf, .pos_inf => true
  | .neg_inf, .neg_inf => true
  | .finite _, .pos_inf => false
  | .finite _, .neg_inf => false
  | .pos_inf, .finite _ => false
  | .pos_inf, .neg_inf => false
  | .neg_inf, .finite _ => false
  | .neg_inf, .pos_inf => false

/-- The `arc_distance` of `ComputeDistanceForCoords`: the argument it gives to `acos`. -/
def arcDistance (lm : Libm) (lhs rhs : GeoCoordinates) : ℚ :=
  lm.sin lhs.latitude_ * lm.sin rhs.latitude_ +
  lm.cos lhs.latitude_ * lm.cos rhs.latitude_ *
  lm.cos (lhs.longitude_ - rhs.longitude_)

/-- The double `ComputeDistanceForCoords` returns, with the domain error of `acos`: for
an argument outside `[-1, 1]` the `acos` of the C library returns a NaN, and so
does its product with `EARTH_RADIUS`; the code has no clamp.  The argument
leaves `[-1, 1]` when the values of `sin` and `cos`, being rounded, have
squares whose sum exceeds 1. -/
def ComputeDistanceForCoords.asDouble (lm : Libm) (lhs rhs : GeoCoordinates) : Double :=
  if arcDistance lm lhs rhs < -1 ∨ 1 < arcDistance lm lhs rhs then Double.nan
  else Double.finite (ComputeDistanceForCoords lm lhs rhs)

/-- The double `GetDistance` returns: the stored distance, or the double of
`ComputeDistanceForCoords`, a NaN included. -/
def TransportManager.GetDistance.asDouble (lm : Libm) (m : TransportManager)
    (from_ to_ : String) : Except Error Double :=
  match UMap.find m.stops_ from_, UMap.find m.stops_ to_ with
  | some from_stop, some to_stop =>
    match TransportManager.storedDistance m.distances_ from_ to_ with
    | none => .ok (ComputeDistanceForCoords.asDouble lm from_stop.coords_ to_stop.coords_)
    | some d => .ok (Double.finite d)
  | _, _ => .error (.invalid_argument ("Valid stops expected: " ++ from_ ++ "&&" ++ to_))

namespace TransportManager

/-- The loop of `ComputeDistanceForStop` over the stops of the bus; `last` is the
optional previous stop. -/
def ComputeDistanceForStop.loop (lm : Libm) (m : TransportManager) (type_ : BusType) :
    List String → Option String → Distance → Except Error Distance
  | [], _, dist => .ok dist
  | stop_ptr :: rest, none, dist => ComputeDistanceForStop.loop lm m type_ rest (some stop_ptr) dist
  | stop_ptr :: rest, some last, dist =>
    match m.derefStop last with
    | .error e => .error e
    | .ok last_stop =>
      match m.derefStop stop_ptr with
      | .error e => .error e
      | .ok stop =>
        let raw_distance := ComputeDistanceForCoords lm last_stop.coords_ stop.coords_
        match m.GetDistance lm last stop_ptr with
        | .error e => .error e
        | .ok forward =>
          let dist : Distance := ⟨dist.raw_ + raw_distance, dist.by_default_ + forward⟩
          if type_ = BusType.REGULAR then
            match m.GetDistance lm stop_ptr last with
            | .error e => .error e
            | .ok backward =>
              ComputeDistanceForStop.loop lm m type_ rest (some stop_ptr)
                ⟨dist.raw_ + raw_distance, dist.by_default_ + backward⟩
          else
            ComputeDistanceForStop.loop lm m type_ rest (some stop_ptr) dist

def ComputeDistanceForStop (lm : Libm) (m : TransportManager) (bus_id : String) :
    Except Error Distance :=
  match UMap.find m.buses_ bus_id with
  | none => .ok ⟨0, 0⟩
  | some bus => ComputeDistanceForStop.loop lm m bus.type_ bus.stops_ none {}

end TransportManager

/-! ## The value tree (`Json::Node`) and the requests -/

namespace Json

/-- `Json::Node`: array, map (entries in key order), `int32_t`, `double`, `bool`, string. -/
inductive Node where
  | array (items : List Node)
  | map (entries : List (String × Node))
  | int (value : Int)
  | double (value : Double)
  | bool (value : Bool)
  | string (value : String)

/-- The entries of a `std::map<std::string, Node>` after `m[key] = value`. -/
def mapSet : List (String × Node) → String → Node → List (String × Node)
  | [], key, value => [(key, value)]
  | (k, v) :: rest, key, value =>
    if strLess key k then (key, value) :: (k, v) :: rest
    else if key = k then (key, value) :: rest
    else (k, v) :: mapSet rest key value

/-- The entries of a `std::map<std::string, Node>` after `emplace(key, value)`. -/
def mapEmplace : List (String × Node) → String → Node → List (String × Node)
  | [], key, value => [(key, value)]
  | (k, v) :: rest, key, value =>
    if strLess key k then (key, value) :: (k, v) :: rest
    else if key = k then (k, v) :: rest
    else (k, v) :: mapEmplace rest key value

/-- The entries of a `std::map<std::string, Node>` built from an initializer list. -/
def mapOf (entries : List (String × Node)) : List (String × Node) :=
  entries.foldl (fun m e => mapEmplace m e.1 e.2) []

end Json

/-- Conversion of an integer to `std::size_t` (64 bits). -/
def toSizeT (x : Int) : Int := x % 2 ^ 64

/-- Conversion of an integer to `int32_t` (two's complement). -/
def toInt32 (x : Int) : Int := (x + 2 ^ 31) % 2 ^ 32 - 2 ^ 31

namespace Requests

open Json

/-- `BusInfo::Process` for the request with the given `request_id` and `name`. -/
def BusInfo.Process (lm : Libm) (manager : TransportManager) (request_id : Int) (name : String) :
    Except Error Node :=
  let bus_ptr := manager.GetBus name
  let result := mapSet [] "request_id" (Node.int request_id)
  match bus_ptr with
  | some bus_ptr =>
    match manager.derefBus bus_ptr with
    | .error e => .error e
    | .ok bus_info =>
      let stop_count : Int :=
        toInt32 (if bus_info.type_ = BusType.REGULAR
          then toSizeT (toSizeT ((bus_info.stops_.length : Int) * 2) - 1)
          else (bus_info.stops_.length : Int))
      match manager.ComputeDistanceForStop lm bus_ptr with
      | .error e => .error e
      | .ok length =>
        let unique_stop_count : Int := toInt32 (bus_info.stops_.dedup.length : Int)
        let result := mapSet result "route_length" (Node.double (Double.finite length.by_default_))
        let result := mapSet result "curvature" (Node.double length.Curvature)
        let result := mapSet result "stop_count" (Node.int (toInt32 stop_count))
        let result := mapSet result "unique_stop_count" (Node.int (toInt32 unique_stop_count))
        .ok (Node.map result)
  | none =>
    .ok (Node.map (mapSet result "error_message" (Node.string "not found")))

/-- `StopInfo::Process` for the request with the given `request_id` and `name`. -/
def StopInfo.Process (manager : TransportManager) (request_id : Int) (name : String) :
    Except Error Node :=
  let stop_ptr := manager.GetStop name
  let result := mapSet [] "request_id" (Node.int request_id)
  match stop_ptr with
  | some stop_ptr =>
    match manager.derefStop stop_ptr with
    | .error e => .error e
    | .ok stop =>
      let buses := stop.buses_.map (fun bus_view => Node.string bus_view)
      .ok (Node.map (mapEmplace result "buses" (Node.array buses)))
  | none =>
    .ok (Node.map (mapSet result "error_message" (Node.string "not found")))

end Requests

/-! ## Route queries -/

/-- Modelled from the spec: the path descriptor of the shortest-path solver
(`router.h` is not among the sources): the total weight and the ordered
sequence of edge ids (`edge_count` and `GetRouteEdge(id, idx)` in the code). -/
structure RouteInfo where
  weight : EdgeWeight
  edges : List EdgeId

/-- Modelled from the spec: the shortest-path solver `Graph::Router`; `BuildRoute`
returns nothing when there is no path. -/
structure Router where
  BuildRoute : VertexId → VertexId → Option RouteInfo

namespace Requests

open Json

/-- The loop of `RouteInfo::Process` over the edges of the route: one item per edge. -/
def RouteInfo.items (manager : TransportManager) : List EdgeId → Except Error (List Node)
  | [] => .ok []
  | edge_id :: rest =>
    match manager.GetGraphEdge edge_id with
    | .error e => .error e
    | .ok edge =>
      let item : Except Error Node :=
        match edge.weight.type_ with
        | EdgeType.BUS =>
          match manager.GetEdgeInfoByEdgeId edge_id with
          | .error e => .error e
          | .ok edge_info =>
            match edge_info.bus_ptr with
            | none => .error .invalid_pointer
            | some bus =>
              .ok (Node.map (mapOf
                [("type", Node.string "Bus"),
                  ("bus", Node.string bus),
                  ("span_count", Node.int edge_info.stops_count),
                  ("time", Node.double (Double.finite edge.weight.weight_))]))
        | EdgeType.WAIT =>
          match manager.GetStopByVertexId edge.to_ with
          | .error e => .error e
          | .ok stop_ptr =>
            .ok (Node.map (mapOf
              [("type", Node.string "Wait"),
                ("stop_name", Node.string stop_ptr),
                ("time", Node.int manager.GetBusWaitTime)]))
      match item with
      | .error e => .error e
      | .ok item =>
        match RouteInfo.items manager rest with
        | .error e => .error e
        | .ok items => .ok (item :: items)

/-- `RouteInfo::Process` for the request with the given `request_id`, `from` and `to`. -/
def RouteInfo.Process (manager : TransportManager) (router : Router) (request_id : Int)
    (from_ to_ : String) : Except Error Node :=
  match manager.GetVertexIdByWaitStop from_ with
  | .error e => .error e
  | .ok from_id =>
    match manager.GetVertexIdByWaitStop to_ with
    | .error e => .error e
    | .ok to_id =>
      let route_info_opt := router.BuildRoute from_id to_id
      let result := mapSet [] "request_id" (Node.int request_id)
      match route_info_opt with
      | none => .ok (Node.map (mapSet result "error_message" (Node.string "not found")))
      | some route_info =>
        let result := mapSet result "total_time"
          (Node.double (Double.finite route_info.weight.weight_))
        match RouteInfo.items manager route_info.edges with
        | .error e => .error e
        | .ok route_elements => .ok (Node.map (mapSet result "items" (Node.array route_elements)))

end Requests

/-! ## Stat requests: `ReadStatRequests` and `ProcessRequests` -/

namespace Json

/-- `Node::AsMap`; `std::get` throws when the node holds another alternative. -/
def Node.AsMap : Node → Except Error (List (String × Node))
  | .map entries => .ok entries
  | _ => .error .bad_variant_access

/-- `Node::AsInt`. -/
def Node.AsInt : Node → Except Error Int
  | .int value => .ok value
  | _ => .error .bad_variant_access

/-- `Node::AsString`. -/
def Node.AsString : Node → Except Error String
  | .string value => .ok value
  | _ => .error .bad_variant_access

/-- `std::map::at` on the entries of a map node. -/
def mapAt (entries : List (String × Node)) (key : String) : Except Error Node :=
  match UMap.find entries key with
  | some value => .ok value
  | none => .error .out_of_range

end Json

/-- `Request::Type`. -/
inductive RequestType where
  | BUS
  | STOP
  | ROUTE
  deriving DecidableEq, Repr

/-- The object a `RequestHolder` owns: a `Requests::BusInfo`, `Requests::StopInfo` or
`Requests::RouteInfo`, with the `request_id` of the base class and its own fields. -/
inductive Request where
  | BusInfo (request_id : Int) (name : String)
  | StopInfo (request_id : Int) (name : String)
  | RouteInfo (request_id : Int) (from_ to_ : String)
  deriving DecidableEq, Repr

def STR_TO_REQUEST_TYPE : List (String × RequestType) :=
  [("Bus", RequestType.BUS), ("Stop", RequestType.STOP), ("Route", RequestType.ROUTE)]

def ConvertRequestTypeFromString (type_str : String) : Option RequestType :=
  UMap.find STR_TO_REQUEST_TYPE type_str

/-- `Request::Create`: the `int32_t` id goes through the `size_t` parameter of the
constructor of `Request` into the `int32_t` member `request_id`; the fields of
the derived class start empty.  `none` is the null holder. -/
def Request.Create (type : RequestType) (id : Int) : Option Request :=
  let request_id := toInt32 (toSizeT id)
  match type with
  | .BUS => some (.BusInfo request_id "")
  | .STOP => some (.StopInfo request_id "")
  | .ROUTE => some (.RouteInfo request_id "" "")

/-- The virtual `ParseFrom` of the three request classes. -/
def Request.ParseFrom (request : Request) (request_map : List (String × Json.Node)) :
    Except Error Request :=
  match request with
  | .BusInfo request_id _ =>
    match Json.mapAt request_map "name" with
    | .error e => .error e
    | .ok node =>
      match node.AsString with
      | .error e => .error e
      | .ok name => .ok (.BusInfo request_id name)
  | .StopInfo request_id _ =>
    match Json.mapAt request_map "name" with
    | .error e => .error e
    | .ok node =>
      match node.AsString with
      | .error e => .error e
      | .ok name => .ok (.StopInfo request_id name)
  | .RouteInfo request_id _ _ =>
    match Json.mapAt request_map "from" with
    | .error e => .error e
    | .ok from_node =>
      match from_node.AsString with
      | .error e => .error e
      | .ok from_ =>
        match Json.mapAt request_map "to" with
        | .error e => .error e
        | .ok to_node =>
          match to_node.AsString with
          | .error e => .error e
          | .ok to_ => .ok (.RouteInfo request_id from_ to_)

/-- `ParseRequest`; `.ok none` is the null holder. -/
def ParseRequest (request_map : List (String × Json.Node)) : Except Error (Option Request) :=
  match Json.mapAt request_map "type" with
  | .error e => .error e
  | .ok type_node =>
    match type_node.AsString with
    | .error e => .error e
    | .ok type_str =>
      match ConvertRequestTypeFromString type_str with
      | none => .ok none
      | some req_type =>
        match Json.mapAt request_map "id" with
        | .error e => .error e
        | .ok id_node =>
          match id_node.AsInt with
          | .error e => .error e
          | .ok id =>
            match Request.Create req_type id with
            | none => .ok none
            | some request =>
              match request.ParseFrom request_map with
              | .error e => .error e
              | .ok request => .ok (some request)

def ReadStatRequests : List Json.Node → Except Error (List Request)
  | [] => .ok []
  | request_node :: rest =>
    match request_node.AsMap with
    | .error e => .error e
    | .ok request_map =>
      match ParseRequest request_map with
      | .error e => .error e
      | .ok holder =>
        match ReadStatRequests rest with
        | .error e => .error e
        | .ok requests =>
          match holder with
          | some request => .ok (request :: requests)
          | none => .ok requests

/-- The call `request.Process(...)` that `ProcessRequests` makes for a request, by its type. -/
def Request.Process (lm : Libm) (manager : TransportManager) (router : Router)
    (request : Request) : Except Error Json.Node :=
  match request with
  | .BusInfo request_id name => Requests.BusInfo.Process lm manager request_id name
  | .StopInfo request_id name => Requests.StopInfo.Process manager request_id name
  | .RouteInfo request_id from_ to_ =>
    Requests.RouteInfo.Process manager router request_id from_ to_

/-- The loop of `ProcessRequests`: the responses, in order. -/
def ProcessRequests.loop (lm : Libm) (manager : TransportManager) (router : Router) :
    List Request → Except Error (List Json.Node)
  | [] => .ok []
  | req_holder :: rest =>
    match req_holder.Process lm manager router with
    | .error e => .error e
    | .ok response =>
      match ProcessRequests.loop lm manager router rest with
      | .error e => .error e
      | .ok responses => .ok (response :: responses)

/-- `ProcessRequests`: the root node of the returned document. -/
def ProcessRequests (lm : Libm) (manager : TransportManager) (router : Router)
    (requests : List Request) : Except Error Json.Node :=
  match ProcessRequests.loop lm manager router requests with
  | .error e => .error e
  | .ok responses => .ok (Json.Node.array responses)

/-! ## Paths of the graph and the contract of the solver -/

/-- Modelled from the spec: the vertex reached from `u` by following the edges
`ids` in order (the graph library is not among the sources); `none` when some
id is not an edge of the graph or an edge does not leave the vertex reached
so far.  The ids form a path from `u` to `v` when the result is `some v`. -/
def DirectedWeightedGraph.routeEnd (g : DirectedWeightedGraph) :
    VertexId → List EdgeId → Option VertexId
  | u, [] => some u
  | u, id :: rest =>
    match g.edges_[id]? with
    | some e => if e.from_ = u then routeEnd g e.to_ rest else none
    | none => none

/-- Modelled from the spec: the total weight of the edges `ids`. -/
def DirectedWeightedGraph.routeWeight (g : DirectedWeightedGraph) : List EdgeId → ℚ
  | [] => 0
  | id :: rest =>
    (match g.edges_[id]? with
      | some e => e.weight.weight_
      | none => 0) + routeWeight g rest

/-- Modelled from the spec: the contract of the shortest-path solver (`router.h` is
not among the sources) for the query from `u` to `v`: it returns nothing when
the graph has no path from `u` to `v`, and otherwise the descriptor of a path
from `u` to `v` of minimum total weight, with that weight. -/
def ShortestAnswer (g : DirectedWeightedGraph) (u v : VertexId) (answer : Option RouteInfo) :
    Prop :=
  match answer with
  | none => ∀ ids, g.routeEnd u ids ≠ some v
  | some r =>
    g.routeEnd u r.edges = some v ∧ r.weight.weight_ = g.routeWeight r.edges ∧
      ∀ ids, g.routeEnd u ids = some v → r.weight.weight_ ≤ g.routeWeight ids

/-! ## The reader and the printer of value trees: `Json::Load` and `Json::Print` -/

namespace Json

/-- A `std::istream` over a text held in memory: the characters not extracted yet
and the state bits (`badbit` is never set for such a stream).  A character is a
Lean `Char`; the code reads bytes. -/
structure IStream where
  rest : List Char
  eofbit : Bool
  failbit : Bool
  deriving DecidableEq, Repr

/-- A fresh stream over `text`. -/
def IStream.ofText (text : List Char) : IStream := ⟨text, false, false⟩

/-- `input.good()`. -/
def IStream.good (input : IStream) : Bool := !input.eofbit && !input.failbit

/-- `std::isspace` in the "C" locale. -/
def isspace (c : Char) : Bool :=
  decide (c = ' ' ∨ c = '\t' ∨ c = '\n' ∨ c = '\x0b' ∨ c = '\x0c' ∨ c = '\r')

/-- `std::isdigit`. -/
def isdigit (c : Char) : Bool := decide (48 ≤ c.toNat ∧ c.toNat ≤ 57)

/-- The whitespace skipping of the sentry of a formatted input function. -/
def skipws : List Char → List Char
  | [] => []
  | c :: cs => if isspace c then skipws cs else c :: cs

/-- `input >> c` for a `char c`: whitespace is skipped and one character extracted;
`none` when the extraction fails, and `c` then keeps the value it had. -/
def IStream.extractChar (input : IStream) : Option Char × IStream :=
  if input.good then
    match skipws input.rest with
    | [] => (none, ⟨[], true, true⟩)
    | c :: cs => (some c, ⟨cs, false, false⟩)
  else (none, { input with failbit := true })

/-- `input.putback(c)`: clears `eofbit`, then does nothing on a failed stream.  The
code puts back the character it has just extracted, which the buffer accepts. -/
def IStream.putback (input : IStream) (c : Char) : IStream :=
  if input.failbit then { input with eofbit := false }
  else ⟨c :: input.rest, false, false⟩

/-- `getline` up to `delim`, on the characters of a stream in good state: the line
and, if the delimiter was found, what follows it. -/
def getline.split (delim : Char) : List Char → List Char × Option (List Char)
  | [] => ([], none)
  | c :: cs =>
    if c = delim then ([], some cs)
    else ((c :: (getline.split delim cs).1), (getline.split delim cs).2)

/-- `getline(input, line, delim)` into an empty `line`: the delimiter is extracted
and not stored; `eofbit` when the text ends first, `failbit` when nothing was
extracted. -/
def IStream.getline (input : IStream) (delim : Char) : List Char × IStream :=
  if input.good then
    match getline.split delim input.rest with
    | (line, some cs) => (line, ⟨cs, false, false⟩)
    | (line, none) => (line, ⟨[], true, line.isEmpty⟩)
  else ([], { input with failbit := true })

/-- The characters of `name` matched at the front of a text: what is left of `name` and
of the text after the longest match. -/
def matchName : List Char → List Char → List Char × List Char
  | [], cs => ([], cs)
  | n :: ns, [] => (n :: ns, [])
  | n :: ns, c :: cs => if n = c then matchName ns cs else (n :: ns, c :: cs)

/-- `input >> boolalpha >> result` for a `bool result` that was `false`: whitespace is
skipped and `true` or `false` matched.  On a mismatch the value is `false`,
`failbit` is set and the matched characters are extracted (as libstdc++ does). -/
def IStream.extractBool (input : IStream) : Bool × IStream :=
  if input.good then
    match skipws input.rest with
    | [] => (false, ⟨[], true, true⟩)
    | c :: cs =>
      let name := if c = 't' then "true".data else "false".data
      match matchName name (c :: cs) with
      | ([], cs) => (decide (c = 't'), ⟨cs, false, false⟩)
      | (_ :: _, cs) => (false, ⟨cs, cs.isEmpty, true⟩)
  else (false, { input with failbit := true })

/-- The two conversions between `double` and text, which the streams perform and the
model leaves open: what `output << setprecision(6) << node` writes and what
`input >> result` extracts into a `result` that was `0.0`. -/
structure DoubleText where
  write : Double → List Char
  extract : IStream → Double × IStream

/-- A sample of the conversions, for closed examples. -/
def DoubleText.sample : DoubleText :=
  ⟨fun _ => ['0'], fun input => (Double.finite 0, input)⟩

/-- The result of a reader: the node and the stream after it, or one of the ways in
which the run gives no node. -/
inductive Loaded where
  | value (node : Node) (input : IStream)
  | error (e : Error)
  | indeterminate
  | out_of_fuel

/-- The loop of `LoadInt` on a stream in good state: every iteration peeks at the next
character and extracts it when it is a digit; the peek at the end of the text
sets `eofbit`.  The `int32_t` arithmetic wraps (an overflow is undefined in C++). -/
def LoadInt.loop : List Char → Int → Int × IStream
  | [], result => (result, ⟨[], true, false⟩)
  | c :: cs, result =>
    if isdigit c then
      LoadInt.loop cs (toInt32 (toInt32 (result * 10) + ((c.toNat : Int) - 48)))
    else (result, ⟨c :: cs, false, false⟩)

/-- `LoadInt`; on a stream that is not good `peek` returns `EOF` at once. -/
def LoadInt (input : IStream) : Node × IStream :=
  if input.good then
    ((Node.int (LoadInt.loop input.rest 0).1), (LoadInt.loop input.rest 0).2)
  else (Node.int 0, { input with failbit := true })

/-- `LoadDouble`. -/
def LoadDouble (io : DoubleText) (input : IStream) : Node × IStream :=
  (Node.double (io.extract input).1, (io.extract input).2)

/-- `LoadBool`. -/
def LoadBool (input : IStream) : Node × IStream :=
  (Node.bool input.extractBool.1, input.extractBool.2)

/-- `LoadString`. -/
def LoadString (input : IStream) : Node × IStream :=
  (Node.string ⟨(input.getline '"').1⟩, (input.getline '"').2)

mutual

/-- The loop of `LoadArray`, with the elements read so far. -/
def LoadArray.loop (io : DoubleText) : Nat → IStream → List Node → Loaded
  | 0, _, _ => .out_of_fuel
  | fuel + 1, input, result =>
    match input.extractChar with
    | (none, input) => .value (Node.array result) input
    | (some c, input) =>
      if c = ']' then .value (Node.array result) input
      else
        match LoadNode io fuel (if c ≠ ',' then input.putback c else input) with
        | .value node input => LoadArray.loop io fuel input (result ++ [node])
        | .error e => .error e
        | .indeterminate => .indeterminate
        | .out_of_fuel => .out_of_fuel

/-- The loop of `LoadDict`, with the entries read so far. -/
def LoadDict.loop (io : DoubleText) : Nat → IStream → List (String × Node) → Loaded
  | 0, _, _ => .out_of_fuel
  | fuel + 1, input, result =>
    match input.extractChar with
    | (none, input) => .value (Node.map result) input
    | (some c, input) =>
      if c = '}' then .value (Node.map result) input
      else
        let input := if c = ',' then input.extractChar.2 else input
        match (LoadString input).1.AsString with
        | .error e => .error e
        | .ok key =>
          let input := (LoadString input).2.extractChar.2
          if key = "latitude" ∨ key = "longitude" ∨ key = "bus_velocity" then
            LoadDict.loop io fuel (LoadDouble io input).2
              (mapEmplace result key (LoadDouble io input).1)
          else
            match LoadNode io fuel input with
            | .value node input => LoadDict.loop io fuel input (mapEmplace result key node)
            | .error e => .error e
            | .indeterminate => .indeterminate
            | .out_of_fuel => .out_of_fuel

/-- `LoadNode`.  One unit of fuel is spent by every call of `LoadNode` and by every
iteration of the loops of `LoadArray` and `LoadDict`.  When the extraction of
`c` fails the code goes on to read `c`, which holds no value: `indeterminate`. -/
def LoadNode (io : DoubleText) : Nat → IStream → Loaded
  | 0, _ => .out_of_fuel
  | fuel + 1, input =>
    match input.extractChar with
    | (none, _) => .indeterminate
    | (some c, input) =>
      if c = '[' then LoadArray.loop io fuel input []
      else if c = '{' then LoadDict.loop io fuel input []
      else if c = '"' then .value (LoadString input).1 (LoadString input).2
      else if c = 't' ∨ c = 'f' then
        .value (LoadBool (input.putback c)).1 (LoadBool (input.putback c)).2
      else .value (LoadInt (input.putback c)).1 (LoadInt (input.putback c)).2

end

/-- `Load`: the root node of the document read. -/
def Load (io : DoubleText) (fuel : Nat) (input : IStream) : Loaded := LoadNode io fuel input

/-- `PrintTabs`. -/
def PrintTabs (tab_count : Nat) : List Char := List.replicate tab_count ' '

/-- `PrintString`. -/
def PrintString (node : String) (tab_count : Nat) (first_tabs : Bool) : List Char :=
  (if first_tabs then PrintTabs tab_count else []) ++ '"' :: node.data ++ ['"']

/-- What `output << node` writes for an `int`. -/
def PrintInt.digits (node : Int) : List Char :=
  if node < 0 then '-' :: Nat.toDigits 10 node.natAbs else Nat.toDigits 10 node.toNat

/-- `PrintInt`. -/
def PrintInt (node : Int) (tab_count : Nat) (first_tabs : Bool) : List Char :=
  (if first_tabs then PrintTabs tab_count else []) ++ PrintInt.digits node

/-- `PrintDouble`. -/
def PrintDouble (io : DoubleText) (node : Double) (tab_count : Nat) (first_tabs : Bool) :
    List Char :=
  (if first_tabs then PrintTabs tab_count else []) ++ io.write node

/-- `PrintBool`. -/
def PrintBool (node : Bool) (tab_count : Nat) (first_tabs : Bool) : List Char :=
  (if first_tabs then PrintTabs tab_count else []) ++
    (if node then "true".data else "false".data)

mutual

/-- `PrintNode`: the characters written.  `tab_count` is a `size_t`. -/
def PrintNode (io : DoubleText) : Node → Nat → Bool → List Char
  | .array items, tab_count, first_tabs =>
    (if first_tabs then PrintTabs tab_count else []) ++ '[' ::
      PrintArray.loop io items tab_count true ++
      (if items.isEmpty then [] else '\n' :: PrintTabs tab_count) ++ [']']
  | .map entries, tab_count, first_tabs =>
    (if first_tabs then PrintTabs tab_count else []) ++ '{' ::
      PrintMap.loop io entries tab_count true ++
      (if entries.isEmpty then [] else '\n' :: PrintTabs tab_count) ++ ['}']
  | .int value, tab_count, first_tabs => PrintInt value tab_count first_tabs
  | .double value, tab_count, first_tabs => PrintDouble io value tab_count first_tabs
  | .bool value, tab_count, first_tabs => PrintBool value tab_count first_tabs
  | .string value, tab_count, first_tabs => PrintString value tab_count first_tabs

/-- The loop of `PrintArray` over the elements left, `first` as in the code. -/
def PrintArray.loop (io : DoubleText) : List Node → Nat → Bool → List Char
  | [], _, _ => []
  | n :: rest, tab_count, first =>
    (if first then [] else [',']) ++ '\n' ::
      PrintNode io n ((tab_count + 1) % 2 ^ 64) true ++ PrintArray.loop io rest tab_count false

/-- The loop of `PrintMap` over the entries left, `first` as in the code. -/
def PrintMap.loop (io : DoubleText) : List (String × Node) → Nat → Bool → List Char
  | [], _, _ => []
  | (key, node) :: rest, tab_count, first =>
    (if first then [] else [',']) ++ '\n' ::
      PrintString key ((tab_count + 1) % 2 ^ 64) true ++ ": ".data ++
      PrintNode io node ((tab_count + 2) % 2 ^ 64) false ++ PrintMap.loop io rest tab_count false

end

/-- `Print`: the text written for the document with the given root. -/
def Print (io : DoubleText) (root : Node) : List Char := PrintNode io root 0 true

end Json

/-! ## Auxiliary definitions used to state and prove the properties -/

/-- The `Stop` requests among the base requests, in input order. -/
def stopRequests : List BaseRequest → List StopRequest
  | [] => []
  | .Stop r :: rest => r :: stopRequests rest
  | .Bus _ :: rest => stopRequests rest
  | .Other _ :: rest => stopRequests rest

/-- The `Bus` requests among the base requests, in input order. -/
def busRequests : List BaseRequest → List BusRequest
  | [] => []
  | .Stop _ :: rest => busRequests rest
  | .Bus r :: rest => r :: busRequests rest
  | .Other _ :: rest => busRequests rest

/-- The road distances listed by `Stop` requests, as `(from, to, meters)`, in the
order in which `BuildDistances` visits them. -/
def listedDistances : List StopRequest → List (String × String × Int)
  | [] => []
  | r :: rest => r.road_distances.map (fun e => (r.name, e.1, e.2)) ++ listedDistances rest

/-- The effect of one listed road distance on the table `distances_`. -/
def storeListed (d : List (String × List (String × ℚ))) (t : String × String × Int) :
    List (String × List (String × ℚ)) :=
  TransportManagerBuilder.BuildDistances.store d t.1 t.2.1 (t.2.2 : ℚ)

/-- Registration of one more `Stop` request: a name already present is kept where it is. -/
def registrationOrder.step (acc : List String) (r : StopRequest) : List String :=
  if r.name ∈ acc then acc else acc ++ [r.name]

/-- The names of the stops in registration order: the names of the `Stop`
requests in input order, each at its first occurrence only. -/
def registrationOrder (rs : List StopRequest) : List String :=
  rs.foldl registrationOrder.step []

/-- The wait edge of the stop registered at position `i`. -/
def waitEdge (wait_time : Int) (i : Nat) : Edge :=
  ⟨(2 * i + 1 : Nat), (2 * i : Nat), ⟨EdgeType.WAIT, (wait_time : ℚ)⟩⟩

/-- The vertex tables of a manager whose stops were registered in the order `names`. -/
structure VertexTables (m : TransportManager) (names : List String) : Prop where
  keys : m.stops_.map Prod.fst = names
  nodup : names.Nodup
  board_size : m.stop_to_vertex_id.length = names.length
  wait_size : m.wait_stop_to_vertex_id.length = names.length
  board : ∀ i n, names[i]? = some n → UMap.find m.stop_to_vertex_id n = some (2 * i : Nat)
  wait : ∀ i n, names[i]? = some n →
    UMap.find m.wait_stop_to_vertex_id n = some (2 * i + 1 : Nat)
  stop_of : ∀ i n, names[i]? = some n → UMap.find m.vertex_id_to_stop (2 * i : Nat) = some n
  board_none : ∀ n, n ∉ names → UMap.find m.stop_to_vertex_id n = none
  wait_none : ∀ n, n ∉ names → UMap.find m.wait_stop_to_vertex_id n = none
  stop_of_none : ∀ v : Nat, (∀ i, i < names.length → v ≠ 2 * i) →
    UMap.find m.vertex_id_to_stop v = none

namespace TransportManager

/-- The manager after `graph.AddEdge(e)` followed by
`edge_id_to_info.insert({edge_id, info})` with the id `AddEdge` returned. -/
def pushEdge (m : TransportManager) (p : Edge × EdgeInfo) : TransportManager :=
  { m with
    graph := (m.graph.AddEdge p.1).1
    edge_id_to_info := UMap.emplace m.edge_id_to_info (m.graph.AddEdge p.1).2 p.2 }

/-- The manager after a sequence of `pushEdge`. -/
def pushEdges (m : TransportManager) (es : List (Edge × EdgeInfo)) : TransportManager :=
  es.foldl pushEdge m

/-- The value `GetDistance` returns, `0` where it throws. -/
def distanceOf (lm : Libm) (m : TransportManager) (from_ to_ : String) : ℚ :=
  match m.GetDistance lm from_ to_ with
  | .ok d => d
  | .error _ => 0

/-- The value `GetVertexIdByStop` returns (the board vertex), `0` where it throws. -/
def boardIdOf (m : TransportManager) (stop_id : String) : VertexId :=
  match m.GetVertexIdByStop stop_id with
  | .ok v => v
  | .error _ => 0

/-- The value `GetVertexIdByWaitStop` returns (the wait vertex), `0` where it throws. -/
def waitIdOf (m : TransportManager) (stop_id : String) : VertexId :=
  match m.GetVertexIdByWaitStop stop_id with
  | .ok v => v
  | .error _ => 0

/-- The travel time of one hop, as the edge loops compute it. -/
def hopTime (lm : Libm) (m : TransportManager) (from_ to_ : String) : ℚ :=
  m.distanceOf lm from_ to_ / 1000 / m.GetBusVelocity

end TransportManager

/-- The sum of a per-hop quantity over the consecutive pairs of stops of a path. -/
def pathSum (hop : String → String → ℚ) : List String → ℚ
  | [] => 0
  | [_] => 0
  | a :: b :: rest => hop a b + pathSum hop (b :: rest)

/-- The edges (with their metadata) that one run of an inner edge loop adds:
from `vertex_id` to the wait vertex of every stop of `rest` in turn, the count
and the weight continuing from `stops_count` and `weight`. -/
def rideEdges (wait : String → VertexId) (hop : String → String → ℚ) (bus_ptr : String)
    (vertex_id : VertexId) : String → List String → Int → ℚ → List (Edge × EdgeInfo)
  | _, [], _, _ => []
  | last, next :: rest, stops_count, weight =>
    (⟨vertex_id, wait next, ⟨EdgeType.BUS, weight + hop last next⟩⟩,
      ⟨stops_count + 1, some bus_ptr⟩) ::
      rideEdges wait hop bus_ptr vertex_id next rest (stops_count + 1) (weight + hop last next)

/-- The way-back edges of `BuildBackEdgesForRegularBus` for one origin. -/
def backEdges (wait : String → VertexId) (hop : String → String → ℚ) (bus_ptr : String)
    (vertex_id : VertexId) (stops : List String) (stops_count : Int) (weight : ℚ) :
    List (Edge × EdgeInfo) :=
  match stops.reverse with
  | [] => []
  | first :: rest => rideEdges wait hop bus_ptr vertex_id first rest stops_count weight

/-- The edges one iteration of the outer loop of `BuildEdgesForBus` adds for the
origin `stop_ptr` followed by `rest`. -/
def originEdges (board wait : String → VertexId) (hop : String → String → ℚ) (bus_ptr : String)
    (stops : List String) (needs_wayback : Bool) (stop_ptr : String) (rest : List String) :
    List (Edge × EdgeInfo) :=
  rideEdges wait hop bus_ptr (board stop_ptr) stop_ptr rest 0 0 ++
    (if needs_wayback then
      backEdges wait hop bus_ptr (board stop_ptr) stops (rest.length : Int)
        (pathSum hop (stop_ptr :: rest))
    else [])

/-- The edges `BuildEdgesForBus` adds, origin by origin; the last argument is the
part of `stops` still to visit. -/
def busEdges (board wait : String → VertexId) (hop : String → String → ℚ) (bus_ptr : String)
    (stops : List String) (needs_wayback : Bool) : List String → List (Edge × EdgeInfo)
  | [] => []
  | stop_ptr :: rest =>
    originEdges board wait hop bus_ptr stops needs_wayback stop_ptr rest ++
      busEdges board wait hop bus_ptr stops needs_wayback rest

/-- The bus-travel edges one iteration of the loop of `BuildBuses` adds for a bus
with the given type and stops: those of `BuildEdgesForBus` and then, for a
REGULAR bus, those of `BuildReversedEdgesForBus` on the reversed stops. -/
def stepEdges (board wait : String → VertexId) (hop : String → String → ℚ) (bus_ptr : String)
    (bus : Bus) : List (Edge × EdgeInfo) :=
  busEdges board wait hop bus_ptr bus.stops_ (decide (bus.type_ = BusType.REGULAR)) bus.stops_ ++
    (if bus.type_ = BusType.REGULAR then
      busEdges board wait hop bus_ptr bus.stops_.reverse false bus.stops_.reverse
    else [])

/-- The type a `Bus` request gives its bus. -/
def BusRequest.type_ (r : BusRequest) : BusType :=
  if r.is_roundtrip then BusType.CIRCULAR else BusType.REGULAR

/-- The stops a bus had before a request, none for an unknown bus. -/
def stopsBefore (m : TransportManager) (bus_id : String) : List String :=
  match UMap.find m.buses_ bus_id with
  | some b => b.stops_
  | none => []

/-- What the bus phase leaves untouched in the manager `m0` it starts from. -/
structure BusFrame (m0 m : TransportManager) : Prop where
  settings : m.settings = m0.settings
  distances : m.distances_ = m0.distances_
  vertex_id_to_stop : m.vertex_id_to_stop = m0.vertex_id_to_stop
  stop_to_vertex_id : m.stop_to_vertex_id = m0.stop_to_vertex_id
  wait_stop_to_vertex_id : m.wait_stop_to_vertex_id = m0.wait_stop_to_vertex_id
  vertex_count : m.graph.vertex_count = m0.graph.vertex_count
  keys : m.stops_.map Prod.fst = m0.stops_.map Prod.fst
  coords : ∀ k, (UMap.find m.stops_ k).map (fun s => s.coords_) =
    (UMap.find m0.stops_ k).map (fun s => s.coords_)

namespace TransportManager

/-- The coordinates of a registered stop. -/
def coordsOf (m : TransportManager) (stop_id : String) : GeoCoordinates :=
  match UMap.find m.stops_ stop_id with
  | some s => s.coords_
  | none => ⟨0, 0⟩

/-- The geodesic distance between two registered stops. -/
def geoOf (lm : Libm) (m : TransportManager) (a b : String) : ℚ :=
  ComputeDistanceForCoords lm (m.coordsOf a) (m.coordsOf b)

/-- Every stop of every bus is a registered stop. -/
def BusStopsRegistered (m : TransportManager) : Prop :=
  ∀ b bus, UMap.find m.buses_ b = some bus → ∀ s ∈ bus.stops_, UMap.find m.stops_ s ≠ none

end TransportManager

/-- Every stop's set of buses is ascending and holds exactly the names of the
buses whose stops include the stop. -/
def TransportManager.StopBusesExact (m : TransportManager) : Prop :=
  ∀ S stop, UMap.find m.stops_ S = some stop →
    stop.buses_.Pairwise strLess ∧
    ∀ b, b ∈ stop.buses_ ↔ ∃ bus, UMap.find m.buses_ b = some bus ∧ S ∈ bus.stops_

/-- The metadata table has no entry for an id the graph has not assigned yet. -/
def TransportManager.InfoFresh (m : TransportManager) : Prop :=
  ∀ id : Nat, m.graph.edges_.length ≤ id → UMap.find m.edge_id_to_info id = none

/-- Every edge of the graph is the wait edge of a registered stop or a bus edge
with recorded metadata. -/
def TransportManager.EdgesKnown (m : TransportManager) : Prop :=
  ∀ (id : Nat) (e : Edge), m.graph.edges_[id]? = some e →
    (e.weight.type_ = EdgeType.WAIT →
      ∃ S, m.GetVertexIdByWaitStop S = .ok e.from_ ∧ m.GetVertexIdByStop S = .ok e.to_ ∧
        m.GetStopByVertexId e.to_ = .ok S) ∧
    (e.weight.type_ = EdgeType.BUS →
      ∃ info bus, m.GetEdgeInfoByEdgeId id = .ok info ∧ info.bus_ptr = some bus)

/-- The itinerary item `RouteInfo::Process` owes to the edge `id` of the graph: for
a WAIT edge the stop whose wait vertex the edge leaves and whose board vertex
it enters, with the configured wait time; for a BUS edge the bus and span count
recorded for the edge, with the weight of the edge. -/
def RouteItemOf (m : TransportManager) (id : Nat) (item : Json.Node) : Prop :=
  ∃ e, m.graph.edges_[id]? = some e ∧
    ((e.weight.type_ = EdgeType.WAIT ∧
      ∃ S, m.GetVertexIdByWaitStop S = .ok e.from_ ∧ m.GetVertexIdByStop S = .ok e.to_ ∧
        item = Json.Node.map
          [("stop_name", Json.Node.string S),
            ("time", Json.Node.int m.GetBusWaitTime),
            ("type", Json.Node.string "Wait")]) ∨
    (e.weight.type_ = EdgeType.BUS ∧
      ∃ info bus, m.GetEdgeInfoByEdgeId id = .ok info ∧ info.bus_ptr = some bus ∧
        item = Json.Node.map
          [("bus", Json.Node.string bus),
            ("span_count", Json.Node.int info.stops_count),
            ("time", Json.Node.double (Double.finite e.weight.weight_)),
            ("type", Json.Node.string "Bus")]))

/-! ## The bus edges in closed form -/

/-- The travel time along the path `p` from position `i` to position `j`: the sum
over `k` in `[i, j)` of the hop time from `p_k` to `p_{k+1}`. -/
def segmentTime (hop : String → String → ℚ) (p : List String) (i j : Nat) : ℚ :=
  ∑ k in Finset.Ico i j, hop (p.getD k "") (p.getD (k + 1) "")

/-- The travel time back along the path `p` from position `j` down to position `i`:
the sum over `k` in `[i, j)` of the hop time from `p_{k+1}` to `p_k`. -/
def segmentTimeBack (hop : String → String → ℚ) (p : List String) (i j : Nat) : ℚ :=
  ∑ k in Finset.Ico i j, hop (p.getD (k + 1) "") (p.getD k "")

/-- The edge for the pair of positions `i < j` of the path `p`: from the board
vertex of `p_i` to the wait vertex of `p_j`, with span count `j - i`. -/
def pairEdge (board wait : String → VertexId) (hop : String → String → ℚ) (bus_ptr : String)
    (p : List String) (i j : Nat) : Edge × EdgeInfo :=
  (⟨board (p.getD i ""), wait (p.getD j ""), ⟨EdgeType.BUS, segmentTime hop p i j⟩⟩,
    ⟨((j - i : Nat) : Int), some bus_ptr⟩)

/-- The way-back edge of a REGULAR bus from position `i` through the terminal
`p_{n-1}` and back to position `j`. -/
def wayBackEdge (board wait : String → VertexId) (hop : String → String → ℚ) (bus_ptr : String)
    (p : List String) (i j : Nat) : Edge × EdgeInfo :=
  (⟨board (p.getD i ""), wait (p.getD j ""),
      ⟨EdgeType.BUS,
        segmentTime hop p i (p.length - 1) + segmentTimeBack hop p j (p.length - 1)⟩⟩,
    ⟨(((p.length - 1 - i) + (p.length - 1 - j) : Nat) : Int), some bus_ptr⟩)

/-- The edges from the origin position `i` to every later position, nearest first. -/
def forwardFrom (board wait : String → VertexId) (hop : String → String → ℚ) (bus_ptr : String)
    (p : List String) (i : Nat) : List (Edge × EdgeInfo) :=
  (List.range (p.length - 1 - i)).map (fun d => pairEdge board wait hop bus_ptr p i (i + 1 + d))

/-- The way-back edges from the origin position `i` to the positions `n-2, ..., 0`. -/
def wayBackFrom (board wait : String → VertexId) (hop : String → String → ℚ) (bus_ptr : String)
    (p : List String) (i : Nat) : List (Edge × EdgeInfo) :=
  (List.range (p.length - 1)).map
    (fun t => wayBackEdge board wait hop bus_ptr p i (p.length - 2 - t))

/-- The bus-travel edges added for a `Bus` request whose bus then has the stops `p`,
in closed form and in the order of insertion: for every origin position `i` the
edges to the later positions of `p` and, for a REGULAR bus, the way-back edges;
then, for a REGULAR bus, the same pair edges along the reversed path. -/
def busGroup (board wait : String → VertexId) (hop : String → String → ℚ) (r : BusRequest)
    (p : List String) : List (Edge × EdgeInfo) :=
  (List.range p.length).flatMap (fun i =>
      forwardFrom board wait hop r.name p i ++
        (if r.is_roundtrip then [] else wayBackFrom board wait hop r.name p i)) ++
    (if r.is_roundtrip then []
      else (List.range p.length).flatMap (fun i => forwardFrom board wait hop r.name p.reverse i))

/-- Each `Bus` request with the stops its bus has once the request is processed: the
stops of the earlier requests with the same name, then its own; `known` gives
the stops of the buses before the first request. -/
def busStopsAfter (known : String → List String) :
    List BusRequest → List (BusRequest × List String)
  | [] => []
  | r :: rest =>
    (r, known r.name ++ r.stops) ::
      busStopsAfter (Function.update known r.name (known r.name ++ r.stops)) rest

/-- For every bus and every direction it travels, the graph has the pair edge of
every two positions `i < j`, with its metadata. -/
def TransportManager.PairEdgesPresent (lm : Libm) (m : TransportManager) : Prop :=
  ∀ (name : String) (bus : Bus) (p : List String) (i j : Nat),
    UMap.find m.buses_ name = some bus →
    (p = bus.stops_ ∨ (bus.type_ = BusType.REGULAR ∧ p = bus.stops_.reverse)) →
    i < j → j < p.length →
    ∃ id : Nat,
      m.graph.edges_[id]? = some (pairEdge m.boardIdOf m.waitIdOf (m.hopTime lm) name p i j).1 ∧
      UMap.find m.edge_id_to_info id =
        some (pairEdge m.boardIdOf m.waitIdOf (m.hopTime lm) name p i j).2

/-! ## Wait edges, successful builds, bus chains and stat requests -/

/-- The wait edge `BuildStops` adds for a stop, in terms of the vertex lookups. -/
def stopWaitEdge (m : TransportManager) (stop_id : String) : Edge :=
  ⟨m.waitIdOf stop_id, m.boardIdOf stop_id, ⟨EdgeType.WAIT, (m.GetBusWaitTime : ℚ)⟩⟩

/-- The lookups the edge loops perform for a stop all succeed: the stop is
registered and has a board vertex and a wait vertex. -/
def TransportManager.Resolves (m : TransportManager) (s : String) : Prop :=
  UMap.find m.stops_ s ≠ none ∧ (∃ b, m.GetVertexIdByStop s = .ok b) ∧
    ∃ t, m.GetVertexIdByWaitStop s = .ok t

/-- The coordinates the first `Stop` request named `stop_id` gives, if there is one. -/
def firstCoords (rs : List StopRequest) (stop_id : String) : Option GeoCoordinates :=
  (rs.find? (fun r => decide (r.name = stop_id))).map
    (fun r => GeoCoordinates.ofDegrees r.latitude r.longitude)

/-- Some bus of the store has both `S` and `T` among its stops. -/
def TransportManager.BusLinked (m : TransportManager) (S T : String) : Prop :=
  ∃ name bus, UMap.find m.buses_ name = some bus ∧ S ∈ bus.stops_ ∧ T ∈ bus.stops_

/-- Every BUS edge of the graph goes from the board vertex of a stop to the wait
vertex of a stop of the same bus. -/
def TransportManager.BusEdgesOwned (m : TransportManager) : Prop :=
  ∀ e ∈ m.graph.edges_, e.weight.type_ = EdgeType.BUS →
    ∃ S T, m.BusLinked S T ∧ e.from_ = m.boardIdOf S ∧ e.to_ = m.waitIdOf T

/-- A well-typed stat request, by its `type` field: the three recognised types with
their `id` and fields, or a request of another type with any fields. -/
inductive StatRequest where
  | Bus (id : Int) (name : String)
  | Stop (id : Int) (name : String)
  | Route (id : Int) (from_ to_ : String)
  | Other (type : String) (fields : List (String × Json.Node))

/-- The map node of a well-typed stat request, entries in key order. -/
def StatRequest.toNode : StatRequest → Json.Node
  | .Bus id name =>
    Json.Node.map
      [("id", Json.Node.int id), ("name", Json.Node.string name),
        ("type", Json.Node.string "Bus")]
  | .Stop id name =>
    Json.Node.map
      [("id", Json.Node.int id), ("name", Json.Node.string name),
        ("type", Json.Node.string "Stop")]
  | .Route id from_ to_ =>
    Json.Node.map
      [("from", Json.Node.string from_), ("id", Json.Node.int id),
        ("to", Json.Node.string to_), ("type", Json.Node.string "Route")]
  | .Other type fields => Json.Node.map (Json.mapSet fields "type" (Json.Node.string type))

/-- The request a stat request of a recognised type stands for. -/
def StatRequest.request : StatRequest → Option Request
  | .Bus id name => some (Request.BusInfo id name)
  | .Stop id name => some (Request.StopInfo id name)
  | .Route id from_ to_ => some (Request.RouteInfo id from_ to_)
  | .Other _ _ => none

/-- The `id` of a recognised stat request is an `int32_t`, and the type of any
other request is none of `Bus`, `Stop`, `Route`. -/
def StatRequest.WellTyped : StatRequest → Prop
  | .Bus id _ => -2 ^ 31 ≤ id ∧ id < 2 ^ 31
  | .Stop id _ => -2 ^ 31 ≤ id ∧ id < 2 ^ 31
  | .Route id _ _ => -2 ^ 31 ≤ id ∧ id < 2 ^ 31
  | .Other type _ => type ≠ "Bus" ∧ type ≠ "Stop" ∧ type ≠ "Route"

/-- The member `request_id` of a request. -/
def Request.request_id : Request → Int
  | .BusInfo request_id _ => request_id
  | .StopInfo request_id _ => request_id
  | .RouteInfo request_id _ _ => request_id

/-- The response is a map whose `request_id` is the id of the request. -/
def CarriesId (req : Request) (response : Json.Node) : Prop :=
  ∃ entries, response = Json.Node.map entries ∧
    UMap.find entries "request_id" = some (Json.Node.int req.request_id)

/-- For every bus of the store, every edge of the group of the bus (`busGroup` for its
name, type and stops) is in the graph, with its metadata. -/
def TransportManager.GroupEdgesPresent (lm : Libm) (m : TransportManager) : Prop :=
  ∀ (name : String) (bus : Bus), UMap.find m.buses_ name = some bus →
    ∀ q ∈ busGroup m.boardIdOf m.waitIdOf (m.hopTime lm)
        ⟨name, decide (bus.type_ = BusType.CIRCULAR), []⟩ bus.stops_,
      ∃ id : Nat, m.graph.edges_[id]? = some q.1 ∧ UMap.find m.edge_id_to_info id = some q.2

/-- Every BUS edge of the graph has recorded metadata with a bus and a span count of
at least 1. -/
def TransportManager.SpansPositive (m : TransportManager) : Prop :=
  ∀ (id : Nat) (e : Edge), m.graph.edges_[id]? = some e → e.weight.type_ = EdgeType.BUS →
    ∃ info bus, m.GetEdgeInfoByEdgeId id = .ok info ∧ 1 ≤ info.stops_count ∧
      info.bus_ptr = some bus

/-- The items of an itinerary alternate, a Wait item first: the item at an even
position has the type `Wait`, the item at an odd position the type `Bus`. -/
def Alternates (items : List Json.Node) : Prop :=
  ∀ (k : Nat) (item : Json.Node), items[k]? = some item →
    ∃ fields, item = Json.Node.map fields ∧
      Json.mapAt fields "type" = .ok (Json.Node.string (if k % 2 = 0 then "Wait" else "Bus"))

/-- The parity of a vertex id: board vertices are even, wait vertices odd. -/
def vertexParity (v : VertexId) : Nat := v % 2

namespace Json

mutual

/-- The node is a value of the C++ type: every integer is an `int32_t` and the entries
of every map are in strictly ascending key order (`std::map`). -/
def Node.WellFormed : Node → Prop
  | .array items => Node.WellFormedItems items
  | .map entries =>
    (entries.map Prod.fst).Pairwise strLess ∧ Node.WellFormedEntries entries
  | .int value => -2 ^ 31 ≤ value ∧ value < 2 ^ 31
  | .double _ => True
  | .bool _ => True
  | .string _ => True

/-- Every element is well formed. -/
def Node.WellFormedItems : List Node → Prop
  | [] => True
  | n :: rest => n.WellFormed ∧ Node.WellFormedItems rest

/-- Every entry holds a well formed node. -/
def Node.WellFormedEntries : List (String × Node) → Prop
  | [] => True
  | (_, n) :: rest => n.WellFormed ∧ Node.WellFormedEntries rest

end

/-- The text has no double-quote character. -/
def quoteFree (s : String) : Prop := '"' ∉ s.data

/-- The key is one of those whose value `LoadDict` reads with `LoadDouble`. -/
def doubleKey (key : String) : Prop :=
  key = "latitude" ∨ key = "longitude" ∨ key = "bus_velocity"

mutual

/-- The tree has no floating-point node, its integers are non-negative, its strings
and map keys have no double-quote character, and none of its map keys is
`latitude`, `longitude` or `bus_velocity`. -/
def Node.Plain : Node → Prop
  | .array items => Node.PlainItems items
  | .map entries => Node.PlainEntries entries
  | .int value => 0 ≤ value
  | .double _ => False
  | .bool _ => True
  | .string value => quoteFree value

/-- Every element is plain. -/
def Node.PlainItems : List Node → Prop
  | [] => True
  | n :: rest => n.Plain ∧ Node.PlainItems rest

/-- Every entry has a plain key and holds a plain node. -/
def Node.PlainEntries : List (String × Node) → Prop
  | [] => True
  | (key, n) :: rest => quoteFree key ∧ ¬ doubleKey key ∧ n.Plain ∧ Node.PlainEntries rest

end

mutual

/-- Fuel that is enough to read the text of the node back: the depth of the calls of
`LoadNode` and of the iterations of the loops. -/
def Node.loadFuel : Node → Nat
  | .array items => 1 + Node.loadFuelItems items
  | .map entries => 1 + Node.loadFuelEntries entries
  | .int _ => 1
  | .double _ => 1
  | .bool _ => 1
  | .string _ => 1

/-- Fuel that is enough for the loop of `LoadArray` on the text of the elements. -/
def Node.loadFuelItems : List Node → Nat
  | [] => 1
  | n :: rest => 1 + (n.loadFuel + Node.loadFuelItems rest)

/-- Fuel that is enough for the loop of `LoadDict` on the text of the entries. -/
def Node.loadFuelEntries : List (String × Node) → Nat
  | [] => 1
  | (_, n) :: rest => 1 + (n.loadFuel + Node.loadFuelEntries rest)

end

/-- The text does not go on with a digit. -/
def startsClean : List Char → Bool
  | [] => true
  | c :: _ => !isdigit c

/-- The value of a run of decimal digits read after the value `acc`. -/
def digitsValue (acc : Int) (digits : List Char) : Int :=
  digits.foldl (fun a c => a * 10 + ((c.toNat : Int) - 48)) acc

/-- With fuel `n`, `LoadNode` reads the text of every plain node that needs no more
fuel back, whatever whitespace precedes the text and whatever follows it, as
long as no digit follows. -/
def ReadsNode (io : DoubleText) (n : Nat) : Prop :=
  ∀ (t : Node) (k : Nat) (ws rest : List Char),
    t.WellFormed → t.Plain → t.loadFuel ≤ n → (∀ x ∈ ws, isspace x = true) →
    startsClean rest = true →
    ∃ eof : Bool, (rest ≠ [] → eof = false) ∧
      LoadNode io n ⟨ws ++ (PrintNode io t k false ++ rest), false, false⟩ =
        .value t ⟨rest, eof, false⟩

/-- With fuel `n`, the loop of `LoadArray` reads the text of plain elements back, up
to and including the closing bracket. -/
def ReadsArray (io : DoubleText) (n : Nat) : Prop :=
  ∀ (items result : List Node) (k : Nat) (first : Bool) (ws rest : List Char),
    Node.WellFormedItems items → Node.PlainItems items → Node.loadFuelItems items ≤ n →
    (∀ x ∈ ws, isspace x = true) →
    LoadArray.loop io n ⟨PrintArray.loop io items k first ++ (ws ++ ']' :: rest), false, false⟩
        result =
      .value (Node.array (result ++ items)) ⟨rest, false, false⟩

/-- With fuel `n`, the loop of `LoadDict` reads the text of plain entries back, up to
and including the closing brace, and emplaces them in turn. -/
def ReadsDict (io : DoubleText) (n : Nat) : Prop :=
  ∀ (entries result : List (String × Node)) (k : Nat) (first : Bool) (ws rest : List Char),
    Node.WellFormedEntries entries → Node.PlainEntries entries →
    Node.loadFuelEntries entries ≤ n → (∀ x ∈ ws, isspace x = true) →
    LoadDict.loop io n ⟨PrintMap.loop io entries k first ++ (ws ++ '}' :: rest), false, false⟩
        result =
      .value (Node.map (entries.foldl (fun m e => mapEmplace m e.1 e.2) result))
        ⟨rest, false, false⟩

end Json

/-! ## Concrete inputs -/

/-- A stand-in for libm, used to evaluate the model on concrete inputs whose stated
values do not depend on a geodesic distance other than between coincident
points of the equator.  It is exact where these examples need it: `sin 0 = 0`,
`cos 0 = 1`, `acos 1 = 0`; elsewhere it is not the C library (see
`Libm.tabulated` for examples that state a geodesic distance). -/
def Libm.sample : Libm :=
  { sin := fun x => x
    cos := fun x => 1 - x * x / 2
    acos := fun x => (1 - x) * PI / 2 }

/-- The values the C library returns, rounded to `double` and written as exact
rationals, at the arguments that occur for two stops on the equator one degree
of longitude apart and for stops at the latitude of 46 degrees:
`cos(±ToRadian 1) = 0.9998476951563999`, `acos` of that `= 0.01745329251944536`,
`sin(ToRadian 46) = 0.7193398003227107`, `cos(±ToRadian 46) = 0.6946583704755042`,
and `sin 0 = 0`, `cos 0 = 1`, `acos 1 = 0`, which stand for every other argument. -/
def Libm.tabulated : Libm :=
  { sin := fun x =>
      if x = GeoCoordinates.ToRadian 46 then 3239618456686127 / 4503599627370496 else 0
    cos := fun x =>
      if x = GeoCoordinates.ToRadian 46 ∨ x = -GeoCoordinates.ToRadian 46 then
        6256926356846553 / 9007199254740992
      else if x = GeoCoordinates.ToRadian 1 ∨ x = -GeoCoordinates.ToRadian 1 then
        1125728426833403 / 1125899906842624
      else 1
    acos := fun x =>
      if x = 1125728426833403 / 1125899906842624 then
        5030569067965593 / 288230376151711744
      else 0 }

/-- Two stops on the equator one degree apart, about 111.19 km, each listing a longer
road to the other, and a REGULAR bus over them. -/
def longRoadRequests : List BaseRequest :=
  [.Stop ⟨"A", 0, 0, [("B", 120000)]⟩, .Stop ⟨"B", 0, 1, [("A", 130000)]⟩,
    .Bus ⟨"1", false, ["A", "B"]⟩]

/-- The network `Build` produces from `longRoadRequests` with wait time 5 and velocity 60. -/
def longRoadNetwork : TransportManager :=
  { settings := { wait_time := 5, velocity := 1 }
    stops_ := [("A", { coords_ := GeoCoordinates.ofDegrees 0 0, buses_ := ["1"] }),
               ("B", { coords_ := GeoCoordinates.ofDegrees 0 1, buses_ := ["1"] })]
    buses_ := [("1", { type_ := BusType.REGULAR, stops_ := ["A", "B"] })]
    distances_ := [("A", [("B", 120000)]), ("B", [("A", 130000)])]
    vertex_id_to_stop := [(0, "A"), (2, "B")]
    stop_to_vertex_id := [("A", 0), ("B", 2)]
    wait_stop_to_vertex_id := [("A", 1), ("B", 3)]
    edge_id_to_info := [(2, ⟨1, some "1"⟩), (3, ⟨2, some "1"⟩), (4, ⟨1, some "1"⟩),
      (5, ⟨1, some "1"⟩)]
    graph :=
      { vertex_count := 4
        edges_ := [⟨1, 0, ⟨EdgeType.WAIT, 5⟩⟩, ⟨3, 2, ⟨EdgeType.WAIT, 5⟩⟩,
          ⟨0, 3, ⟨EdgeType.BUS, 120⟩⟩, ⟨0, 1, ⟨EdgeType.BUS, 250⟩⟩,
          ⟨2, 1, ⟨EdgeType.BUS, 130⟩⟩, ⟨2, 1, ⟨EdgeType.BUS, 130⟩⟩] } }

/-- Two stops on the equator one degree apart, with no road distance and no bus. -/
def apartRequests : List BaseRequest :=
  [.Stop ⟨"A", 0, 0, []⟩, .Stop ⟨"B", 0, 1, []⟩]

/-- The network `Build` produces from `apartRequests` with wait time 5 and velocity 60. -/
def apartNetwork : TransportManager :=
  { settings := { wait_time := 5, velocity := 1 }
    stops_ := [("A", { coords_ := GeoCoordinates.ofDegrees 0 0, buses_ := [] }),
               ("B", { coords_ := GeoCoordinates.ofDegrees 0 1, buses_ := [] })]
    buses_ := []
    distances_ := []
    vertex_id_to_stop := [(0, "A"), (2, "B")]
    stop_to_vertex_id := [("A", 0), ("B", 2)]
    wait_stop_to_vertex_id := [("A", 1), ("B", 3)]
    edge_id_to_info := []
    graph :=
      { vertex_count := 4
        edges_ := [⟨1, 0, ⟨EdgeType.WAIT, 5⟩⟩, ⟨3, 2, ⟨EdgeType.WAIT, 5⟩⟩] } }

/-- Two stops with the same coordinates, latitude 46 and longitude 7 degrees, with no
road distance and no bus. -/
def sameSpotRequests : List BaseRequest :=
  [.Stop ⟨"A", 46, 7, []⟩, .Stop ⟨"B", 46, 7, []⟩]

/-- The network `Build` produces from `sameSpotRequests` with wait time 5 and velocity 60. -/
def sameSpotNetwork : TransportManager :=
  { settings := { wait_time := 5, velocity := 1 }
    stops_ := [("A", { coords_ := GeoCoordinates.ofDegrees 46 7, buses_ := [] }),
               ("B", { coords_ := GeoCoordinates.ofDegrees 46 7, buses_ := [] })]
    buses_ := []
    distances_ := []
    vertex_id_to_stop := [(0, "A"), (2, "B")]
    stop_to_vertex_id := [("A", 0), ("B", 2)]
    wait_stop_to_vertex_id := [("A", 1), ("B", 3)]
    edge_id_to_info := []
    graph :=
      { vertex_count := 4
        edges_ := [⟨1, 0, ⟨EdgeType.WAIT, 5⟩⟩, ⟨3, 2, ⟨EdgeType.WAIT, 5⟩⟩] } }

/-- Two stops, each listing a road distance to the other. -/
def twoWayRequests : List BaseRequest :=
  [.Stop ⟨"A", 0, 0, [("B", 2000)]⟩, .Stop ⟨"B", 0, 1, [("A", 3000)]⟩,
    .Bus ⟨"1", false, ["A", "B"]⟩]

/-- Two stops, only the first listing a road distance to the other. -/
def oneWayRequests : List BaseRequest :=
  [.Stop ⟨"A", 0, 0, [("B", 100)]⟩, .Stop ⟨"B", 0, 1, []⟩, .Bus ⟨"1", true, ["A", "B", "A"]⟩]

/-- The stop `A` is given by two `Stop` requests that list different road
distances to `B`; `B` lists none to `A`. -/
def repeatedStopRequests : List BaseRequest :=
  [.Stop ⟨"A", 0, 0, [("B", 100)]⟩, .Stop ⟨"A", 0, 0, [("B", 200)]⟩, .Stop ⟨"B", 0, 1, []⟩]

/-- A single REGULAR bus without stops. -/
def emptyBusRequests : List BaseRequest :=
  [.Bus ⟨"0", false, []⟩]

/-- The network `Build` produces from `twoWayRequests` with wait time 5 and velocity 60. -/
def twoWayNetwork : TransportManager :=
  { settings := { wait_time := 5, velocity := 1 }
    stops_ := [("A", { coords_ := GeoCoordinates.ofDegrees 0 0, buses_ := ["1"] }),
               ("B", { coords_ := GeoCoordinates.ofDegrees 0 1, buses_ := ["1"] })]
    buses_ := [("1", { type_ := BusType.REGULAR, stops_ := ["A", "B"] })]
    distances_ := [("A", [("B", 2000)]), ("B", [("A", 3000)])]
    vertex_id_to_stop := [(0, "A"), (2, "B")]
    stop_to_vertex_id := [("A", 0), ("B", 2)]
    wait_stop_to_vertex_id := [("A", 1), ("B", 3)]
    edge_id_to_info := [(2, ⟨1, some "1"⟩), (3, ⟨2, some "1"⟩), (4, ⟨1, some "1"⟩),
      (5, ⟨1, some "1"⟩)]
    graph :=
      { vertex_count := 4
        edges_ := [⟨1, 0, ⟨EdgeType.WAIT, 5⟩⟩, ⟨3, 2, ⟨EdgeType.WAIT, 5⟩⟩,
          ⟨0, 3, ⟨EdgeType.BUS, 2⟩⟩, ⟨0, 1, ⟨EdgeType.BUS, 5⟩⟩,
          ⟨2, 1, ⟨EdgeType.BUS, 3⟩⟩, ⟨2, 1, ⟨EdgeType.BUS, 3⟩⟩] } }

/-- Two stops with the same coordinates and no road distances, and a REGULAR bus over them. -/
def coincidentRequests : List BaseRequest :=
  [.Stop ⟨"A", 0, 0, []⟩, .Stop ⟨"B", 0, 0, []⟩, .Bus ⟨"1", false, ["A", "B"]⟩]

/-- The network `Build` produces from `coincidentRequests` with wait time 5 and velocity 60. -/
def coincidentNetwork : TransportManager :=
  { settings := { wait_time := 5, velocity := 1 }
    stops_ := [("A", { coords_ := GeoCoordinates.ofDegrees 0 0, buses_ := ["1"] }),
               ("B", { coords_ := GeoCoordinates.ofDegrees 0 0, buses_ := ["1"] })]
    buses_ := [("1", { type_ := BusType.REGULAR, stops_ := ["A", "B"] })]
    distances_ := []
    vertex_id_to_stop := [(0, "A"), (2, "B")]
    stop_to_vertex_id := [("A", 0), ("B", 2)]
    wait_stop_to_vertex_id := [("A", 1), ("B", 3)]
    edge_id_to_info := [(2, ⟨1, some "1"⟩), (3, ⟨2, some "1"⟩), (4, ⟨1, some "1"⟩),
      (5, ⟨1, some "1"⟩)]
    graph :=
      { vertex_count := 4
        edges_ := [⟨1, 0, ⟨EdgeType.WAIT, 5⟩⟩, ⟨3, 2, ⟨EdgeType.WAIT, 5⟩⟩,
          ⟨0, 3, ⟨EdgeType.BUS, 0⟩⟩, ⟨0, 1, ⟨EdgeType.BUS, 0⟩⟩,
          ⟨2, 1, ⟨EdgeType.BUS, 0⟩⟩, ⟨2, 1, ⟨EdgeType.BUS, 0⟩⟩] } }

/-- One stop `S` served by the buses `7` and `12`, given in that order. -/
def servedStopRequests : List BaseRequest :=
  [.Stop ⟨"S", 0, 0, []⟩, .Bus ⟨"7", true, ["S"]⟩, .Bus ⟨"12", true, ["S"]⟩]

/-- The network `Build` produces from `servedStopRequests` with wait time 5 and velocity 60. -/
def servedStopNetwork : TransportManager :=
  { settings := { wait_time := 5, velocity := 1 }
    stops_ := [("S", { coords_ := GeoCoordinates.ofDegrees 0 0, buses_ := ["12", "7"] })]
    buses_ := [("7", { type_ := BusType.CIRCULAR, stops_ := ["S"] }),
               ("12", { type_ := BusType.CIRCULAR, stops_ := ["S"] })]
    distances_ := []
    vertex_id_to_stop := [(0, "S")]
    stop_to_vertex_id := [("S", 0)]
    wait_stop_to_vertex_id := [("S", 1)]
    edge_id_to_info := []
    graph := { vertex_count := 2, edges_ := [⟨1, 0, ⟨EdgeType.WAIT, 5⟩⟩] } }

/-- A solver answer for the network of `twoWayRequests`: from the wait vertex of `A`
to the wait vertex of `B`, wait at `A` (edge 0) and ride bus `1` (edge 2). -/
def twoWayRouter : Router :=
  ⟨fun from_id to_id =>
    if from_id = 1 ∧ to_id = 3 then some ⟨⟨EdgeType.BUS, 7⟩, [0, 2]⟩ else none⟩

/-- The network `Build` produces from `repeatedStopRequests` with wait time 5 and velocity 60. -/
def repeatedStopNetwork : TransportManager :=
  { settings := { wait_time := 5, velocity := 1 }
    stops_ := [("A", { coords_ := GeoCoordinates.ofDegrees 0 0, buses_ := [] }),
               ("B", { coords_ := GeoCoordinates.ofDegrees 0 1, buses_ := [] })]
    buses_ := []
    distances_ := [("A", [("B", 200)]), ("B", [("A", 100)])]
    vertex_id_to_stop := [(0, "A"), (2, "B")]
    stop_to_vertex_id := [("A", 0), ("B", 2)]
    wait_stop_to_vertex_id := [("A", 1), ("B", 3)]
    edge_id_to_info := []
    graph :=
      { vertex_count := 6
        edges_ := [⟨1, 0, ⟨EdgeType.WAIT, 5⟩⟩, ⟨1, 0, ⟨EdgeType.WAIT, 5⟩⟩,
          ⟨3, 2, ⟨EdgeType.WAIT, 5⟩⟩] } }

/-- A bus request that comes before the requests of its stops, and a stop `A` that
lists a road distance to the stop `B` registered after it. -/
def laterRequests : List BaseRequest :=
  [.Bus ⟨"1", true, ["A", "B"]⟩, .Stop ⟨"A", 0, 0, [("B", 100)]⟩, .Stop ⟨"B", 0, 1, []⟩]

/-- A bus that lists the stop `Z`, which no `Stop` request registers. -/
def unknownStopRequests : List BaseRequest :=
  [.Stop ⟨"A", 0, 0, []⟩, .Bus ⟨"1", true, ["A", "Z"]⟩]

/-- Two `Stop` requests with the same name and different coordinates. -/
def twiceStopRequests : List BaseRequest :=
  [.Stop ⟨"A", 0, 0, []⟩, .Stop ⟨"A", 10, 20, []⟩]

/-- The network `Build` produces from `twiceStopRequests` with wait time 5 and velocity 60. -/
def twiceStopNetwork : TransportManager :=
  { settings := { wait_time := 5, velocity := 1 }
    stops_ := [("A", { coords_ := GeoCoordinates.ofDegrees 0 0, buses_ := [] })]
    buses_ := []
    distances_ := []
    vertex_id_to_stop := [(0, "A")]
    stop_to_vertex_id := [("A", 0)]
    wait_stop_to_vertex_id := [("A", 1)]
    edge_id_to_info := []
    graph :=
      { vertex_count := 4
        edges_ := [⟨1, 0, ⟨EdgeType.WAIT, 5⟩⟩, ⟨1, 0, ⟨EdgeType.WAIT, 5⟩⟩] } }

/-- Three stops and two buses: bus `1` from `A` to `C` and bus `2` from `C` to `B`;
no bus has both `A` and `B` among its stops. -/
def transferRequests : List BaseRequest :=
  [.Stop ⟨"A", 0, 0, [("C", 1000)]⟩, .Stop ⟨"C", 0, 1, [("B", 2000)]⟩, .Stop ⟨"B", 0, 2, []⟩,
    .Bus ⟨"1", true, ["A", "C"]⟩, .Bus ⟨"2", true, ["C", "B"]⟩]

/-- The network `Build` produces from `transferRequests` with wait time 5 and velocity 60. -/
def transferNetwork : TransportManager :=
  { settings := { wait_time := 5, velocity := 1 }
    stops_ := [("A", { coords_ := GeoCoordinates.ofDegrees 0 0, buses_ := ["1"] }),
               ("C", { coords_ := GeoCoordinates.ofDegrees 0 1, buses_ := ["1", "2"] }),
               ("B", { coords_ := GeoCoordinates.ofDegrees 0 2, buses_ := ["2"] })]
    buses_ := [("1", { type_ := BusType.CIRCULAR, stops_ := ["A", "C"] }),
               ("2", { type_ := BusType.CIRCULAR, stops_ := ["C", "B"] })]
    distances_ := [("A", [("C", 1000)]), ("C", [("A", 1000), ("B", 2000)]),
      ("B", [("C", 2000)])]
    vertex_id_to_stop := [(0, "A"), (2, "C"), (4, "B")]
    stop_to_vertex_id := [("A", 0), ("C", 2), ("B", 4)]
    wait_stop_to_vertex_id := [("A", 1), ("C", 3), ("B", 5)]
    edge_id_to_info := [(3, ⟨1, some "1"⟩), (4, ⟨1, some "2"⟩)]
    graph :=
      { vertex_count := 6
        edges_ := [⟨1, 0, ⟨EdgeType.WAIT, 5⟩⟩, ⟨3, 2, ⟨EdgeType.WAIT, 5⟩⟩,
          ⟨5, 4, ⟨EdgeType.WAIT, 5⟩⟩, ⟨0, 3, ⟨EdgeType.BUS, 1⟩⟩, ⟨2, 5, ⟨EdgeType.BUS, 2⟩⟩] } }

/-- A solver answer that reports no path for every query. -/
def noRouteRouter : Router :=
  ⟨fun _ _ => none⟩

/-- A solver answer for a query from a vertex to itself: the empty path, of weight 0. -/
def sameStopRouter : Router :=
  ⟨fun from_id to_id => if from_id = to_id then some ⟨⟨EdgeType.BUS, 0⟩, []⟩ else none⟩

/-- A `Bus` stat request for the bus `1` followed by a `Route` stat request from the
stop `X`, which the network of `twoWayRequests` does not have, to `B`. -/
def unknownRouteStatRequests : List StatRequest :=
  [.Bus 1 "1", .Route 2 "X" "B"]

/-- A plain value tree: a map with an array and a string. -/
def plainTree : Json.Node :=
  .map [("items", .array [.int 7, .bool true, .array []]), ("name", .string "stop A")]

/-- A plain value tree: an array with the largest `int32_t`, an empty string and a map. -/
def plainArray : Json.Node :=
  .array [.int 2147483647, .string "", .map [("id", .int 0)]]

/-! # Lemmas and theorems -/

open TransportManagerBuilder TransportManager

theorem UMap.find_set {κ υ : Type} [DecidableEq κ] (m : List (κ × υ)) (k k' : κ) (v : υ) :
    UMap.find (UMap.set m k v) k' = if k = k' then some v else UMap.find m k' := by
  induction m with
  | nil => simp [UMap.set, UMap.find]
  | cons p rest ih =>
    obtain ⟨k0, v0⟩ := p
    by_cases h : k0 = k
    · subst h
      by_cases h' : k0 = k' <;> simp [UMap.set, UMap.find, h']
    · by_cases h' : k0 = k'
      · subst h'
        simp [UMap.set, UMap.find, h, Ne.symm h]
      · simp [UMap.set, UMap.find, h, h', ih]

theorem storedDistance_setDistance (d : List (String × List (String × ℚ))) (f t a b : String) (v :
    ℚ) :
    storedDistance (setDistance d f t v) a b =
      if f = a ∧ t = b then some v else storedDistance d a b := by
  unfold storedDistance setDistance
  rw [UMap.find_set]
  by_cases hf : f = a
  · subst hf
    simp only [if_true, true_and]
    rw [UMap.find_set]
    by_cases ht : t = b
    · simp [ht]
    · simp only [ht, if_false]
      cases UMap.find d f <;> simp [UMap.find]
  · simp [hf]

theorem storedDistance_store (d : List (String × List (String × ℚ))) (f t a b : String) (v : ℚ) :
    storedDistance (BuildDistances.store d f t v) a b =
      if f = a ∧ t = b then some v
      else if t = a ∧ f = b then
        (match storedDistance d a b with
          | some x => some x
          | none => some v)
      else storedDistance d a b := by
  unfold BuildDistances.store
  simp only
  have h1 := storedDistance_setDistance d f t t f v
  by_cases hft : f = t
  · subst hft
    simp only [and_self, if_true] at h1
    rw [h1]
    simp only [storedDistance_setDistance]
    by_cases h : f = a ∧ f = b
    · obtain ⟨rfl, rfl⟩ := h
      simp
    · simp [h]
  · have : ¬ (f = t ∧ t = f) := fun h => hft h.1
    simp only [this, if_false] at h1
    rw [h1]
    cases hs : storedDistance d t f with
    | none =>
      simp only [storedDistance_setDistance]
      by_cases h : f = a ∧ t = b
      · obtain ⟨rfl, rfl⟩ := h
        simp [hft]
      · by_cases h' : t = a ∧ f = b
        · obtain ⟨rfl, rfl⟩ := h'
          simp [hs, hft]
        · simp [h, h']
    | some x =>
      simp only [storedDistance_setDistance]
      by_cases h : f = a ∧ t = b
      · simp [h]
      · by_cases h' : t = a ∧ f = b
        · obtain ⟨rfl, rfl⟩ := h'
          simp [hs, hft]
        · simp [h, h']

/-! ### Parsing of the base requests -/

theorem foldl_AddQuery_fields (reqs : List BaseRequest) (b : TransportManagerBuilder) :
    (reqs.foldl AddQuery b).wait_time_ = b.wait_time_ ∧
    (reqs.foldl AddQuery b).velocity_in_kmph_ = b.velocity_in_kmph_ ∧
    (reqs.foldl AddQuery b).stop_requests_ = b.stop_requests_ ++ stopRequests reqs ∧
    (reqs.foldl AddQuery b).bus_requests_ = b.bus_requests_ ++ busRequests reqs ∧
    (reqs.foldl AddQuery b).distances_ =
      b.distances_ ++ (stopRequests reqs).filter (fun r => decide (r.road_distances.length > 0))
        := by
  induction reqs generalizing b with
  | nil => simp [stopRequests, busRequests]
  | cons r rest ih =>
    rw [List.foldl_cons]
    obtain ⟨h1, h2, h3, h4, h5⟩ := ih (AddQuery b r)
    rw [h1, h2, h3, h4, h5]
    cases r with
    | Stop s =>
      by_cases hs : s.road_distances.length > 0
      · simp [AddQuery, stopRequests, busRequests, hs]
      · simp [AddQuery, stopRequests, busRequests, hs]
    | Bus s => simp [AddQuery, stopRequests, busRequests]
    | Other s => simp [AddQuery, stopRequests, busRequests]

theorem ParseBaseRequests_fields (reqs : List BaseRequest) (w : Int) (v : ℚ) :
    (ParseBaseRequests reqs w v).wait_time_ = w ∧
    (ParseBaseRequests reqs w v).velocity_in_kmph_ = v ∧
    (ParseBaseRequests reqs w v).stop_requests_ = stopRequests reqs ∧
    (ParseBaseRequests reqs w v).bus_requests_ = busRequests reqs ∧
    (ParseBaseRequests reqs w v).distances_ =
      (stopRequests reqs).filter (fun r => decide (r.road_distances.length > 0)) := by
  have h := foldl_AddQuery_fields reqs (SetBusSettings {} w v)
  simpa [ParseBaseRequests, SetBusSettings] using h

theorem listedDistances_filter (rs : List StopRequest) :
    listedDistances (rs.filter (fun r => decide (r.road_distances.length > 0))) =
      listedDistances rs := by
  induction rs with
  | nil => rfl
  | cons r rest ih =>
    by_cases hr : r.road_distances.length > 0
    · simp [List.filter_cons, hr, listedDistances, ih]
    · have h0 : r.road_distances = [] := by
        cases hrd : r.road_distances with
        | nil => rfl
        | cons a l => simp [hrd] at hr
      simp [List.filter_cons, hr, listedDistances, ih, h0]

theorem mem_listedDistances (rs : List StopRequest) (t : String × String × Int) :
    t ∈ listedDistances rs ↔ ∃ r ∈ rs, r.name = t.1 ∧ (t.2.1, t.2.2) ∈ r.road_distances := by
  induction rs with
  | nil => simp [listedDistances]
  | cons r rest ih =>
    simp only [listedDistances, List.mem_append, List.mem_map, ih, List.mem_cons]
    constructor
    · rintro (⟨e, he, rfl⟩ | ⟨r', hr', h⟩)
      · exact ⟨r, Or.inl rfl, rfl, he⟩
      · exact ⟨r', Or.inr hr', h⟩
    · rintro ⟨r', (rfl | hr'), h1, h2⟩
      · left
        exact ⟨(t.2.1, t.2.2), h2, by rw [h1]⟩
      · right
        exact ⟨r', hr', h1, h2⟩

/-! ### `BuildDistances` -/

theorem BuildDistances_inner_spec (name : String) (fp : Option String) (rd : List (String × Int))
    (m m' : TransportManager) (hfp : fp = m.GetStop name)
    (h : BuildDistances.inner name fp m rd = .ok m') :
    m' = { m with distances_ :=
            (rd.map (fun e => (name, e.1, e.2))).foldl storeListed m.distances_ } ∧
    ∀ e ∈ rd, UMap.find m.stops_ e.1 ≠ none := by
  induction rd generalizing m with
  | nil =>
    simp only [BuildDistances.inner, Except.ok.injEq] at h
    subst h
    simp
  | cons e rest ih =>
    unfold BuildDistances.inner at h
    simp only at h
    cases hf : fp with
    | none => simp [hf] at h
    | some fp' =>
      have hfp' : fp' = name := by
        rw [hf] at hfp
        unfold GetStop at hfp
        cases hx : UMap.find m.stops_ name <;> simp [hx] at hfp
        exact hfp
      subst hfp'
      cases ht : m.GetStop e.1 with
      | none => simp [hf, ht] at h
      | some tp =>
        have htp : tp = e.1 ∧ UMap.find m.stops_ e.1 ≠ none := by
          unfold GetStop at ht
          cases hx : UMap.find m.stops_ e.1 <;> simp [hx] at ht
          exact ⟨ht.symm, by simp⟩
        obtain ⟨rfl, hreg⟩ := htp
        simp only [hf, ht] at h
        rw [← hf] at h
        obtain ⟨h1, h2⟩ :=
          ih { m with distances_ := BuildDistances.store m.distances_ fp' e.1 (e.2 : ℚ) } hfp h
        refine ⟨?_, ?_⟩
        · rw [h1]
          simp [storeListed]
        · intro e' he'
          rcases List.mem_cons.1 he' with rfl | he'
          · exact hreg
          · exact h2 e' he'

theorem BuildDistances_spec (ds : List StopRequest) (m m' : TransportManager)
    (h : BuildDistances m ds = .ok m') :
    m' = { m with distances_ := (listedDistances ds).foldl storeListed m.distances_ } ∧
    ∀ t ∈ listedDistances ds, UMap.find m.stops_ t.2.1 ≠ none := by
  induction ds generalizing m with
  | nil =>
    simp only [BuildDistances, Except.ok.injEq] at h
    subst h
    simp [listedDistances]
  | cons r rest ih =>
    unfold BuildDistances at h
    cases hi : BuildDistances.inner r.name (m.GetStop r.name) m r.road_distances with
    | error e => simp [hi] at h
    | ok m1 =>
      simp only [hi] at h
      obtain ⟨h1, h2⟩ := BuildDistances_inner_spec _ _ _ _ _ rfl hi
      obtain ⟨h3, h4⟩ := ih _ h
      refine ⟨?_, ?_⟩
      · rw [h3, h1]
        simp [listedDistances, List.foldl_append]
      · intro t ht
        simp only [listedDistances, List.mem_append, List.mem_map] at ht
        rcases ht with ⟨e, he, rfl⟩ | ht
        · exact h2 e he
        · have := h4 t ht
          rw [h1] at this
          exact this

/-! ### The table of road distances after a sequence of listed distances -/

theorem storedDistance_storeListed (d : List (String × List (String × ℚ)))
    (t : String × String × Int) (a b : String) :
    storedDistance (storeListed d t) a b =
      if t.1 = a ∧ t.2.1 = b then some (t.2.2 : ℚ)
      else if t.2.1 = a ∧ t.1 = b then
        (match storedDistance d a b with
          | some x => some x
          | none => some (t.2.2 : ℚ))
      else storedDistance d a b := by
  unfold storeListed
  exact storedDistance_store d t.1 t.2.1 a b _

/-- A listed distance `a → b` is stored for `(a, b)` when all listings of
`a → b` agree on the value. -/
theorem storedDistance_foldl_direct (T : List (String × String × Int)) (a b : String) (v : Int)
    (hv : ∀ t ∈ T, t.1 = a → t.2.1 = b → t.2.2 = v)
    (d : List (String × List (String × ℚ)))
    (h : storedDistance d a b = some (v : ℚ) ∨ ∃ t ∈ T, t.1 = a ∧ t.2.1 = b) :
    storedDistance (T.foldl storeListed d) a b = some (v : ℚ) := by
  induction T generalizing d with
  | nil =>
    rcases h with h | ⟨t, ht, _⟩
    · simpa using h
    · simp at ht
  | cons t rest ih =>
    rw [List.foldl_cons]
    apply ih (fun t' ht' => hv t' (List.mem_cons_of_mem _ ht'))
    by_cases hd : t.1 = a ∧ t.2.1 = b
    · left
      rw [storedDistance_storeListed, if_pos hd, hv t (List.mem_cons_self _ _) hd.1 hd.2]
    · rcases h with h | ⟨t', ht', h'⟩
      · left
        rw [storedDistance_storeListed, if_neg hd, h]
        split_ifs <;> rfl
      · rcases List.mem_cons.1 ht' with rfl | ht'
        · exact absurd h' hd
        · right
          exact ⟨t', ht', h'⟩

/-- When no distance `b → a` is listed, the listings of `a → b` (all with the
same value) also fill the entry `(b, a)`. -/
theorem storedDistance_foldl_reverse (T : List (String × String × Int)) (a b : String) (v : Int)
    (hno : ∀ t ∈ T, ¬ (t.1 = b ∧ t.2.1 = a))
    (hv : ∀ t ∈ T, t.1 = a → t.2.1 = b → t.2.2 = v)
    (d : List (String × List (String × ℚ)))
    (h : storedDistance d b a = some (v : ℚ) ∨
      (storedDistance d b a = none ∧ ∃ t ∈ T, t.1 = a ∧ t.2.1 = b)) :
    storedDistance (T.foldl storeListed d) b a = some (v : ℚ) := by
  induction T generalizing d with
  | nil =>
    rcases h with h | ⟨_, t, ht, _⟩
    · simpa using h
    · simp at ht
  | cons t rest ih =>
    rw [List.foldl_cons]
    apply ih (fun t' ht' => hno t' (List.mem_cons_of_mem _ ht'))
      (fun t' ht' => hv t' (List.mem_cons_of_mem _ ht'))
    have hnd : ¬ (t.1 = b ∧ t.2.1 = a) := hno t (List.mem_cons_self _ _)
    by_cases hr : t.2.1 = b ∧ t.1 = a
    · left
      rw [storedDistance_storeListed, if_neg hnd, if_pos hr]
      rcases h with h | ⟨h, _⟩
      · rw [h]
      · rw [h, hv t (List.mem_cons_self _ _) hr.2 hr.1]
    · rw [storedDistance_storeListed, if_neg hnd, if_neg hr]
      rcases h with h | ⟨h, t', ht', h'⟩
      · exact Or.inl h
      · rcases List.mem_cons.1 ht' with rfl | ht'
        · exact absurd ⟨h'.2, h'.1⟩ hr
        · exact Or.inr ⟨h, t', ht', h'⟩

/-- An entry that no listing touches, in either direction, stays absent. -/
theorem storedDistance_foldl_none (T : List (String × String × Int)) (a b : String)
    (hno : ∀ t ∈ T, ¬ (t.1 = a ∧ t.2.1 = b) ∧ ¬ (t.1 = b ∧ t.2.1 = a))
    (d : List (String × List (String × ℚ))) (h : storedDistance d a b = none) :
    storedDistance (T.foldl storeListed d) a b = none := by
  induction T generalizing d with
  | nil => simpa using h
  | cons t rest ih =>
    rw [List.foldl_cons]
    apply ih (fun t' ht' => hno t' (List.mem_cons_of_mem _ ht'))
    obtain ⟨h1, h2⟩ := hno t (List.mem_cons_self _ _)
    have h2' : ¬ (t.2.1 = a ∧ t.1 = b) := fun hh => h2 ⟨hh.2, hh.1⟩
    rw [storedDistance_storeListed, if_neg h1, if_neg h2', h]

/-! ### More on `UMap` -/

theorem UMap.find_append_singleton {κ υ : Type} [DecidableEq κ] (m : List (κ × υ)) (k k' : κ)
    (v : υ) :
    UMap.find (m ++ [(k, v)]) k' =
      match UMap.find m k' with
      | some x => some x
      | none => if k = k' then some v else none := by
  induction m with
  | nil => simp [UMap.find]
  | cons p rest ih =>
    obtain ⟨k0, v0⟩ := p
    by_cases h : k0 = k'
    · simp [UMap.find, h]
    · simp [UMap.find, h, ih]

theorem UMap.find_emplace {κ υ : Type} [DecidableEq κ] (m : List (κ × υ)) (k k' : κ) (v : υ) :
    UMap.find (UMap.emplace m k v) k' =
      match UMap.find m k' with
      | some x => some x
      | none => if k = k' then some v else none := by
  unfold UMap.emplace
  cases h : UMap.find m k with
  | none => simp only [UMap.find_append_singleton]
  | some x =>
    simp only
    cases h' : UMap.find m k' with
    | some y => rfl
    | none =>
      have : k ≠ k' := by
        rintro rfl
        rw [h] at h'
        cases h'
      simp [this]

theorem UMap.find_modify {κ υ : Type} [DecidableEq κ] (m : List (κ × υ)) (k k' : κ) (f : υ → υ) :
    UMap.find (UMap.modify m k f) k' =
      if k = k' then (UMap.find m k').map f else UMap.find m k' := by
  induction m with
  | nil => simp [UMap.modify, UMap.find]
  | cons p rest ih =>
    obtain ⟨k0, v0⟩ := p
    by_cases h : k0 = k
    · subst h
      by_cases h' : k0 = k' <;> simp [UMap.modify, UMap.find, h']
    · by_cases h' : k0 = k'
      · subst h'
        simp [UMap.modify, UMap.find, h, Ne.symm h]
      · simp [UMap.modify, UMap.find, h, h', ih]

theorem UMap.find_eq_none_iff {κ υ : Type} [DecidableEq κ] (m : List (κ × υ)) (k : κ) :
    UMap.find m k = none ↔ k ∉ m.map Prod.fst := by
  induction m with
  | nil => simp [UMap.find]
  | cons p rest ih =>
    obtain ⟨k0, v0⟩ := p
    by_cases h : k0 = k
    · simp [UMap.find, h]
    · simp [UMap.find, h, ih, Ne.symm h]

theorem UMap.map_fst_modify {κ υ : Type} [DecidableEq κ] (m : List (κ × υ)) (k : κ) (f : υ → υ) :
    (UMap.modify m k f).map Prod.fst = m.map Prod.fst := by
  induction m with
  | nil => rfl
  | cons p rest ih =>
    obtain ⟨k0, v0⟩ := p
    by_cases h : k0 = k <;> simp [UMap.modify, h, ih]

theorem UMap.length_modify {κ υ : Type} [DecidableEq κ] (m : List (κ × υ)) (k : κ) (f : υ → υ) :
    (UMap.modify m k f).length = m.length := by
  have := congrArg List.length (UMap.map_fst_modify m k f)
  simpa using this

theorem UMap.find_some_of_mem_keys {κ υ : Type} [DecidableEq κ] (m : List (κ × υ)) (k : κ)
    (h : k ∈ m.map Prod.fst) : ∃ v, UMap.find m k = some v := by
  cases hf : UMap.find m k with
  | some v => exact ⟨v, rfl⟩
  | none => exact absurd h ((UMap.find_eq_none_iff m k).1 hf)

/-! ### `BuildStops` -/

theorem BuildStops_step_old (m : TransportManager) (r : StopRequest) (s : Stop) (b w : VertexId)
    (hs : UMap.find m.stops_ r.name = some s)
    (hb : UMap.find m.stop_to_vertex_id r.name = some b)
    (hv : ∃ x, UMap.find m.vertex_id_to_stop b = some x)
    (hw : UMap.find m.wait_stop_to_vertex_id r.name = some w) :
    BuildStops.step m r =
      { m with graph := { m.graph with
          edges_ := m.graph.edges_ ++ [⟨w, b, ⟨EdgeType.WAIT, (m.settings.wait_time : ℚ)⟩⟩] } }
            := by
  obtain ⟨x, hx⟩ := hv
  simp [BuildStops.step, SetStop, UMap.emplace, hs, hb, hx, hw, GetBusWaitTime,
    DirectedWeightedGraph.AddEdge]

theorem BuildStops_step_new (m : TransportManager) (r : StopRequest)
    (hs : UMap.find m.stops_ r.name = none)
    (hb : UMap.find m.stop_to_vertex_id r.name = none)
    (hv : UMap.find m.vertex_id_to_stop
      (m.stop_to_vertex_id.length + m.wait_stop_to_vertex_id.length) = none)
    (hw : UMap.find m.wait_stop_to_vertex_id r.name = none) :
    BuildStops.step m r =
      { m with
        stops_ := m.stops_ ++ [(r.name, ⟨GeoCoordinates.ofDegrees r.latitude r.longitude, []⟩)]
        stop_to_vertex_id := m.stop_to_vertex_id ++
          [(r.name, m.stop_to_vertex_id.length + m.wait_stop_to_vertex_id.length)]
        vertex_id_to_stop := m.vertex_id_to_stop ++
          [(m.stop_to_vertex_id.length + m.wait_stop_to_vertex_id.length, r.name)]
        wait_stop_to_vertex_id := m.wait_stop_to_vertex_id ++
          [(r.name, m.stop_to_vertex_id.length + 1 + m.wait_stop_to_vertex_id.length)]
        graph := { m.graph with
          edges_ := m.graph.edges_ ++
            [⟨m.stop_to_vertex_id.length + 1 + m.wait_stop_to_vertex_id.length,
              m.stop_to_vertex_id.length + m.wait_stop_to_vertex_id.length,
              ⟨EdgeType.WAIT, (m.settings.wait_time : ℚ)⟩⟩] } } := by
  simp [BuildStops.step, SetStop, UMap.emplace, hs, hb, hv, hw, GetBusWaitTime,
    DirectedWeightedGraph.AddEdge, UMap.size, UMap.find_append_singleton]

theorem getElem?_snoc_eq_some {α : Type} (l : List α) (x n : α) (i : Nat) :
    (l ++ [x])[i]? = some n ↔ l[i]? = some n ∨ (i = l.length ∧ n = x) := by
  by_cases hi : i < l.length
  · rw [List.getElem?_append_left hi]
    constructor
    · exact Or.inl
    · rintro (h | ⟨h, _⟩)
      · exact h
      · omega
  · rw [List.getElem?_append_right (Nat.le_of_not_lt hi)]
    have hnone : l[i]? = none := List.getElem?_eq_none (Nat.le_of_not_lt hi)
    rw [hnone]
    by_cases he : i = l.length
    · subst he
      simp [eq_comm]
    · have : i - l.length ≠ 0 := by omega
      obtain ⟨k, hk⟩ := Nat.exists_eq_succ_of_ne_zero this
      simp [hk, he]

theorem VertexTables_step (m : TransportManager) (names : List String) (r : StopRequest)
    (h : VertexTables m names) :
    VertexTables (BuildStops.step m r) (registrationOrder.step names r) ∧
    (∃ i, (registrationOrder.step names r)[i]? = some r.name ∧
      (BuildStops.step m r).graph.edges_ = m.graph.edges_ ++ [waitEdge m.settings.wait_time i]) ∧
    (BuildStops.step m r).buses_ = m.buses_ ∧
    (BuildStops.step m r).distances_ = m.distances_ ∧
    (BuildStops.step m r).edge_id_to_info = m.edge_id_to_info ∧
    (BuildStops.step m r).settings = m.settings ∧
    (BuildStops.step m r).graph.vertex_count = m.graph.vertex_count ∧
    (∀ k, UMap.find (BuildStops.step m r).stops_ k =
      match UMap.find m.stops_ k with
      | some x => some x
      | none =>
        if r.name = k then some ⟨GeoCoordinates.ofDegrees r.latitude r.longitude, []⟩ else none)
          := by
  unfold registrationOrder.step waitEdge
  by_cases hmem : r.name ∈ names
  · simp only [hmem, if_true]
    obtain ⟨i, hi, hget⟩ := List.getElem_of_mem hmem
    have hget' : names[i]? = some r.name := by
      rw [List.getElem?_eq_getElem hi, hget]
    have hkeys : r.name ∈ m.stops_.map Prod.fst := by rw [h.keys]; exact hmem
    obtain ⟨s, hs⟩ := UMap.find_some_of_mem_keys _ _ hkeys
    have hstep := BuildStops_step_old m r s (2 * i) (2 * i + 1) hs (h.board i _ hget')
      ⟨_, h.stop_of i _ hget'⟩ (h.wait i _ hget')
    rw [hstep]
    refine ⟨⟨h.keys, h.nodup, h.board_size, h.wait_size, h.board, h.wait, h.stop_of,
      h.board_none, h.wait_none, h.stop_of_none⟩, ⟨i, hget', rfl⟩, rfl, rfl, rfl, rfl, rfl, ?_⟩
    intro k
    cases hk : UMap.find m.stops_ k with
    | some x => rfl
    | none =>
      have : r.name ≠ k := by
        rintro rfl
        rw [hs] at hk
        cases hk
      simp [this]
  · simp only [hmem, if_false]
    have hs : UMap.find m.stops_ r.name = none := by
      rw [UMap.find_eq_none_iff, h.keys]; exact hmem
    have hv : UMap.find m.vertex_id_to_stop
        (m.stop_to_vertex_id.length + m.wait_stop_to_vertex_id.length) = none := by
      apply h.stop_of_none
      intro i hi
      rw [h.board_size, h.wait_size]
      omega
    have hstep := BuildStops_step_new m r hs (h.board_none _ hmem) hv (h.wait_none _ hmem)
    rw [hstep]
    have hlen : m.stop_to_vertex_id.length + m.wait_stop_to_vertex_id.length = 2 * names.length
      := by
      rw [h.board_size, h.wait_size]; omega
    have hlen' : m.stop_to_vertex_id.length + 1 + m.wait_stop_to_vertex_id.length
        = 2 * names.length + 1 := by
      rw [h.board_size, h.wait_size]; omega
    refine ⟨⟨?_, ?_, ?_, ?_, ?_, ?_, ?_, ?_, ?_, ?_⟩, ⟨names.length, ?_, ?_⟩, rfl, rfl, rfl, rfl,
      rfl, ?_⟩
    · simp [h.keys]
    · exact List.nodup_append.2 ⟨h.nodup, List.nodup_singleton _, by
        intro a ha hb
        rw [List.mem_singleton] at hb
        subst hb
        exact hmem ha⟩
    · simp [h.board_size]
    · simp [h.wait_size]
    · intro i n hin
      simp only [UMap.find_append_singleton]
      rcases (getElem?_snoc_eq_some _ _ _ _).1 hin with h1 | ⟨h1, h2⟩
      · rw [h.board i n h1]
      · subst h1 h2
        rw [h.board_none _ hmem, hlen]
        simp
    · intro i n hin
      simp only [UMap.find_append_singleton]
      rcases (getElem?_snoc_eq_some _ _ _ _).1 hin with h1 | ⟨h1, h2⟩
      · rw [h.wait i n h1]
      · subst h1 h2
        rw [h.wait_none _ hmem, hlen']
        simp
    · intro i n hin
      simp only [UMap.find_append_singleton]
      rcases (getElem?_snoc_eq_some _ _ _ _).1 hin with h1 | ⟨h1, h2⟩
      · rw [h.stop_of i n h1]
      · subst h1 h2
        rw [hlen, h.stop_of_none _ (by intro i hi; omega)]
        simp
    · intro n hn
      simp only [List.mem_append, List.mem_singleton, not_or] at hn
      simp only [UMap.find_append_singleton]
      rw [h.board_none _ hn.1]
      simp [Ne.symm hn.2]
    · intro n hn
      simp only [List.mem_append, List.mem_singleton, not_or] at hn
      simp only [UMap.find_append_singleton]
      rw [h.wait_none _ hn.1]
      simp [Ne.symm hn.2]
    · intro v hvv
      simp only [UMap.find_append_singleton]
      have h1 : UMap.find m.vertex_id_to_stop v = none := by
        apply h.stop_of_none
        intro i hi
        exact hvv i (by simp; omega)
      rw [h1, hlen]
      have := hvv names.length (by simp)
      simp [Ne.symm this]
    · simp
    · rw [hlen, hlen']
    · intro k
      rw [UMap.find_append_singleton]
      cases UMap.find m.stops_ k <;> rfl

theorem registrationOrder_step_extends (names : List String) (r : StopRequest) :
    names <+: registrationOrder.step names r ∧ r.name ∈ registrationOrder.step names r := by
  unfold registrationOrder.step
  by_cases h : r.name ∈ names
  · simp [h]
  · simp [h]

theorem registrationOrder_foldl_extends (rs : List StopRequest) (names : List String) :
    names <+: rs.foldl registrationOrder.step names ∧
    ∀ r ∈ rs, r.name ∈ rs.foldl registrationOrder.step names := by
  induction rs generalizing names with
  | nil => simp
  | cons r rest ih =>
    rw [List.foldl_cons]
    obtain ⟨h1, h2⟩ := ih (registrationOrder.step names r)
    obtain ⟨h3, h4⟩ := registrationOrder_step_extends names r
    refine ⟨h3.trans h1, ?_⟩
    intro r' hr'
    rcases List.mem_cons.1 hr' with rfl | hr'
    · exact h1.subset h4
    · exact h2 r' hr'

theorem getElem?_of_extension {α : Type} {l l' : List α} (h : l <+: l') (i : Nat) (x : α)
    (hx : l[i]? = some x) : l'[i]? = some x := by
  obtain ⟨t, rfl⟩ := h
  have hi : i < l.length := by
    by_contra hc
    rw [List.getElem?_eq_none (Nat.le_of_not_lt hc)] at hx
    cases hx
  rw [List.getElem?_append_left hi]
  exact hx

/-- `BuildStops` keeps the vertex tables in line with the registration order,
adds one wait edge per request and touches nothing else. -/
theorem BuildStops_spec (rs : List StopRequest) (m : TransportManager) (names : List String)
    (h : VertexTables m names) :
    VertexTables (BuildStops m rs) (rs.foldl registrationOrder.step names) ∧
    (∃ es, (BuildStops m rs).graph.edges_ = m.graph.edges_ ++ es ∧
      List.Forall₂ (fun r e => ∃ i, (rs.foldl registrationOrder.step names)[i]? = some r.name ∧
        e = waitEdge m.settings.wait_time i) rs es) ∧
    (BuildStops m rs).buses_ = m.buses_ ∧
    (BuildStops m rs).distances_ = m.distances_ ∧
    (BuildStops m rs).edge_id_to_info = m.edge_id_to_info ∧
    (BuildStops m rs).settings = m.settings ∧
    (BuildStops m rs).graph.vertex_count = m.graph.vertex_count := by
  induction rs generalizing m names with
  | nil =>
    exact ⟨h, ⟨[], by simp [BuildStops], List.Forall₂.nil⟩, rfl, rfl, rfl, rfl, rfl⟩
  | cons r rest ih =>
    obtain ⟨hv, ⟨i, hi, he⟩, hb, hd, hinfo, hset, hvc, _⟩ := VertexTables_step m names r h
    obtain ⟨hv', ⟨es, hes, hall⟩, hb', hd', hinfo', hset', hvc'⟩ := ih _ _ hv
    have hfold : BuildStops m (r :: rest) = BuildStops (BuildStops.step m r) rest := rfl
    rw [hfold, List.foldl_cons]
    refine ⟨hv', ⟨waitEdge m.settings.wait_time i :: es, ?_, ?_⟩, hb'.trans hb, hd'.trans hd,
      hinfo'.trans hinfo, hset'.trans hset, hvc'.trans hvc⟩
    · rw [hes, he]
      simp
    · refine List.Forall₂.cons ⟨i, ?_, rfl⟩ ?_
      · exact getElem?_of_extension (registrationOrder_foldl_extends rest _).1 i _ hi
      · rw [hset] at hall
        exact hall

theorem VertexTables_make (n : Nat) (w : Int) (v : ℚ) : VertexTables (TransportManager.make n w v)
    [] := by
  refine ⟨rfl, List.nodup_nil, rfl, rfl, ?_, ?_, ?_, ?_, ?_, ?_⟩ <;> intros <;>
    simp_all [TransportManager.make, UMap.find]

/-! ### The edge loops -/

theorem addBusEdge_spec (lm : Libm) (m m' : TransportManager) (bus : String) (v : VertexId)
    (last next : String) (c c' : Int) (w w' : ℚ)
    (h : addBusEdge lm m bus v last next c w = .ok (m', c', w')) :
    c' = c + 1 ∧ w' = w + m.hopTime lm last next ∧
    m' = m.pushEdge (⟨v, m.waitIdOf next, ⟨EdgeType.BUS, w + m.hopTime lm last next⟩⟩,
      ⟨c + 1, some bus⟩) ∧
    (∃ d, m.GetDistance lm last next = .ok d) ∧
    (∃ t, m.GetVertexIdByWaitStop next = .ok t) := by
  unfold addBusEdge at h
  cases hd : m.GetDistance lm last next with
  | error e => simp [hd] at h
  | ok d =>
    cases ht : m.GetVertexIdByWaitStop next with
    | error e => simp [hd, ht] at h
    | ok t =>
      simp only [hd, ht, Except.ok.injEq, Prod.mk.injEq] at h
      obtain ⟨h1, h2, h3⟩ := h
      refine ⟨h2.symm, ?_, ?_, ⟨d, rfl⟩, ⟨t, rfl⟩⟩
      · rw [← h3]
        simp [hopTime, distanceOf, hd]
      · rw [← h1]
        simp [pushEdge, hopTime, distanceOf, waitIdOf, hd, ht]

theorem pathSum_cons_cons (hop : String → String → ℚ) (a b : String) (rest : List String) :
    pathSum hop (a :: b :: rest) = hop a b + pathSum hop (b :: rest) := rfl

theorem inner_spec (lm : Libm) (bus : String) (v : VertexId) (rest : List String)
    (m m' : TransportManager) (last : String) (c c' : Int) (w w' : ℚ)
    (h : BuildEdgesForBus.inner lm bus v m last rest c w = .ok (m', c', w')) :
    c' = c + rest.length ∧ w' = w + pathSum (m.hopTime lm) (last :: rest) ∧
    m' = m.pushEdges (rideEdges m.waitIdOf (m.hopTime lm) bus v last rest c w) := by
  induction rest generalizing m last c w with
  | nil =>
    simp only [BuildEdgesForBus.inner, Except.ok.injEq, Prod.mk.injEq] at h
    obtain ⟨rfl, rfl, rfl⟩ := h
    simp [pathSum, rideEdges, pushEdges]
  | cons next rest ih =>
    unfold BuildEdgesForBus.inner at h
    cases ha : addBusEdge lm m bus v last next c w with
    | error e => simp [ha] at h
    | ok r =>
      obtain ⟨m1, c1, w1⟩ := r
      simp only [ha] at h
      obtain ⟨hc1, hw1, hm1, _, _⟩ := addBusEdge_spec lm m m1 bus v last next c c1 w w1 ha
      obtain ⟨hc', hw', hm'⟩ := ih m1 next c1 w1 h
      have henv1 : m1.waitIdOf = m.waitIdOf := by rw [hm1]; rfl
      have henv2 : m1.hopTime lm = m.hopTime lm := by rw [hm1]; rfl
      rw [henv1, henv2] at hm'
      rw [henv2] at hw'
      refine ⟨?_, ?_, ?_⟩
      · rw [hc', hc1]
        simp
        ring
      · rw [hw', hw1, pathSum_cons_cons]
        ring
      · rw [hm', hm1, hc1, hw1]
        simp [rideEdges, pushEdges]

theorem back_loop_spec (lm : Libm) (bus : String) (v : VertexId) (rest : List String)
    (m m' : TransportManager) (last : String) (c : Int) (w : ℚ)
    (h : BuildBackEdgesForRegularBus.loop lm bus v m last rest c w = .ok m') :
    m' = m.pushEdges (rideEdges m.waitIdOf (m.hopTime lm) bus v last rest c w) := by
  induction rest generalizing m last c w with
  | nil =>
    simp only [BuildBackEdgesForRegularBus.loop, Except.ok.injEq] at h
    subst h
    simp [rideEdges, pushEdges]
  | cons next rest ih =>
    unfold BuildBackEdgesForRegularBus.loop at h
    cases ha : addBusEdge lm m bus v last next c w with
    | error e => simp [ha] at h
    | ok r =>
      obtain ⟨m1, c1, w1⟩ := r
      simp only [ha] at h
      obtain ⟨hc1, hw1, hm1, _, _⟩ := addBusEdge_spec lm m m1 bus v last next c c1 w w1 ha
      have hm' := ih m1 next c1 w1 h
      have henv1 : m1.waitIdOf = m.waitIdOf := by rw [hm1]; rfl
      have henv2 : m1.hopTime lm = m.hopTime lm := by rw [hm1]; rfl
      rw [henv1, henv2] at hm'
      rw [hm', hm1, hc1, hw1]
      simp [rideEdges, pushEdges]

theorem BuildBackEdgesForRegularBus_spec (lm : Libm) (m m' : TransportManager)
    (stops : List String) (bus : String) (v : VertexId) (c : Int) (w : ℚ)
    (h : BuildBackEdgesForRegularBus lm m stops bus v c w = .ok m') :
    m' = m.pushEdges (backEdges m.waitIdOf (m.hopTime lm) bus v stops c w) := by
  unfold BuildBackEdgesForRegularBus at h
  unfold backEdges
  cases hr : stops.reverse with
  | nil =>
    simp only [hr, Except.ok.injEq] at h
    subst h
    simp [pushEdges]
  | cons first rest =>
    simp only [hr] at h
    exact back_loop_spec lm bus v rest m m' first c w h

theorem pushEdges_append (m : TransportManager) (a b : List (Edge × EdgeInfo)) :
    m.pushEdges (a ++ b) = (m.pushEdges a).pushEdges b := by
  simp [pushEdges, List.foldl_append]

/-- What `pushEdges` leaves untouched. -/
theorem pushEdges_frame (es : List (Edge × EdgeInfo)) (m : TransportManager) :
    (m.pushEdges es).settings = m.settings ∧ (m.pushEdges es).stops_ = m.stops_ ∧
    (m.pushEdges es).buses_ = m.buses_ ∧ (m.pushEdges es).distances_ = m.distances_ ∧
    (m.pushEdges es).vertex_id_to_stop = m.vertex_id_to_stop ∧
    (m.pushEdges es).stop_to_vertex_id = m.stop_to_vertex_id ∧
    (m.pushEdges es).wait_stop_to_vertex_id = m.wait_stop_to_vertex_id ∧
    (m.pushEdges es).graph.vertex_count = m.graph.vertex_count := by
  induction es generalizing m with
  | nil => simp [pushEdges]
  | cons e rest ih =>
    have := ih (m.pushEdge e)
    simpa [pushEdges, pushEdge, DirectedWeightedGraph.AddEdge] using this

theorem pushEdges_env (lm : Libm) (es : List (Edge × EdgeInfo)) (m : TransportManager) :
    (m.pushEdges es).waitIdOf = m.waitIdOf ∧ (m.pushEdges es).boardIdOf = m.boardIdOf ∧
    (m.pushEdges es).hopTime lm = m.hopTime lm := by
  obtain ⟨h1, h2, _, h4, _, h6, h7, _⟩ := pushEdges_frame es m
  refine ⟨?_, ?_, ?_⟩
  · funext s
    simp [waitIdOf, GetVertexIdByWaitStop, GetStop, h2, h7]
  · funext s
    simp [boardIdOf, GetVertexIdByStop, GetStop, h2, h6]
  · funext a b
    simp [hopTime, distanceOf, GetDistance, GetBusVelocity, h1, h2, h4]

theorem outer_spec (lm : Libm) (stops : List String) (bus : String) (wb : Bool)
    (rest : List String) (m m' : TransportManager)
    (h : BuildEdgesForBus.outer lm stops bus wb m rest = .ok m') :
    m' = m.pushEdges (busEdges m.boardIdOf m.waitIdOf (m.hopTime lm) bus stops wb rest) := by
  induction rest generalizing m with
  | nil =>
    simp only [BuildEdgesForBus.outer, Except.ok.injEq] at h
    subst h
    simp [busEdges, pushEdges]
  | cons s rest ih =>
    unfold BuildEdgesForBus.outer at h
    cases hv : m.GetVertexIdByStop s with
    | error e => simp [hv] at h
    | ok v =>
      have hb : m.boardIdOf s = v := by simp [boardIdOf, hv]
      simp only [hv] at h
      cases hi : BuildEdgesForBus.inner lm bus v m s rest 0 0 with
      | error e => simp [hi] at h
      | ok r =>
        obtain ⟨m1, c1, w1⟩ := r
        simp only [hi] at h
        obtain ⟨hc1, hw1, hm1⟩ := inner_spec lm bus v rest m m1 s 0 c1 0 w1 hi
        obtain ⟨e1, e2, e3⟩ := pushEdges_env lm
          (rideEdges m.waitIdOf (m.hopTime lm) bus v s rest 0 0) m
        rw [← hm1] at e1 e2 e3
        cases wb with
        | false =>
          simp only [Bool.false_eq_true, if_false] at h
          have hm' := ih m1 h
          rw [e1, e2, e3] at hm'
          rw [hm', hm1]
          simp [busEdges, originEdges, hb, pushEdges_append]
        | true =>
          simp only [if_true] at h
          cases hbk : BuildBackEdgesForRegularBus lm m1 stops bus v c1 w1 with
          | error e => simp [hbk] at h
          | ok m2 =>
            simp only [hbk] at h
            have hm2 := BuildBackEdgesForRegularBus_spec lm m1 m2 stops bus v c1 w1 hbk
            rw [e1, e3] at hm2
            obtain ⟨f1, f2, f3⟩ := pushEdges_env lm
              (backEdges m.waitIdOf (m.hopTime lm) bus v stops c1 w1) m1
            rw [← hm2] at f1 f2 f3
            rw [e1] at f1
            rw [e2] at f2
            rw [e3] at f3
            have hm' := ih m2 h
            rw [f1, f2, f3] at hm'
            rw [hm', hm2, hm1, hc1, hw1]
            simp [busEdges, originEdges, hb, pushEdges_append]

theorem BuildEdgesForBus_spec (lm : Libm) (m m' : TransportManager) (stops : List String)
    (bus : String) (wb : Bool) (h : BuildEdgesForBus lm m stops bus wb = .ok m') :
    m' = m.pushEdges (busEdges m.boardIdOf m.waitIdOf (m.hopTime lm) bus stops wb stops) :=
  outer_spec lm stops bus wb stops m m' h

theorem reversed_outer_eq (lm : Libm) (bus : String) (stops : List String) (rest : List String)
    (m : TransportManager) :
    BuildReversedEdgesForBus.outer lm bus m rest =
      BuildEdgesForBus.outer lm stops bus false m rest := by
  induction rest generalizing m with
  | nil => simp [BuildReversedEdgesForBus.outer, BuildEdgesForBus.outer]
  | cons s rest ih =>
    unfold BuildReversedEdgesForBus.outer BuildEdgesForBus.outer
    cases hv : m.GetVertexIdByStop s with
    | error e => rfl
    | ok v =>
      simp only
      cases hi : BuildEdgesForBus.inner lm bus v m s rest 0 0 with
      | error e => rfl
      | ok r =>
        obtain ⟨m1, c1, w1⟩ := r
        simp [ih]

theorem busEdges_false_stops (board wait : String → VertexId) (hop : String → String → ℚ)
    (bus : String) (stops stops' rest : List String) :
    busEdges board wait hop bus stops false rest = busEdges board wait hop bus stops' false rest
      := by
  induction rest with
  | nil => rfl
  | cons s rest ih => simp [busEdges, originEdges, ih]

theorem BuildReversedEdgesForBus_spec (lm : Libm) (m m' : TransportManager) (stops : List String)
    (bus : String) (h : BuildReversedEdgesForBus lm m stops bus = .ok m') :
    m' = m.pushEdges (busEdges m.boardIdOf m.waitIdOf (m.hopTime lm) bus stops false stops) := by
  unfold BuildReversedEdgesForBus at h
  rw [reversed_outer_eq lm bus stops stops m] at h
  exact outer_spec lm stops bus false stops m m' h

/-! ### `BuildBuses` -/

theorem setInsert_idem (x : String) (l : List String) :
    setInsert x (setInsert x l) = setInsert x l := by
  induction l with
  | nil => simp [setInsert]
  | cons y ys ih =>
    by_cases h1 : strLess x y
    · simp [setInsert, h1]
    · by_cases h2 : x = y
      · simp [setInsert, h1, h2]
      · simp [setInsert, h1, h2, ih]

theorem mem_setInsert (x a : String) (l : List String) :
    a ∈ setInsert x l ↔ a = x ∨ a ∈ l := by
  induction l with
  | nil => simp [setInsert]
  | cons y ys ih =>
    by_cases h1 : strLess x y
    · simp [setInsert, h1]
    · by_cases h2 : x = y
      · subst h2
        simp [setInsert, h1]
      · simp only [setInsert, h1, h2, if_false, List.mem_cons, ih]
        tauto

theorem addStops_spec (bus : String) (stops : List String) (m m' : TransportManager)
    (h : BuildBuses.addStops bus m stops = .ok m') :
    (∀ s ∈ stops, UMap.find m.stops_ s ≠ none) ∧
    m'.settings = m.settings ∧ m'.distances_ = m.distances_ ∧
    m'.vertex_id_to_stop = m.vertex_id_to_stop ∧ m'.stop_to_vertex_id = m.stop_to_vertex_id ∧
    m'.wait_stop_to_vertex_id = m.wait_stop_to_vertex_id ∧
    m'.edge_id_to_info = m.edge_id_to_info ∧ m'.graph = m.graph ∧
    (∀ k, UMap.find m'.buses_ k =
      if bus = k then (UMap.find m.buses_ k).map (fun b => { b with stops_ := b.stops_ ++ stops })
      else UMap.find m.buses_ k) ∧
    (∀ k, UMap.find m'.stops_ k =
      (UMap.find m.stops_ k).map
        (fun s => if k ∈ stops then { s with buses_ := setInsert bus s.buses_ } else s)) ∧
    m'.stops_.map Prod.fst = m.stops_.map Prod.fst ∧
    m'.buses_.map Prod.fst = m.buses_.map Prod.fst := by
  induction stops generalizing m with
  | nil =>
    simp only [BuildBuses.addStops, Except.ok.injEq] at h
    subst h
    refine ⟨by simp, rfl, rfl, rfl, rfl, rfl, rfl, rfl, ?_, ?_, rfl, rfl⟩
    · intro k
      by_cases hk : bus = k
      · simp only [hk, if_true, List.append_nil]
        cases UMap.find m.buses_ k <;> rfl
      · simp [hk]
    · intro k
      cases UMap.find m.stops_ k <;> simp
  | cons s rest ih =>
    unfold BuildBuses.addStops at h
    cases hg : m.GetStop s with
    | none => simp [hg] at h
    | some sp =>
      have hsp : sp = s ∧ UMap.find m.stops_ s ≠ none := by
        unfold GetStop at hg
        cases hx : UMap.find m.stops_ s <;> simp [hx] at hg
        exact ⟨hg.symm, by simp⟩
      obtain ⟨rfl, hreg⟩ := hsp
      simp only [hg] at h
      obtain ⟨i1, i2, i3, i4, i5, i6, i7, i8, i9, i10, i11, i12⟩ := ih _ h
      refine ⟨?_, i2, i3, i4, i5, i6, i7, i8, ?_, ?_, ?_, ?_⟩
      · intro s' hs'
        rcases List.mem_cons.1 hs' with rfl | hs'
        · exact hreg
        · have := i1 s' hs'
          simp only [UMap.find_modify] at this
          intro hc
          apply this
          rw [hc]
          simp
      · intro k
        rw [i9 k]
        simp only [UMap.find_modify]
        by_cases hk : bus = k
        · simp only [hk, if_true]
          cases UMap.find m.buses_ k <;> simp
        · simp [hk]
      · intro k
        rw [i10 k]
        simp only [UMap.find_modify]
        by_cases hk : sp = k
        · subst hk
          simp only [if_true, List.mem_cons, true_or]
          cases UMap.find m.stops_ sp with
          | none => rfl
          | some st =>
            by_cases hr : sp ∈ rest
            · simp [hr, setInsert_idem]
            · simp [hr]
        · have hk' : ¬ k = sp := fun hh => hk hh.symm
          simp only [hk, if_false, List.mem_cons, hk', false_or]
      · rw [i11]
        simp [UMap.map_fst_modify]
      · rw [i12]
        simp [UMap.map_fst_modify]

theorem BuildBuses_step_spec (lm : Libm) (m m' : TransportManager) (r : BusRequest)
    (h : BuildBuses.step lm m r = .ok m') :
    ∃ m1 : TransportManager,
      (∀ s ∈ r.stops, UMap.find m.stops_ s ≠ none) ∧
      m1.settings = m.settings ∧ m1.distances_ = m.distances_ ∧
      m1.vertex_id_to_stop = m.vertex_id_to_stop ∧ m1.stop_to_vertex_id = m.stop_to_vertex_id ∧
      m1.wait_stop_to_vertex_id = m.wait_stop_to_vertex_id ∧
      m1.edge_id_to_info = m.edge_id_to_info ∧ m1.graph = m.graph ∧
      (∀ k, UMap.find m1.buses_ k =
        if r.name = k then some ⟨r.type_, stopsBefore m r.name ++ r.stops⟩
        else UMap.find m.buses_ k) ∧
      (∀ k, UMap.find m1.stops_ k =
        (UMap.find m.stops_ k).map
          (fun s => if k ∈ r.stops then { s with buses_ := setInsert r.name s.buses_ } else s)) ∧
      m1.stops_.map Prod.fst = m.stops_.map Prod.fst ∧
      m' = m1.pushEdges (stepEdges m1.boardIdOf m1.waitIdOf (m1.hopTime lm) r.name
        ⟨r.type_, stopsBefore m r.name ++ r.stops⟩) := by
  unfold BuildBuses.step at h
  simp only at h
  cases ha : BuildBuses.addStops r.name
      { (m.SetBus r.name {}) with
        buses_ := UMap.modify (m.SetBus r.name {}).buses_ r.name
          (fun bus => { bus with
            type_ := if r.is_roundtrip then BusType.CIRCULAR else BusType.REGULAR }) }
      r.stops with
  | error e => simp [ha] at h
  | ok m1 =>
    simp only [ha] at h
    obtain ⟨i1, i2, i3, i4, i5, i6, i7, i8, i9, i10, i11, _⟩ := addStops_spec _ _ _ _ ha
    have hbus : ∀ k, UMap.find m1.buses_ k =
        if r.name = k then some ⟨r.type_, stopsBefore m r.name ++ r.stops⟩
        else UMap.find m.buses_ k := by
      intro k
      rw [i9 k]
      simp only [SetBus, UMap.find_modify, UMap.find_emplace]
      by_cases hk : r.name = k
      · subst hk
        simp only [if_true, stopsBefore, BusRequest.type_]
        cases UMap.find m.buses_ r.name <;> simp
      · simp only [hk, if_false]
        cases UMap.find m.buses_ k <;> simp
    have hderef : m1.derefBus r.name = .ok ⟨r.type_, stopsBefore m r.name ++ r.stops⟩ := by
      unfold derefBus
      rw [hbus r.name]
      simp
    rw [hderef] at h
    simp only at h
    refine ⟨m1, i1, i2, i3, i4, i5, i6, i7, i8, hbus, i10, i11, ?_⟩
    cases he : BuildEdgesForBus lm m1 (stopsBefore m r.name ++ r.stops) r.name
        (decide (r.type_ = BusType.REGULAR)) with
    | error e => simp [he] at h
    | ok m2 =>
      simp only [he] at h
      have hm2 := BuildEdgesForBus_spec lm m1 m2 _ _ _ he
      by_cases ht : r.type_ = BusType.REGULAR
      · simp only [ht, if_true] at h
        have hm' := BuildReversedEdgesForBus_spec lm m2 m' _ _ h
        obtain ⟨e1, e2, e3⟩ := pushEdges_env lm
          (busEdges m1.boardIdOf m1.waitIdOf (m1.hopTime lm) r.name
            (stopsBefore m r.name ++ r.stops) (decide (r.type_ = BusType.REGULAR))
            (stopsBefore m r.name ++ r.stops)) m1
        rw [← hm2] at e1 e2 e3
        rw [e1, e2, e3] at hm'
        rw [hm', hm2]
        simp [stepEdges, ht, pushEdges_append]
      · simp only [ht, if_false, Except.ok.injEq] at h
        rw [← h, hm2]
        simp [stepEdges, ht]

/-! ### The phases of `Build` -/

theorem BuildBuses_induct (lm : Libm) (P : TransportManager → Prop)
    (hstep : ∀ m r m', P m → BuildBuses.step lm m r = .ok m' → P m')
    (rs : List BusRequest) (m m' : TransportManager) (h0 : P m)
    (h : BuildBuses lm m rs = .ok m') : P m' := by
  induction rs generalizing m with
  | nil =>
    simp only [BuildBuses, Except.ok.injEq] at h
    subst h
    exact h0
  | cons r rest ih =>
    unfold BuildBuses at h
    cases hs : BuildBuses.step lm m r with
    | error e => simp [hs] at h
    | ok m1 =>
      simp only [hs] at h
      exact ih m1 (hstep m r m1 h0 hs) h

/-- The manager `Build` hands to `BuildDistances`. -/
theorem Build_phases (lm : Libm) (reqs : List BaseRequest) (w : Int) (v : ℚ) (m : TransportManager)
    (h : Build lm (ParseBaseRequests reqs w v) = .ok m) :
    ∃ m1, BuildDistances
        (BuildStops (TransportManager.make ((stopRequests reqs).length * 2) w v) (stopRequests
            reqs))
        ((stopRequests reqs).filter (fun r => decide (r.road_distances.length > 0))) = .ok m1 ∧
      BuildBuses lm m1 (busRequests reqs) = .ok m := by
  obtain ⟨h1, h2, h3, h4, h5⟩ := ParseBaseRequests_fields reqs w v
  unfold Build at h
  simp only [h1, h2, h3, h4, h5] at h
  cases hd : BuildDistances
      (BuildStops (TransportManager.make ((stopRequests reqs).length * 2) w v) (stopRequests reqs))
      ((stopRequests reqs).filter (fun r => decide (r.road_distances.length > 0))) with
  | error e => simp [hd] at h
  | ok m1 =>
    simp only [hd] at h
    exact ⟨m1, rfl, h⟩

theorem BusFrame.refl (m : TransportManager) : BusFrame m m :=
  ⟨rfl, rfl, rfl, rfl, rfl, rfl, rfl, fun _ => rfl⟩

theorem BusFrame.trans {m0 m1 m2 : TransportManager} (h1 : BusFrame m0 m1) (h2 : BusFrame m1 m2) :
    BusFrame m0 m2 :=
  ⟨h2.settings.trans h1.settings, h2.distances.trans h1.distances,
    h2.vertex_id_to_stop.trans h1.vertex_id_to_stop,
    h2.stop_to_vertex_id.trans h1.stop_to_vertex_id,
    h2.wait_stop_to_vertex_id.trans h1.wait_stop_to_vertex_id,
    h2.vertex_count.trans h1.vertex_count, h2.keys.trans h1.keys,
    fun k => (h2.coords k).trans (h1.coords k)⟩

theorem BuildBuses_step_frame (lm : Libm) (m m' : TransportManager) (r : BusRequest)
    (h : BuildBuses.step lm m r = .ok m') : BusFrame m m' := by
  obtain ⟨m1, _, i2, i3, i4, i5, i6, _, i8, _, i10, i11, hm'⟩ := BuildBuses_step_spec lm m m' r h
  obtain ⟨f1, f2, _, f4, f5, f6, f7, f8⟩ := pushEdges_frame
    (stepEdges m1.boardIdOf m1.waitIdOf (m1.hopTime lm) r.name
      ⟨r.type_, stopsBefore m r.name ++ r.stops⟩) m1
  rw [← hm'] at f1 f2 f4 f5 f6 f7 f8
  refine ⟨f1.trans i2, f4.trans i3, f5.trans i4, f6.trans i5, f7.trans i6, ?_, ?_, ?_⟩
  · rw [f8, i8]
  · rw [f2, i11]
  · intro k
    rw [f2, i10 k]
    cases UMap.find m.stops_ k with
    | none => rfl
    | some s =>
      by_cases hk : k ∈ r.stops <;> simp [hk]

theorem BuildBuses_frame (lm : Libm) (rs : List BusRequest) (m m' : TransportManager)
    (h : BuildBuses lm m rs = .ok m') : BusFrame m m' :=
  BuildBuses_induct lm (BusFrame m)
    (fun _ r _ h0 hs => h0.trans (BuildBuses_step_frame lm _ _ r hs)) rs m m' (BusFrame.refl m) h

theorem BusFrame.GetDistance {m0 m : TransportManager} (h : BusFrame m0 m) (lm : Libm)
    (a b : String) : m.GetDistance lm a b = m0.GetDistance lm a b := by
  unfold TransportManager.GetDistance
  have ha := h.coords a
  have hb := h.coords b
  rw [h.distances]
  cases h1 : UMap.find m.stops_ a <;> cases h2 : UMap.find m0.stops_ a <;>
    cases h3 : UMap.find m.stops_ b <;> cases h4 : UMap.find m0.stops_ b <;>
    simp_all

theorem BuildStops_buses_empty (rs : List StopRequest) (m : TransportManager) (names : List String)
    (h : VertexTables m names) (h0 : ∀ k s, UMap.find m.stops_ k = some s → s.buses_ = []) :
    ∀ k s, UMap.find (BuildStops m rs).stops_ k = some s → s.buses_ = [] := by
  induction rs generalizing m names with
  | nil => exact h0
  | cons r rest ih =>
    obtain ⟨hv, _, _, _, _, _, _, hfind⟩ := VertexTables_step m names r h
    apply ih (BuildStops.step m r) _ hv
    intro k s hk
    rw [hfind k] at hk
    cases hm : UMap.find m.stops_ k with
    | some x =>
      rw [hm] at hk
      simp only [Option.some.injEq] at hk
      subst hk
      exact h0 k x hm
    | none =>
      rw [hm] at hk
      by_cases hr : r.name = k
      · simp only [hr, if_true, Option.some.injEq] at hk
        rw [← hk]
      · simp [hr] at hk

/-- The manager at the start of the bus phase. -/
theorem Build_before_buses (reqs : List BaseRequest) (w : Int) (v : ℚ) (m1 : TransportManager)
    (h : BuildDistances
        (BuildStops (TransportManager.make ((stopRequests reqs).length * 2) w v) (stopRequests
            reqs))
        ((stopRequests reqs).filter (fun r => decide (r.road_distances.length > 0))) = .ok m1) :
    VertexTables m1 (registrationOrder (stopRequests reqs)) ∧
    m1.distances_ = (listedDistances (stopRequests reqs)).foldl storeListed [] ∧
    (∀ t ∈ listedDistances (stopRequests reqs), t.2.1 ∈ registrationOrder (stopRequests reqs)) ∧
    (∀ r ∈ stopRequests reqs, r.name ∈ registrationOrder (stopRequests reqs)) ∧
    m1.buses_ = [] ∧ m1.edge_id_to_info = [] ∧ m1.settings = RoutingSettings.make w v ∧
    m1.graph.vertex_count = (stopRequests reqs).length * 2 ∧
    (List.Forall₂ (fun r e => ∃ i, (registrationOrder (stopRequests reqs))[i]? = some r.name ∧
        e = waitEdge w i) (stopRequests reqs) m1.graph.edges_) ∧
    (∀ k s, UMap.find m1.stops_ k = some s → s.buses_ = []) := by
  obtain ⟨hv, ⟨es, hes, hall⟩, hb, hd, hinfo, hset, hvc⟩ :=
    BuildStops_spec (stopRequests reqs) _ [] (VertexTables_make ((stopRequests reqs).length * 2) w
        v)
  have hempty := BuildStops_buses_empty (stopRequests reqs) _ []
    (VertexTables_make ((stopRequests reqs).length * 2) w v)
    (by intro k s hk; simp [TransportManager.make, UMap.find] at hk)
  obtain ⟨hm1, hreg⟩ := BuildDistances_spec _ _ _ h
  rw [listedDistances_filter] at hm1 hreg
  have hstops : m1.stops_ = (BuildStops (TransportManager.make ((stopRequests reqs).length * 2) w v)
      (stopRequests reqs)).stops_ := by rw [hm1]
  refine ⟨?_, ?_, ?_, ?_, ?_, ?_, ?_, ?_, ?_, ?_⟩
  · rw [hm1]
    exact ⟨hv.keys, hv.nodup, hv.board_size, hv.wait_size, hv.board, hv.wait, hv.stop_of,
      hv.board_none, hv.wait_none, hv.stop_of_none⟩
  · rw [hm1]
    simp only
    rw [hd]
    rfl
  · intro t ht
    have := hreg t ht
    rw [Ne, UMap.find_eq_none_iff, hv.keys, not_not] at this
    exact this
  · exact (registrationOrder_foldl_extends (stopRequests reqs) []).2
  · rw [hm1]; exact hb
  · rw [hm1]; exact hinfo
  · rw [hm1]; exact hset
  · rw [hm1]; exact hvc
  · rw [hm1]
    simp only
    rw [hes]
    simpa [TransportManager.make, RoutingSettings.make, registrationOrder] using hall
  · rw [hstops]
    exact hempty

/-! ### Road distances of a built network -/

theorem GetDistance_of_stored (lm : Libm) (m : TransportManager) (a b : String) (x : ℚ)
    (ha : UMap.find m.stops_ a ≠ none) (hb : UMap.find m.stops_ b ≠ none)
    (hx : storedDistance m.distances_ a b = some x) : m.GetDistance lm a b = .ok x := by
  unfold TransportManager.GetDistance
  cases h1 : UMap.find m.stops_ a with
  | none => exact absurd h1 ha
  | some sa =>
    cases h2 : UMap.find m.stops_ b with
    | none => exact absurd h2 hb
    | some sb => simp [hx]

/-- The road-distance table and the registered stops of a built network. -/
theorem Build_distances (lm : Libm) (reqs : List BaseRequest) (w : Int) (v : ℚ)
    (m : TransportManager) (h : Build lm (ParseBaseRequests reqs w v) = .ok m) :
    m.distances_ = (listedDistances (stopRequests reqs)).foldl storeListed [] ∧
    (∀ t ∈ listedDistances (stopRequests reqs), UMap.find m.stops_ t.2.1 ≠ none) ∧
    (∀ r ∈ stopRequests reqs, UMap.find m.stops_ r.name ≠ none) := by
  obtain ⟨m1, h1, h2⟩ := Build_phases lm reqs w v m h
  obtain ⟨hv, hd, hto, hfrom, _⟩ := Build_before_buses reqs w v m1 h1
  have hf := BuildBuses_frame lm _ m1 m h2
  refine ⟨hf.distances.trans hd, ?_, ?_⟩
  · intro t ht
    rw [Ne, UMap.find_eq_none_iff, hf.keys, hv.keys, not_not]
    exact hto t ht
  · intro r hr
    rw [Ne, UMap.find_eq_none_iff, hf.keys, hv.keys, not_not]
    exact hfrom r hr

theorem storedDistance_nil (a b : String) : storedDistance [] a b = none := rfl

/-! ## C1, C2: road distances in one or both directions -/

/-- C1 (as amended): in a network produced by `Build`, if a `Stop` request for `A`
lists the road distance `d` to `B`, every `Stop` request for `A` that lists a
distance to `B` lists the same `d` (as it is when one `Stop` request registers
`A`), and no `Stop` request for `B` lists a distance to `A`, then
`GetDistance(A, B)` and `GetDistance(B, A)` both return `d`. -/
theorem C1_symmetric_fallback (lm : Libm) (reqs : List BaseRequest) (w : Int) (v : ℚ)
    (m : TransportManager) (A B : String) (d : Int)
    (hbuild : Build lm (ParseBaseRequests reqs w v) = .ok m)
    (hA : ∃ r ∈ stopRequests reqs, r.name = A ∧ (B, d) ∈ r.road_distances)
    (hsame : ∀ r ∈ stopRequests reqs, r.name = A → ∀ e ∈ r.road_distances, e.1 = B → e.2 = d)
    (hB : ∀ r ∈ stopRequests reqs, r.name = B → ∀ e ∈ r.road_distances, e.1 ≠ A) :
    m.GetDistance lm A B = .ok (d : ℚ) ∧ m.GetDistance lm B A = .ok (d : ℚ) := by
  obtain ⟨hd, hto, hfrom⟩ := Build_distances lm reqs w v m hbuild
  obtain ⟨r, hr, hrA, hrB⟩ := hA
  have hmem : (A, B, d) ∈ listedDistances (stopRequests reqs) :=
    (mem_listedDistances _ _).2 ⟨r, hr, hrA, hrB⟩
  have hregA : UMap.find m.stops_ A ≠ none := hrA ▸ hfrom r hr
  have hregB : UMap.find m.stops_ B ≠ none := hto _ hmem
  have hv : ∀ t ∈ listedDistances (stopRequests reqs), t.1 = A → t.2.1 = B → t.2.2 = d := by
    intro t ht h1 h2
    obtain ⟨r', hr', hn, he⟩ := (mem_listedDistances _ _).1 ht
    exact hsame r' hr' (hn.trans h1) _ he h2
  have hno : ∀ t ∈ listedDistances (stopRequests reqs), ¬ (t.1 = B ∧ t.2.1 = A) := by
    rintro t ht ⟨h1, h2⟩
    obtain ⟨r', hr', hn, he⟩ := (mem_listedDistances _ _).1 ht
    exact hB r' hr' (hn.trans h1) _ he h2
  constructor
  · apply GetDistance_of_stored lm m A B _ hregA hregB
    rw [hd]
    exact storedDistance_foldl_direct _ A B d hv [] (Or.inr ⟨_, hmem, rfl, rfl⟩)
  · apply GetDistance_of_stored lm m B A _ hregB hregA
    rw [hd]
    exact storedDistance_foldl_reverse _ A B d hno hv []
      (Or.inr ⟨storedDistance_nil B A, _, hmem, rfl, rfl⟩)

/-- C1, witness: stop `A` lists 100 m to `B`, `B` lists nothing; both directions return 100. -/
theorem C1_symmetric_fallback_witness :
    ∃ m, Build Libm.sample (ParseBaseRequests oneWayRequests 5 60) = .ok m ∧
      m.GetDistance Libm.sample "A" "B" = .ok 100 ∧ m.GetDistance Libm.sample "B" "A" = .ok 100 :=
  ⟨_, rfl, C1_symmetric_fallback Libm.sample oneWayRequests 5 60 _ "A" "B" 100 rfl
    (by decide) (by decide) (by decide)⟩

/-- C1, counterexample: two `Stop` requests register `A`, listing 100 m and then
200 m to `B`, and no request for `B` lists a distance to `A`; the built network
answers 200 for `(A, B)` and 100 for `(B, A)`. -/
theorem C1_counterexample :
    ∃ m, Build Libm.sample (ParseBaseRequests repeatedStopRequests 5 60) = .ok m ∧
      (∃ r ∈ stopRequests repeatedStopRequests,
        r.name = "A" ∧ "B" ∈ r.road_distances.map Prod.fst) ∧
      (∀ r ∈ stopRequests repeatedStopRequests,
        r.name = "B" → "A" ∉ r.road_distances.map Prod.fst) ∧
      m.GetDistance Libm.sample "A" "B" = .ok 200 ∧
      m.GetDistance Libm.sample "B" "A" = .ok 100 ∧
      m.GetDistance Libm.sample "A" "B" ≠ m.GetDistance Libm.sample "B" "A" := by
  refine ⟨_, rfl, by decide, by decide, rfl, rfl, ?_⟩
  intro h
  have h' : (Except.ok 200 : Except Error ℚ) = Except.ok 100 := h
  simp only [Except.ok.injEq] at h'
  norm_num at h'

/-- C2: in a network built from base requests in which the names of the `Stop`
requests are pairwise distinct (each request's `road_distances` having
distinct keys, as a decoded map has), if the request for `A` lists `d1` to `B`
and the request for `B` lists `d2` to `A`, then `GetDistance(A, B) = d1` and
`GetDistance(B, A) = d2`, wherever the two requests stand in the input. -/
theorem C2_both_directions (lm : Libm) (reqs : List BaseRequest) (w : Int) (v : ℚ)
    (m : TransportManager) (A B : String) (d1 d2 : Int)
    (hbuild : Build lm (ParseBaseRequests reqs w v) = .ok m)
    (hnames : ((stopRequests reqs).map (fun r => r.name)).Nodup)
    (hkeys : ∀ r ∈ stopRequests reqs, (r.road_distances.map Prod.fst).Nodup)
    (hA : ∃ r ∈ stopRequests reqs, r.name = A ∧ (B, d1) ∈ r.road_distances)
    (hB : ∃ r ∈ stopRequests reqs, r.name = B ∧ (A, d2) ∈ r.road_distances) :
    m.GetDistance lm A B = .ok (d1 : ℚ) ∧ m.GetDistance lm B A = .ok (d2 : ℚ) := by
  obtain ⟨hd, hto, hfrom⟩ := Build_distances lm reqs w v m hbuild
  have key : ∀ (X Y : String) (d : Int),
      (∃ r ∈ stopRequests reqs, r.name = X ∧ (Y, d) ∈ r.road_distances) →
      storedDistance m.distances_ X Y = some (d : ℚ) ∧ UMap.find m.stops_ X ≠ none := by
    rintro X Y d ⟨r, hr, hrX, hrY⟩
    have hmem : (X, Y, d) ∈ listedDistances (stopRequests reqs) :=
      (mem_listedDistances _ _).2 ⟨r, hr, hrX, hrY⟩
    refine ⟨?_, hrX ▸ hfrom r hr⟩
    rw [hd]
    apply storedDistance_foldl_direct _ X Y d _ [] (Or.inr ⟨_, hmem, rfl, rfl⟩)
    intro t ht h1 h2
    obtain ⟨r', hr', hn, he⟩ := (mem_listedDistances _ _).1 ht
    have hrr : r' = r :=
      List.inj_on_of_nodup_map hnames hr' hr (by rw [hn, h1, hrX])
    subst hrr
    have hpair : (t.2.1, t.2.2) = (Y, d) :=
      List.inj_on_of_nodup_map (hkeys r' hr) he hrY h2
    exact (Prod.mk.inj hpair).2
  obtain ⟨hAB, hregA⟩ := key A B d1 hA
  obtain ⟨hBA, hregB⟩ := key B A d2 hB
  exact ⟨GetDistance_of_stored lm m A B _ hregA hregB hAB,
    GetDistance_of_stored lm m B A _ hregB hregA hBA⟩

/-- C2, witness: `A` lists 2000 m to `B` and `B` lists 3000 m to `A`. -/
theorem C2_both_directions_witness :
    ∃ m, Build Libm.sample (ParseBaseRequests twoWayRequests 5 60) = .ok m ∧
      m.GetDistance Libm.sample "A" "B" = .ok 2000 ∧
      m.GetDistance Libm.sample "B" "A" = .ok 3000 :=
  ⟨_, rfl, C2_both_directions Libm.sample twoWayRequests 5 60 _ "A" "B" 2000 3000 rfl
    (by decide) (by decide) (by decide) (by decide)⟩

/-! ### The distance aggregate -/

theorem GetDistance_ok_of_registered (lm : Libm) (m : TransportManager) (a b : String)
    (ha : UMap.find m.stops_ a ≠ none) (hb : UMap.find m.stops_ b ≠ none) :
    m.GetDistance lm a b = .ok (m.distanceOf lm a b) := by
  unfold distanceOf
  unfold TransportManager.GetDistance
  cases h1 : UMap.find m.stops_ a with
  | none => exact absurd h1 ha
  | some sa =>
    cases h2 : UMap.find m.stops_ b with
    | none => exact absurd h2 hb
    | some sb =>
      cases h3 : storedDistance m.distances_ a b <;> simp

theorem derefStop_of_registered (m : TransportManager) (a : String)
    (ha : UMap.find m.stops_ a ≠ none) :
    ∃ s, m.derefStop a = .ok s ∧ s.coords_ = m.coordsOf a := by
  unfold derefStop coordsOf
  cases h1 : UMap.find m.stops_ a with
  | none => exact absurd h1 ha
  | some sa => exact ⟨sa, rfl, rfl⟩

/-- The loop of `ComputeDistanceForStop` in closed form, from a previous stop `last` on. -/
theorem ComputeDistanceForStop_loop_some (lm : Libm) (m : TransportManager) (type_ : BusType)
    (stops : List String) (last : String) (acc : Distance)
    (hlast : UMap.find m.stops_ last ≠ none)
    (hstops : ∀ s ∈ stops, UMap.find m.stops_ s ≠ none) :
    ComputeDistanceForStop.loop lm m type_ stops (some last) acc =
      .ok ⟨acc.raw_ + (if type_ = BusType.REGULAR then 2 else 1) *
            pathSum (m.geoOf lm) (last :: stops),
          acc.by_default_ + pathSum (m.distanceOf lm) (last :: stops) +
            (if type_ = BusType.REGULAR
              then pathSum (fun a b => m.distanceOf lm b a) (last :: stops) else 0)⟩ := by
  induction stops generalizing last acc with
  | nil => simp [ComputeDistanceForStop.loop, pathSum]
  | cons s rest ih =>
    have hs : UMap.find m.stops_ s ≠ none := hstops s (List.mem_cons_self _ _)
    have hrest : ∀ x ∈ rest, UMap.find m.stops_ x ≠ none :=
      fun x hx => hstops x (List.mem_cons_of_mem _ hx)
    obtain ⟨sl, hsl, hcl⟩ := derefStop_of_registered m last hlast
    obtain ⟨ss, hss, hcs⟩ := derefStop_of_registered m s hs
    unfold ComputeDistanceForStop.loop
    simp only [hsl, hss, GetDistance_ok_of_registered lm m last s hlast hs,
      GetDistance_ok_of_registered lm m s last hs hlast]
    by_cases ht : type_ = BusType.REGULAR
    · subst ht
      simp only [if_true]
      rw [ih s _ hs hrest]
      simp only [if_true, pathSum_cons_cons, geoOf, hcl, hcs, Except.ok.injEq, Distance.mk.injEq]
      constructor <;> ring
    · simp only [ht, if_false]
      rw [ih s _ hs hrest]
      simp only [ht, if_false, pathSum_cons_cons, geoOf, hcl, hcs, Except.ok.injEq,
        Distance.mk.injEq]
      constructor <;> ring

/-- `ComputeDistanceForStop` for a known bus whose stops are registered, in closed form. -/
theorem ComputeDistanceForStop_closed (lm : Libm) (m : TransportManager) (name : String)
    (bus : Bus) (hbus : UMap.find m.buses_ name = some bus)
    (hstops : ∀ s ∈ bus.stops_, UMap.find m.stops_ s ≠ none) :
    m.ComputeDistanceForStop lm name =
      .ok ⟨(if bus.type_ = BusType.REGULAR then 2 else 1) * pathSum (m.geoOf lm) bus.stops_,
          pathSum (m.distanceOf lm) bus.stops_ +
            (if bus.type_ = BusType.REGULAR
              then pathSum (fun a b => m.distanceOf lm b a) bus.stops_ else 0)⟩ := by
  unfold ComputeDistanceForStop
  rw [hbus]
  simp only
  cases hs : bus.stops_ with
  | nil => simp [ComputeDistanceForStop.loop, pathSum]
  | cons s rest =>
    rw [hs] at hstops
    unfold ComputeDistanceForStop.loop
    rw [ComputeDistanceForStop_loop_some lm m bus.type_ rest s _
      (hstops s (List.mem_cons_self _ _)) (fun x hx => hstops x (List.mem_cons_of_mem _ hx))]
    simp

theorem mem_stopsBefore (m : TransportManager) (name s : String) (h : s ∈ stopsBefore m name) :
    ∃ b0, UMap.find m.buses_ name = some b0 ∧ s ∈ b0.stops_ := by
  unfold stopsBefore at h
  cases hf : UMap.find m.buses_ name with
  | none => simp [hf] at h
  | some b0 =>
    rw [hf] at h
    exact ⟨b0, rfl, h⟩

/-- In a built network every stop of every bus is registered. -/
theorem Build_BusStopsRegistered (lm : Libm) (reqs : List BaseRequest) (w : Int) (v : ℚ)
    (m : TransportManager) (h : Build lm (ParseBaseRequests reqs w v) = .ok m) :
    m.BusStopsRegistered := by
  obtain ⟨m1, h1, h2⟩ := Build_phases lm reqs w v m h
  obtain ⟨_, _, _, _, hb, _⟩ := Build_before_buses reqs w v m1 h1
  refine BuildBuses_induct lm BusStopsRegistered ?_ _ m1 m ?_ h2
  · intro m0 r m' h0 hs
    obtain ⟨mm, i1, _, _, _, _, _, _, _, i9, _, i11, hm'⟩ := BuildBuses_step_spec lm m0 m' r hs
    obtain ⟨_, f2, f3, _⟩ := pushEdges_frame
      (stepEdges mm.boardIdOf mm.waitIdOf (mm.hopTime lm) r.name
        ⟨r.type_, stopsBefore m0 r.name ++ r.stops⟩) mm
    rw [← hm'] at f2 f3
    intro b bus hb s hs'
    rw [Ne, UMap.find_eq_none_iff, f2, i11, ← UMap.find_eq_none_iff]
    rw [f3, i9 b] at hb
    by_cases hk : r.name = b
    · subst hk
      simp only [if_true, Option.some.injEq] at hb
      rw [← hb] at hs'
      simp only [List.mem_append] at hs'
      rcases hs' with hs' | hs'
      · obtain ⟨b0, hf, hs0⟩ := mem_stopsBefore m0 r.name s hs'
        exact h0 r.name b0 hf s hs0
      · exact i1 s hs'
    · simp only [hk, if_false] at hb
      exact h0 b bus hb s hs'
  · intro b bus hb'
    rw [hb] at hb'
    simp [UMap.find] at hb'

/-! ### `BusInfo::Process` -/

theorem Json.find_mapSet (m : List (String × Json.Node)) (k k' : String) (v : Json.Node) :
    UMap.find (Json.mapSet m k v) k' = if k = k' then some v else UMap.find m k' := by
  induction m with
  | nil => simp [Json.mapSet, UMap.find]
  | cons p rest ih =>
    obtain ⟨k0, v0⟩ := p
    by_cases h1 : k.data < k0.data
    · simp only [Json.mapSet, strLess, h1, if_true, UMap.find]
    · by_cases h3 : k = k0
      · subst h3
        simp only [Json.mapSet, strLess, h1, if_false, if_true, UMap.find]
        by_cases h2 : k = k' <;> simp [h2]
      · simp only [Json.mapSet, strLess, h1, h3, if_false, UMap.find, ih]
        by_cases h2 : k0 = k'
        · subst h2
          simp [h3]
        · simp [h2]

/-- The response of `BusInfo::Process` for a known bus whose stops are registered. -/
theorem BusInfo_Process_known (lm : Libm) (m : TransportManager) (request_id : Int)
    (name : String) (bus : Bus) (hbus : UMap.find m.buses_ name = some bus)
    (hstops : ∀ s ∈ bus.stops_, UMap.find m.stops_ s ≠ none) :
    ∃ length, m.ComputeDistanceForStop lm name = .ok length ∧
      Requests.BusInfo.Process lm m request_id name =
        .ok (Json.Node.map
          [("curvature", Json.Node.double length.Curvature),
            ("request_id", Json.Node.int request_id),
            ("route_length", Json.Node.double (Double.finite length.by_default_)),
            ("stop_count", Json.Node.int (toInt32 (toInt32
              (if bus.type_ = BusType.REGULAR
                then toSizeT (toSizeT ((bus.stops_.length : Int) * 2) - 1)
                else (bus.stops_.length : Int))))),
            ("unique_stop_count",
              Json.Node.int (toInt32 (toInt32 (bus.stops_.dedup.length : Int))))]) := by
  have hc := ComputeDistanceForStop_closed lm m name bus hbus hstops
  refine ⟨_, hc, ?_⟩
  unfold Requests.BusInfo.Process
  simp only [GetBus, derefBus, hbus, hc]
  rfl

/-- `pathSum` as a sum over the positions of the path. -/
theorem pathSum_eq_sum (f : String → String → ℚ) (p : List String) :
    pathSum f p = ∑ k in Finset.range (p.length - 1), f (p.getD k "") (p.getD (k + 1) "") := by
  induction p with
  | nil => simp [pathSum]
  | cons a rest ih =>
    cases rest with
    | nil => simp [pathSum]
    | cons b rest =>
      rw [pathSum_cons_cons, ih]
      simp only [List.length_cons, Nat.add_sub_cancel]
      rw [Finset.sum_range_succ']
      simp only [List.getD_cons_succ, List.getD_cons_zero]
      ring

theorem find_route_length (a b c d e : Json.Node) :
    UMap.find [("curvature", a), ("request_id", b), ("route_length", c), ("stop_count", d),
      ("unique_stop_count", e)] "route_length" = some c := by
  simp [UMap.find]

theorem find_curvature (a b c d e : Json.Node) :
    UMap.find [("curvature", a), ("request_id", b), ("route_length", c), ("stop_count", d),
      ("unique_stop_count", e)] "curvature" = some a := by
  simp [UMap.find]

/-! ## C4: the road length of a REGULAR bus -/

/-- C4 (as amended): for a REGULAR bus of a built network with listed stops
`s_0 .. s_{n-1}`, `ComputeDistanceForStop` succeeds and its `by_default`,
reported as `route_length`, is the sum over the hops `k` of
`GetDistance(s_k, s_{k+1})` plus the sum of the reverse-direction distances
`GetDistance(s_{k+1}, s_k)`; it is twice the forward sum when both directions
of every hop have the same road distance. -/
theorem C4_route_length (lm : Libm) (reqs : List BaseRequest) (w : Int) (v : ℚ)
    (m : TransportManager) (request_id : Int) (name : String) (bus : Bus)
    (hbuild : Build lm (ParseBaseRequests reqs w v) = .ok m)
    (hbus : UMap.find m.buses_ name = some bus) (hregular : bus.type_ = BusType.REGULAR) :
    ∃ (length : Distance) (forward backward : Nat → ℚ),
      m.ComputeDistanceForStop lm name = .ok length ∧
      (∃ entries, Requests.BusInfo.Process lm m request_id name = .ok (Json.Node.map entries) ∧
        UMap.find entries "route_length" =
          some (Json.Node.double (Double.finite length.by_default_))) ∧
      (∀ k, k + 1 < bus.stops_.length →
        m.GetDistance lm (bus.stops_.getD k "") (bus.stops_.getD (k + 1) "") = .ok (forward k) ∧
        m.GetDistance lm (bus.stops_.getD (k + 1) "") (bus.stops_.getD k "") = .ok (backward k)) ∧
      length.by_default_ =
        ∑ k in Finset.range (bus.stops_.length - 1), forward k +
        ∑ k in Finset.range (bus.stops_.length - 1), backward k ∧
      ((∀ k, k + 1 < bus.stops_.length → backward k = forward k) →
        length.by_default_ = 2 * ∑ k in Finset.range (bus.stops_.length - 1), forward k) := by
  have hreg := Build_BusStopsRegistered lm reqs w v m hbuild name bus hbus
  obtain ⟨length, hc, hp⟩ := BusInfo_Process_known lm m request_id name bus hbus hreg
  have hc' := ComputeDistanceForStop_closed lm m name bus hbus hreg
  rw [hc] at hc'
  simp only [hregular, if_true, Except.ok.injEq] at hc'
  have hlen : length.by_default_ =
      ∑ k in Finset.range (bus.stops_.length - 1),
        m.distanceOf lm (bus.stops_.getD k "") (bus.stops_.getD (k + 1) "") +
      ∑ k in Finset.range (bus.stops_.length - 1),
        m.distanceOf lm (bus.stops_.getD (k + 1) "") (bus.stops_.getD k "") := by
    rw [hc']
    simp only [pathSum_eq_sum]
  refine ⟨length, fun k => m.distanceOf lm (bus.stops_.getD k "") (bus.stops_.getD (k + 1) ""),
    fun k => m.distanceOf lm (bus.stops_.getD (k + 1) "") (bus.stops_.getD k ""), hc,
    ⟨_, hp, find_route_length _ _ _ _ _⟩, ?_, hlen, ?_⟩
  · intro k hk
    have h1 : bus.stops_.getD k "" ∈ bus.stops_ := by
      rw [List.getD_eq_getElem _ _ (by omega)]
      exact List.getElem_mem _
    have h2 : bus.stops_.getD (k + 1) "" ∈ bus.stops_ := by
      rw [List.getD_eq_getElem _ _ hk]
      exact List.getElem_mem _
    exact ⟨GetDistance_ok_of_registered lm m _ _ (hreg _ h1) (hreg _ h2),
      GetDistance_ok_of_registered lm m _ _ (hreg _ h2) (hreg _ h1)⟩
  · intro hsym
    rw [hlen, two_mul]
    congr 1
    apply Finset.sum_congr rfl
    intro k hk
    rw [Finset.mem_range] at hk
    exact hsym k (by omega)

theorem twoWayNetwork_built :
    Build Libm.sample (ParseBaseRequests twoWayRequests 5 60) = .ok twoWayNetwork := by
  decide!

/-- C4, witness: the REGULAR bus over `A`, `B` with 2000 m listed from `A` to `B` and
3000 m from `B` to `A` has road length 2000 + 3000. -/
theorem C4_route_length_witness :
    ∃ length, twoWayNetwork.ComputeDistanceForStop Libm.sample "1" = .ok length ∧
      length.by_default_ = 5000 := by
  obtain ⟨length, f, b, hc, _, hd, hlen, _⟩ :=
    C4_route_length Libm.sample twoWayRequests 5 60 twoWayNetwork 7 "1"
      ⟨BusType.REGULAR, ["A", "B"]⟩ twoWayNetwork_built rfl rfl
  refine ⟨length, hc, ?_⟩
  obtain ⟨h1, h2⟩ := hd 0 (by decide)
  have e1 : (Except.ok (f 0) : Except Error ℚ) = Except.ok 2000 := h1.symm.trans rfl
  have e2 : (Except.ok (b 0) : Except Error ℚ) = Except.ok 3000 := h2.symm.trans rfl
  simp only [Except.ok.injEq] at e1 e2
  rw [hlen]
  simp [e1, e2]
  norm_num

/-- C4, counterexample: in the network built from `twoWayRequests` the REGULAR bus
`1` runs over `A`, `B`, with 2000 m listed from `A` to `B` and 3000 m from `B` to
`A`; its `by_default` is 5000, not twice the forward road distance 2000. -/
theorem C4_counterexample :
    Build Libm.sample (ParseBaseRequests twoWayRequests 5 60) = .ok twoWayNetwork ∧
      UMap.find twoWayNetwork.buses_ "1" = some ⟨BusType.REGULAR, ["A", "B"]⟩ ∧
      twoWayNetwork.GetDistance Libm.sample "A" "B" = .ok 2000 ∧
      (twoWayNetwork.ComputeDistanceForStop Libm.sample "1").map (fun d => d.by_default_)
        = .ok 5000 ∧
      (5000 : ℚ) ≠ 2 * 2000 := by
  refine ⟨twoWayNetwork_built, by decide!, by decide!, by decide!, by norm_num⟩

/-! ## C5: curvature -/

/-- The geodesic distance is symmetric when the cosine of libm is even. -/
theorem ComputeDistanceForCoords_comm (lm : Libm) (hcos : ∀ x, lm.cos (-x) = lm.cos x)
    (a b : GeoCoordinates) : ComputeDistanceForCoords lm a b = ComputeDistanceForCoords lm b a := by
  unfold ComputeDistanceForCoords
  have h : lm.cos (a.longitude_ - b.longitude_) = lm.cos (b.longitude_ - a.longitude_) := by
    rw [← hcos (b.longitude_ - a.longitude_)]
    congr 1
    ring
  simp only [h]
  congr 2
  ring

theorem Double_one_le_div (a b : ℚ) (hb : 0 < b) (hab : b ≤ a) :
    Double.le (Double.finite 1) (Double.div a b) := by
  unfold Double.div
  rw [if_neg (ne_of_gt hb)]
  show (1 : ℚ) ≤ a / b
  rw [le_div_iff₀ hb]
  simpa using hab

/-- C5 (as amended): for every bus known to a built network whose listed path
`s_0 .. s_{n-1}` has a positive geodesic length, if on every hop the bus
travels (from `s_k` to `s_{k+1}`, and for a REGULAR bus also from `s_{k+1}` back
to `s_k`) `GetDistance` returns at least the geodesic distance (the cosine of
libm being even), then the curvature that `BusInfo::Process` reports,
`by_default / raw`, is a double `>= 1`. -/
theorem C5_curvature (lm : Libm) (reqs : List BaseRequest) (w : Int) (v : ℚ)
    (m : TransportManager) (request_id : Int) (name : String) (bus : Bus)
    (hbuild : Build lm (ParseBaseRequests reqs w v) = .ok m)
    (hbus : UMap.find m.buses_ name = some bus)
    (hcos : ∀ x, lm.cos (-x) = lm.cos x)
    (hpos : 0 < ∑ k in Finset.range (bus.stops_.length - 1),
      m.geoOf lm (bus.stops_.getD k "") (bus.stops_.getD (k + 1) ""))
    (hroad : ∀ k, k + 1 < bus.stops_.length →
      (∀ d, m.GetDistance lm (bus.stops_.getD k "") (bus.stops_.getD (k + 1) "") = .ok d →
        m.geoOf lm (bus.stops_.getD k "") (bus.stops_.getD (k + 1) "") ≤ d) ∧
      (bus.type_ = BusType.REGULAR →
        ∀ d, m.GetDistance lm (bus.stops_.getD (k + 1) "") (bus.stops_.getD k "") = .ok d →
          m.geoOf lm (bus.stops_.getD (k + 1) "") (bus.stops_.getD k "") ≤ d)) :
    ∃ length entries, m.ComputeDistanceForStop lm name = .ok length ∧
      Requests.BusInfo.Process lm m request_id name = .ok (Json.Node.map entries) ∧
      UMap.find entries "curvature" = some (Json.Node.double length.Curvature) ∧
      Double.le (Double.finite 1) length.Curvature := by
  have hreg := Build_BusStopsRegistered lm reqs w v m hbuild name bus hbus
  obtain ⟨length, hc, hp⟩ := BusInfo_Process_known lm m request_id name bus hbus hreg
  refine ⟨length, _, hc, hp, find_curvature _ _ _ _ _, ?_⟩
  have hc' := ComputeDistanceForStop_closed lm m name bus hbus hreg
  rw [hc] at hc'
  simp only [Except.ok.injEq] at hc'
  have hmem : ∀ k, k + 1 < bus.stops_.length →
      UMap.find m.stops_ (bus.stops_.getD k "") ≠ none ∧
      UMap.find m.stops_ (bus.stops_.getD (k + 1) "") ≠ none := by
    intro k hk
    constructor
    · apply hreg
      rw [List.getD_eq_getElem _ _ (by omega)]
      exact List.getElem_mem _
    · apply hreg
      rw [List.getD_eq_getElem _ _ hk]
      exact List.getElem_mem _
  have hfwd : ∑ k in Finset.range (bus.stops_.length - 1),
        m.geoOf lm (bus.stops_.getD k "") (bus.stops_.getD (k + 1) "") ≤
      ∑ k in Finset.range (bus.stops_.length - 1),
        m.distanceOf lm (bus.stops_.getD k "") (bus.stops_.getD (k + 1) "") := by
    apply Finset.sum_le_sum
    intro k hk
    rw [Finset.mem_range] at hk
    have hk' : k + 1 < bus.stops_.length := by omega
    exact (hroad k hk').1 _ (GetDistance_ok_of_registered lm m _ _ (hmem k hk').1 (hmem k hk').2)
  unfold Distance.Curvature
  rw [hc']
  simp only [pathSum_eq_sum]
  by_cases ht : bus.type_ = BusType.REGULAR
  · simp only [ht, if_true]
    have hbwd : ∑ k in Finset.range (bus.stops_.length - 1),
          m.geoOf lm (bus.stops_.getD k "") (bus.stops_.getD (k + 1) "") ≤
        ∑ k in Finset.range (bus.stops_.length - 1),
          m.distanceOf lm (bus.stops_.getD (k + 1) "") (bus.stops_.getD k "") := by
      apply Finset.sum_le_sum
      intro k hk
      rw [Finset.mem_range] at hk
      have hk' : k + 1 < bus.stops_.length := by omega
      have := (hroad k hk').2 ht _
        (GetDistance_ok_of_registered lm m _ _ (hmem k hk').2 (hmem k hk').1)
      have hsym : m.geoOf lm (bus.stops_.getD (k + 1) "") (bus.stops_.getD k "") =
          m.geoOf lm (bus.stops_.getD k "") (bus.stops_.getD (k + 1) "") :=
        ComputeDistanceForCoords_comm lm hcos _ _
      rw [hsym] at this
      exact this
    apply Double_one_le_div
    · linarith
    · linarith
  · simp only [ht, if_false]
    apply Double_one_le_div
    · linarith
    · linarith

theorem Libm_tabulated_cos_even (x : ℚ) : Libm.tabulated.cos (-x) = Libm.tabulated.cos x := by
  have h : ∀ k : ℚ, (-x = k ∨ -x = -k) ↔ (x = k ∨ x = -k) := by
    intro k
    constructor
    · rintro (h | h)
      · exact Or.inr (by rw [← h, neg_neg])
      · exact Or.inl (neg_inj.1 h)
    · rintro (h | h)
      · exact Or.inr (by rw [h])
      · exact Or.inl (by rw [h, neg_neg])
  simp only [Libm.tabulated, h]

theorem longRoadNetwork_built :
    Build Libm.tabulated (ParseBaseRequests longRoadRequests 5 60) = .ok longRoadNetwork := by
  decide!

/-- C5, witness: in the network built from `longRoadRequests`, with the values of the
C library, the geodesic distance of the one hop is between 111194 m and
111195 m and the road distances (120000 m and 130000 m) exceed it; `raw` is
twice the geodesic distance, `by_default` is 250000 and the curvature of bus
`1` is at least 1. -/
theorem C5_curvature_witness :
    (111194 < longRoadNetwork.geoOf Libm.tabulated "A" "B" ∧
      longRoadNetwork.geoOf Libm.tabulated "A" "B" < 111195) ∧
    ∃ length, longRoadNetwork.ComputeDistanceForStop Libm.tabulated "1" = .ok length ∧
      length.raw_ = 2 * longRoadNetwork.geoOf Libm.tabulated "A" "B" ∧
      length.by_default_ = 250000 ∧
      Double.le (Double.finite 1) length.Curvature := by
  have hgeo1 : longRoadNetwork.geoOf Libm.tabulated "A" "B" ≤ 120000 := by decide!
  have hgeo2 : longRoadNetwork.geoOf Libm.tabulated "B" "A" ≤ 130000 := by decide!
  have hd1 : longRoadNetwork.GetDistance Libm.tabulated "A" "B" = .ok 120000 := by decide!
  have hd2 : longRoadNetwork.GetDistance Libm.tabulated "B" "A" = .ok 130000 := by decide!
  have hval : longRoadNetwork.ComputeDistanceForStop Libm.tabulated "1" =
      .ok ⟨2 * longRoadNetwork.geoOf Libm.tabulated "A" "B", 250000⟩ := by decide!
  obtain ⟨length, _, hc, _, _, hle⟩ :=
    C5_curvature Libm.tabulated longRoadRequests 5 60 longRoadNetwork 7 "1"
      ⟨BusType.REGULAR, ["A", "B"]⟩ longRoadNetwork_built rfl Libm_tabulated_cos_even
      (by
        have h : (0 : ℚ) < longRoadNetwork.geoOf Libm.tabulated "A" "B" := by decide!
        simpa using h)
      (by
        intro k hk
        have hk0 : k = 0 := by
          simp only [List.length_cons, List.length_nil] at hk
          omega
        subst hk0
        refine ⟨fun d hd => ?_, fun _ d hd => ?_⟩
        · have hd' : longRoadNetwork.GetDistance Libm.tabulated "A" "B" = .ok d := hd
          rw [hd1] at hd'
          simp only [Except.ok.injEq] at hd'
          rw [← hd']
          exact hgeo1
        · have hd' : longRoadNetwork.GetDistance Libm.tabulated "B" "A" = .ok d := hd
          rw [hd2] at hd'
          simp only [Except.ok.injEq] at hd'
          rw [← hd']
          exact hgeo2)
  have hlen : length = ⟨2 * longRoadNetwork.geoOf Libm.tabulated "A" "B", 250000⟩ := by
    rw [hval] at hc
    simp only [Except.ok.injEq] at hc
    exact hc.symm
  refine ⟨⟨by decide!, by decide!⟩, length, hc, ?_, ?_, hle⟩
  · rw [hlen]
  · rw [hlen]

/-- C5, counterexample: the stops `A` and `B` are distinct and have the same
coordinates, no road distance is listed, and the REGULAR bus `1` runs over
`A`, `B`.  On both hops `GetDistance` equals the geodesic distance 0, yet the
curvature is `0 / 0`, a NaN, which is not `>= 1`. -/
theorem C5_counterexample :
    Build Libm.sample (ParseBaseRequests coincidentRequests 5 60) = .ok coincidentNetwork ∧
      UMap.find coincidentNetwork.buses_ "1" = some ⟨BusType.REGULAR, ["A", "B"]⟩ ∧
      ("A" : String) ≠ "B" ∧
      coincidentNetwork.GetDistance Libm.sample "A" "B" = .ok 0 ∧
      coincidentNetwork.geoOf Libm.sample "A" "B" = 0 ∧
      coincidentNetwork.GetDistance Libm.sample "B" "A" = .ok 0 ∧
      coincidentNetwork.geoOf Libm.sample "B" "A" = 0 ∧
      (coincidentNetwork.ComputeDistanceForStop Libm.sample "1").map Distance.Curvature =
        .ok Double.nan ∧
      ¬ Double.le (Double.finite 1) Double.nan := by
  refine ⟨by decide!, by decide!, by decide, by decide!, by decide!, by decide!, by decide!,
    by decide!, ?_⟩
  intro h
  exact h

/-! ## C6: the buses of a stop -/

theorem strLess_iff (a b : String) : strLess a b ↔ a < b :=
  String.lt_iff_toList_lt.symm

theorem setInsert_pairwise (x : String) (l : List String) (h : l.Pairwise strLess) :
    (setInsert x l).Pairwise strLess := by
  induction l with
  | nil => simp [setInsert]
  | cons y ys ih =>
    rw [List.pairwise_cons] at h
    obtain ⟨hy, hys⟩ := h
    by_cases h1 : strLess x y
    · simp only [setInsert, h1, if_true]
      refine List.pairwise_cons.2 ⟨?_, List.pairwise_cons.2 ⟨hy, hys⟩⟩
      intro z hz
      rcases List.mem_cons.1 hz with rfl | hz
      · exact h1
      · exact (strLess_iff _ _).2 (lt_trans ((strLess_iff _ _).1 h1) ((strLess_iff _ _).1 (hy z
          hz)))
    · by_cases h2 : x = y
      · subst h2
        simp only [setInsert, h1, if_false, if_true]
        exact List.pairwise_cons.2 ⟨hy, hys⟩
      · simp only [setInsert, h1, h2, if_false]
        refine List.pairwise_cons.2 ⟨?_, ih hys⟩
        intro z hz
        rcases (mem_setInsert x z ys).1 hz with rfl | hz
        · rw [strLess_iff] at h1 ⊢
          rcases lt_trichotomy z y with h | h | h
          · exact absurd h h1
          · exact absurd h h2
          · exact h
        · exact hy z hz

theorem pairwise_strLess_nodup (l : List String) (h : l.Pairwise strLess) : l.Nodup := by
  refine h.imp ?_
  intro a b hab
  rw [strLess_iff] at hab
  exact ne_of_lt hab

/-- In a built network every stop's set of buses is ascending and exact. -/
theorem Build_StopBusesExact (lm : Libm) (reqs : List BaseRequest) (w : Int) (v : ℚ)
    (m : TransportManager) (h : Build lm (ParseBaseRequests reqs w v) = .ok m) :
    m.StopBusesExact := by
  obtain ⟨m1, h1, h2⟩ := Build_phases lm reqs w v m h
  obtain ⟨_, _, _, _, hb, _, _, _, _, hempty⟩ := Build_before_buses reqs w v m1 h1
  refine BuildBuses_induct lm StopBusesExact ?_ _ m1 m ?_ h2
  · intro m0 r m' h0 hs
    obtain ⟨mm, _, _, _, _, _, _, _, _, i9, i10, _, hm'⟩ := BuildBuses_step_spec lm m0 m' r hs
    obtain ⟨_, f2, f3, _⟩ := pushEdges_frame
      (stepEdges mm.boardIdOf mm.waitIdOf (mm.hopTime lm) r.name
        ⟨r.type_, stopsBefore m0 r.name ++ r.stops⟩) mm
    rw [← hm'] at f2 f3
    intro S stop hS
    rw [f2, i10 S] at hS
    cases hS0 : UMap.find m0.stops_ S with
    | none => simp [hS0] at hS
    | some stop0 =>
      rw [hS0] at hS
      simp only [Option.map_some', Option.some.injEq] at hS
      obtain ⟨hsorted, hexact⟩ := h0 S stop0 hS0
      have hbefore : S ∈ stopsBefore m0 r.name ↔ r.name ∈ stop0.buses_ := by
        rw [hexact r.name]
        constructor
        · intro hmem
          obtain ⟨b0, hf, hs0⟩ := mem_stopsBefore m0 r.name S hmem
          exact ⟨b0, hf, hs0⟩
        · rintro ⟨b0, hf, hs0⟩
          simp only [stopsBefore, hf]
          exact hs0
      have hbus : ∀ b, (∃ bus, UMap.find m'.buses_ b = some bus ∧ S ∈ bus.stops_) ↔
          ((b = r.name ∧ (r.name ∈ stop0.buses_ ∨ S ∈ r.stops)) ∨
            (b ≠ r.name ∧ b ∈ stop0.buses_)) := by
        intro b
        rw [f3]
        simp only [i9 b]
        by_cases hk : r.name = b
        · subst hk
          simp only [if_true, Option.some.injEq, exists_eq_left', List.mem_append, hbefore,
            true_and, ne_eq, not_true_eq_false, false_and, or_false]
        · have hk' : b ≠ r.name := fun hh => hk hh.symm
          simp only [hk, if_false, hk', false_and, false_or, ne_eq, not_false_eq_true, true_and]
          exact (hexact b).symm
      by_cases hin : S ∈ r.stops
      · simp only [hin, if_true] at hS
        subst hS
        refine ⟨setInsert_pairwise _ _ hsorted, ?_⟩
        intro b
        rw [hbus b]
        simp only [mem_setInsert, hin, or_true, and_true]
        by_cases hb' : b = r.name <;> simp [hb']
      · simp only [hin, if_false] at hS
        subst hS
        refine ⟨hsorted, ?_⟩
        intro b
        rw [hbus b]
        simp only [hin, or_false]
        by_cases hb' : b = r.name
        · subst hb'
          simp
        · simp [hb']
  · intro S stop hS
    rw [hempty S stop hS, hb]
    simp [UMap.find]

/-- The response of `StopInfo::Process` for a registered stop. -/
theorem StopInfo_Process_known (m : TransportManager) (request_id : Int) (S : String)
    (stop : Stop) (hS : UMap.find m.stops_ S = some stop) :
    Requests.StopInfo.Process m request_id S =
      .ok (Json.Node.map
        [("buses", Json.Node.array (stop.buses_.map Json.Node.string)),
          ("request_id", Json.Node.int request_id)]) := by
  unfold Requests.StopInfo.Process
  simp only [GetStop, derefStop, hS]
  rfl

/-- C6: for every built network and every registered stop `S`, `StopInfo::Process`
returns the map of `request_id` and `buses`, where `buses` is a list of
strings that is strictly ascending (hence without duplicates) and whose
elements are exactly the names of the buses whose listed stops include `S`
(the empty list when there is none). -/
theorem C6_stop_buses (lm : Libm) (reqs : List BaseRequest) (w : Int) (v : ℚ)
    (m : TransportManager) (request_id : Int) (S : String) (stop : Stop)
    (hbuild : Build lm (ParseBaseRequests reqs w v) = .ok m)
    (hS : UMap.find m.stops_ S = some stop) :
    ∃ buses : List String,
      Requests.StopInfo.Process m request_id S =
        .ok (Json.Node.map
          [("buses", Json.Node.array (buses.map Json.Node.string)),
            ("request_id", Json.Node.int request_id)]) ∧
      buses.Pairwise strLess ∧ buses.Nodup ∧
      (∀ b, b ∈ buses ↔ ∃ bus, UMap.find m.buses_ b = some bus ∧ S ∈ bus.stops_) ∧
      ((∀ b bus, UMap.find m.buses_ b = some bus → S ∉ bus.stops_) → buses = []) := by
  obtain ⟨hsorted, hexact⟩ := Build_StopBusesExact lm reqs w v m hbuild S stop hS
  refine ⟨stop.buses_, StopInfo_Process_known m request_id S stop hS, hsorted,
    pairwise_strLess_nodup _ hsorted, hexact, ?_⟩
  intro hnone
  apply List.eq_nil_iff_forall_not_mem.2
  intro b hb
  obtain ⟨bus, hbus, hmem⟩ := (hexact b).1 hb
  exact hnone b bus hbus hmem

theorem servedStopNetwork_built :
    Build Libm.sample (ParseBaseRequests servedStopRequests 5 60) = .ok servedStopNetwork := by
  decide!

/-- C6, witness: the stop `S` served by the buses `7` and `12` yields `["12", "7"]`. -/
theorem C6_stop_buses_witness :
    (∃ buses : List String,
      Requests.StopInfo.Process servedStopNetwork 3 "S" =
        .ok (Json.Node.map
          [("buses", Json.Node.array (buses.map Json.Node.string)),
            ("request_id", Json.Node.int 3)]) ∧
      buses.Pairwise strLess ∧ buses.Nodup ∧
      (∀ b, b ∈ buses ↔
        ∃ bus, UMap.find servedStopNetwork.buses_ b = some bus ∧ "S" ∈ bus.stops_) ∧
      ((∀ b bus, UMap.find servedStopNetwork.buses_ b = some bus → "S" ∉ bus.stops_) →
        buses = [])) ∧
    Requests.StopInfo.Process servedStopNetwork 3 "S" =
      .ok (Json.Node.map
        [("buses", Json.Node.array [Json.Node.string "12", Json.Node.string "7"]),
          ("request_id", Json.Node.int 3)]) :=
  ⟨C6_stop_buses Libm.sample servedStopRequests 5 60 servedStopNetwork 3 "S" _
    servedStopNetwork_built rfl, rfl⟩

/-! ## C10: vertex ids -/

theorem VertexTables_of_frame {m0 m : TransportManager} {names : List String}
    (h : VertexTables m0 names) (hf : BusFrame m0 m) : VertexTables m names := by
  refine ⟨hf.keys.trans h.keys, h.nodup, ?_, ?_, ?_, ?_, ?_, ?_, ?_, ?_⟩
  · rw [hf.stop_to_vertex_id]; exact h.board_size
  · rw [hf.wait_stop_to_vertex_id]; exact h.wait_size
  · rw [hf.stop_to_vertex_id]; exact h.board
  · rw [hf.wait_stop_to_vertex_id]; exact h.wait
  · rw [hf.vertex_id_to_stop]; exact h.stop_of
  · rw [hf.stop_to_vertex_id]; exact h.board_none
  · rw [hf.wait_stop_to_vertex_id]; exact h.wait_none
  · rw [hf.vertex_id_to_stop]; exact h.stop_of_none

/-- The vertex tables of a built network follow the registration order. -/
theorem Build_VertexTables (lm : Libm) (reqs : List BaseRequest) (w : Int) (v : ℚ)
    (m : TransportManager) (h : Build lm (ParseBaseRequests reqs w v) = .ok m) :
    VertexTables m (registrationOrder (stopRequests reqs)) ∧
    m.graph.vertex_count = (stopRequests reqs).length * 2 ∧
    m.settings = RoutingSettings.make w v := by
  obtain ⟨m1, h1, h2⟩ := Build_phases lm reqs w v m h
  obtain ⟨hv, _, _, _, _, _, hset, hvc, _⟩ := Build_before_buses reqs w v m1 h1
  have hf := BuildBuses_frame lm _ m1 m h2
  exact ⟨VertexTables_of_frame hv hf, hf.vertex_count.trans hvc, hf.settings.trans hset⟩

theorem registrationOrder_foldl_length (rs : List StopRequest) (names : List String) :
    (rs.foldl registrationOrder.step names).length ≤ names.length + rs.length := by
  induction rs generalizing names with
  | nil => simp
  | cons r rest ih =>
    rw [List.foldl_cons]
    have h1 := ih (registrationOrder.step names r)
    have h2 : (registrationOrder.step names r).length ≤ names.length + 1 := by
      unfold registrationOrder.step
      by_cases h : r.name ∈ names <;> simp [h]
    simp only [List.length_cons]
    omega

theorem registrationOrder_foldl_nodup (rs : List StopRequest) (names : List String)
    (h : (names ++ rs.map (fun r => r.name)).Nodup) :
    rs.foldl registrationOrder.step names = names ++ rs.map (fun r => r.name) := by
  induction rs generalizing names with
  | nil => simp
  | cons r rest ih =>
    rw [List.foldl_cons]
    have hr : r.name ∉ names := by
      intro hmem
      rw [List.nodup_append] at h
      exact h.2.2 hmem (by simp)
    have hstep : registrationOrder.step names r = names ++ [r.name] := by
      simp [registrationOrder.step, hr]
    rw [hstep, ih]
    · simp
    · simpa using h

theorem nodup_getElem?_inj {α : Type} (l : List α) (h : l.Nodup) (i j : Nat) (x : α)
    (hi : l[i]? = some x) (hj : l[j]? = some x) : i = j := by
  obtain ⟨hi', ei⟩ := List.getElem?_eq_some.1 hi
  obtain ⟨hj', ej⟩ := List.getElem?_eq_some.1 hj
  exact (List.Nodup.getElem_inj_iff h).1 (ei.trans ej.symm)

theorem VertexTables.mem_iff {m : TransportManager} {names : List String}
    (h : VertexTables m names) (S : String) : UMap.find m.stops_ S ≠ none ↔ S ∈ names := by
  rw [Ne, UMap.find_eq_none_iff, h.keys, not_not]

theorem VertexTables.board_iff {m : TransportManager} {names : List String}
    (h : VertexTables m names) (S : String) (b : Nat) :
    m.GetVertexIdByStop S = .ok b ↔ ∃ i, names[i]? = some S ∧ b = 2 * i := by
  unfold GetVertexIdByStop GetStop tableAt
  cases hf : UMap.find m.stops_ S with
  | none =>
    have hS : S ∉ names := by
      rw [← h.mem_iff S, hf]
      simp
    simp only [false_iff, reduceCtorEq]
    rintro ⟨i, hi, _⟩
    exact hS (List.getElem?_mem hi)
  | some s =>
    have hS : S ∈ names := by
      rw [← h.mem_iff S, hf]
      simp
    obtain ⟨i, hi, hget⟩ := List.getElem_of_mem hS
    have hget' : names[i]? = some S := by rw [List.getElem?_eq_getElem hi, hget]
    simp only [h.board i S hget', Except.ok.injEq]
    constructor
    · intro hb
      exact ⟨i, hget', hb.symm⟩
    · rintro ⟨j, hj, rfl⟩
      rw [nodup_getElem?_inj names h.nodup i j S hget' hj]

theorem VertexTables.wait_iff {m : TransportManager} {names : List String}
    (h : VertexTables m names) (S : String) (b : Nat) :
    m.GetVertexIdByWaitStop S = .ok b ↔ ∃ i, names[i]? = some S ∧ b = 2 * i + 1 := by
  unfold GetVertexIdByWaitStop GetStop tableAt
  cases hf : UMap.find m.stops_ S with
  | none =>
    have hS : S ∉ names := by
      rw [← h.mem_iff S, hf]
      simp
    simp only [false_iff, reduceCtorEq]
    rintro ⟨i, hi, _⟩
    exact hS (List.getElem?_mem hi)
  | some s =>
    have hS : S ∈ names := by
      rw [← h.mem_iff S, hf]
      simp
    obtain ⟨i, hi, hget⟩ := List.getElem_of_mem hS
    have hget' : names[i]? = some S := by rw [List.getElem?_eq_getElem hi, hget]
    simp only [h.wait i S hget', Except.ok.injEq]
    constructor
    · intro hb
      exact ⟨i, hget', hb.symm⟩
    · rintro ⟨j, hj, rfl⟩
      rw [nodup_getElem?_inj names h.nodup i j S hget' hj]

/-- C10: after `Build`, with `names` the registered stops in `Stop`-request order
(each name at its first request) and `n` their number, the store holds `n`
stops, the stop at position `i` has board vertex `2i` and wait vertex `2i + 1`;
so no board id is a wait id, the assigned ids are exactly the numbers below
`2n`, and each is below the vertex count the graph was constructed with.  When
the `Stop` requests have distinct names, `names` is the list of their names. -/
theorem C10_vertex_ids (lm : Libm) (reqs : List BaseRequest) (w : Int) (v : ℚ)
    (m : TransportManager)
    (hbuild : Build lm (ParseBaseRequests reqs w v) = .ok m) :
    m.stops_.length = (registrationOrder (stopRequests reqs)).length ∧
    (∀ i S, (registrationOrder (stopRequests reqs))[i]? = some S →
      m.GetVertexIdByStop S = .ok (2 * i : Nat) ∧
      m.GetVertexIdByWaitStop S = .ok (2 * i + 1 : Nat)) ∧
    (∀ (S T : String) (b : Nat),
      m.GetVertexIdByStop S = .ok b → m.GetVertexIdByWaitStop T ≠ .ok b) ∧
    (∀ x : Nat, x < 2 * m.stops_.length ↔
      ∃ S, m.GetVertexIdByStop S = .ok x ∨ m.GetVertexIdByWaitStop S = .ok x) ∧
    (∀ (S : String) (x : Nat),
      m.GetVertexIdByStop S = .ok x ∨ m.GetVertexIdByWaitStop S = .ok x →
      x < m.graph.vertex_count) ∧
    (((stopRequests reqs).map (fun r => r.name)).Nodup →
      registrationOrder (stopRequests reqs) = (stopRequests reqs).map (fun r => r.name)) := by
  obtain ⟨ht, hvc, _⟩ := Build_VertexTables lm reqs w v m hbuild
  have hlen : m.stops_.length = (registrationOrder (stopRequests reqs)).length := by
    rw [← ht.keys]
    simp
  have hbound : (registrationOrder (stopRequests reqs)).length ≤ (stopRequests reqs).length := by
    have := registrationOrder_foldl_length (stopRequests reqs) []
    simpa [registrationOrder] using this
  have hlt : ∀ i S, (registrationOrder (stopRequests reqs))[i]? = some S →
      i < (registrationOrder (stopRequests reqs)).length := by
    intro i S hi
    exact (List.getElem?_eq_some.1 hi).1
  refine ⟨hlen, ?_, ?_, ?_, ?_, ?_⟩
  · intro i S hi
    exact ⟨(ht.board_iff S _).2 ⟨i, hi, rfl⟩, (ht.wait_iff S _).2 ⟨i, hi, rfl⟩⟩
  · intro S T b hb hw
    obtain ⟨i, _, hi⟩ := (ht.board_iff S b).1 hb
    obtain ⟨j, _, hj⟩ := (ht.wait_iff T b).1 hw
    omega
  · intro x
    rw [hlen]
    constructor
    · intro hx
      have hx2 : x / 2 < (registrationOrder (stopRequests reqs)).length := by omega
      have hget : (registrationOrder (stopRequests reqs))[x / 2]? =
          some ((registrationOrder (stopRequests reqs))[x / 2]) :=
        List.getElem?_eq_getElem hx2
      refine ⟨(registrationOrder (stopRequests reqs))[x / 2], ?_⟩
      rcases Nat.mod_two_eq_zero_or_one x with h0 | h1
      · left
        exact (ht.board_iff _ _).2 ⟨x / 2, hget, by omega⟩
      · right
        exact (ht.wait_iff _ _).2 ⟨x / 2, hget, by omega⟩
    · rintro ⟨S, hS | hS⟩
      · obtain ⟨i, hi, rfl⟩ := (ht.board_iff S x).1 hS
        have := hlt i S hi
        omega
      · obtain ⟨i, hi, rfl⟩ := (ht.wait_iff S x).1 hS
        have := hlt i S hi
        omega
  · intro S x hx
    rw [hvc]
    rcases hx with hS | hS
    · obtain ⟨i, hi, rfl⟩ := (ht.board_iff S x).1 hS
      have := hlt i S hi
      omega
    · obtain ⟨i, hi, rfl⟩ := (ht.wait_iff S x).1 hS
      have := hlt i S hi
      omega
  · intro hnodup
    have := registrationOrder_foldl_nodup (stopRequests reqs) [] (by simpa using hnodup)
    simpa [registrationOrder] using this

/-- C10, witness: in the network built from `twoWayRequests` the stop `B`, registered
second, has board vertex 2 and wait vertex 3, and the graph has 4 vertices. -/
theorem C10_vertex_ids_witness :
    twoWayNetwork.GetVertexIdByStop "B" = .ok 2 ∧
    twoWayNetwork.GetVertexIdByWaitStop "B" = .ok 3 ∧
    twoWayNetwork.graph.vertex_count = 4 :=
  ⟨((C10_vertex_ids Libm.sample twoWayRequests 5 60 twoWayNetwork twoWayNetwork_built).2.1
      1 "B" rfl).1,
    ((C10_vertex_ids Libm.sample twoWayRequests 5 60 twoWayNetwork twoWayNetwork_built).2.1
      1 "B" rfl).2, rfl⟩

/-! ### Edges and metadata after `pushEdges` -/

theorem pushEdges_edges (es : List (Edge × EdgeInfo)) (m : TransportManager) :
    (m.pushEdges es).graph.edges_ = m.graph.edges_ ++ es.map Prod.fst := by
  induction es generalizing m with
  | nil => simp [pushEdges]
  | cons e rest ih =>
    have := ih (m.pushEdge e)
    simp only [pushEdges, List.foldl_cons] at this ⊢
    rw [this]
    simp [pushEdge, DirectedWeightedGraph.AddEdge]

theorem pushEdges_info (es : List (Edge × EdgeInfo)) (m : TransportManager) (hfresh : m.InfoFresh) :
    (m.pushEdges es).InfoFresh ∧
    ∀ id : Nat, UMap.find (m.pushEdges es).edge_id_to_info id =
      if id < m.graph.edges_.length then UMap.find m.edge_id_to_info id
      else (es[id - m.graph.edges_.length]?).map Prod.snd := by
  induction es generalizing m with
  | nil =>
    refine ⟨hfresh, ?_⟩
    intro id
    by_cases h : id < m.graph.edges_.length
    · simp [pushEdges, h]
    · simp [pushEdges, h, hfresh id (Nat.le_of_not_lt h)]
  | cons e rest ih =>
    have hlen : (m.pushEdge e).graph.edges_.length = m.graph.edges_.length + 1 := by
      simp [pushEdge, DirectedWeightedGraph.AddEdge]
    have hfind : ∀ id : Nat, UMap.find (m.pushEdge e).edge_id_to_info id =
        if id < m.graph.edges_.length then UMap.find m.edge_id_to_info id
        else if id = m.graph.edges_.length then some e.2 else none := by
      intro id
      simp only [pushEdge, DirectedWeightedGraph.AddEdge, UMap.find_emplace]
      by_cases h : id < m.graph.edges_.length
      · have hne : m.graph.edges_.length ≠ id := by omega
        simp only [h, if_true, hne, if_false]
        cases UMap.find m.edge_id_to_info id <;> rfl
      · rw [hfresh id (Nat.le_of_not_lt h)]
        simp only [h, if_false]
        by_cases h' : id = m.graph.edges_.length
        · simp [h']
        · have : m.graph.edges_.length ≠ id := fun hh => h' hh.symm
          simp [h', this]
    have hfresh1 : (m.pushEdge e).InfoFresh := by
      intro id hid
      rw [hlen] at hid
      rw [hfind id]
      have h1 : ¬ id < m.graph.edges_.length := by omega
      have h2 : ¬ id = m.graph.edges_.length := by omega
      simp [h1, h2]
    obtain ⟨i1, i2⟩ := ih (m.pushEdge e) hfresh1
    refine ⟨i1, ?_⟩
    intro id
    have hpe : m.pushEdges (e :: rest) = (m.pushEdge e).pushEdges rest := rfl
    rw [hpe, i2 id, hlen, hfind id]
    by_cases h : id < m.graph.edges_.length
    · have h' : id < m.graph.edges_.length + 1 := by omega
      simp [h, h']
    · by_cases h' : id = m.graph.edges_.length
      · subst h'
        simp
      · have h1 : ¬ id < m.graph.edges_.length + 1 := by omega
        have h2 : id - m.graph.edges_.length = (id - (m.graph.edges_.length + 1)) + 1 := by omega
        simp only [h, h1, if_false]
        rw [h2, List.getElem?_cons_succ]

/-! ### The kinds of edges of a built graph -/

theorem rideEdges_kind (wait : String → VertexId) (hop : String → String → ℚ) (bus : String)
    (v : VertexId) (rest : List String) (last : String) (c : Int) (w : ℚ) :
    ∀ p ∈ rideEdges wait hop bus v last rest c w,
      p.1.weight.type_ = EdgeType.BUS ∧ p.2.bus_ptr = some bus := by
  induction rest generalizing last c w with
  | nil => simp [rideEdges]
  | cons next rest ih =>
    intro p hp
    simp only [rideEdges, List.mem_cons] at hp
    rcases hp with rfl | hp
    · exact ⟨rfl, rfl⟩
    · exact ih _ _ _ p hp

theorem busEdges_kind (board wait : String → VertexId) (hop : String → String → ℚ) (bus : String)
    (stops : List String) (wb : Bool) (rest : List String) :
    ∀ p ∈ busEdges board wait hop bus stops wb rest,
      p.1.weight.type_ = EdgeType.BUS ∧ p.2.bus_ptr = some bus := by
  induction rest with
  | nil => simp [busEdges]
  | cons s rest ih =>
    intro p hp
    simp only [busEdges, originEdges, List.mem_append] at hp
    rcases hp with (hp | hp) | hp
    · exact rideEdges_kind _ _ _ _ _ _ _ _ p hp
    · cases wb with
      | false => simp at hp
      | true =>
        simp only [if_true, backEdges] at hp
        cases hr : stops.reverse with
        | nil => simp [hr] at hp
        | cons first back =>
          rw [hr] at hp
          exact rideEdges_kind _ _ _ _ _ _ _ _ p hp
    · exact ih p hp

theorem stepEdges_kind (board wait : String → VertexId) (hop : String → String → ℚ)
    (bus_ptr : String) (bus : Bus) :
    ∀ p ∈ stepEdges board wait hop bus_ptr bus,
      p.1.weight.type_ = EdgeType.BUS ∧ p.2.bus_ptr = some bus_ptr := by
  intro p hp
  simp only [stepEdges, List.mem_append] at hp
  rcases hp with hp | hp
  · exact busEdges_kind _ _ _ _ _ _ _ p hp
  · by_cases ht : bus.type_ = BusType.REGULAR
    · simp only [ht, if_true] at hp
      exact busEdges_kind _ _ _ _ _ _ _ p hp
    · simp [ht] at hp

theorem BusFrame.GetStop {m0 m : TransportManager} (h : BusFrame m0 m) (S : String) :
    m.GetStop S = m0.GetStop S := by
  unfold TransportManager.GetStop
  have hk : UMap.find m.stops_ S = none ↔ UMap.find m0.stops_ S = none := by
    rw [UMap.find_eq_none_iff, UMap.find_eq_none_iff, h.keys]
  cases h1 : UMap.find m.stops_ S <;> cases h2 : UMap.find m0.stops_ S <;> simp_all

theorem BusFrame.GetVertexIdByStop {m0 m : TransportManager} (h : BusFrame m0 m) (S : String) :
    m.GetVertexIdByStop S = m0.GetVertexIdByStop S := by
  unfold TransportManager.GetVertexIdByStop
  rw [h.GetStop, h.stop_to_vertex_id]

theorem BusFrame.GetVertexIdByWaitStop {m0 m : TransportManager} (h : BusFrame m0 m)
    (S : String) : m.GetVertexIdByWaitStop S = m0.GetVertexIdByWaitStop S := by
  unfold TransportManager.GetVertexIdByWaitStop
  rw [h.GetStop, h.wait_stop_to_vertex_id]

theorem BusFrame.GetStopByVertexId {m0 m : TransportManager} (h : BusFrame m0 m)
    (x : VertexId) : m.GetStopByVertexId x = m0.GetStopByVertexId x := by
  unfold TransportManager.GetStopByVertexId
  rw [h.vertex_id_to_stop]

/-- The edges and the metadata one iteration of the loop of `BuildBuses` adds. -/
theorem BuildBuses_step_edges (lm : Libm) (m m' : TransportManager) (r : BusRequest)
    (hfresh : m.InfoFresh) (h : BuildBuses.step lm m r = .ok m') :
    ∃ L : List (Edge × EdgeInfo),
      L = stepEdges m'.boardIdOf m'.waitIdOf (m'.hopTime lm) r.name
        ⟨r.type_, stopsBefore m r.name ++ r.stops⟩ ∧
      m'.graph.edges_ = m.graph.edges_ ++ L.map Prod.fst ∧
      m'.InfoFresh ∧
      (∀ id : Nat, UMap.find m'.edge_id_to_info id =
        if id < m.graph.edges_.length then UMap.find m.edge_id_to_info id
        else (L[id - m.graph.edges_.length]?).map Prod.snd) ∧
      UMap.find m'.buses_ r.name = some ⟨r.type_, stopsBefore m r.name ++ r.stops⟩ ∧
      (∀ k, k ≠ r.name → UMap.find m'.buses_ k = UMap.find m.buses_ k) := by
  obtain ⟨m1, _, _, _, _, _, _, i7, i8, i9, _, _, hm'⟩ := BuildBuses_step_spec lm m m' r h
  have hfresh1 : m1.InfoFresh := by
    intro id hid
    rw [i7]
    rw [i8] at hid
    exact hfresh id hid
  obtain ⟨e1, e2, e3⟩ := pushEdges_env lm
    (stepEdges m1.boardIdOf m1.waitIdOf (m1.hopTime lm) r.name
      ⟨r.type_, stopsBefore m r.name ++ r.stops⟩) m1
  rw [← hm'] at e1 e2 e3
  obtain ⟨p1, p2⟩ := pushEdges_info
    (stepEdges m1.boardIdOf m1.waitIdOf (m1.hopTime lm) r.name
      ⟨r.type_, stopsBefore m r.name ++ r.stops⟩) m1 hfresh1
  have p3 := pushEdges_edges
    (stepEdges m1.boardIdOf m1.waitIdOf (m1.hopTime lm) r.name
      ⟨r.type_, stopsBefore m r.name ++ r.stops⟩) m1
  obtain ⟨_, _, f3, _⟩ := pushEdges_frame
    (stepEdges m1.boardIdOf m1.waitIdOf (m1.hopTime lm) r.name
      ⟨r.type_, stopsBefore m r.name ++ r.stops⟩) m1
  rw [← hm'] at p1 p2 p3 f3
  rw [i8] at p2 p3
  rw [i7] at p2
  refine ⟨_, ?_, p3, p1, p2, ?_, ?_⟩
  · rw [e1, e2, e3]
  · rw [f3, i9]
    simp
  · intro k hk
    rw [f3, i9]
    simp [Ne.symm hk]

theorem forall₂_exists_left {α β : Type} {R : α → β → Prop} {l₁ : List α} {l₂ : List β}
    (h : List.Forall₂ R l₁ l₂) : ∀ b ∈ l₂, ∃ a ∈ l₁, R a b := by
  induction h with
  | nil => simp
  | cons hab _ ih =>
    intro b hb
    rcases List.mem_cons.1 hb with rfl | hb
    · exact ⟨_, List.mem_cons_self _ _, hab⟩
    · obtain ⟨a, ha, hr⟩ := ih b hb
      exact ⟨a, List.mem_cons_of_mem _ ha, hr⟩

/-- In a built network the metadata table is in step with the graph and every edge
is a wait edge of a registered stop or a bus edge with metadata. -/
theorem Build_EdgesKnown (lm : Libm) (reqs : List BaseRequest) (w : Int) (v : ℚ)
    (m : TransportManager) (h : Build lm (ParseBaseRequests reqs w v) = .ok m) :
    m.InfoFresh ∧ m.EdgesKnown := by
  obtain ⟨m1, h1, h2⟩ := Build_phases lm reqs w v m h
  obtain ⟨hv, _, _, _, _, hinfo, _, _, hedges, _⟩ := Build_before_buses reqs w v m1 h1
  refine BuildBuses_induct lm (fun m => m.InfoFresh ∧ m.EdgesKnown) ?_ _ m1 m ?_ h2
  · rintro m0 r m' ⟨hfresh, hknown⟩ hs
    obtain ⟨L, hL, hE, hF, hI, _, _⟩ := BuildBuses_step_edges lm m0 m' r hfresh hs
    have hf := BuildBuses_step_frame lm m0 m' r hs
    refine ⟨hF, ?_⟩
    intro id e he
    rw [hE] at he
    by_cases hid : id < m0.graph.edges_.length
    · rw [List.getElem?_append_left hid] at he
      obtain ⟨k1, k2⟩ := hknown id e he
      refine ⟨?_, ?_⟩
      · intro ht
        obtain ⟨S, s1, s2, s3⟩ := k1 ht
        exact ⟨S, by rw [hf.GetVertexIdByWaitStop]; exact s1,
          by rw [hf.GetVertexIdByStop]; exact s2, by rw [hf.GetStopByVertexId]; exact s3⟩
      · intro ht
        obtain ⟨info, bus, b1, b2⟩ := k2 ht
        refine ⟨info, bus, ?_, b2⟩
        unfold GetEdgeInfoByEdgeId tableAt at b1 ⊢
        simp only [hI id, hid, if_true]
        exact b1
    · rw [List.getElem?_append_right (Nat.le_of_not_lt hid), List.getElem?_map] at he
      cases hget : L[id - m0.graph.edges_.length]? with
      | none => simp [hget] at he
      | some p =>
        rw [hget] at he
        simp only [Option.map_some', Option.some.injEq] at he
        have hp : p ∈ L := List.getElem?_mem hget
        rw [hL] at hp
        obtain ⟨q1, q2⟩ := stepEdges_kind _ _ _ _ _ p hp
        refine ⟨?_, ?_⟩
        · intro ht
          rw [← he, q1] at ht
          cases ht
        · intro _
          refine ⟨p.2, r.name, ?_, q2⟩
          unfold GetEdgeInfoByEdgeId tableAt
          simp only [hI id, hid, if_false, hget, Option.map_some']
  · refine ⟨?_, ?_⟩
    · intro id _
      rw [hinfo]
      rfl
    · intro id e he
      have hmem : e ∈ m1.graph.edges_ := List.getElem?_mem he
      obtain ⟨r, _, i, hi, rfl⟩ := forall₂_exists_left hedges e hmem
      refine ⟨?_, ?_⟩
      · intro _
        refine ⟨r.name, (hv.wait_iff _ _).2 ⟨i, hi, rfl⟩, (hv.board_iff _ _).2 ⟨i, hi, rfl⟩, ?_⟩
        unfold GetStopByVertexId tableAt
        simp only [waitEdge, hv.stop_of i _ hi]
      · intro ht
        simp [waitEdge] at ht

/-! ## C7: the itinerary of a route -/

theorem RouteInfo_items_spec (m : TransportManager) (hknown : m.EdgesKnown) (ids : List EdgeId)
    (hpath : ∀ id ∈ ids, id < m.graph.edges_.length) :
    ∃ items, Requests.RouteInfo.items m ids = .ok items ∧
      List.Forall₂ (RouteItemOf m) ids items := by
  induction ids with
  | nil => exact ⟨[], rfl, List.Forall₂.nil⟩
  | cons id rest ih =>
    obtain ⟨items, hitems, hall⟩ := ih (fun x hx => hpath x (List.mem_cons_of_mem _ hx))
    have hid : id < m.graph.edges_.length := hpath id (List.mem_cons_self _ _)
    have hget : m.graph.edges_[id]? = some (m.graph.edges_[id]) := List.getElem?_eq_getElem hid
    have hedge : m.GetGraphEdge id = .ok (m.graph.edges_[id]) := by
      simp only [GetGraphEdge, DirectedWeightedGraph.GetEdge, hget]
    obtain ⟨k1, k2⟩ := hknown id _ hget
    unfold Requests.RouteInfo.items
    simp only [hedge, hitems]
    cases ht : (m.graph.edges_[id]).weight.type_ with
    | BUS =>
      obtain ⟨info, bus, b1, b2⟩ := k2 ht
      simp only [b1, b2]
      exact ⟨_, rfl, List.Forall₂.cons ⟨_, hget, Or.inr ⟨ht, info, bus, b1, b2, rfl⟩⟩ hall⟩
    | WAIT =>
      obtain ⟨S, s1, s2, s3⟩ := k1 ht
      simp only [s3]
      exact ⟨_, rfl, List.Forall₂.cons ⟨_, hget, Or.inl ⟨ht, S, s1, s2, rfl⟩⟩ hall⟩

/-- C7: in a built network, when the solver returns a path (a sequence of edge ids
of the graph) for a Route query between two known stops, `RouteInfo::Process`
returns the map of `request_id`, `total_time` (the weight of the path) and
`items`, a list with exactly one item per edge of the path, in path order:
`RouteItemOf` says which item each edge gives.  The wait time in the items is
the configured `bus_wait_time`. -/
theorem C7_route_items (lm : Libm) (reqs : List BaseRequest) (w : Int) (v : ℚ)
    (m : TransportManager) (router : Router) (request_id : Int) (from_ to_ : String)
    (from_id to_id : VertexId) (route : RouteInfo)
    (hbuild : Build lm (ParseBaseRequests reqs w v) = .ok m)
    (hfrom : m.GetVertexIdByWaitStop from_ = .ok from_id)
    (hto : m.GetVertexIdByWaitStop to_ = .ok to_id)
    (hroute : router.BuildRoute from_id to_id = some route)
    (hpath : ∀ id ∈ route.edges, id < m.graph.edges_.length) :
    ∃ items : List Json.Node,
      Requests.RouteInfo.Process m router request_id from_ to_ =
        .ok (Json.Node.map
          [("items", Json.Node.array items),
            ("request_id", Json.Node.int request_id),
            ("total_time", Json.Node.double (Double.finite route.weight.weight_))]) ∧
      List.Forall₂ (RouteItemOf m) route.edges items ∧
      items.length = route.edges.length ∧
      m.GetBusWaitTime = w := by
  obtain ⟨_, hknown⟩ := Build_EdgesKnown lm reqs w v m hbuild
  obtain ⟨_, _, hset⟩ := Build_VertexTables lm reqs w v m hbuild
  obtain ⟨items, hitems, hall⟩ := RouteInfo_items_spec m hknown route.edges hpath
  refine ⟨items, ?_, hall, hall.length_eq.symm, ?_⟩
  · unfold Requests.RouteInfo.Process
    simp only [hfrom, hto, hroute, hitems]
    rfl
  · simp [GetBusWaitTime, hset, RoutingSettings.make]

/-- C7, witness: for the path "wait at `A`, ride bus `1` to `B`" in the network of
`twoWayRequests` the response has total time 7, a Wait item for `A` and a Bus
item for bus `1` with span count 1 and time 2. -/
theorem C7_route_items_witness :
    (∃ items : List Json.Node,
      Requests.RouteInfo.Process twoWayNetwork twoWayRouter 9 "A" "B" =
        .ok (Json.Node.map
          [("items", Json.Node.array items),
            ("request_id", Json.Node.int 9),
            ("total_time", Json.Node.double (Double.finite 7))]) ∧
      List.Forall₂ (RouteItemOf twoWayNetwork) [0, 2] items ∧
      items.length = 2 ∧
      twoWayNetwork.GetBusWaitTime = 5) ∧
    Requests.RouteInfo.Process twoWayNetwork twoWayRouter 9 "A" "B" =
      .ok (Json.Node.map
        [("items", Json.Node.array
            [Json.Node.map
                [("stop_name", Json.Node.string "A"), ("time", Json.Node.int 5),
                  ("type", Json.Node.string "Wait")],
              Json.Node.map
                [("bus", Json.Node.string "1"), ("span_count", Json.Node.int 1),
                  ("time", Json.Node.double (Double.finite 2)),
                  ("type", Json.Node.string "Bus")]]),
          ("request_id", Json.Node.int 9),
          ("total_time", Json.Node.double (Double.finite 7))]) :=
  ⟨C7_route_items Libm.sample twoWayRequests 5 60 twoWayNetwork twoWayRouter 9 "A" "B" 1 3
    ⟨⟨EdgeType.BUS, 7⟩, [0, 2]⟩ twoWayNetwork_built rfl rfl rfl (by decide), rfl⟩

/-! ### The edge loops in closed form -/

theorem rideEdges_closed (wait : String → VertexId) (hop : String → String → ℚ) (bus : String)
    (v : VertexId) (rest : List String) (last : String) (c : Int) (w : ℚ) :
    rideEdges wait hop bus v last rest c w =
      (List.range rest.length).map (fun d =>
        ((⟨v, wait (rest.getD d ""),
            ⟨EdgeType.BUS, w + pathSum hop (last :: rest.take (d + 1))⟩⟩ : Edge),
          (⟨c + ((d + 1 : Nat) : Int), some bus⟩ : EdgeInfo))) := by
  induction rest generalizing last c w with
  | nil => simp [rideEdges]
  | cons next rest ih =>
    rw [rideEdges, ih, List.length_cons, List.range_succ_eq_map, List.map_cons, List.map_map]
    congr 1
    · simp [pathSum]
    · apply List.map_congr_left
      intro d _
      simp only [Function.comp, List.getD_cons_succ, List.take_succ_cons, pathSum_cons_cons,
        Prod.mk.injEq, Edge.mk.injEq, EdgeWeight.mk.injEq, EdgeInfo.mk.injEq, true_and, and_true]
      constructor
      · ring
      · push_cast
        ring

theorem rideEdges_length (wait : String → VertexId) (hop : String → String → ℚ) (bus : String)
    (v : VertexId) (rest : List String) (last : String) (c : Int) (w : ℚ) :
    (rideEdges wait hop bus v last rest c w).length = rest.length := by
  rw [rideEdges_closed]
  simp

theorem getD_drop (p : List String) (i d : Nat) : (p.drop i).getD d "" = p.getD (i + d) "" := by
  simp [List.getD_eq_getElem?_getD, List.getElem?_drop]

/-- The sum of the hops of the stretch of `p` from position `i` to position `j`. -/
theorem pathSum_segment (hop : String → String → ℚ) (p : List String) (i j : Nat)
    (hij : i ≤ j) (hj : j < p.length) :
    pathSum hop ((p.drop i).take (j - i + 1)) = segmentTime hop p i j := by
  rw [pathSum_eq_sum, segmentTime, Finset.sum_Ico_eq_sum_range]
  have hlen : ((p.drop i).take (j - i + 1)).length - 1 = j - i := by
    simp only [List.length_take, List.length_drop]
    omega
  rw [hlen]
  apply Finset.sum_congr rfl
  intro k hk
  rw [Finset.mem_range] at hk
  have h1 : ((p.drop i).take (j - i + 1)).getD k "" = p.getD (i + k) "" := by
    rw [List.getD_eq_getElem?_getD, List.getElem?_take_of_lt (by omega), ←
        List.getD_eq_getElem?_getD,
      getD_drop]
  have h2 : ((p.drop i).take (j - i + 1)).getD (k + 1) "" = p.getD (i + k + 1) "" := by
    rw [List.getD_eq_getElem?_getD, List.getElem?_take_of_lt (by omega), ←
        List.getD_eq_getElem?_getD,
      getD_drop]
    rfl
  rw [h1, h2]

theorem getD_reverse (p : List String) (k : Nat) (hk : k < p.length) :
    p.reverse.getD k "" = p.getD (p.length - 1 - k) "" := by
  rw [List.getD_eq_getElem?_getD, List.getD_eq_getElem?_getD, List.getElem?_reverse hk]

/-- The sum of the hops of the first `t + 1` hops of the reversed path. -/
theorem pathSum_reverse_take (hop : String → String → ℚ) (p : List String) (t : Nat)
    (ht : t + 1 < p.length) :
    pathSum hop (p.reverse.take (t + 2)) =
      segmentTimeBack hop p (p.length - 2 - t) (p.length - 1) := by
  have h := pathSum_segment hop p.reverse 0 (t + 1) (Nat.zero_le _) (by simpa using ht)
  simp only [List.drop_zero, Nat.sub_zero] at h
  rw [h, segmentTime, segmentTimeBack, Finset.sum_Ico_eq_sum_range, Finset.sum_Ico_eq_sum_range]
  have hn : p.length - 1 - (p.length - 2 - t) = t + 1 := by omega
  rw [hn, Nat.sub_zero, ← Finset.sum_range_reflect]
  apply Finset.sum_congr rfl
  intro k hk
  rw [Finset.mem_range] at hk
  have e1 : p.reverse.getD (0 + (t + 1 - 1 - k)) "" = p.getD (p.length - 2 - t + k + 1) "" := by
    rw [getD_reverse _ _ (by omega)]
    congr 1
    omega
  have e2 : p.reverse.getD (0 + (t + 1 - 1 - k) + 1) "" = p.getD (p.length - 2 - t + k) "" := by
    rw [getD_reverse _ _ (by omega)]
    congr 1
    omega
  rw [e1, e2]

theorem backEdges_closed (wait : String → VertexId) (hop : String → String → ℚ) (bus : String)
    (v : VertexId) (stops : List String) (c : Int) (w : ℚ) :
    backEdges wait hop bus v stops c w =
      (List.range (stops.length - 1)).map (fun t =>
        ((⟨v, wait (stops.getD (stops.length - 2 - t) ""),
            ⟨EdgeType.BUS, w + segmentTimeBack hop stops (stops.length - 2 - t)
              (stops.length - 1)⟩⟩ : Edge),
          (⟨c + ((t + 1 : Nat) : Int), some bus⟩ : EdgeInfo))) := by
  unfold backEdges
  cases hr : stops.reverse with
  | nil =>
    have : stops = [] := by simpa using hr
    simp [this]
  | cons first rest =>
    have hlen : stops.length = rest.length + 1 := by
      have := congrArg List.length hr
      simpa using this
    simp only
    rw [rideEdges_closed, hlen, Nat.add_sub_cancel]
    apply List.map_congr_left
    intro t ht
    rw [List.mem_range] at ht
    have h1 : rest.getD t "" = stops.getD (rest.length + 1 - 2 - t) "" := by
      have : rest.getD t "" = stops.reverse.getD (t + 1) "" := by rw [hr, List.getD_cons_succ]
      rw [this, getD_reverse _ _ (by omega), hlen]
      congr 1
      omega
    have h2 : pathSum hop (first :: rest.take (t + 1)) =
        segmentTimeBack hop stops (rest.length + 1 - 2 - t) (rest.length + 1 - 1) := by
      have : first :: rest.take (t + 1) = stops.reverse.take (t + 2) := by
        rw [hr, List.take_succ_cons]
      rw [this, pathSum_reverse_take hop stops t (by omega), hlen]
    rw [h1, h2]
    simp only [Nat.add_sub_cancel]

theorem originEdges_closed (board wait : String → VertexId) (hop : String → String → ℚ)
    (bus : String) (p : List String) (wb : Bool) (i : Nat) (hi : i < p.length) :
    originEdges board wait hop bus p wb (p.getD i "") (p.drop (i + 1)) =
      forwardFrom board wait hop bus p i ++
        (if wb then wayBackFrom board wait hop bus p i else []) := by
  have hdrop : p.drop i = p.getD i "" :: p.drop (i + 1) := by
    rw [List.getD_eq_getElem _ _ hi]
    exact List.drop_eq_getElem_cons hi
  unfold originEdges
  congr 1
  · rw [rideEdges_closed, forwardFrom, List.length_drop]
    have hl : p.length - (i + 1) = p.length - 1 - i := by omega
    rw [hl]
    apply List.map_congr_left
    intro d hd
    rw [List.mem_range] at hd
    have h1 : (p.drop (i + 1)).getD d "" = p.getD (i + 1 + d) "" := getD_drop p (i + 1) d
    have h2 : pathSum hop (p.getD i "" :: (p.drop (i + 1)).take (d + 1)) =
        segmentTime hop p i (i + 1 + d) := by
      have e : p.getD i "" :: (p.drop (i + 1)).take (d + 1) =
          (p.drop i).take (i + 1 + d - i + 1) := by
        rw [hdrop]
        have : i + 1 + d - i + 1 = (d + 1) + 1 := by omega
        rw [this, List.take_succ_cons]
      rw [e]
      exact pathSum_segment hop p i (i + 1 + d) (by omega) (by omega)
    rw [h1, h2]
    simp only [pairEdge, zero_add, Prod.mk.injEq, EdgeInfo.mk.injEq, and_true, true_and]
    congr 1
    omega
  · cases wb with
    | false => rfl
    | true =>
      simp only [if_true]
      rw [backEdges_closed, wayBackFrom]
      apply List.map_congr_left
      intro t ht
      rw [List.mem_range] at ht
      have hw : pathSum hop (p.getD i "" :: p.drop (i + 1)) =
          segmentTime hop p i (p.length - 1) := by
        have e : p.getD i "" :: p.drop (i + 1) = (p.drop i).take (p.length - 1 - i + 1) := by
          rw [← hdrop, List.take_of_length_le]
          rw [List.length_drop]
          omega
        rw [e]
        exact pathSum_segment hop p i (p.length - 1) (by omega) (by omega)
      rw [hw]
      simp only [wayBackEdge, List.length_drop, Prod.mk.injEq, EdgeInfo.mk.injEq, and_true,
        true_and]
      have : (p.length - 1 - i + (p.length - 1 - (p.length - 2 - t)) : Nat) =
          (p.length - (i + 1)) + (t + 1) := by omega
      rw [this]
      push_cast
      ring

theorem busEdges_suffix (board wait : String → VertexId) (hop : String → String → ℚ)
    (bus : String) (p : List String) (wb : Bool) (k i : Nat) (hk : k + i = p.length) :
    busEdges board wait hop bus p wb (p.drop i) =
      (List.range' i k).flatMap (fun i =>
        forwardFrom board wait hop bus p i ++
          (if wb then wayBackFrom board wait hop bus p i else [])) := by
  induction k generalizing i with
  | zero =>
    have : p.drop i = [] := List.drop_eq_nil_of_le (by omega)
    rw [this]
    simp [busEdges]
  | succ k ih =>
    have hi : i < p.length := by omega
    have hdrop : p.drop i = p.getD i "" :: p.drop (i + 1) := by
      rw [List.getD_eq_getElem _ _ hi]
      exact List.drop_eq_getElem_cons hi
    rw [hdrop, busEdges, originEdges_closed board wait hop bus p wb i hi, ih (i + 1) (by omega),
      List.range'_succ, List.flatMap_cons]

/-- The edges of `BuildEdgesForBus` in closed form: for each origin position in turn,
the edges to the later positions and, with `needs_wayback`, the way-back edges. -/
theorem busEdges_closed (board wait : String → VertexId) (hop : String → String → ℚ)
    (bus : String) (p : List String) (wb : Bool) :
    busEdges board wait hop bus p wb p =
      (List.range p.length).flatMap (fun i =>
        forwardFrom board wait hop bus p i ++
          (if wb then wayBackFrom board wait hop bus p i else [])) := by
  have := busEdges_suffix board wait hop bus p wb p.length 0 (by omega)
  rw [List.drop_zero] at this
  rw [this, List.range_eq_range']

theorem busEdges_length (board wait : String → VertexId) (hop : String → String → ℚ)
    (bus : String) (stops : List String) (wb : Bool) (rest : List String) :
    (busEdges board wait hop bus stops wb rest).length =
      rest.length * (rest.length - 1) / 2 +
        (if wb then rest.length * (stops.length - 1) else 0) := by
  induction rest with
  | nil => simp [busEdges]
  | cons s rest ih =>
    simp only [busEdges, originEdges, List.length_append, rideEdges_length, ih, List.length_cons,
      Nat.add_sub_cancel]
    have hback : (if wb then backEdges wait hop bus (board s) stops (rest.length : Int)
        (pathSum hop (s :: rest)) else []).length = if wb then stops.length - 1 else 0 := by
      cases wb with
      | false => rfl
      | true => simp [backEdges_closed]
    rw [hback]
    have htri : (rest.length + 1) * rest.length / 2 =
        rest.length + rest.length * (rest.length - 1) / 2 := by
      cases hn : rest.length with
      | zero => rfl
      | succ n =>
        simp only [Nat.add_sub_cancel]
        have : (n + 1 + 1) * (n + 1) = 2 * (n + 1) + (n + 1) * n := by ring
        rw [this, Nat.mul_add_div (by norm_num)]
    rw [htri]
    cases wb with
    | false => simp
    | true =>
      simp only [if_true]
      ring

theorem stepEdges_closed (board wait : String → VertexId) (hop : String → String → ℚ)
    (r : BusRequest) (p : List String) :
    stepEdges board wait hop r.name ⟨r.type_, p⟩ = busGroup board wait hop r p := by
  unfold stepEdges busGroup BusRequest.type_
  cases hr : r.is_roundtrip with
  | true =>
    simp only [if_true, reduceCtorEq, if_false, decide_False, List.append_nil]
    rw [busEdges_closed]
    simp
  | false =>
    simp only [Bool.false_eq_true, if_false, if_true, decide_True]
    rw [busEdges_closed, busEdges_closed]
    simp

theorem stepEdges_length (board wait : String → VertexId) (hop : String → String → ℚ)
    (bus_ptr : String) (bus : Bus) :
    (stepEdges board wait hop bus_ptr bus).length =
      if bus.type_ = BusType.REGULAR then 2 * (bus.stops_.length * (bus.stops_.length - 1))
      else bus.stops_.length * (bus.stops_.length - 1) / 2 := by
  unfold stepEdges
  by_cases ht : bus.type_ = BusType.REGULAR
  · simp only [ht, if_true, decide_True, List.length_append, busEdges_length, List.length_reverse,
      Bool.false_eq_true, if_false, Nat.add_zero]
    have heven : 2 ∣ bus.stops_.length * (bus.stops_.length - 1) := by
      cases hn : bus.stops_.length with
      | zero => simp
      | succ n =>
        simp only [Nat.add_sub_cancel]
        rw [Nat.mul_comm]
        exact (Nat.even_mul_succ_self n).two_dvd
    obtain ⟨k, hk⟩ := heven
    rw [hk]
    simp only [Nat.mul_div_cancel_left _ (by norm_num : 0 < 2)]
    omega
  · simp only [ht, if_false, decide_False, List.length_append, busEdges_length,
      Bool.false_eq_true, List.length_nil, Nat.add_zero]

theorem busGroup_length (board wait : String → VertexId) (hop : String → String → ℚ)
    (r : BusRequest) (p : List String) :
    (busGroup board wait hop r p).length =
      if r.is_roundtrip then p.length * (p.length - 1) / 2
      else 2 * (p.length * (p.length - 1)) := by
  rw [← stepEdges_closed, stepEdges_length]
  unfold BusRequest.type_
  cases r.is_roundtrip <;> simp

theorem busGroup_kind (board wait : String → VertexId) (hop : String → String → ℚ)
    (r : BusRequest) (p : List String) :
    ∀ e ∈ busGroup board wait hop r p,
      e.1.weight.type_ = EdgeType.BUS ∧ e.2.bus_ptr = some r.name := by
  rw [← stepEdges_closed]
  exact stepEdges_kind board wait hop r.name _

theorem BusFrame.env {m0 m : TransportManager} (h : BusFrame m0 m) (lm : Libm) :
    m.boardIdOf = m0.boardIdOf ∧ m.waitIdOf = m0.waitIdOf ∧ m.hopTime lm = m0.hopTime lm := by
  refine ⟨?_, ?_, ?_⟩
  · funext s
    simp [boardIdOf, h.GetVertexIdByStop]
  · funext s
    simp [waitIdOf, h.GetVertexIdByWaitStop]
  · funext a b
    simp [hopTime, distanceOf, h.GetDistance lm, GetBusVelocity, h.settings]

theorem stopsBefore_step (lm : Libm) (m m' : TransportManager) (r : BusRequest)
    (hfresh : m.InfoFresh) (h : BuildBuses.step lm m r = .ok m') :
    stopsBefore m' = Function.update (stopsBefore m) r.name (stopsBefore m r.name ++ r.stops) := by
  obtain ⟨_, _, _, _, _, h5, h6⟩ := BuildBuses_step_edges lm m m' r hfresh h
  funext k
  by_cases hk : k = r.name
  · subst hk
    simp [stopsBefore, h5]
  · simp only [Function.update_noteq hk]
    simp only [stopsBefore, h6 k hk]

/-- The edges and the metadata the bus phase adds: one group per `Bus` request, in order. -/
theorem BuildBuses_groups (lm : Libm) (rs : List BusRequest) (m m' : TransportManager)
    (hfresh : m.InfoFresh) (h : BuildBuses lm m rs = .ok m') :
    m'.graph.edges_ = m.graph.edges_ ++
      ((busStopsAfter (stopsBefore m) rs).flatMap
        (fun q => busGroup m'.boardIdOf m'.waitIdOf (m'.hopTime lm) q.1 q.2)).map Prod.fst ∧
    m'.InfoFresh ∧
    ∀ id : Nat, UMap.find m'.edge_id_to_info id =
      if id < m.graph.edges_.length then UMap.find m.edge_id_to_info id
      else (((busStopsAfter (stopsBefore m) rs).flatMap
        (fun q => busGroup m'.boardIdOf m'.waitIdOf (m'.hopTime lm) q.1 q.2))[
          id - m.graph.edges_.length]?).map Prod.snd := by
  induction rs generalizing m with
  | nil =>
    simp only [BuildBuses, Except.ok.injEq] at h
    subst h
    refine ⟨by simp [busStopsAfter], hfresh, ?_⟩
    intro id
    by_cases hid : id < m.graph.edges_.length
    · simp [hid]
    · simp [hid, busStopsAfter, hfresh id (Nat.le_of_not_lt hid)]
  | cons r rest ih =>
    unfold BuildBuses at h
    cases hs : BuildBuses.step lm m r with
    | error e => simp [hs] at h
    | ok m1 =>
      simp only [hs] at h
      obtain ⟨L1, hL1, hE1, hF1, hI1, _, _⟩ := BuildBuses_step_edges lm m m1 r hfresh hs
      obtain ⟨hE, hF, hI⟩ := ih m1 hF1 h
      obtain ⟨e1, e2, e3⟩ := (BuildBuses_frame lm rest m1 m' h).env lm
      rw [← e1, ← e2, ← e3, stepEdges_closed] at hL1
      rw [stopsBefore_step lm m m1 r hfresh hs] at hE hI
      have hlen1 : m1.graph.edges_.length = m.graph.edges_.length + L1.length := by
        rw [hE1]
        simp
      refine ⟨?_, hF, ?_⟩
      · rw [hE, hE1]
        simp only [busStopsAfter, List.flatMap_cons, List.map_append, List.append_assoc, hL1]
      · intro id
        rw [hI id, hlen1]
        simp only [busStopsAfter, List.flatMap_cons, ← hL1]
        by_cases hid : id < m.graph.edges_.length
        · have hid' : id < m.graph.edges_.length + L1.length := by omega
          simp only [hid, hid', if_true, hI1 id]
        · by_cases hid' : id < m.graph.edges_.length + L1.length
          · simp only [hid, hid', if_true, if_false, hI1 id]
            rw [List.getElem?_append_left (by omega)]
          · simp only [hid, hid', if_false]
            rw [List.getElem?_append_right (by omega)]
            congr 2
            omega

/-! ## C8: the bus edges of a built graph -/

theorem busStopsAfter_distinct (rs : List BusRequest) (known : String → List String)
    (hknown : ∀ r ∈ rs, known r.name = []) (hnodup : (rs.map (fun r => r.name)).Nodup) :
    busStopsAfter known rs = rs.map (fun r => (r, r.stops)) := by
  induction rs generalizing known with
  | nil => rfl
  | cons r rest ih =>
    rw [List.map_cons, List.nodup_cons] at hnodup
    simp only [busStopsAfter, List.map_cons, hknown r (List.mem_cons_self _ _), List.nil_append]
    congr 1
    apply ih
    · intro r' hr'
      have hne : r'.name ≠ r.name := by
        intro heq
        apply hnodup.1
        rw [← heq]
        exact List.mem_map_of_mem _ hr'
      rw [Function.update_noteq hne]
      exact hknown r' (List.mem_cons_of_mem _ hr')
    · exact hnodup.2

/-- C8 (as amended): the edges of a built graph are one wait edge per `Stop`
request followed by one group of edges per `Bus` request, in order.  With `p`
the stops the bus has once the request is processed (the request's own stops
when no earlier request has the same name) and `n` their number, the group is
`busGroup`: for every origin position `i` one edge per later position `j`
along `p` and, only for a REGULAR bus, `n - 1` way-back edges through the
terminal to the positions `n-2 .. 0`, and then one edge per pair `i < j`
along the reversed path.  All of them are BUS edges; they are `n(n-1)/2` for a
CIRCULAR bus and `2n(n-1)` for a REGULAR bus. -/
theorem C8_bus_edges (lm : Libm) (reqs : List BaseRequest) (w : Int) (v : ℚ)
    (m : TransportManager)
    (hbuild : Build lm (ParseBaseRequests reqs w v) = .ok m) :
    (∃ waits : List Edge,
      waits.length = (stopRequests reqs).length ∧
      (∀ e ∈ waits, e.weight.type_ = EdgeType.WAIT) ∧
      m.graph.edges_ = waits ++
        ((busStopsAfter (fun _ => []) (busRequests reqs)).flatMap
          (fun q => busGroup m.boardIdOf m.waitIdOf (m.hopTime lm) q.1 q.2)).map Prod.fst) ∧
    (∀ (r : BusRequest) (p : List String),
      (∀ e ∈ busGroup m.boardIdOf m.waitIdOf (m.hopTime lm) r p,
        e.1.weight.type_ = EdgeType.BUS) ∧
      (busGroup m.boardIdOf m.waitIdOf (m.hopTime lm) r p).length =
        if r.is_roundtrip then p.length * (p.length - 1) / 2
        else 2 * (p.length * (p.length - 1))) ∧
    (((busRequests reqs).map (fun r => r.name)).Nodup →
      busStopsAfter (fun _ => []) (busRequests reqs) =
        (busRequests reqs).map (fun r => (r, r.stops))) := by
  obtain ⟨m1, h1, h2⟩ := Build_phases lm reqs w v m hbuild
  obtain ⟨_, _, _, _, hb, hinfo, _, _, hedges, _⟩ := Build_before_buses reqs w v m1 h1
  have hfresh : m1.InfoFresh := by
    intro id _
    rw [hinfo]
    rfl
  have hknown : stopsBefore m1 = fun _ => [] := by
    funext k
    simp [stopsBefore, hb, UMap.find]
  obtain ⟨hE, _, _⟩ := BuildBuses_groups lm _ m1 m hfresh h2
  rw [hknown] at hE
  refine ⟨⟨m1.graph.edges_, hedges.length_eq.symm, ?_, hE⟩, ?_, ?_⟩
  · intro e he
    obtain ⟨r, _, i, _, rfl⟩ := forall₂_exists_left hedges e he
    rfl
  · intro r p
    exact ⟨fun e he => (busGroup_kind _ _ _ r p e he).1, busGroup_length _ _ _ r p⟩
  · intro hnodup
    exact busStopsAfter_distinct _ _ (fun _ _ => rfl) hnodup

/-- C8, witness: in the network built from `twoWayRequests` the graph has the two wait
edges and then the group of the REGULAR bus `1` over `A`, `B`, of `2 * 2 * 1` edges. -/
theorem C8_bus_edges_witness :
    (busGroup twoWayNetwork.boardIdOf twoWayNetwork.waitIdOf
        (twoWayNetwork.hopTime Libm.sample) ⟨"1", false, ["A", "B"]⟩ ["A", "B"]).length =
      2 * (2 * (2 - 1)) :=
  ((C8_bus_edges Libm.sample twoWayRequests 5 60 twoWayNetwork twoWayNetwork_built).2.1
    ⟨"1", false, ["A", "B"]⟩ ["A", "B"]).2

/-- C8, counterexample: the REGULAR bus `1` of the network built from `twoWayRequests`
has `n = 2` stops, and it is the only bus; the graph has 4 BUS edges, not
`n(n-1) = 2`.  One of the others, edge 3, goes from the board vertex of `A` to
the wait vertex of `A` itself, which is no pair of positions of the path or
of its reverse. -/
theorem C8_counterexample :
    Build Libm.sample (ParseBaseRequests twoWayRequests 5 60) = .ok twoWayNetwork ∧
      twoWayNetwork.buses_ = [("1", ⟨BusType.REGULAR, ["A", "B"]⟩)] ∧
      (twoWayNetwork.graph.edges_.filter
        (fun e => decide (e.weight.type_ = EdgeType.BUS))).length = 4 ∧
      (4 : Nat) ≠ 2 * (2 - 1) ∧
      twoWayNetwork.graph.edges_[3]? = some ⟨0, 1, ⟨EdgeType.BUS, 5⟩⟩ ∧
      twoWayNetwork.GetVertexIdByStop "A" = .ok 0 ∧
      twoWayNetwork.GetVertexIdByWaitStop "A" = .ok 1 := by
  refine ⟨twoWayNetwork_built, by decide!, by decide!, by decide, by decide!, by decide!,
    by decide!⟩

/-! ## C9: one edge per pair of positions -/

theorem mem_forwardFrom (board wait : String → VertexId) (hop : String → String → ℚ)
    (bus : String) (p : List String) (i j : Nat) (hij : i < j) (hj : j < p.length) :
    pairEdge board wait hop bus p i j ∈ forwardFrom board wait hop bus p i := by
  unfold forwardFrom
  rw [List.mem_map]
  refine ⟨j - i - 1, ?_, ?_⟩
  · rw [List.mem_range]
    omega
  · congr 1
    omega

theorem mem_busGroup_forward (board wait : String → VertexId) (hop : String → String → ℚ)
    (r : BusRequest) (p : List String) (i j : Nat) (hij : i < j) (hj : j < p.length) :
    pairEdge board wait hop r.name p i j ∈ busGroup board wait hop r p := by
  unfold busGroup
  apply List.mem_append_left
  rw [List.mem_flatMap]
  exact ⟨i, List.mem_range.2 (by omega),
    List.mem_append_left _ (mem_forwardFrom board wait hop r.name p i j hij hj)⟩

theorem mem_busGroup_reverse (board wait : String → VertexId) (hop : String → String → ℚ)
    (r : BusRequest) (p : List String) (i j : Nat) (hr : r.is_roundtrip = false) (hij : i < j)
    (hj : j < p.length) :
    pairEdge board wait hop r.name p.reverse i j ∈ busGroup board wait hop r p := by
  unfold busGroup
  apply List.mem_append_right
  simp only [hr, Bool.false_eq_true, if_false]
  rw [List.mem_flatMap]
  refine ⟨i, List.mem_range.2 (by omega), ?_⟩
  have := mem_forwardFrom board wait hop r.name p.reverse i j hij (by simpa using hj)
  exact this

/-- In a built network the pair edges of every bus are present. -/
theorem Build_PairEdgesPresent (lm : Libm) (reqs : List BaseRequest) (w : Int) (v : ℚ)
    (m : TransportManager) (h : Build lm (ParseBaseRequests reqs w v) = .ok m) :
    m.PairEdgesPresent lm := by
  obtain ⟨m1, h1, h2⟩ := Build_phases lm reqs w v m h
  obtain ⟨_, _, _, _, hb, hinfo, _⟩ := Build_before_buses reqs w v m1 h1
  have hfresh1 : m1.InfoFresh := by
    intro id _
    rw [hinfo]
    rfl
  have key := BuildBuses_induct lm (fun m => m.InfoFresh ∧ m.PairEdgesPresent lm) ?_ _ m1 m
    ⟨hfresh1, ?_⟩ h2
  · exact key.2
  · rintro m0 r m' ⟨hfresh, hpairs⟩ hs
    obtain ⟨L, hL, hE, hF, hI, hbus, hother⟩ := BuildBuses_step_edges lm m0 m' r hfresh hs
    obtain ⟨e1, e2, e3⟩ := (BuildBuses_step_frame lm m0 m' r hs).env lm
    rw [stepEdges_closed] at hL
    refine ⟨hF, ?_⟩
    intro name bus p i j hfind hdir hij hj
    by_cases hname : name = r.name
    · subst hname
      rw [hbus] at hfind
      simp only [Option.some.injEq] at hfind
      subst hfind
      have hmem : pairEdge m'.boardIdOf m'.waitIdOf (m'.hopTime lm) r.name p i j ∈ L := by
        rw [hL]
        rcases hdir with rfl | ⟨ht, rfl⟩
        · exact mem_busGroup_forward _ _ _ r _ i j hij hj
        · have hr : r.is_roundtrip = false := by
            simp only [BusRequest.type_] at ht
            cases hrt : r.is_roundtrip
            · rfl
            · simp [hrt] at ht
          exact mem_busGroup_reverse _ _ _ r _ i j hr hij (by rw [List.length_reverse] at hj; exact
              hj)
      obtain ⟨t, ht⟩ := List.getElem?_of_mem hmem
      refine ⟨m0.graph.edges_.length + t, ?_, ?_⟩
      · rw [hE, List.getElem?_append_right (by omega), Nat.add_sub_cancel_left,
          List.getElem?_map, ht]
        rfl
      · rw [hI]
        have : ¬ m0.graph.edges_.length + t < m0.graph.edges_.length := by omega
        simp only [this, if_false, Nat.add_sub_cancel_left, ht]
        rfl
    · rw [hother name hname] at hfind
      obtain ⟨id, hid1, hid2⟩ := hpairs name bus p i j hfind hdir hij hj
      have hlt : id < m0.graph.edges_.length := (List.getElem?_eq_some.1 hid1).1
      refine ⟨id, ?_, ?_⟩
      · rw [hE, List.getElem?_append_left hlt, e1, e2, e3]
        exact hid1
      · rw [hI, if_pos hlt, e1, e2, e3]
        exact hid2
  · intro name bus p i j hfind
    rw [hb] at hfind
    simp [UMap.find] at hfind

theorem VertexTables.ids_of_registered {m : TransportManager} {names : List String}
    (h : VertexTables m names) (S : String) (hS : UMap.find m.stops_ S ≠ none) :
    m.GetVertexIdByStop S = .ok (m.boardIdOf S) ∧
    m.GetVertexIdByWaitStop S = .ok (m.waitIdOf S) := by
  obtain ⟨i, hi⟩ := List.getElem?_of_mem ((h.mem_iff S).1 hS)
  have hb := (h.board_iff S _).2 ⟨i, hi, rfl⟩
  have hw := (h.wait_iff S _).2 ⟨i, hi, rfl⟩
  simp only [boardIdOf, waitIdOf, hb, hw, and_self]

theorem getD_mem_of_lt (p : List String) (k : Nat) (hk : k < p.length) : p.getD k "" ∈ p := by
  rw [List.getD_eq_getElem _ _ hk]
  exact List.getElem_mem _

/-- C9: for every bus of a built network and every direction it travels (its listed
stops `p`, and for a REGULAR bus also the reversed list), for all positions
`i < j` the graph has an edge from the board vertex of `p_i` to the wait
vertex of `p_j`, of type BUS, whose weight is the sum over `k` in `[i, j)` of
`GetDistance(p_k, p_{k+1}) / 1000 / (bus_velocity / 60)`, and whose metadata
records the span count `j - i` and the bus. -/
theorem C9_pair_edges (lm : Libm) (reqs : List BaseRequest) (w : Int) (v : ℚ)
    (m : TransportManager) (name : String) (bus : Bus) (p : List String) (i j : Nat)
    (hbuild : Build lm (ParseBaseRequests reqs w v) = .ok m)
    (hbus : UMap.find m.buses_ name = some bus)
    (hdir : p = bus.stops_ ∨ (bus.type_ = BusType.REGULAR ∧ p = bus.stops_.reverse))
    (hij : i < j) (hj : j < p.length) :
    ∃ (id : Nat) (e : Edge) (d : Nat → ℚ),
      m.graph.edges_[id]? = some e ∧
      m.GetVertexIdByStop (p.getD i "") = .ok e.from_ ∧
      m.GetVertexIdByWaitStop (p.getD j "") = .ok e.to_ ∧
      e.weight.type_ = EdgeType.BUS ∧
      (∀ k, i ≤ k → k < j →
        m.GetDistance lm (p.getD k "") (p.getD (k + 1) "") = .ok (d k)) ∧
      e.weight.weight_ = ∑ k in Finset.Ico i j, d k / 1000 / (v / 60) ∧
      m.GetEdgeInfoByEdgeId id = .ok ⟨((j - i : Nat) : Int), some name⟩ := by
  obtain ⟨id, h1, h2⟩ := Build_PairEdgesPresent lm reqs w v m hbuild name bus p i j hbus hdir
    hij hj
  obtain ⟨ht, _, hset⟩ := Build_VertexTables lm reqs w v m hbuild
  have hreg := Build_BusStopsRegistered lm reqs w v m hbuild name bus hbus
  have hp : ∀ k, k < p.length → UMap.find m.stops_ (p.getD k "") ≠ none := by
    intro k hk
    apply hreg
    rcases hdir with rfl | ⟨_, rfl⟩
    · exact getD_mem_of_lt _ k hk
    · exact List.mem_reverse.1 (getD_mem_of_lt _ k hk)
  refine ⟨id, _, fun k => m.distanceOf lm (p.getD k "") (p.getD (k + 1) ""), h1, ?_, ?_, rfl,
    ?_, ?_, ?_⟩
  · exact (ht.ids_of_registered _ (hp i (by omega))).1
  · exact (ht.ids_of_registered _ (hp j hj)).2
  · intro k _ hk
    exact GetDistance_ok_of_registered lm m _ _ (hp k (by omega)) (hp (k + 1) (by omega))
  · simp only [pairEdge, segmentTime, hopTime, GetBusVelocity, hset, RoutingSettings.make]
  · unfold GetEdgeInfoByEdgeId tableAt
    simp only [h2, pairEdge]

/-- C9, witness: in the network built from `twoWayRequests`, bus `1` over `A`, `B`
has the edge of the pair of positions `0 < 1`, with span count 1. -/
theorem C9_pair_edges_witness :
    ∃ (id : Nat) (e : Edge),
      twoWayNetwork.graph.edges_[id]? = some e ∧
      twoWayNetwork.GetVertexIdByStop "A" = .ok e.from_ ∧
      twoWayNetwork.GetVertexIdByWaitStop "B" = .ok e.to_ ∧
      e.weight.type_ = EdgeType.BUS ∧
      twoWayNetwork.GetEdgeInfoByEdgeId id = .ok ⟨1, some "1"⟩ := by
  obtain ⟨id, e, d, h1, h2, h3, h4, _, _, h7⟩ :=
    C9_pair_edges Libm.sample twoWayRequests 5 60 twoWayNetwork "1"
      ⟨BusType.REGULAR, ["A", "B"]⟩ ["A", "B"] 0 1 twoWayNetwork_built rfl (Or.inl rfl)
      (by decide) (by decide)
  exact ⟨id, e, h1, h2, h3, h4, h7⟩

/-! ## C12: when `GetDistance` fails and what it returns -/

/-- C12: `GetDistance(from, to)` fails if and only if `from` or `to` is not a
registered stop, and then the exception is `invalid_argument`; when both are
registered it returns the stored directed entry `distances_[from][to]` if
there is one and otherwise the geodesic distance between the coordinates of
the two stops. -/
theorem C12_get_distance (lm : Libm) (m : TransportManager) (from_ to_ : String) :
    ((∃ e, m.GetDistance lm from_ to_ = .error e) ↔
      (UMap.find m.stops_ from_ = none ∨ UMap.find m.stops_ to_ = none)) ∧
    (∀ e, m.GetDistance lm from_ to_ = .error e →
      e = .invalid_argument ("Valid stops expected: " ++ from_ ++ "&&" ++ to_)) ∧
    (∀ a b, UMap.find m.stops_ from_ = some a → UMap.find m.stops_ to_ = some b →
      m.GetDistance lm from_ to_ =
        .ok ((storedDistance m.distances_ from_ to_).getD
          (ComputeDistanceForCoords lm a.coords_ b.coords_))) := by
  unfold GetDistance
  cases hf : UMap.find m.stops_ from_ with
  | none => simp
  | some a =>
    cases ht : UMap.find m.stops_ to_ with
    | none => simp
    | some b =>
      cases hs : storedDistance m.distances_ from_ to_ <;> simp

/-- C12, witness: in the network of `twoWayRequests` the entry stored for `(A, B)`
is returned, and a query naming the unregistered stop `X` fails. -/
theorem C12_get_distance_witness :
    twoWayNetwork.GetDistance Libm.sample "A" "B" = .ok 2000 ∧
    ∃ e, twoWayNetwork.GetDistance Libm.sample "A" "X" = .error e :=
  ⟨(C12_get_distance Libm.sample twoWayNetwork "A" "B").2.2 _ _ rfl rfl,
    (C12_get_distance Libm.sample twoWayNetwork "A" "X").1.2 (Or.inr rfl)⟩

/-! ## C15: `BusInfo::Process` for an unknown bus -/

/-- C15: for every network, every request id `N` and every name that is not the
name of a registered bus, `BusInfo::Process` returns the map with exactly the
two entries `error_message = "not found"` and `request_id = N`. -/
theorem C15_unknown_bus (lm : Libm) (m : TransportManager) (N : Int) (name : String)
    (hbus : UMap.find m.buses_ name = none) :
    Requests.BusInfo.Process lm m N name =
      .ok (Json.Node.map
        [("error_message", Json.Node.string "not found"), ("request_id", Json.Node.int N)]) := by
  unfold Requests.BusInfo.Process
  simp only [GetBus, hbus]
  rfl

/-- C15, witness: the network of `twoWayRequests` has no bus `750`. -/
theorem C15_unknown_bus_witness :
    Requests.BusInfo.Process Libm.sample twoWayNetwork 12 "750" =
      .ok (Json.Node.map
        [("error_message", Json.Node.string "not found"), ("request_id", Json.Node.int 12)]) :=
  C15_unknown_bus Libm.sample twoWayNetwork 12 "750" rfl

/-! ## C19: the number of distinct stops of a bus -/

/-- C19: for every bus known to a built network, of either type, whose number of
distinct stops is below `2^31`, the response of `BusInfo::Process` is a map
whose `unique_stop_count` is the number of distinct stop names among the
stops of the bus. -/
theorem C19_unique_stop_count (lm : Libm) (reqs : List BaseRequest) (w : Int) (v : ℚ)
    (m : TransportManager) (request_id : Int) (name : String) (bus : Bus)
    (hbuild : Build lm (ParseBaseRequests reqs w v) = .ok m)
    (hbus : UMap.find m.buses_ name = some bus)
    (hrange : (bus.stops_.toFinset.card : Int) < 2 ^ 31) :
    ∃ entries, Requests.BusInfo.Process lm m request_id name = .ok (Json.Node.map entries) ∧
      UMap.find entries "unique_stop_count" =
        some (Json.Node.int (bus.stops_.toFinset.card : Int)) := by
  obtain ⟨length, _, hp⟩ := BusInfo_Process_known lm m request_id name bus hbus
    (Build_BusStopsRegistered lm reqs w v m hbuild name bus hbus)
  refine ⟨_, hp, ?_⟩
  have hfind : ∀ (a b c d e : Json.Node),
      UMap.find [("curvature", a), ("request_id", b), ("route_length", c), ("stop_count", d),
        ("unique_stop_count", e)] "unique_stop_count" = some e := by
    intro a b c d e
    simp [UMap.find]
  rw [List.card_toFinset] at hrange
  have hint : toInt32 (toInt32 (bus.stops_.dedup.length : Int)) =
      (bus.stops_.dedup.length : Int) := by
    unfold toInt32
    omega
  rw [hfind, List.card_toFinset, hint]

/-- C19, witness: the bus of `twoWayRequests` lists the two distinct stops `A, B`. -/
theorem C19_unique_stop_count_witness :
    ∃ entries,
      Requests.BusInfo.Process Libm.sample twoWayNetwork 3 "1" = .ok (Json.Node.map entries) ∧
      UMap.find entries "unique_stop_count" = some (Json.Node.int 2) :=
  C19_unique_stop_count Libm.sample twoWayRequests 5 60 twoWayNetwork 3 "1"
    ⟨BusType.REGULAR, ["A", "B"]⟩ twoWayNetwork_built rfl (by simp)

/-! ## C11: the wait edges of a built graph -/

theorem forall₂_eq_map {α β : Type} (f : α → β) {l₁ : List α} {l₂ : List β}
    (h : List.Forall₂ (fun a b => b = f a) l₁ l₂) : l₂ = l₁.map f := by
  induction h with
  | nil => rfl
  | cons hab _ ih => rw [List.map_cons, ← ih, hab]

/-- The WAIT edges of a built graph are the wait edges of the `Stop` requests, one
per request, in input order. -/
theorem Build_wait_edges (lm : Libm) (reqs : List BaseRequest) (w : Int) (v : ℚ)
    (m : TransportManager) (h : Build lm (ParseBaseRequests reqs w v) = .ok m) :
    m.graph.edges_.filter (fun e => decide (e.weight.type_ = EdgeType.WAIT)) =
      (stopRequests reqs).map (fun r => stopWaitEdge m r.name) := by
  obtain ⟨ht, _, hset⟩ := Build_VertexTables lm reqs w v m h
  obtain ⟨m1, h1, h2⟩ := Build_phases lm reqs w v m h
  obtain ⟨_, _, _, _, _, hinfo, _, _, hedges, _⟩ := Build_before_buses reqs w v m1 h1
  have hfresh : m1.InfoFresh := by
    intro id _
    rw [hinfo]
    rfl
  obtain ⟨hE, _, _⟩ := BuildBuses_groups lm _ m1 m hfresh h2
  have hwt : m.GetBusWaitTime = w := by
    simp [GetBusWaitTime, hset, RoutingSettings.make]
  have hmap : m1.graph.edges_ = (stopRequests reqs).map (fun r => stopWaitEdge m r.name) := by
    apply forall₂_eq_map
    refine hedges.imp ?_
    rintro r e ⟨i, hi, rfl⟩
    have hw := (ht.wait_iff r.name _).2 ⟨i, hi, rfl⟩
    have hb := (ht.board_iff r.name _).2 ⟨i, hi, rfl⟩
    simp only [stopWaitEdge, waitEdge, waitIdOf, boardIdOf, hw, hb, hwt]
  rw [hE, List.filter_append, ← hmap]
  have h1 : m1.graph.edges_.filter (fun e => decide (e.weight.type_ = EdgeType.WAIT)) =
      m1.graph.edges_ := by
    rw [List.filter_eq_self]
    intro e he
    rw [hmap] at he
    obtain ⟨r, _, rfl⟩ := List.mem_map.1 he
    simp [stopWaitEdge]
  have h2 : (((busStopsAfter (stopsBefore m1) (busRequests reqs)).flatMap
      (fun q => busGroup m.boardIdOf m.waitIdOf (m.hopTime lm) q.1 q.2)).map Prod.fst).filter
        (fun e => decide (e.weight.type_ = EdgeType.WAIT)) = [] := by
    rw [List.filter_eq_nil_iff]
    intro e he
    obtain ⟨p, hp, rfl⟩ := List.mem_map.1 he
    obtain ⟨q, _, hq⟩ := List.mem_flatMap.1 hp
    have := (busGroup_kind _ _ _ q.1 q.2 p hq).1
    simp [this]
  rw [h1, h2, List.append_nil]

theorem repeatedStopNetwork_built :
    Build Libm.sample (ParseBaseRequests repeatedStopRequests 5 60) = .ok repeatedStopNetwork := by
  decide!

/-- C11 (as amended): after `Build` on base requests whose `Stop` requests have
pairwise distinct names, the WAIT edges of the graph are, in order, the wait
edges of the stops of the store, no others: for every stop of the store the
graph has exactly one edge of type WAIT from the wait vertex of the stop to
its board vertex with the configured `bus_wait_time` as weight, every WAIT
edge of the graph is the wait edge of a stop of the store, and different
stops have different wait edges. -/
theorem C11_wait_edges (lm : Libm) (reqs : List BaseRequest) (w : Int) (v : ℚ)
    (m : TransportManager)
    (hbuild : Build lm (ParseBaseRequests reqs w v) = .ok m)
    (hnames : ((stopRequests reqs).map (fun r => r.name)).Nodup) :
    m.graph.edges_.filter (fun e => decide (e.weight.type_ = EdgeType.WAIT)) =
      m.stops_.map (fun p => stopWaitEdge m p.1) ∧
    m.GetBusWaitTime = w ∧
    (∀ S, UMap.find m.stops_ S ≠ none →
      m.GetVertexIdByWaitStop S = .ok (stopWaitEdge m S).from_ ∧
      m.GetVertexIdByStop S = .ok (stopWaitEdge m S).to_ ∧
      m.graph.edges_.count (stopWaitEdge m S) = 1) ∧
    (∀ e ∈ m.graph.edges_, e.weight.type_ = EdgeType.WAIT →
      ∃ S, UMap.find m.stops_ S ≠ none ∧ e = stopWaitEdge m S) ∧
    (∀ S T, UMap.find m.stops_ S ≠ none → UMap.find m.stops_ T ≠ none →
      stopWaitEdge m S = stopWaitEdge m T → S = T) := by
  obtain ⟨ht, _, hset⟩ := Build_VertexTables lm reqs w v m hbuild
  have hE := Build_wait_edges lm reqs w v m hbuild
  have hreg : registrationOrder (stopRequests reqs) =
      (stopRequests reqs).map (fun r => r.name) := by
    have := registrationOrder_foldl_nodup (stopRequests reqs) [] (by simpa using hnames)
    simpa [registrationOrder] using this
  have hkeys : m.stops_.map Prod.fst = (stopRequests reqs).map (fun r => r.name) :=
    ht.keys.trans hreg
  have hlist : m.graph.edges_.filter (fun e => decide (e.weight.type_ = EdgeType.WAIT)) =
      m.stops_.map (fun p => stopWaitEdge m p.1) := by
    rw [hE]
    have : m.stops_.map (fun p => stopWaitEdge m p.1) =
        (m.stops_.map Prod.fst).map (stopWaitEdge m) := by
      rw [List.map_map]
      rfl
    rw [this, hkeys, List.map_map]
    rfl
  have hinj : ∀ S T, UMap.find m.stops_ S ≠ none → UMap.find m.stops_ T ≠ none →
      stopWaitEdge m S = stopWaitEdge m T → S = T := by
    intro S T hS hT hST
    obtain ⟨i, hi⟩ := List.getElem?_of_mem ((ht.mem_iff S).1 hS)
    obtain ⟨j, hj⟩ := List.getElem?_of_mem ((ht.mem_iff T).1 hT)
    have hwS := (ht.wait_iff S _).2 ⟨i, hi, rfl⟩
    have hwT := (ht.wait_iff T _).2 ⟨j, hj, rfl⟩
    have hfrom : m.waitIdOf S = m.waitIdOf T := congrArg Edge.from_ hST
    simp only [waitIdOf, hwS, hwT] at hfrom
    have hij : i = j := by
      have h2 : (2 * i + 1 : Nat) = 2 * j + 1 := hfrom
      omega
    subst hij
    rw [hi] at hj
    exact Option.some.inj hj
  have hwt : m.GetBusWaitTime = w := by
    simp [GetBusWaitTime, hset, RoutingSettings.make]
  refine ⟨hlist, hwt, ?_, ?_, hinj⟩
  · intro S hS
    obtain ⟨hb, hw⟩ := ht.ids_of_registered S hS
    refine ⟨hw, hb, ?_⟩
    have hc : m.graph.edges_.count (stopWaitEdge m S) =
        (m.graph.edges_.filter (fun e => decide (e.weight.type_ = EdgeType.WAIT))).count
          (stopWaitEdge m S) := by
      rw [List.count_filter]
      simp [stopWaitEdge]
    rw [hc, hlist]
    apply List.count_eq_one_of_mem
    · have hnd : (m.stops_.map Prod.fst).Nodup := by rw [ht.keys]; exact ht.nodup
      have : m.stops_.map (fun p => stopWaitEdge m p.1) =
          (m.stops_.map Prod.fst).map (stopWaitEdge m) := by
        rw [List.map_map]
        rfl
      rw [this]
      refine List.Nodup.map_on ?_ hnd
      intro a ha b hb hab
      refine hinj a b ?_ ?_ hab
      · rw [Ne, UMap.find_eq_none_iff, not_not]; exact ha
      · rw [Ne, UMap.find_eq_none_iff, not_not]; exact hb
    · have hmem : S ∈ m.stops_.map Prod.fst := by
        by_contra hn
        exact hS ((UMap.find_eq_none_iff _ _).2 hn)
      obtain ⟨p, hp, rfl⟩ := List.mem_map.1 hmem
      exact List.mem_map.2 ⟨p, hp, rfl⟩
  · intro e he hwait
    have hmem : e ∈ m.graph.edges_.filter (fun e => decide (e.weight.type_ = EdgeType.WAIT)) :=
      List.mem_filter.2 ⟨he, by simp [hwait]⟩
    rw [hlist] at hmem
    obtain ⟨p, hp, rfl⟩ := List.mem_map.1 hmem
    refine ⟨p.1, ?_, rfl⟩
    rw [Ne, UMap.find_eq_none_iff, not_not]
    exact List.mem_map.2 ⟨p, hp, rfl⟩

/-- C11, witness: the network built from `twoWayRequests` has the wait edges `1 → 0` of
`A` and `3 → 2` of `B`, of weight 5, and no other WAIT edge. -/
theorem C11_wait_edges_witness :
    twoWayNetwork.graph.edges_.filter (fun e => decide (e.weight.type_ = EdgeType.WAIT)) =
      [⟨1, 0, ⟨EdgeType.WAIT, 5⟩⟩, ⟨3, 2, ⟨EdgeType.WAIT, 5⟩⟩] :=
  (C11_wait_edges Libm.sample twoWayRequests 5 60 twoWayNetwork twoWayNetwork_built
    (by decide)).1.trans (by decide!)

/-- C11, counterexample: `repeatedStopRequests` has two `Stop` requests for `A`; the
built store holds the stop `A` once, with wait vertex 1 and board vertex 0, and
the graph has two WAIT edges from 1 to 0 for it. -/
theorem C11_counterexample :
    Build Libm.sample (ParseBaseRequests repeatedStopRequests 5 60) = .ok repeatedStopNetwork ∧
      repeatedStopNetwork.stops_.map Prod.fst = ["A", "B"] ∧
      repeatedStopNetwork.GetVertexIdByWaitStop "A" = .ok 1 ∧
      repeatedStopNetwork.GetVertexIdByStop "A" = .ok 0 ∧
      (repeatedStopNetwork.graph.edges_.filter
        (fun e => decide (e.weight.type_ = EdgeType.WAIT ∧ e.from_ = 1 ∧ e.to_ = 0))).length =
          2 := by
  refine ⟨repeatedStopNetwork_built, by decide!, by decide!, by decide!, by decide!⟩

/-! ### When `Build` succeeds -/

theorem mem_registrationOrder_foldl (rs : List StopRequest) (names : List String) (s : String) :
    s ∈ rs.foldl registrationOrder.step names ↔ s ∈ names ∨ ∃ r ∈ rs, r.name = s := by
  induction rs generalizing names with
  | nil => simp
  | cons r rest ih =>
    rw [List.foldl_cons, ih]
    unfold registrationOrder.step
    by_cases h : r.name ∈ names
    · simp only [h, if_true, List.mem_cons, exists_eq_or_imp]
      constructor
      · rintro (h1 | h1)
        · exact Or.inl h1
        · exact Or.inr (Or.inr h1)
      · rintro (h1 | h1 | h1)
        · exact Or.inl h1
        · exact Or.inl (h1 ▸ h)
        · exact Or.inr h1
    · simp only [h, if_false, List.mem_append, List.mem_cons, List.not_mem_nil, or_false,
        exists_eq_or_imp]
      constructor
      · rintro ((h1 | h1) | h1)
        · exact Or.inl h1
        · exact Or.inr (Or.inl h1.symm)
        · exact Or.inr (Or.inr h1)
      · rintro (h1 | h1 | h1)
        · exact Or.inl (Or.inl h1)
        · exact Or.inl (Or.inr h1.symm)
        · exact Or.inr h1

/-- The registered names are the names of the `Stop` requests. -/
theorem mem_registrationOrder (rs : List StopRequest) (s : String) :
    s ∈ registrationOrder rs ↔ s ∈ rs.map (fun r => r.name) := by
  unfold registrationOrder
  rw [mem_registrationOrder_foldl]
  simp

theorem GetStop_of_registered (m : TransportManager) (s : String)
    (h : UMap.find m.stops_ s ≠ none) : m.GetStop s = some s := by
  unfold GetStop
  cases hf : UMap.find m.stops_ s with
  | none => exact absurd hf h
  | some _ => rfl

theorem BuildDistances_inner_ok (name f : String) (rd : List (String × Int))
    (m : TransportManager) (hto : ∀ e ∈ rd, UMap.find m.stops_ e.1 ≠ none) :
    ∃ m', BuildDistances.inner name (some f) m rd = .ok m' ∧ m'.stops_ = m.stops_ := by
  induction rd generalizing m with
  | nil => exact ⟨m, rfl, rfl⟩
  | cons e rest ih =>
    unfold BuildDistances.inner
    simp only [GetStop_of_registered m e.1 (hto e (List.mem_cons_self _ _))]
    exact ih _ (fun e' he' => hto e' (List.mem_cons_of_mem _ he'))

theorem BuildDistances_ok (ds : List StopRequest) (m : TransportManager)
    (hfrom : ∀ r ∈ ds, UMap.find m.stops_ r.name ≠ none)
    (hto : ∀ r ∈ ds, ∀ e ∈ r.road_distances, UMap.find m.stops_ e.1 ≠ none) :
    ∃ m', BuildDistances m ds = .ok m' := by
  induction ds generalizing m with
  | nil => exact ⟨m, rfl⟩
  | cons r rest ih =>
    unfold BuildDistances
    rw [GetStop_of_registered m r.name (hfrom r (List.mem_cons_self _ _))]
    obtain ⟨m1, h1, hs⟩ := BuildDistances_inner_ok r.name r.name r.road_distances m
      (hto r (List.mem_cons_self _ _))
    rw [h1]
    simp only
    apply ih
    · intro r' hr'
      rw [hs]
      exact hfrom r' (List.mem_cons_of_mem _ hr')
    · intro r' hr' e he
      rw [hs]
      exact hto r' (List.mem_cons_of_mem _ hr') e he
theorem Resolves_pushEdge (m : TransportManager) (p : Edge × EdgeInfo) (s : String) :
    (m.pushEdge p).Resolves s ↔ m.Resolves s := Iff.rfl

theorem Resolves_pushEdges (es : List (Edge × EdgeInfo)) (m : TransportManager) (s : String) :
    (m.pushEdges es).Resolves s ↔ m.Resolves s := by
  induction es generalizing m with
  | nil => exact Iff.rfl
  | cons e rest ih =>
    have h : m.pushEdges (e :: rest) = (m.pushEdge e).pushEdges rest := rfl
    rw [h, ih, Resolves_pushEdge]

theorem addBusEdge_ok (lm : Libm) (m : TransportManager) (bus : String) (v : VertexId)
    (last next : String) (c : Int) (w : ℚ) (hl : m.Resolves last) (hn : m.Resolves next) :
    ∃ r, addBusEdge lm m bus v last next c w = .ok r := by
  obtain ⟨t, ht⟩ := hn.2.2
  unfold addBusEdge
  simp only [GetDistance_ok_of_registered lm m last next hl.1 hn.1, ht]
  exact ⟨_, rfl⟩

theorem inner_ok (lm : Libm) (bus : String) (v : VertexId) (rest : List String)
    (m : TransportManager) (last : String) (c : Int) (w : ℚ) (hl : m.Resolves last)
    (hr : ∀ s ∈ rest, m.Resolves s) :
    ∃ r, BuildEdgesForBus.inner lm bus v m last rest c w = .ok r := by
  induction rest generalizing m last c w with
  | nil => exact ⟨_, rfl⟩
  | cons next rest ih =>
    obtain ⟨⟨m1, c1, w1⟩, ha⟩ := addBusEdge_ok lm m bus v last next c w hl
      (hr next (List.mem_cons_self _ _))
    obtain ⟨_, _, hm1, _, _⟩ := addBusEdge_spec lm m m1 bus v last next c c1 w w1 ha
    unfold BuildEdgesForBus.inner
    simp only [ha]
    apply ih
    · rw [hm1, Resolves_pushEdge]
      exact hr next (List.mem_cons_self _ _)
    · intro s hs
      rw [hm1, Resolves_pushEdge]
      exact hr s (List.mem_cons_of_mem _ hs)

theorem back_loop_ok (lm : Libm) (bus : String) (v : VertexId) (rest : List String)
    (m : TransportManager) (last : String) (c : Int) (w : ℚ) (hl : m.Resolves last)
    (hr : ∀ s ∈ rest, m.Resolves s) :
    ∃ m', BuildBackEdgesForRegularBus.loop lm bus v m last rest c w = .ok m' := by
  induction rest generalizing m last c w with
  | nil => exact ⟨_, rfl⟩
  | cons next rest ih =>
    obtain ⟨⟨m1, c1, w1⟩, ha⟩ := addBusEdge_ok lm m bus v last next c w hl
      (hr next (List.mem_cons_self _ _))
    obtain ⟨_, _, hm1, _, _⟩ := addBusEdge_spec lm m m1 bus v last next c c1 w w1 ha
    unfold BuildBackEdgesForRegularBus.loop
    simp only [ha]
    apply ih
    · rw [hm1, Resolves_pushEdge]
      exact hr next (List.mem_cons_self _ _)
    · intro s hs
      rw [hm1, Resolves_pushEdge]
      exact hr s (List.mem_cons_of_mem _ hs)

theorem BuildBackEdgesForRegularBus_ok (lm : Libm) (m : TransportManager) (stops : List String)
    (bus : String) (v : VertexId) (c : Int) (w : ℚ) (hs : ∀ s ∈ stops, m.Resolves s) :
    ∃ m', BuildBackEdgesForRegularBus lm m stops bus v c w = .ok m' := by
  unfold BuildBackEdgesForRegularBus
  cases hr : stops.reverse with
  | nil => exact ⟨_, rfl⟩
  | cons first rest =>
    have hmem : ∀ s ∈ first :: rest, m.Resolves s := by
      intro s h
      rw [← hr] at h
      exact hs s (List.mem_reverse.1 h)
    exact back_loop_ok lm bus v rest m first c w (hmem first (List.mem_cons_self _ _))
      (fun s h => hmem s (List.mem_cons_of_mem _ h))

theorem outer_ok (lm : Libm) (stops : List String) (bus : String) (wb : Bool)
    (rest : List String) (m : TransportManager) (hs : ∀ s ∈ stops, m.Resolves s)
    (hr : ∀ s ∈ rest, m.Resolves s) :
    ∃ m', BuildEdgesForBus.outer lm stops bus wb m rest = .ok m' := by
  induction rest generalizing m with
  | nil => exact ⟨_, rfl⟩
  | cons s rest ih =>
    have hres := hr s (List.mem_cons_self _ _)
    obtain ⟨b, hb⟩ := hres.2.1
    obtain ⟨⟨m1, c1, w1⟩, hi⟩ := inner_ok lm bus b rest m s 0 0 hres
      (fun x hx => hr x (List.mem_cons_of_mem _ hx))
    obtain ⟨_, _, hm1⟩ := inner_spec lm bus b rest m m1 s 0 c1 0 w1 hi
    unfold BuildEdgesForBus.outer
    simp only [hb, hi]
    cases wb with
    | false =>
      simp only [Bool.false_eq_true, if_false]
      apply ih
      · intro x hx
        rw [hm1, Resolves_pushEdges]
        exact hs x hx
      · intro x hx
        rw [hm1, Resolves_pushEdges]
        exact hr x (List.mem_cons_of_mem _ hx)
    | true =>
      simp only [if_true]
      obtain ⟨m2, h2⟩ := BuildBackEdgesForRegularBus_ok lm m1 stops bus b c1 w1
        (fun x hx => by rw [hm1, Resolves_pushEdges]; exact hs x hx)
      have hm2 := BuildBackEdgesForRegularBus_spec lm m1 m2 stops bus b c1 w1 h2
      simp only [h2]
      apply ih
      · intro x hx
        rw [hm2, Resolves_pushEdges, hm1, Resolves_pushEdges]
        exact hs x hx
      · intro x hx
        rw [hm2, Resolves_pushEdges, hm1, Resolves_pushEdges]
        exact hr x (List.mem_cons_of_mem _ hx)

theorem BuildEdgesForBus_ok (lm : Libm) (m : TransportManager) (stops : List String)
    (bus : String) (wb : Bool) (hs : ∀ s ∈ stops, m.Resolves s) :
    ∃ m', BuildEdgesForBus lm m stops bus wb = .ok m' :=
  outer_ok lm stops bus wb stops m hs hs

theorem BuildReversedEdgesForBus_ok (lm : Libm) (m : TransportManager) (stops : List String)
    (bus : String) (hs : ∀ s ∈ stops, m.Resolves s) :
    ∃ m', BuildReversedEdgesForBus lm m stops bus = .ok m' := by
  unfold BuildReversedEdgesForBus
  rw [reversed_outer_eq lm bus stops stops m]
  exact outer_ok lm stops bus false stops m hs hs
theorem VertexTables.resolves {m : TransportManager} {names : List String}
    (h : VertexTables m names) (s : String) (hs : s ∈ names) : m.Resolves s := by
  have hreg := (h.mem_iff s).2 hs
  obtain ⟨hb, hw⟩ := h.ids_of_registered s hreg
  exact ⟨hreg, ⟨_, hb⟩, ⟨_, hw⟩⟩

theorem addStops_ok (bus : String) (stops : List String) (m : TransportManager)
    (h : ∀ s ∈ stops, UMap.find m.stops_ s ≠ none) :
    ∃ m', BuildBuses.addStops bus m stops = .ok m' := by
  induction stops generalizing m with
  | nil => exact ⟨m, rfl⟩
  | cons s rest ih =>
    unfold BuildBuses.addStops
    rw [GetStop_of_registered m s (h s (List.mem_cons_self _ _))]
    simp only
    apply ih
    intro x hx
    have hreg := h x (List.mem_cons_of_mem _ hx)
    simp only [UMap.find_modify]
    by_cases hk : s = x
    · simp only [hk, if_true]
      cases hf : UMap.find m.stops_ x with
      | none => exact absurd hf hreg
      | some _ => simp
    · simp only [hk, if_false]
      exact hreg

theorem BuildBuses_step_ok (lm : Libm) (m : TransportManager) (r : BusRequest)
    (names : List String) (hv : VertexTables m names)
    (hreg : ∀ s ∈ r.stops, s ∈ names) (hprev : m.BusStopsRegistered) :
    ∃ m', BuildBuses.step lm m r = .ok m' := by
  obtain ⟨m1, ha⟩ := addStops_ok r.name r.stops
    { (m.SetBus r.name {}) with
      buses_ := UMap.modify (m.SetBus r.name {}).buses_ r.name
        (fun bus => { bus with
          type_ := if r.is_roundtrip then BusType.CIRCULAR else BusType.REGULAR }) }
    (fun s hs => (hv.mem_iff s).2 (hreg s hs))
  obtain ⟨_, _, _, i4, i5, i6, _, _, i9, _, i11, _⟩ := addStops_spec _ _ _ _ ha
  have hbus : UMap.find m1.buses_ r.name = some ⟨r.type_, stopsBefore m r.name ++ r.stops⟩ := by
    rw [i9 r.name]
    simp only [SetBus, UMap.find_modify, UMap.find_emplace, if_true, stopsBefore,
      BusRequest.type_]
    cases UMap.find m.buses_ r.name <;> simp
  have hderef : m1.derefBus r.name = .ok ⟨r.type_, stopsBefore m r.name ++ r.stops⟩ := by
    unfold derefBus
    rw [hbus]
  have hv1 : VertexTables m1 names := by
    refine ⟨i11.trans hv.keys, hv.nodup, ?_, ?_, ?_, ?_, ?_, ?_, ?_, ?_⟩
    · rw [i5]; exact hv.board_size
    · rw [i6]; exact hv.wait_size
    · rw [i5]; exact hv.board
    · rw [i6]; exact hv.wait
    · rw [i4]; exact hv.stop_of
    · rw [i5]; exact hv.board_none
    · rw [i6]; exact hv.wait_none
    · rw [i4]; exact hv.stop_of_none
  have hres : ∀ s ∈ stopsBefore m r.name ++ r.stops, m1.Resolves s := by
    intro s hs
    apply hv1.resolves
    rcases List.mem_append.1 hs with h | h
    · obtain ⟨b0, hf, hs0⟩ := mem_stopsBefore m r.name s h
      exact (hv.mem_iff s).1 (hprev r.name b0 hf s hs0)
    · exact hreg s h
  obtain ⟨m2, he⟩ := BuildEdgesForBus_ok lm m1 (stopsBefore m r.name ++ r.stops) r.name
    (decide (r.type_ = BusType.REGULAR)) hres
  have hm2 := BuildEdgesForBus_spec lm m1 m2 _ _ _ he
  unfold BuildBuses.step
  simp only [ha, hderef, he]
  by_cases ht : r.type_ = BusType.REGULAR
  · simp only [ht, if_true]
    apply BuildReversedEdgesForBus_ok
    intro s hs
    rw [hm2, Resolves_pushEdges]
    exact hres s (List.mem_reverse.1 hs)
  · simp only [ht, if_false]
    exact ⟨_, rfl⟩

theorem BuildBuses_step_registered (lm : Libm) (m m' : TransportManager) (r : BusRequest)
    (h0 : m.BusStopsRegistered) (hs : BuildBuses.step lm m r = .ok m') :
    m'.BusStopsRegistered := by
  obtain ⟨mm, i1, _, _, _, _, _, _, _, i9, _, i11, hm'⟩ := BuildBuses_step_spec lm m m' r hs
  obtain ⟨_, f2, f3, _⟩ := pushEdges_frame
    (stepEdges mm.boardIdOf mm.waitIdOf (mm.hopTime lm) r.name
      ⟨r.type_, stopsBefore m r.name ++ r.stops⟩) mm
  rw [← hm'] at f2 f3
  intro b bus hb s hs'
  rw [Ne, UMap.find_eq_none_iff, f2, i11, ← UMap.find_eq_none_iff]
  rw [f3, i9 b] at hb
  by_cases hk : r.name = b
  · subst hk
    simp only [if_true, Option.some.injEq] at hb
    rw [← hb] at hs'
    simp only [List.mem_append] at hs'
    rcases hs' with hs' | hs'
    · obtain ⟨b0, hf, hs0⟩ := mem_stopsBefore m r.name s hs'
      exact h0 r.name b0 hf s hs0
    · exact i1 s hs'
  · simp only [hk, if_false] at hb
    exact h0 b bus hb s hs'

theorem BuildBuses_ok (lm : Libm) (rs : List BusRequest) (m : TransportManager)
    (names : List String) (hv : VertexTables m names)
    (hreg : ∀ r ∈ rs, ∀ s ∈ r.stops, s ∈ names) (hprev : m.BusStopsRegistered) :
    ∃ m', BuildBuses lm m rs = .ok m' := by
  induction rs generalizing m with
  | nil => exact ⟨m, rfl⟩
  | cons r rest ih =>
    obtain ⟨m1, h1⟩ := BuildBuses_step_ok lm m r names hv (hreg r (List.mem_cons_self _ _)) hprev
    unfold BuildBuses
    simp only [h1]
    exact ih m1 (VertexTables_of_frame hv (BuildBuses_step_frame lm m m1 r h1))
      (fun r' hr' => hreg r' (List.mem_cons_of_mem _ hr'))
      (BuildBuses_step_registered lm m m1 r hprev h1)

/-- The stops of the `Bus` requests processed by a successful `BuildBuses` are registered. -/
theorem BuildBuses_requests_registered (lm : Libm) (rs : List BusRequest)
    (m m' : TransportManager) (h : BuildBuses lm m rs = .ok m') :
    ∀ r ∈ rs, ∀ s ∈ r.stops, UMap.find m.stops_ s ≠ none := by
  induction rs generalizing m with
  | nil => simp
  | cons r rest ih =>
    unfold BuildBuses at h
    cases hs : BuildBuses.step lm m r with
    | error e => simp [hs] at h
    | ok m1 =>
      simp only [hs] at h
      have hf := BuildBuses_step_frame lm m m1 r hs
      obtain ⟨_, i1, _⟩ := BuildBuses_step_spec lm m m1 r hs
      intro r' hr' s hs'
      rcases List.mem_cons.1 hr' with rfl | hr'
      · exact i1 s hs'
      · have := ih m1 h r' hr' s hs'
        rw [Ne, UMap.find_eq_none_iff, hf.keys, ← UMap.find_eq_none_iff] at this
        exact this

/-- `Build` succeeds when every stop named by a `Bus` request or by the road
distances of a `Stop` request is the name of some `Stop` request. -/
theorem Build_ok (lm : Libm) (reqs : List BaseRequest) (w : Int) (v : ℚ)
    (hbus : ∀ r ∈ busRequests reqs, ∀ s ∈ r.stops,
      s ∈ (stopRequests reqs).map (fun r => r.name))
    (hdist : ∀ r ∈ stopRequests reqs, ∀ e ∈ r.road_distances,
      e.1 ∈ (stopRequests reqs).map (fun r => r.name)) :
    ∃ m, Build lm (ParseBaseRequests reqs w v) = .ok m := by
  obtain ⟨h1, h2, h3, h4, h5⟩ := ParseBaseRequests_fields reqs w v
  obtain ⟨hv, _⟩ := BuildStops_spec (stopRequests reqs)
    (TransportManager.make ((stopRequests reqs).length * 2) w v) []
    (VertexTables_make ((stopRequests reqs).length * 2) w v)
  have hmem : ∀ s, s ∈ (stopRequests reqs).map (fun r => r.name) →
      UMap.find (BuildStops (TransportManager.make ((stopRequests reqs).length * 2) w v)
        (stopRequests reqs)).stops_ s ≠ none := by
    intro s hs
    exact (hv.mem_iff s).2 ((mem_registrationOrder _ s).2 hs)
  obtain ⟨m1, hd⟩ := BuildDistances_ok
    ((stopRequests reqs).filter (fun r => decide (r.road_distances.length > 0)))
    (BuildStops (TransportManager.make ((stopRequests reqs).length * 2) w v) (stopRequests reqs))
    (fun r hr => hmem _ (List.mem_map.2 ⟨r, (List.mem_filter.1 hr).1, rfl⟩))
    (fun r hr e he => hmem _ (hdist r (List.mem_filter.1 hr).1 e he))
  obtain ⟨hv1, _, _, _, hb, _⟩ := Build_before_buses reqs w v m1 hd
  have hprev : m1.BusStopsRegistered := by
    intro b bus hb'
    rw [hb] at hb'
    simp [UMap.find] at hb'
  obtain ⟨m, hm⟩ := BuildBuses_ok lm (busRequests reqs) m1 _ hv1
    (fun r hr s hs => (mem_registrationOrder _ s).2 (hbus r hr s hs)) hprev
  refine ⟨m, ?_⟩
  unfold Build
  simp only [h1, h2, h3, h4, h5, hd, hm]

/-- A successful `Build` has found every referenced stop among the `Stop` requests. -/
theorem Build_references (lm : Libm) (reqs : List BaseRequest) (w : Int) (v : ℚ)
    (m : TransportManager) (h : Build lm (ParseBaseRequests reqs w v) = .ok m) :
    (∀ r ∈ busRequests reqs, ∀ s ∈ r.stops, s ∈ (stopRequests reqs).map (fun r => r.name)) ∧
    (∀ r ∈ stopRequests reqs, ∀ e ∈ r.road_distances,
      e.1 ∈ (stopRequests reqs).map (fun r => r.name)) := by
  obtain ⟨m1, h1, h2⟩ := Build_phases lm reqs w v m h
  obtain ⟨hv1, _, hto, _⟩ := Build_before_buses reqs w v m1 h1
  constructor
  · intro r hr s hs
    have := BuildBuses_requests_registered lm _ m1 m h2 r hr s hs
    exact (mem_registrationOrder _ s).1 ((hv1.mem_iff s).1 this)
  · intro r hr e he
    have := hto (r.name, e.1, e.2) ((mem_listedDistances _ _).2 ⟨r, hr, rfl, he⟩)
    exact (mem_registrationOrder _ _).1 this
/-! ## C13: when `Build` fails -/

/-- C13: for every list of well-typed base requests, `Build` fails (returns no
network) if and only if some `Bus` request lists a stop name, or the
`road_distances` of some `Stop` request name a stop, that is not the name of
any `Stop` request of the input, wherever in the input that request stands. -/
theorem C13_build_fails (lm : Libm) (reqs : List BaseRequest) (w : Int) (v : ℚ) :
    (∃ e, Build lm (ParseBaseRequests reqs w v) = .error e) ↔
      ((∃ r ∈ busRequests reqs, ∃ s ∈ r.stops,
          s ∉ (stopRequests reqs).map (fun r => r.name)) ∨
        (∃ r ∈ stopRequests reqs, ∃ e ∈ r.road_distances,
          e.1 ∉ (stopRequests reqs).map (fun r => r.name))) := by
  constructor
  · rintro ⟨e, he⟩
    by_contra hno
    rw [not_or] at hno
    obtain ⟨hb, hd⟩ := hno
    obtain ⟨m, hm⟩ := Build_ok lm reqs w v
      (fun r hr s hs => by
        by_contra hn
        exact hb ⟨r, hr, s, hs, hn⟩)
      (fun r hr e he => by
        by_contra hn
        exact hd ⟨r, hr, e, he, hn⟩)
    rw [hm] at he
    exact absurd he (by simp)
  · intro h
    cases hB : Build lm (ParseBaseRequests reqs w v) with
    | error e => exact ⟨e, rfl⟩
    | ok m =>
      obtain ⟨hb, hd⟩ := Build_references lm reqs w v m hB
      rcases h with ⟨r, hr, s, hs, hn⟩ | ⟨r, hr, e, he, hn⟩
      · exact absurd (hb r hr s hs) hn
      · exact absurd (hd r hr e he) hn

/-- C13, witness: `laterRequests` refers only to stops registered later in the input and
`Build` succeeds; `unknownStopRequests` has a bus over the unregistered stop `Z`
and `Build` fails. -/
theorem C13_build_fails_witness :
    (¬ ∃ e, Build Libm.sample (ParseBaseRequests laterRequests 5 60) = .error e) ∧
    ∃ e, Build Libm.sample (ParseBaseRequests unknownStopRequests 5 60) = .error e :=
  ⟨fun h => absurd ((C13_build_fails Libm.sample laterRequests 5 60).1 h) (by decide),
    (C13_build_fails Libm.sample unknownStopRequests 5 60).2 (by decide)⟩

/-! ## C20: a stop registered twice -/

theorem SetStop_registered (m : TransportManager) (stop_id : String) (old stop : Stop)
    (h : UMap.find m.stops_ stop_id = some old) : m.SetStop stop_id stop = m := by
  unfold SetStop UMap.emplace
  rw [h]

theorem BuildStops_coords (rs : List StopRequest) (m : TransportManager) (k : String) :
    (UMap.find (BuildStops m rs).stops_ k).map (fun s => s.coords_) =
      match UMap.find m.stops_ k with
      | some s => some s.coords_
      | none => firstCoords rs k := by
  induction rs generalizing m with
  | nil =>
    have h0 : BuildStops m [] = m := rfl
    rw [h0]
    cases UMap.find m.stops_ k <;> rfl
  | cons r rest ih =>
    have hfold : BuildStops m (r :: rest) = BuildStops (BuildStops.step m r) rest := rfl
    have hstep : (BuildStops.step m r).stops_ =
        UMap.emplace m.stops_ r.name ⟨GeoCoordinates.ofDegrees r.latitude r.longitude, []⟩ := rfl
    rw [hfold, ih, hstep, UMap.find_emplace]
    cases hf : UMap.find m.stops_ k with
    | some s => rfl
    | none =>
      by_cases hk : r.name = k
      · simp [hk, firstCoords]
      · simp [hk, firstCoords]

/-- In a built network every stop has the coordinates of the first `Stop` request
with its name. -/
theorem Build_coords (lm : Libm) (reqs : List BaseRequest) (w : Int) (v : ℚ)
    (m : TransportManager) (h : Build lm (ParseBaseRequests reqs w v) = .ok m) (k : String) :
    (UMap.find m.stops_ k).map (fun s => s.coords_) = firstCoords (stopRequests reqs) k := by
  obtain ⟨m1, h1, h2⟩ := Build_phases lm reqs w v m h
  have hf := BuildBuses_frame lm _ m1 m h2
  obtain ⟨hm1, _⟩ := BuildDistances_spec _ _ _ h1
  rw [hf.coords k, hm1]
  simp only
  rw [BuildStops_coords]
  rfl

theorem twiceStopNetwork_built :
    Build Libm.sample (ParseBaseRequests twiceStopRequests 5 60) = .ok twiceStopNetwork := by
  decide!

/-- C20 (as amended): registering a stop whose identifier is already registered is
not rejected.  `SetStop` on a registered identifier leaves the store as it is,
the stop already stored included, and hands back the pointer to that stop;
`Build` on base requests with repeated `Stop` names returns a network all the
same when every referenced stop is the name of some `Stop` request, and in it
every stop has the coordinates of the first `Stop` request with its name. -/
theorem C20_duplicate_stop (lm : Libm) (reqs : List BaseRequest) (w : Int) (v : ℚ)
    (hbus : ∀ r ∈ busRequests reqs, ∀ s ∈ r.stops,
      s ∈ (stopRequests reqs).map (fun r => r.name))
    (hdist : ∀ r ∈ stopRequests reqs, ∀ e ∈ r.road_distances,
      e.1 ∈ (stopRequests reqs).map (fun r => r.name)) :
    (∃ m, Build lm (ParseBaseRequests reqs w v) = .ok m ∧
      ∀ k, (UMap.find m.stops_ k).map (fun s => s.coords_) =
        firstCoords (stopRequests reqs) k) ∧
    (∀ (m : TransportManager) (stop_id : String) (old stop : Stop),
      UMap.find m.stops_ stop_id = some old →
        m.SetStop stop_id stop = m ∧ (m.SetStop stop_id stop).GetStop stop_id = some stop_id) := by
  obtain ⟨m, hm⟩ := Build_ok lm reqs w v hbus hdist
  refine ⟨⟨m, hm, Build_coords lm reqs w v m hm⟩, ?_⟩
  intro m stop_id old stop h
  rw [SetStop_registered m stop_id old stop h]
  exact ⟨rfl, GetStop_of_registered m stop_id (by rw [h]; simp)⟩

/-- C20, witness: `twiceStopRequests` names `A` twice; `Build` returns a network in which
`A` has the coordinates `(0, 0)` of the first request. -/
theorem C20_duplicate_stop_witness :
    ∃ m, Build Libm.sample (ParseBaseRequests twiceStopRequests 5 60) = .ok m ∧
      ∀ k, (UMap.find m.stops_ k).map (fun s => s.coords_) =
        firstCoords (stopRequests twiceStopRequests) k :=
  (C20_duplicate_stop Libm.sample twiceStopRequests 5 60 (by decide) (by decide)).1

/-- C20, counterexample: `twiceStopRequests` has two `Stop` requests named `A`; `Build`
signals no error and returns a network that holds `A` once, with the coordinates
of the first request, and `SetStop` with the stop of the second request on that
network changes nothing. -/
theorem C20_counterexample :
    Build Libm.sample (ParseBaseRequests twiceStopRequests 5 60) = .ok twiceStopNetwork ∧
      (stopRequests twiceStopRequests).map (fun r => r.name) = ["A", "A"] ∧
      twiceStopNetwork.stops_ = [("A", ⟨GeoCoordinates.ofDegrees 0 0, []⟩)] ∧
      twiceStopNetwork.SetStop "A" ⟨GeoCoordinates.ofDegrees 10 20, []⟩ = twiceStopNetwork :=
  ⟨twiceStopNetwork_built, by decide, rfl, SetStop_registered _ _ _ _ rfl⟩

/-! ## C14: stat requests that name an unknown bus or stop -/

/-- The response of `StopInfo::Process` for a name that is not a registered stop. -/
theorem StopInfo_Process_unknown (m : TransportManager) (N : Int) (name : String)
    (h : UMap.find m.stops_ name = none) :
    Requests.StopInfo.Process m N name =
      .ok (Json.Node.map
        [("error_message", Json.Node.string "not found"), ("request_id", Json.Node.int N)]) := by
  unfold Requests.StopInfo.Process
  simp only [GetStop, h]
  rfl

theorem GetVertexIdByWaitStop_error (m : TransportManager) (s : String) (e : Error)
    (h : m.GetVertexIdByWaitStop s = .error e) : e = .out_of_range := by
  unfold GetVertexIdByWaitStop tableAt at h
  cases hg : m.GetStop s with
  | none =>
    simp only [hg, Except.error.injEq] at h
    exact h.symm
  | some k =>
    simp only [hg] at h
    cases hf : UMap.find m.wait_stop_to_vertex_id k with
    | none =>
      simp only [hf, Except.error.injEq] at h
      exact h.symm
    | some x => simp [hf] at h

theorem GetVertexIdByWaitStop_unknown (m : TransportManager) (s : String)
    (h : UMap.find m.stops_ s = none) : m.GetVertexIdByWaitStop s = .error .out_of_range := by
  unfold GetVertexIdByWaitStop GetStop tableAt
  simp only [h]

/-- `RouteInfo::Process` throws `out_of_range` when `from` or `to` is not a
registered stop. -/
theorem RouteInfo_Process_unknown (m : TransportManager) (router : Router) (N : Int)
    (from_ to_ : String)
    (h : UMap.find m.stops_ from_ = none ∨ UMap.find m.stops_ to_ = none) :
    Requests.RouteInfo.Process m router N from_ to_ = .error .out_of_range := by
  unfold Requests.RouteInfo.Process
  cases hf : m.GetVertexIdByWaitStop from_ with
  | error e => rw [GetVertexIdByWaitStop_error m from_ e hf]
  | ok from_id =>
    rcases h with h | h
    · rw [GetVertexIdByWaitStop_unknown m from_ h] at hf
      exact absurd hf (by simp)
    · simp only [GetVertexIdByWaitStop_unknown m to_ h]

theorem ProcessRequests_loop_error (lm : Libm) (m : TransportManager) (router : Router)
    (requests : List Request) (req : Request) (e : Error) (hmem : req ∈ requests)
    (h : req.Process lm m router = .error e) :
    ∃ e', ProcessRequests.loop lm m router requests = .error e' := by
  induction requests with
  | nil => simp at hmem
  | cons r rest ih =>
    unfold ProcessRequests.loop
    cases hr : r.Process lm m router with
    | error e1 => exact ⟨e1, rfl⟩
    | ok response =>
      rcases List.mem_cons.1 hmem with rfl | hmem
      · rw [h] at hr
        exact absurd hr (by simp)
      · obtain ⟨e', he'⟩ := ih hmem
        exact ⟨e', by simp only [he']⟩

/-- C14, the code at the failing inputs: for every network, a `Route` request whose
`from` or `to` is not a registered stop makes `RouteInfo::Process` throw
`out_of_range` instead of returning a "not found" response, and
`ProcessRequests` on any batch that holds such a request throws too, so the
batch yields no response at all. -/
theorem C14_route_unknown_stop (lm : Libm) (m : TransportManager) (router : Router)
    (requests : List Request) (N : Int) (from_ to_ : String)
    (hmem : Request.RouteInfo N from_ to_ ∈ requests)
    (h : UMap.find m.stops_ from_ = none ∨ UMap.find m.stops_ to_ = none) :
    Requests.RouteInfo.Process m router N from_ to_ = .error .out_of_range ∧
    ∃ e, ProcessRequests lm m router requests = .error e := by
  have hp := RouteInfo_Process_unknown m router N from_ to_ h
  refine ⟨hp, ?_⟩
  obtain ⟨e, he⟩ := ProcessRequests_loop_error lm m router requests _ _ hmem hp
  exact ⟨e, by simp only [ProcessRequests, he]⟩

/-- C14, the failing input: in the network of `twoWayRequests` the batch of a `Bus`
request for the bus `1` and a `Route` request from the unregistered stop `X`
to `B` yields no document. -/
theorem C14_route_unknown_stop_witness :
    Requests.RouteInfo.Process twoWayNetwork twoWayRouter 2 "X" "B" = .error .out_of_range ∧
    ∃ e, ProcessRequests Libm.sample twoWayNetwork twoWayRouter
      [Request.BusInfo 1 "1", Request.RouteInfo 2 "X" "B"] = .error e :=
  C14_route_unknown_stop Libm.sample twoWayNetwork twoWayRouter
    [Request.BusInfo 1 "1", Request.RouteInfo 2 "X" "B"] 2 "X" "B" (by decide) (Or.inl rfl)

/-! ### The end points of the bus edges -/

theorem rideEdges_ends (wait : String → VertexId) (hop : String → String → ℚ) (bus : String)
    (v : VertexId) (rest : List String) (last : String) (c : Int) (w : ℚ) :
    ∀ p ∈ rideEdges wait hop bus v last rest c w,
      p.1.from_ = v ∧ ∃ T ∈ rest, p.1.to_ = wait T := by
  induction rest generalizing last c w with
  | nil => simp [rideEdges]
  | cons next rest ih =>
    intro p hp
    simp only [rideEdges, List.mem_cons] at hp
    rcases hp with rfl | hp
    · exact ⟨rfl, next, List.mem_cons_self _ _, rfl⟩
    · obtain ⟨h1, T, hT, h2⟩ := ih _ _ _ p hp
      exact ⟨h1, T, List.mem_cons_of_mem _ hT, h2⟩

theorem busEdges_ends (board wait : String → VertexId) (hop : String → String → ℚ)
    (bus : String) (stops : List String) (wb : Bool) (rest : List String)
    (hsub : ∀ s ∈ rest, s ∈ stops) :
    ∀ p ∈ busEdges board wait hop bus stops wb rest,
      ∃ S ∈ stops, ∃ T ∈ stops, p.1.from_ = board S ∧ p.1.to_ = wait T := by
  induction rest with
  | nil => simp [busEdges]
  | cons s rest ih =>
    intro p hp
    have hs := hsub s (List.mem_cons_self _ _)
    have hrest : ∀ x ∈ rest, x ∈ stops := fun x hx => hsub x (List.mem_cons_of_mem _ hx)
    simp only [busEdges, originEdges, List.mem_append] at hp
    rcases hp with (hp | hp) | hp
    · obtain ⟨h1, T, hT, h2⟩ := rideEdges_ends _ _ _ _ _ _ _ _ p hp
      exact ⟨s, hs, T, hrest T hT, h1, h2⟩
    · cases wb with
      | false => simp at hp
      | true =>
        simp only [if_true, backEdges] at hp
        cases hr : stops.reverse with
        | nil => simp [hr] at hp
        | cons first back =>
          rw [hr] at hp
          obtain ⟨h1, T, hT, h2⟩ := rideEdges_ends _ _ _ _ _ _ _ _ p hp
          refine ⟨s, hs, T, ?_, h1, h2⟩
          apply List.mem_reverse.1
          rw [hr]
          exact List.mem_cons_of_mem _ hT
    · exact ih hrest p hp

theorem stepEdges_ends (board wait : String → VertexId) (hop : String → String → ℚ)
    (bus_ptr : String) (bus : Bus) :
    ∀ p ∈ stepEdges board wait hop bus_ptr bus,
      ∃ S ∈ bus.stops_, ∃ T ∈ bus.stops_, p.1.from_ = board S ∧ p.1.to_ = wait T := by
  intro p hp
  simp only [stepEdges, List.mem_append] at hp
  rcases hp with hp | hp
  · exact busEdges_ends _ _ _ _ _ _ _ (fun _ h => h) p hp
  · by_cases ht : bus.type_ = BusType.REGULAR
    · simp only [ht, if_true] at hp
      obtain ⟨S, hS, T, hT, h1, h2⟩ := busEdges_ends _ _ _ _ _ _ _ (fun _ h => h) p hp
      exact ⟨S, List.mem_reverse.1 hS, T, List.mem_reverse.1 hT, h1, h2⟩
    · simp [ht] at hp

theorem BuildBuses_step_owned (lm : Libm) (m m' : TransportManager) (r : BusRequest)
    (hfresh : m.InfoFresh) (howned : m.BusEdgesOwned) (h : BuildBuses.step lm m r = .ok m') :
    m'.InfoFresh ∧ m'.BusEdgesOwned := by
  obtain ⟨L, hL, hE, hfresh', _, hbus, hother⟩ := BuildBuses_step_edges lm m m' r hfresh h
  obtain ⟨hb, hw, _⟩ := (BuildBuses_step_frame lm m m' r h).env lm
  refine ⟨hfresh', ?_⟩
  intro e he hty
  rw [hE, List.mem_append] at he
  rcases he with he | he
  · obtain ⟨S, T, ⟨name, bus, hf, hS, hT⟩, h1, h2⟩ := howned e he hty
    refine ⟨S, T, ?_, by rw [hb]; exact h1, by rw [hw]; exact h2⟩
    by_cases hn : name = r.name
    · subst hn
      refine ⟨r.name, _, hbus, ?_, ?_⟩
      · simp only [List.mem_append, stopsBefore, hf]
        exact Or.inl hS
      · simp only [List.mem_append, stopsBefore, hf]
        exact Or.inl hT
    · exact ⟨name, bus, (hother name hn).trans hf, hS, hT⟩
  · obtain ⟨p, hp, rfl⟩ := List.mem_map.1 he
    rw [hL] at hp
    obtain ⟨S, hS, T, hT, h1, h2⟩ := stepEdges_ends _ _ _ _ _ p hp
    exact ⟨S, T, ⟨r.name, _, hbus, hS, hT⟩, h1, h2⟩

/-- In a built network every BUS edge joins two stops of one bus. -/
theorem Build_BusEdgesOwned (lm : Libm) (reqs : List BaseRequest) (w : Int) (v : ℚ)
    (m : TransportManager) (h : Build lm (ParseBaseRequests reqs w v) = .ok m) :
    m.BusEdgesOwned := by
  obtain ⟨m1, h1, h2⟩ := Build_phases lm reqs w v m h
  obtain ⟨_, _, _, _, _, hinfo, _, _, hedges, _⟩ := Build_before_buses reqs w v m1 h1
  refine (BuildBuses_induct lm (fun m => m.InfoFresh ∧ m.BusEdgesOwned) ?_ _ m1 m ?_ h2).2
  · rintro m0 r m' ⟨hf, ho⟩ hs
    exact BuildBuses_step_owned lm m0 m' r hf ho hs
  · constructor
    · intro id _
      rw [hinfo]
      rfl
    · intro e he hty
      obtain ⟨r, _, i, _, rfl⟩ := forall₂_exists_left hedges e he
      simp [waitEdge] at hty
/-! ### Paths of a built graph -/

theorem VertexTables.ids {m : TransportManager} {names : List String}
    (h : VertexTables m names) (S : String) (hS : UMap.find m.stops_ S ≠ none) :
    ∃ i, names[i]? = some S ∧ m.waitIdOf S = (2 * i + 1 : Nat) ∧
      m.boardIdOf S = (2 * i : Nat) := by
  obtain ⟨i, hi⟩ := List.getElem?_of_mem ((h.mem_iff S).1 hS)
  have hb := (h.board_iff S _).2 ⟨i, hi, rfl⟩
  have hw := (h.wait_iff S _).2 ⟨i, hi, rfl⟩
  exact ⟨i, hi, by simp only [waitIdOf, hw], by simp only [boardIdOf, hb]⟩

/-- In a built network every WAIT edge is the wait edge of a registered stop. -/
theorem Build_wait_edge_of (lm : Libm) (reqs : List BaseRequest) (w : Int) (v : ℚ)
    (m : TransportManager) (h : Build lm (ParseBaseRequests reqs w v) = .ok m) :
    ∀ e ∈ m.graph.edges_, e.weight.type_ = EdgeType.WAIT →
      ∃ S, UMap.find m.stops_ S ≠ none ∧ e = stopWaitEdge m S := by
  obtain ⟨ht, _, _⟩ := Build_VertexTables lm reqs w v m h
  intro e he hty
  have hmem : e ∈ m.graph.edges_.filter (fun e => decide (e.weight.type_ = EdgeType.WAIT)) :=
    List.mem_filter.2 ⟨he, by simp [hty]⟩
  rw [Build_wait_edges lm reqs w v m h] at hmem
  obtain ⟨r, hr, rfl⟩ := List.mem_map.1 hmem
  refine ⟨r.name, (ht.mem_iff _).2 ?_, rfl⟩
  exact (mem_registrationOrder _ _).2 (List.mem_map.2 ⟨r, hr, rfl⟩)

/-- A path that starts at a vertex of a stop linked to `A` by a chain of buses ends at
a vertex of such a stop. -/
theorem route_linked (m : TransportManager) (names : List String) (ht : VertexTables m names)
    (howned : m.BusEdgesOwned) (hreg : m.BusStopsRegistered)
    (hwait : ∀ e ∈ m.graph.edges_, e.weight.type_ = EdgeType.WAIT →
      ∃ S, UMap.find m.stops_ S ≠ none ∧ e = stopWaitEdge m S)
    (A : String) (ids : List EdgeId) :
    ∀ u v, m.graph.routeEnd u ids = some v →
      (∃ S, Relation.ReflTransGen m.BusLinked A S ∧ UMap.find m.stops_ S ≠ none ∧
        (u = m.waitIdOf S ∨ u = m.boardIdOf S)) →
      ∃ T, Relation.ReflTransGen m.BusLinked A T ∧ UMap.find m.stops_ T ≠ none ∧
        (v = m.waitIdOf T ∨ v = m.boardIdOf T) := by
  induction ids with
  | nil =>
    intro u v h hS
    simp only [DirectedWeightedGraph.routeEnd, Option.some.injEq] at h
    subst h
    exact hS
  | cons id rest ih =>
    intro u v h hS
    obtain ⟨S, hchain, hSreg, hu⟩ := hS
    obtain ⟨i, hi, hwS, hbS⟩ := ht.ids S hSreg
    unfold DirectedWeightedGraph.routeEnd at h
    cases hget : m.graph.edges_[id]? with
    | none => simp [hget] at h
    | some e =>
      simp only [hget] at h
      by_cases hfrom : e.from_ = u
      · simp only [hfrom, if_true] at h
        have he : e ∈ m.graph.edges_ := List.getElem?_mem hget
        cases hty : e.weight.type_ with
        | WAIT =>
          obtain ⟨S', hS'reg, rfl⟩ := hwait e he hty
          obtain ⟨j, hj, hwS', hbS'⟩ := ht.ids S' hS'reg
          have hf : m.waitIdOf S' = u := hfrom
          have hij : i = j := by
            rcases hu with hu | hu
            · have h2 : (2 * j + 1 : Nat) = 2 * i + 1 := by rw [← hwS', ← hwS, hf, hu]
              omega
            · have h2 : (2 * j + 1 : Nat) = 2 * i := by rw [← hwS', ← hbS, hf, hu]
              omega
          subst hij
          have hSS : S = S' := by
            rw [hi] at hj
            exact Option.some.inj hj
          subst hSS
          exact ih _ v h ⟨S, hchain, hSreg, Or.inr rfl⟩
        | BUS =>
          obtain ⟨S', T', hlink, hf, hto⟩ := howned e he hty
          obtain ⟨name, bus, hbus, hS'mem, hT'mem⟩ := hlink
          have hS'reg := hreg name bus hbus S' hS'mem
          have hT'reg := hreg name bus hbus T' hT'mem
          obtain ⟨j, hj, hwS', hbS'⟩ := ht.ids S' hS'reg
          have hf' : m.boardIdOf S' = u := hf.symm.trans hfrom
          have hij : i = j := by
            rcases hu with hu | hu
            · have h2 : (2 * j : Nat) = 2 * i + 1 := by rw [← hbS', ← hwS, hf', hu]
              omega
            · have h2 : (2 * j : Nat) = 2 * i := by rw [← hbS', ← hbS, hf', hu]
              omega
          subst hij
          have hSS : S = S' := by
            rw [hi] at hj
            exact Option.some.inj hj
          subst hSS
          rw [hto] at h
          exact ih _ v h ⟨T', hchain.tail ⟨name, bus, hbus, hS'mem, hT'mem⟩, hT'reg, Or.inl rfl⟩
      · simp [hfrom] at h

/-- In a built network a path from the wait vertex of `A` to the wait vertex of `B`
goes along a chain of buses from `A` to `B`. -/
theorem Build_route_chain (lm : Libm) (reqs : List BaseRequest) (w : Int) (v : ℚ)
    (m : TransportManager) (h : Build lm (ParseBaseRequests reqs w v) = .ok m)
    (A B : String) (hA : UMap.find m.stops_ A ≠ none) (hB : UMap.find m.stops_ B ≠ none)
    (ids : List EdgeId) (hroute : m.graph.routeEnd (m.waitIdOf A) ids = some (m.waitIdOf B)) :
    Relation.ReflTransGen m.BusLinked A B := by
  obtain ⟨ht, _, _⟩ := Build_VertexTables lm reqs w v m h
  obtain ⟨T, hchain, hT, hv⟩ := route_linked m _ ht (Build_BusEdgesOwned lm reqs w v m h)
    (Build_BusStopsRegistered lm reqs w v m h) (Build_wait_edge_of lm reqs w v m h) A ids _ _
    hroute ⟨A, Relation.ReflTransGen.refl, hA, Or.inl rfl⟩
  obtain ⟨i, hi, hwB, _⟩ := ht.ids B hB
  obtain ⟨j, hj, hwT, hbT⟩ := ht.ids T hT
  have hij : i = j := by
    rcases hv with hv | hv
    · have h2 : (2 * i + 1 : Nat) = 2 * j + 1 := by rw [← hwB, ← hwT, hv]
      omega
    · have h2 : (2 * i + 1 : Nat) = 2 * j := by rw [← hwB, ← hbT, hv]
      omega
  subst hij
  rw [hi] at hj
  rw [Option.some.inj hj]
  exact hchain
/-! ## C16: a route query without a path -/

/-- The response of `RouteInfo::Process` when the solver has no path between the
wait vertices of the two stops. -/
theorem RouteInfo_Process_no_route (m : TransportManager) (router : Router) (N : Int)
    (A B : String) (a b : VertexId) (hA : m.GetVertexIdByWaitStop A = .ok a)
    (hB : m.GetVertexIdByWaitStop B = .ok b) (hnone : router.BuildRoute a b = none) :
    Requests.RouteInfo.Process m router N A B =
      .ok (Json.Node.map
        [("error_message", Json.Node.string "not found"), ("request_id", Json.Node.int N)]) := by
  unfold Requests.RouteInfo.Process
  simp only [hA, hB, hnone]
  rfl

theorem transferNetwork_built :
    Build Libm.sample (ParseBaseRequests transferRequests 5 60) = .ok transferNetwork := by
  decide!

/-- C16 (as amended): in a built network, for a `Route` request with id `N` between
two registered stops, when the solver reports no path between their wait
vertices `RouteInfo::Process` returns exactly the map of
`error_message = "not found"` and `request_id = N`; and when the two stops are
distinct and no chain of buses links them (no sequence of stops from the
origin to the destination in which each stop and the next are stops of one
bus), the built graph has no path from the wait vertex of the origin to the
wait vertex of the destination. -/
theorem C16_no_route (lm : Libm) (reqs : List BaseRequest) (w : Int) (v : ℚ)
    (m : TransportManager) (router : Router) (N : Int) (A B : String)
    (hbuild : Build lm (ParseBaseRequests reqs w v) = .ok m)
    (hA : UMap.find m.stops_ A ≠ none) (hB : UMap.find m.stops_ B ≠ none) :
    (router.BuildRoute (m.waitIdOf A) (m.waitIdOf B) = none →
      Requests.RouteInfo.Process m router N A B =
        .ok (Json.Node.map
          [("error_message", Json.Node.string "not found"),
            ("request_id", Json.Node.int N)])) ∧
    (A ≠ B → ¬ Relation.ReflTransGen m.BusLinked A B →
      ∀ ids, m.graph.routeEnd (m.waitIdOf A) ids ≠ some (m.waitIdOf B)) := by
  obtain ⟨ht, _, _⟩ := Build_VertexTables lm reqs w v m hbuild
  constructor
  · intro hnone
    exact RouteInfo_Process_no_route m router N A B _ _ (ht.ids_of_registered A hA).2
      (ht.ids_of_registered B hB).2 hnone
  · intro _ hchain ids hroute
    exact hchain (Build_route_chain lm reqs w v m hbuild A B hA hB ids hroute)

/-- C16, witness: the network of `repeatedStopRequests` has the stops `A` and `B` and no
bus; a route request from `A` to `B` is answered "not found" when the solver has
no path, and the graph has none. -/
theorem C16_no_route_witness :
    Requests.RouteInfo.Process repeatedStopNetwork noRouteRouter 9 "A" "B" =
        .ok (Json.Node.map
          [("error_message", Json.Node.string "not found"),
            ("request_id", Json.Node.int 9)]) ∧
      ∀ ids, repeatedStopNetwork.graph.routeEnd (repeatedStopNetwork.waitIdOf "A") ids ≠
        some (repeatedStopNetwork.waitIdOf "B") :=
  ⟨(C16_no_route Libm.sample repeatedStopRequests 5 60 repeatedStopNetwork noRouteRouter 9
      "A" "B" repeatedStopNetwork_built (by decide) (by decide)).1 rfl,
    (C16_no_route Libm.sample repeatedStopRequests 5 60 repeatedStopNetwork noRouteRouter 9
      "A" "B" repeatedStopNetwork_built (by decide) (by decide)).2 (by decide)
      (fun h => by
        rcases Relation.ReflTransGen.cases_head h with h | ⟨c, ⟨name, bus, hf, _⟩, _⟩
        · exact absurd h (by decide)
        · simp [repeatedStopNetwork, UMap.find] at hf)⟩

/-- C16, counterexample: in the network of `transferRequests` no bus has both `A` and `B`
among its stops, so no bus connects the two stops, and yet the graph has a path
from the wait vertex of `A` (1) to the wait vertex of `B` (5): wait at `A`, ride
bus `1` to `C`, wait at `C`, ride bus `2` to `B`. -/
theorem C16_counterexample :
    Build Libm.sample (ParseBaseRequests transferRequests 5 60) = .ok transferNetwork ∧
      (∀ p ∈ transferNetwork.buses_, ¬ ("A" ∈ p.2.stops_ ∧ "B" ∈ p.2.stops_)) ∧
      transferNetwork.GetVertexIdByWaitStop "A" = .ok 1 ∧
      transferNetwork.GetVertexIdByWaitStop "B" = .ok 5 ∧
      transferNetwork.graph.routeEnd 1 [0, 3, 1, 4] = some 5 := by
  refine ⟨transferNetwork_built, by decide, by decide!, by decide!, by decide!⟩

/-! ## C17: a route query from a stop to itself -/

theorem routeWeight_nonneg (g : DirectedWeightedGraph)
    (h : ∀ e ∈ g.edges_, 0 ≤ e.weight.weight_) (ids : List EdgeId) :
    0 ≤ g.routeWeight ids := by
  induction ids with
  | nil => exact le_refl _
  | cons id rest ih =>
    unfold DirectedWeightedGraph.routeWeight
    cases hget : g.edges_[id]? with
    | none => simpa using ih
    | some e =>
      have := h e (List.getElem?_mem hget)
      simp only
      linarith

/-- The response of `RouteInfo::Process` when the solver answers with a path without
edges. -/
theorem RouteInfo_Process_empty (m : TransportManager) (router : Router) (N : Int)
    (A B : String) (a b : VertexId) (r : RouteInfo) (hA : m.GetVertexIdByWaitStop A = .ok a)
    (hB : m.GetVertexIdByWaitStop B = .ok b) (hr : router.BuildRoute a b = some r)
    (hedges : r.edges = []) :
    Requests.RouteInfo.Process m router N A B =
      .ok (Json.Node.map
        [("items", Json.Node.array []), ("request_id", Json.Node.int N),
          ("total_time", Json.Node.double (Double.finite r.weight.weight_))]) := by
  unfold Requests.RouteInfo.Process
  simp only [hA, hB, hr, hedges, Requests.RouteInfo.items]
  rfl

/-- In a built network with a positive wait time and no negative edge weight, a
minimum-weight path from the wait vertex of a stop to itself has no edge and
weight 0. -/
theorem Build_same_stop_answer (lm : Libm) (reqs : List BaseRequest) (w : Int) (v : ℚ)
    (m : TransportManager) (S : String) (answer : Option RouteInfo)
    (hbuild : Build lm (ParseBaseRequests reqs w v) = .ok m)
    (hS : UMap.find m.stops_ S ≠ none) (hw : 0 < w)
    (hnonneg : ∀ e ∈ m.graph.edges_, 0 ≤ e.weight.weight_)
    (hshort : ShortestAnswer m.graph (m.waitIdOf S) (m.waitIdOf S) answer) :
    ∃ r, answer = some r ∧ r.edges = [] ∧ r.weight.weight_ = 0 := by
  obtain ⟨ht, _, hset⟩ := Build_VertexTables lm reqs w v m hbuild
  cases answer with
  | none => exact absurd rfl (hshort [])
  | some r =>
    obtain ⟨hroute, hwt, hmin⟩ := hshort
    have hle : r.weight.weight_ ≤ 0 := hmin [] rfl
    refine ⟨r, rfl, ?_⟩
    cases hedges : r.edges with
    | nil =>
      rw [hedges] at hwt
      exact ⟨rfl, hwt⟩
    | cons id rest =>
      exfalso
      rw [hedges] at hroute hwt
      unfold DirectedWeightedGraph.routeEnd at hroute
      unfold DirectedWeightedGraph.routeWeight at hwt
      cases hget : m.graph.edges_[id]? with
      | none => simp [hget] at hroute
      | some e =>
        simp only [hget] at hroute hwt
        have he : e ∈ m.graph.edges_ := List.getElem?_mem hget
        by_cases hfrom : e.from_ = m.waitIdOf S
        · obtain ⟨i, hi, hwS, _⟩ := ht.ids S hS
          have hwe : (w : ℚ) ≤ e.weight.weight_ := by
            cases hty : e.weight.type_ with
            | WAIT =>
              obtain ⟨S', _, rfl⟩ := Build_wait_edge_of lm reqs w v m hbuild e he hty
              simp [stopWaitEdge, GetBusWaitTime, hset, RoutingSettings.make]
            | BUS =>
              exfalso
              obtain ⟨S', T', ⟨name, bus, hbus, hS'mem, _⟩, hf, _⟩ :=
                Build_BusEdgesOwned lm reqs w v m hbuild e he hty
              obtain ⟨j, _, _, hbS'⟩ := ht.ids S'
                (Build_BusStopsRegistered lm reqs w v m hbuild name bus hbus S' hS'mem)
              have h2 : (2 * j : Nat) = 2 * i + 1 := by rw [← hbS', ← hwS, ← hf, hfrom]
              omega
          have hrest := routeWeight_nonneg m.graph hnonneg rest
          have hwpos : (0 : ℚ) < (w : ℚ) := by exact_mod_cast hw
          linarith
        · simp [hfrom] at hroute

/-- The response to a route query from a stop to itself, under the conditions of
`Build_same_stop_answer`. -/
theorem RouteInfo_Process_same_stop (lm : Libm) (reqs : List BaseRequest) (w : Int) (v : ℚ)
    (m : TransportManager) (router : Router) (N : Int) (S : String)
    (hbuild : Build lm (ParseBaseRequests reqs w v) = .ok m)
    (hS : UMap.find m.stops_ S ≠ none) (hw : 0 < w)
    (hnonneg : ∀ e ∈ m.graph.edges_, 0 ≤ e.weight.weight_)
    (hshort : ShortestAnswer m.graph (m.waitIdOf S) (m.waitIdOf S)
      (router.BuildRoute (m.waitIdOf S) (m.waitIdOf S))) :
    Requests.RouteInfo.Process m router N S S =
      .ok (Json.Node.map
        [("items", Json.Node.array []), ("request_id", Json.Node.int N),
          ("total_time", Json.Node.double (Double.finite 0))]) := by
  obtain ⟨ht, _, _⟩ := Build_VertexTables lm reqs w v m hbuild
  obtain ⟨r, hr, hedges, hzero⟩ :=
    Build_same_stop_answer lm reqs w v m S _ hbuild hS hw hnonneg hshort
  rw [RouteInfo_Process_empty m router N S S _ _ r (ht.ids_of_registered S hS).2
    (ht.ids_of_registered S hS).2 hr hedges, hzero]

/-- C17 (as amended): in a built network with a positive wait time and no negative edge
weight, for every registered stop `S`, a route query from `S` to `S` answered by
a solver that returns a minimum-total-weight path between the two resolved
vertices (both are the wait vertex of `S`) yields `total_time` 0 and an
itinerary without any item, so no Bus item and no Wait item either. -/
theorem C17_same_stop (lm : Libm) (reqs : List BaseRequest) (w : Int) (v : ℚ)
    (m : TransportManager) (router : Router) (N : Int) (S : String)
    (hbuild : Build lm (ParseBaseRequests reqs w v) = .ok m)
    (hS : UMap.find m.stops_ S ≠ none) (hw : 0 < w)
    (hnonneg : ∀ e ∈ m.graph.edges_, 0 ≤ e.weight.weight_)
    (hshort : ShortestAnswer m.graph (m.waitIdOf S) (m.waitIdOf S)
      (router.BuildRoute (m.waitIdOf S) (m.waitIdOf S))) :
    m.GetVertexIdByWaitStop S = .ok (m.waitIdOf S) ∧
    Requests.RouteInfo.Process m router N S S =
      .ok (Json.Node.map
        [("items", Json.Node.array []), ("request_id", Json.Node.int N),
          ("total_time", Json.Node.double (Double.finite 0))]) :=
  ⟨((Build_VertexTables lm reqs w v m hbuild).1.ids_of_registered S hS).2,
    RouteInfo_Process_same_stop lm reqs w v m router N S hbuild hS hw hnonneg hshort⟩

theorem sameStopRouter_shortest :
    ShortestAnswer twoWayNetwork.graph (twoWayNetwork.waitIdOf "A") (twoWayNetwork.waitIdOf "A")
      (sameStopRouter.BuildRoute (twoWayNetwork.waitIdOf "A") (twoWayNetwork.waitIdOf "A")) := by
  show ShortestAnswer twoWayNetwork.graph 1 1 (some ⟨⟨EdgeType.BUS, 0⟩, []⟩)
  exact ⟨rfl, rfl, fun ids _ => routeWeight_nonneg _ (by decide!) ids⟩

/-- C17, witness: in the network of `twoWayRequests` (wait time 5) the solver answers the
query from the wait vertex of `A` to itself with the empty path, and the
response has `total_time` 0 and no item. -/
theorem C17_same_stop_witness :
    Requests.RouteInfo.Process twoWayNetwork sameStopRouter 7 "A" "A" =
      .ok (Json.Node.map
        [("items", Json.Node.array []), ("request_id", Json.Node.int 7),
          ("total_time", Json.Node.double (Double.finite 0))]) :=
  (C17_same_stop Libm.sample twoWayRequests 5 60 twoWayNetwork sameStopRouter 7 "A"
    twoWayNetwork_built (by decide) (by decide) (by decide!) sameStopRouter_shortest).2

/-- C17, counterexample: the network of `twoWayRequests` has wait time 5 and no road
distance from `A` to `A`; the wait vertex of `A` is 1; the empty path is a
minimum-weight path from 1 to 1, and for every solver answer that is a
minimum-weight path from 1 to 1 the response to the route query from `A` to `A`
has `total_time` 0, not 5. -/
theorem C17_counterexample :
    Build Libm.sample (ParseBaseRequests twoWayRequests 5 60) = .ok twoWayNetwork ∧
      twoWayNetwork.GetBusWaitTime = 5 ∧
      storedDistance twoWayNetwork.distances_ "A" "A" = none ∧
      twoWayNetwork.GetVertexIdByWaitStop "A" = .ok 1 ∧
      ShortestAnswer twoWayNetwork.graph 1 1 (sameStopRouter.BuildRoute 1 1) ∧
      (∀ router : Router, ShortestAnswer twoWayNetwork.graph 1 1 (router.BuildRoute 1 1) →
        Requests.RouteInfo.Process twoWayNetwork router 7 "A" "A" =
          .ok (Json.Node.map
            [("items", Json.Node.array []), ("request_id", Json.Node.int 7),
              ("total_time", Json.Node.double (Double.finite 0))])) ∧
      (0 : ℚ) ≠ ((5 : Int) : ℚ) := by
  refine ⟨twoWayNetwork_built, rfl, by decide!, by decide!, sameStopRouter_shortest, ?_,
    by norm_num⟩
  intro router hshort
  exact RouteInfo_Process_same_stop Libm.sample twoWayRequests 5 60 twoWayNetwork router 7 "A"
    twoWayNetwork_built (by decide) (by decide) (by decide!) hshort

/-! ## C18: one response per recognised stat request -/

theorem toInt32_toSizeT (id : Int) (h1 : -2 ^ 31 ≤ id) (h2 : id < 2 ^ 31) :
    toInt32 (toSizeT id) = id := by
  unfold toInt32 toSizeT
  omega

theorem ConvertRequestTypeFromString_none (t : String) (h1 : t ≠ "Bus") (h2 : t ≠ "Stop")
    (h3 : t ≠ "Route") : ConvertRequestTypeFromString t = none := by
  simp [ConvertRequestTypeFromString, STR_TO_REQUEST_TYPE, UMap.find, Ne.symm h1, Ne.symm h2,
    Ne.symm h3]

/-- `ParseRequest` on the node of a well-typed stat request. -/
theorem ParseRequest_toNode (sr : StatRequest) (h : sr.WellTyped) :
    ∃ entries, sr.toNode = Json.Node.map entries ∧ ParseRequest entries = .ok sr.request := by
  cases sr with
  | Bus id name =>
    refine ⟨_, rfl, ?_⟩
    simp [ParseRequest, Json.mapAt, UMap.find, Json.Node.AsString, Json.Node.AsInt,
      ConvertRequestTypeFromString, STR_TO_REQUEST_TYPE, Request.Create, Request.ParseFrom,
      StatRequest.request, toInt32_toSizeT id h.1 h.2]
  | Stop id name =>
    refine ⟨_, rfl, ?_⟩
    simp [ParseRequest, Json.mapAt, UMap.find, Json.Node.AsString, Json.Node.AsInt,
      ConvertRequestTypeFromString, STR_TO_REQUEST_TYPE, Request.Create, Request.ParseFrom,
      StatRequest.request, toInt32_toSizeT id h.1 h.2]
  | Route id from_ to_ =>
    refine ⟨_, rfl, ?_⟩
    simp [ParseRequest, Json.mapAt, UMap.find, Json.Node.AsString, Json.Node.AsInt,
      ConvertRequestTypeFromString, STR_TO_REQUEST_TYPE, Request.Create, Request.ParseFrom,
      StatRequest.request, toInt32_toSizeT id h.1 h.2]
  | Other type fields =>
    refine ⟨_, rfl, ?_⟩
    simp [ParseRequest, Json.mapAt, Json.find_mapSet, Json.Node.AsString,
      ConvertRequestTypeFromString_none type h.1 h.2.1 h.2.2, StatRequest.request]

/-- `ReadStatRequests` keeps the requests of the recognised types, in order, and drops
the others without an error. -/
theorem ReadStatRequests_toNode (srs : List StatRequest) (h : ∀ sr ∈ srs, sr.WellTyped) :
    ReadStatRequests (srs.map StatRequest.toNode) =
      .ok (srs.filterMap StatRequest.request) := by
  induction srs with
  | nil => rfl
  | cons sr rest ih =>
    obtain ⟨entries, hnode, hparse⟩ := ParseRequest_toNode sr (h sr (List.mem_cons_self _ _))
    have ih' := ih (fun x hx => h x (List.mem_cons_of_mem _ hx))
    rw [List.map_cons, hnode]
    unfold ReadStatRequests
    simp only [Json.Node.AsMap, hparse, ih']
    cases hr : sr.request with
    | none => simp [List.filterMap_cons, hr]
    | some r => simp [List.filterMap_cons, hr]
/-- The response of `BusInfo::Process` for a name that is not a registered bus. -/
theorem BusInfo_Process_unknown (lm : Libm) (m : TransportManager) (N : Int) (name : String)
    (hbus : UMap.find m.buses_ name = none) :
    Requests.BusInfo.Process lm m N name =
      .ok (Json.Node.map
        [("error_message", Json.Node.string "not found"), ("request_id", Json.Node.int N)]) := by
  unfold Requests.BusInfo.Process
  simp only [GetBus, hbus]
  rfl

/-- The response of `RouteInfo::Process` when the solver answers with a path of the
graph. -/
theorem RouteInfo_Process_route (m : TransportManager) (hknown : m.EdgesKnown)
    (router : Router) (N : Int) (A B : String) (a b : VertexId) (r : RouteInfo)
    (hA : m.GetVertexIdByWaitStop A = .ok a) (hB : m.GetVertexIdByWaitStop B = .ok b)
    (hr : router.BuildRoute a b = some r)
    (hpath : ∀ id ∈ r.edges, id < m.graph.edges_.length) :
    ∃ items, Requests.RouteInfo.Process m router N A B =
      .ok (Json.Node.map
        [("items", Json.Node.array items), ("request_id", Json.Node.int N),
          ("total_time", Json.Node.double (Double.finite r.weight.weight_))]) := by
  obtain ⟨items, hitems, _⟩ := RouteInfo_items_spec m hknown r.edges hpath
  refine ⟨items, ?_⟩
  unfold Requests.RouteInfo.Process
  simp only [hA, hB, hr, hitems]
  rfl

/-- In a built network, with a solver whose paths are made of edges of the graph,
every request gets a response that carries its id, provided a `Route` request
names registered stops. -/
theorem Request_Process_ok (lm : Libm) (reqs : List BaseRequest) (w : Int) (v : ℚ)
    (m : TransportManager) (router : Router)
    (hbuild : Build lm (ParseBaseRequests reqs w v) = .ok m)
    (hrouter : ∀ a b r, router.BuildRoute a b = some r →
      ∀ id ∈ r.edges, id < m.graph.edges_.length)
    (req : Request)
    (hroute : ∀ N A B, req = Request.RouteInfo N A B →
      UMap.find m.stops_ A ≠ none ∧ UMap.find m.stops_ B ≠ none) :
    ∃ response, req.Process lm m router = .ok response ∧ CarriesId req response := by
  cases req with
  | BusInfo N name =>
    cases hb : UMap.find m.buses_ name with
    | none =>
      exact ⟨_, BusInfo_Process_unknown lm m N name hb, _, rfl, by simp [UMap.find,
        Request.request_id]⟩
    | some bus =>
      obtain ⟨length, _, hp⟩ := BusInfo_Process_known lm m N name bus hb
        (Build_BusStopsRegistered lm reqs w v m hbuild name bus hb)
      exact ⟨_, hp, _, rfl, by simp [UMap.find, Request.request_id]⟩
  | StopInfo N name =>
    cases hs : UMap.find m.stops_ name with
    | none =>
      exact ⟨_, StopInfo_Process_unknown m N name hs, _, rfl, by simp [UMap.find,
        Request.request_id]⟩
    | some stop =>
      exact ⟨_, StopInfo_Process_known m N name stop hs, _, rfl, by simp [UMap.find,
        Request.request_id]⟩
  | RouteInfo N A B =>
    obtain ⟨hA, hB⟩ := hroute N A B rfl
    obtain ⟨ht, _, _⟩ := Build_VertexTables lm reqs w v m hbuild
    obtain ⟨_, hknown⟩ := Build_EdgesKnown lm reqs w v m hbuild
    have hwA := (ht.ids_of_registered A hA).2
    have hwB := (ht.ids_of_registered B hB).2
    cases hr : router.BuildRoute (m.waitIdOf A) (m.waitIdOf B) with
    | none =>
      exact ⟨_, RouteInfo_Process_no_route m router N A B _ _ hwA hwB hr, _, rfl,
        by simp [UMap.find, Request.request_id]⟩
    | some r =>
      obtain ⟨items, hp⟩ := RouteInfo_Process_route m hknown router N A B _ _ r hwA hwB hr
        (hrouter _ _ r hr)
      exact ⟨_, hp, _, rfl, by simp [UMap.find, Request.request_id]⟩

/-- Under the conditions of `Request_Process_ok` for every request of the batch,
`ProcessRequests` returns one response per request, in order, each with the id
of its request. -/
theorem ProcessRequests_responses (lm : Libm) (reqs : List BaseRequest) (w : Int) (v : ℚ)
    (m : TransportManager) (router : Router)
    (hbuild : Build lm (ParseBaseRequests reqs w v) = .ok m)
    (hrouter : ∀ a b r, router.BuildRoute a b = some r →
      ∀ id ∈ r.edges, id < m.graph.edges_.length)
    (requests : List Request)
    (hroute : ∀ N A B, Request.RouteInfo N A B ∈ requests →
      UMap.find m.stops_ A ≠ none ∧ UMap.find m.stops_ B ≠ none) :
    ∃ responses, ProcessRequests lm m router requests = .ok (Json.Node.array responses) ∧
      List.Forall₂ CarriesId requests responses := by
  have hloop : ∃ responses, ProcessRequests.loop lm m router requests = .ok responses ∧
      List.Forall₂ CarriesId requests responses := by
    induction requests with
    | nil => exact ⟨[], rfl, List.Forall₂.nil⟩
    | cons req rest ih =>
      obtain ⟨response, hp, hid⟩ := Request_Process_ok lm reqs w v m router hbuild hrouter req
        (fun N A B h => hroute N A B (h ▸ List.mem_cons_self _ _))
      obtain ⟨responses, hl, hall⟩ := ih
        (fun N A B h => hroute N A B (List.mem_cons_of_mem _ h))
      refine ⟨response :: responses, ?_, List.Forall₂.cons hid hall⟩
      unfold ProcessRequests.loop
      simp only [hp, hl]
  obtain ⟨responses, hl, hall⟩ := hloop
  exact ⟨responses, by simp only [ProcessRequests, hl], hall⟩

/-- The whole of `ReadStatRequests` followed by `ProcessRequests`, for well-typed stat
requests whose `Route` requests name registered stops: one response per request
of a recognised type, in the order of the requests, each with the id of its
request; the requests of other types give no response and no error. -/
theorem stat_requests_responses (lm : Libm) (reqs : List BaseRequest) (w : Int) (v : ℚ)
    (m : TransportManager) (router : Router)
    (hbuild : Build lm (ParseBaseRequests reqs w v) = .ok m)
    (hrouter : ∀ a b r, router.BuildRoute a b = some r →
      ∀ id ∈ r.edges, id < m.graph.edges_.length)
    (srs : List StatRequest) (htyped : ∀ sr ∈ srs, sr.WellTyped)
    (hroute : ∀ N A B, StatRequest.Route N A B ∈ srs →
      UMap.find m.stops_ A ≠ none ∧ UMap.find m.stops_ B ≠ none) :
    ReadStatRequests (srs.map StatRequest.toNode) = .ok (srs.filterMap StatRequest.request) ∧
    ∃ responses,
      ProcessRequests lm m router (srs.filterMap StatRequest.request) =
        .ok (Json.Node.array responses) ∧
      List.Forall₂ CarriesId (srs.filterMap StatRequest.request) responses := by
  refine ⟨ReadStatRequests_toNode srs htyped, ?_⟩
  apply ProcessRequests_responses lm reqs w v m router hbuild hrouter
  intro N A B hmem
  obtain ⟨sr, hsr, hreq⟩ := List.mem_filterMap.1 hmem
  cases sr with
  | Bus id name => simp [StatRequest.request] at hreq
  | Stop id name => simp [StatRequest.request] at hreq
  | Route id from_ to_ =>
    simp only [StatRequest.request, Option.some.injEq, Request.RouteInfo.injEq] at hreq
    obtain ⟨rfl, rfl, rfl⟩ := hreq
    exact hroute _ _ _ hsr
  | Other type fields => simp [StatRequest.request] at hreq

/-- C18, the code at the failing input: on the network of `twoWayRequests`, for the
stat requests `unknownRouteStatRequests`, `ReadStatRequests` recognises both
requests, and `ProcessRequests` throws `out_of_range` whatever the solver: the
batch of two recognised requests yields no response. -/
theorem C18_unknown_route_stop :
    ReadStatRequests (unknownRouteStatRequests.map StatRequest.toNode) =
        .ok [Request.BusInfo 1 "1", Request.RouteInfo 2 "X" "B"] ∧
      ∀ router : Router,
        ProcessRequests Libm.sample twoWayNetwork router
          [Request.BusInfo 1 "1", Request.RouteInfo 2 "X" "B"] = .error .out_of_range := by
  have htyped : ∀ sr ∈ unknownRouteStatRequests, sr.WellTyped := by
    intro sr hsr
    simp only [unknownRouteStatRequests, List.mem_cons, List.not_mem_nil, or_false] at hsr
    rcases hsr with rfl | rfl <;> exact ⟨by norm_num, by norm_num⟩
  refine ⟨ReadStatRequests_toNode unknownRouteStatRequests htyped, ?_⟩
  intro router
  obtain ⟨length, _, hp⟩ := BusInfo_Process_known Libm.sample twoWayNetwork 1 "1"
    ⟨BusType.REGULAR, ["A", "B"]⟩ rfl (by decide)
  have hr := RouteInfo_Process_unknown twoWayNetwork router 2 "X" "B" (Or.inl rfl)
  simp only [ProcessRequests, ProcessRequests.loop, Request.Process, hp, hr]

/-! ## C27: the geodesic distance is symmetric -/

theorem arcDistance_comm (lm : Libm) (hcos : ∀ x, lm.cos (-x) = lm.cos x)
    (a b : GeoCoordinates) : arcDistance lm a b = arcDistance lm b a := by
  unfold arcDistance
  have h : lm.cos (a.longitude_ - b.longitude_) = lm.cos (b.longitude_ - a.longitude_) := by
    rw [← hcos (b.longitude_ - a.longitude_)]
    congr 1
    ring
  rw [h]
  ring

theorem asDouble_comm (lm : Libm) (hcos : ∀ x, lm.cos (-x) = lm.cos x) (a b : GeoCoordinates) :
    ComputeDistanceForCoords.asDouble lm a b = ComputeDistanceForCoords.asDouble lm b a := by
  unfold ComputeDistanceForCoords.asDouble
  rw [arcDistance_comm lm hcos a b, ComputeDistanceForCoords_comm lm hcos a b]

theorem Double_eq_self (d : Double) : Double.eq d d = true ↔ d ≠ Double.nan := by
  cases d <;> simp [Double.eq]

theorem asDouble_ne_nan (lm : Libm) (a b : GeoCoordinates) :
    ComputeDistanceForCoords.asDouble lm a b ≠ Double.nan ↔
      -1 ≤ arcDistance lm a b ∧ arcDistance lm a b ≤ 1 := by
  unfold ComputeDistanceForCoords.asDouble
  by_cases h : arcDistance lm a b < -1 ∨ 1 < arcDistance lm a b
  · rw [if_pos h]
    simp only [ne_eq, not_true_eq_false, false_iff, not_and, not_le]
    intro h1
    rcases h with h | h
    · exact absurd h (not_lt.2 h1)
    · exact h
  · rw [if_neg h]
    simp only [not_or, not_lt] at h
    simp [h.1, h.2]

/-- The two embeddings of `GetDistance` agree: whenever the double is no NaN it is the
number `GetDistance` gives, and both throw on the same inputs. -/
theorem GetDistance_asDouble_spec (lm : Libm) (m : TransportManager) (A B : String) :
    (∀ e, TransportManager.GetDistance.asDouble lm m A B = .error e ↔
      m.GetDistance lm A B = .error e) ∧
    (∀ d, TransportManager.GetDistance.asDouble lm m A B = .ok d → d = Double.nan ∨
      ∃ q, d = Double.finite q ∧ m.GetDistance lm A B = .ok q) := by
  unfold TransportManager.GetDistance.asDouble TransportManager.GetDistance
  cases UMap.find m.stops_ A with
  | none => simp
  | some sa =>
    cases UMap.find m.stops_ B with
    | none => simp
    | some sb =>
      cases TransportManager.storedDistance m.distances_ A B with
      | some q => simp
      | none =>
        simp only [reduceCtorEq, false_iff, Except.ok.injEq, implies_true, true_and,
          iff_self]
        intro d hd
        unfold ComputeDistanceForCoords.asDouble at hd
        split at hd
        · exact Or.inl hd.symm
        · exact Or.inr ⟨_, hd.symm, rfl⟩

theorem sameSpotNetwork_built :
    Build Libm.tabulated (ParseBaseRequests sameSpotRequests 5 60) = .ok sameSpotNetwork := by
  decide!

/-- C27, counterexample: the stops `A` and `B` are both at latitude 46 and longitude 7
degrees and no road distance is stored.  With the values the C library has for
the sine and the cosine of the latitude the argument of `acos` exceeds 1, so
`ComputeDistanceForCoords` returns a NaN for the pair and for the swapped
pair, `GetDistance(A, B)` and `GetDistance(B, A)` return a NaN, and the two do
not compare equal. -/
theorem C27_counterexample :
    Build Libm.tabulated (ParseBaseRequests sameSpotRequests 5 60) = .ok sameSpotNetwork ∧
    1 < arcDistance Libm.tabulated (GeoCoordinates.ofDegrees 46 7)
      (GeoCoordinates.ofDegrees 46 7) ∧
    ComputeDistanceForCoords.asDouble Libm.tabulated (GeoCoordinates.ofDegrees 46 7)
      (GeoCoordinates.ofDegrees 46 7) = Double.nan ∧
    TransportManager.GetDistance.asDouble Libm.tabulated sameSpotNetwork "A" "B" =
      .ok Double.nan ∧
    TransportManager.GetDistance.asDouble Libm.tabulated sameSpotNetwork "B" "A" =
      .ok Double.nan ∧
    Double.eq Double.nan Double.nan = false := by
  refine ⟨by decide!, by decide!, by decide!, by decide!, by decide!, rfl⟩

/-- C27 (as amended): with a `cos` that is even, as the one of the C library is,
`ComputeDistanceForCoords` returns the same double for a pair of coordinates
and for the swapped pair; the two compare equal exactly when they are not a
NaN, that is, when the argument of `acos` is within `[-1, 1]`.  Hence for
registered stops `A`, `B` with no stored distance in either direction
`GetDistance(A, B)` and `GetDistance(B, A)` return the same double, and the
two compare equal unless they are a NaN. -/
theorem C27_geodesic_symmetric (lm : Libm) (hcos : ∀ x, lm.cos (-x) = lm.cos x) :
    (∀ a b : GeoCoordinates,
      ComputeDistanceForCoords.asDouble lm a b = ComputeDistanceForCoords.asDouble lm b a ∧
      (Double.eq (ComputeDistanceForCoords.asDouble lm a b)
          (ComputeDistanceForCoords.asDouble lm b a) = true ↔
        (-1 ≤ arcDistance lm a b ∧ arcDistance lm a b ≤ 1)) ∧
      (-1 ≤ arcDistance lm a b → arcDistance lm a b ≤ 1 →
        ComputeDistanceForCoords.asDouble lm a b =
          Double.finite (ComputeDistanceForCoords lm a b) ∧
        ComputeDistanceForCoords lm a b = ComputeDistanceForCoords lm b a)) ∧
    (∀ (m : TransportManager) (A B : String),
      UMap.find m.stops_ A ≠ none → UMap.find m.stops_ B ≠ none →
      TransportManager.storedDistance m.distances_ A B = none →
      TransportManager.storedDistance m.distances_ B A = none →
      ∃ d, TransportManager.GetDistance.asDouble lm m A B = .ok d ∧
        TransportManager.GetDistance.asDouble lm m B A = .ok d ∧
        (Double.eq d d = true ↔ d ≠ Double.nan)) := by
  refine ⟨fun a b => ⟨asDouble_comm lm hcos a b, ?_, ?_⟩, ?_⟩
  · rw [← asDouble_comm lm hcos a b, Double_eq_self, asDouble_ne_nan]
  · intro h1 h2
    refine ⟨?_, ComputeDistanceForCoords_comm lm hcos a b⟩
    unfold ComputeDistanceForCoords.asDouble
    rw [if_neg]
    simp only [not_or, not_lt]
    exact ⟨h1, h2⟩
  · intro m A B hA hB hAB hBA
    unfold TransportManager.GetDistance.asDouble
    cases h1 : UMap.find m.stops_ A with
    | none => exact absurd h1 hA
    | some sa =>
      cases h2 : UMap.find m.stops_ B with
      | none => exact absurd h2 hB
      | some sb =>
        simp only [hAB, hBA]
        exact ⟨_, rfl, by rw [asDouble_comm lm hcos], Double_eq_self _⟩

theorem apartNetwork_built :
    Build Libm.tabulated (ParseBaseRequests apartRequests 5 60) = .ok apartNetwork := by
  decide!

/-- C27, witness: in the network of `apartRequests`, whose stops `A` and `B` lie one
degree of longitude apart and which stores no road distance, both directions
return the same double, a number between 111194 and 111195 (metres), and the
two compare equal. -/
theorem C27_geodesic_symmetric_witness :
    (∃ d, TransportManager.GetDistance.asDouble Libm.tabulated apartNetwork "A" "B" = .ok d ∧
      TransportManager.GetDistance.asDouble Libm.tabulated apartNetwork "B" "A" = .ok d ∧
      (Double.eq d d = true ↔ d ≠ Double.nan)) ∧
    TransportManager.GetDistance.asDouble Libm.tabulated apartNetwork "A" "B" =
      .ok (Double.finite (4006219441501099125375 / 36028797018963968)) ∧
    TransportManager.GetDistance.asDouble Libm.tabulated apartNetwork "B" "A" =
      .ok (Double.finite (4006219441501099125375 / 36028797018963968)) ∧
    (111194 : ℚ) < 4006219441501099125375 / 36028797018963968 ∧
    (4006219441501099125375 / 36028797018963968 : ℚ) < 111195 :=
  ⟨(C27_geodesic_symmetric Libm.tabulated Libm_tabulated_cos_even).2 apartNetwork "A" "B"
      (by decide) (by decide) rfl rfl,
    by decide!, by decide!, by norm_num, by norm_num⟩

/-! ## C22: the distance aggregate of a bus -/

/-- C22: in a built network, for a known bus with listed stops `s_0 .. s_{n-1}`,
`ComputeDistanceForStop` returns `raw`, the sum over the hops `k` of the geodesic
distance between `s_k` and `s_{k+1}`, twice that for a REGULAR bus, and
`by_default`, the sum over `k` of `GetDistance(s_k, s_{k+1})` plus, for a
REGULAR bus, the sum over `k` of `GetDistance(s_{k+1}, s_k)`; for an unknown
bus it returns `raw = by_default = 0`. -/
theorem C22_distance_aggregate (lm : Libm) (reqs : List BaseRequest) (w : Int) (v : ℚ)
    (m : TransportManager) (name : String)
    (hbuild : Build lm (ParseBaseRequests reqs w v) = .ok m) :
    (∀ bus, UMap.find m.buses_ name = some bus →
      ∃ geo forward backward : Nat → ℚ,
        (∀ k, k + 1 < bus.stops_.length →
          (∃ a b, UMap.find m.stops_ (bus.stops_.getD k "") = some a ∧
            UMap.find m.stops_ (bus.stops_.getD (k + 1) "") = some b ∧
            geo k = ComputeDistanceForCoords lm a.coords_ b.coords_) ∧
          m.GetDistance lm (bus.stops_.getD k "") (bus.stops_.getD (k + 1) "") =
            .ok (forward k) ∧
          m.GetDistance lm (bus.stops_.getD (k + 1) "") (bus.stops_.getD k "") =
            .ok (backward k)) ∧
        m.ComputeDistanceForStop lm name =
          .ok ⟨(if bus.type_ = BusType.REGULAR then 2 else 1) *
              ∑ k in Finset.range (bus.stops_.length - 1), geo k,
            ∑ k in Finset.range (bus.stops_.length - 1), forward k +
              (if bus.type_ = BusType.REGULAR
                then ∑ k in Finset.range (bus.stops_.length - 1), backward k else 0)⟩) ∧
    (UMap.find m.buses_ name = none → m.ComputeDistanceForStop lm name = .ok ⟨0, 0⟩) := by
  constructor
  · intro bus hbus
    have hreg := Build_BusStopsRegistered lm reqs w v m hbuild name bus hbus
    have hc := ComputeDistanceForStop_closed lm m name bus hbus hreg
    refine ⟨fun k => m.geoOf lm (bus.stops_.getD k "") (bus.stops_.getD (k + 1) ""),
      fun k => m.distanceOf lm (bus.stops_.getD k "") (bus.stops_.getD (k + 1) ""),
      fun k => m.distanceOf lm (bus.stops_.getD (k + 1) "") (bus.stops_.getD k ""), ?_, ?_⟩
    · intro k hk
      have h1 := hreg _ (getD_mem_of_lt bus.stops_ k (by omega))
      have h2 := hreg _ (getD_mem_of_lt bus.stops_ (k + 1) hk)
      refine ⟨?_, GetDistance_ok_of_registered lm m _ _ h1 h2,
        GetDistance_ok_of_registered lm m _ _ h2 h1⟩
      cases ha : UMap.find m.stops_ (bus.stops_.getD k "") with
      | none => exact absurd ha h1
      | some a =>
        cases hb : UMap.find m.stops_ (bus.stops_.getD (k + 1) "") with
        | none => exact absurd hb h2
        | some b =>
          refine ⟨a, b, rfl, rfl, ?_⟩
          simp only [geoOf, coordsOf, ha, hb]
    · rw [hc]
      simp only [pathSum_eq_sum]
  · intro hnone
    unfold ComputeDistanceForStop
    rw [hnone]

/-- C22, witness: the network of `twoWayRequests` has no bus `9`, and the aggregate of
an unknown bus is `(0, 0)`; its REGULAR bus `1` over `A`, `B` has
`by_default = 2000 + 3000`. -/
theorem C22_distance_aggregate_witness :
    twoWayNetwork.ComputeDistanceForStop Libm.sample "9" = .ok ⟨0, 0⟩ ∧
    ∃ d, twoWayNetwork.ComputeDistanceForStop Libm.sample "1" = .ok d ∧
      d.by_default_ = 5000 := by
  have h := C22_distance_aggregate Libm.sample twoWayRequests 5 60 twoWayNetwork
  refine ⟨(h "9" twoWayNetwork_built).2 rfl, ?_⟩
  obtain ⟨geo, fwd, bwd, hk, hd⟩ :=
    (h "1" twoWayNetwork_built).1 ⟨BusType.REGULAR, ["A", "B"]⟩ rfl
  obtain ⟨_, h1, h2⟩ := hk 0 (by decide)
  have e1 : twoWayNetwork.GetDistance Libm.sample "A" "B" = .ok 2000 := by decide!
  have e2 : twoWayNetwork.GetDistance Libm.sample "B" "A" = .ok 3000 := by decide!
  have hf : fwd 0 = 2000 := (Except.ok.inj (h1.symm.trans e1))
  have hb : bwd 0 = 3000 := (Except.ok.inj (h2.symm.trans e2))
  refine ⟨_, hd, ?_⟩
  have hsum : ∀ f : Nat → ℚ, ∑ k in Finset.range (0 + 1 + 1 - 1), f k = f 0 :=
    fun f => Finset.sum_range_one f
  simp only [List.length_cons, List.length_nil, if_true, hsum]
  rw [hf, hb]
  norm_num

/-! ## C23: the way-back edges of a REGULAR bus -/

theorem mem_wayBackFrom (board wait : String → VertexId) (hop : String → String → ℚ)
    (bus : String) (p : List String) (i j : Nat) (hj : j + 1 < p.length) :
    wayBackEdge board wait hop bus p i j ∈ wayBackFrom board wait hop bus p i := by
  unfold wayBackFrom
  rw [List.mem_map]
  refine ⟨p.length - 2 - j, ?_, ?_⟩
  · rw [List.mem_range]
    omega
  · congr 1
    omega

theorem mem_busGroup_wayBack (board wait : String → VertexId) (hop : String → String → ℚ)
    (r : BusRequest) (p : List String) (i j : Nat) (hr : r.is_roundtrip = false)
    (hi : i < p.length) (hj : j + 1 < p.length) :
    wayBackEdge board wait hop r.name p i j ∈ busGroup board wait hop r p := by
  unfold busGroup
  apply List.mem_append_left
  rw [List.mem_flatMap]
  refine ⟨i, List.mem_range.2 hi, List.mem_append_right _ ?_⟩
  simp only [hr, Bool.false_eq_true, if_false]
  exact mem_wayBackFrom board wait hop r.name p i j hj

theorem busGroup_of_request (board wait : String → VertexId) (hop : String → String → ℚ)
    (r : BusRequest) (p : List String) :
    busGroup board wait hop ⟨r.name, decide (r.type_ = BusType.CIRCULAR), []⟩ p =
      busGroup board wait hop r p := by
  have h : decide (r.type_ = BusType.CIRCULAR) = r.is_roundtrip := by
    unfold BusRequest.type_
    cases r.is_roundtrip <;> simp
  unfold busGroup
  simp only [h]

/-- In a built network the edges of the group of every bus are present. -/
theorem Build_GroupEdgesPresent (lm : Libm) (reqs : List BaseRequest) (w : Int) (v : ℚ)
    (m : TransportManager) (h : Build lm (ParseBaseRequests reqs w v) = .ok m) :
    m.GroupEdgesPresent lm := by
  obtain ⟨m1, h1, h2⟩ := Build_phases lm reqs w v m h
  obtain ⟨_, _, _, _, hb, hinfo, _⟩ := Build_before_buses reqs w v m1 h1
  have hfresh1 : m1.InfoFresh := by
    intro id _
    rw [hinfo]
    rfl
  have key := BuildBuses_induct lm (fun m => m.InfoFresh ∧ m.GroupEdgesPresent lm) ?_ _ m1 m
    ⟨hfresh1, ?_⟩ h2
  · exact key.2
  · rintro m0 r m' ⟨hfresh, hgroup⟩ hs
    obtain ⟨L, hL, hE, hF, hI, hbus, hother⟩ := BuildBuses_step_edges lm m0 m' r hfresh hs
    obtain ⟨e1, e2, e3⟩ := (BuildBuses_step_frame lm m0 m' r hs).env lm
    rw [stepEdges_closed] at hL
    refine ⟨hF, ?_⟩
    intro name bus hfind q hq
    by_cases hname : name = r.name
    · subst hname
      rw [hbus] at hfind
      simp only [Option.some.injEq] at hfind
      subst hfind
      have hmem : q ∈ L := by
        rw [hL]
        simp only at hq
        rw [busGroup_of_request] at hq
        exact hq
      obtain ⟨t, ht⟩ := List.getElem?_of_mem hmem
      refine ⟨m0.graph.edges_.length + t, ?_, ?_⟩
      · rw [hE, List.getElem?_append_right (by omega), Nat.add_sub_cancel_left,
          List.getElem?_map, ht]
        rfl
      · rw [hI]
        have : ¬ m0.graph.edges_.length + t < m0.graph.edges_.length := by omega
        simp only [this, if_false, Nat.add_sub_cancel_left, ht]
        rfl
    · rw [hother name hname] at hfind
      rw [e1, e2, e3] at hq
      obtain ⟨id, hid1, hid2⟩ := hgroup name bus hfind q hq
      have hlt : id < m0.graph.edges_.length := (List.getElem?_eq_some.1 hid1).1
      refine ⟨id, ?_, ?_⟩
      · rw [hE, List.getElem?_append_left hlt]
        exact hid1
      · rw [hI, if_pos hlt]
        exact hid2
  · intro name bus hfind
    rw [hb] at hfind
    simp [UMap.find] at hfind

/-- C23: for every REGULAR bus of a built network, with listed stops
`s_0 .. s_{n-1}`, for every origin position `i < n` and every position `j` in
`0 .. n-2`, the graph has a BUS edge from the board vertex of `s_i` to the wait
vertex of `s_j`, whose weight is the travel time forward from `s_i` to the
terminal `s_{n-1}` plus the travel time of the reverse direction from
`s_{n-1}` back to `s_j`, and whose metadata records the span count
`(n-1-i) + (n-1-j)` and the bus; `j = i` is included. -/
theorem C23_way_back_edges (lm : Libm) (reqs : List BaseRequest) (w : Int) (v : ℚ)
    (m : TransportManager) (name : String) (bus : Bus) (i j : Nat)
    (hbuild : Build lm (ParseBaseRequests reqs w v) = .ok m)
    (hbus : UMap.find m.buses_ name = some bus) (hregular : bus.type_ = BusType.REGULAR)
    (hi : i < bus.stops_.length) (hj : j + 1 < bus.stops_.length) :
    ∃ (id : Nat) (e : Edge) (forward backward : Nat → ℚ),
      m.graph.edges_[id]? = some e ∧
      m.GetVertexIdByStop (bus.stops_.getD i "") = .ok e.from_ ∧
      m.GetVertexIdByWaitStop (bus.stops_.getD j "") = .ok e.to_ ∧
      e.weight.type_ = EdgeType.BUS ∧
      (∀ k, k + 1 < bus.stops_.length →
        m.GetDistance lm (bus.stops_.getD k "") (bus.stops_.getD (k + 1) "") =
          .ok (forward k) ∧
        m.GetDistance lm (bus.stops_.getD (k + 1) "") (bus.stops_.getD k "") =
          .ok (backward k)) ∧
      e.weight.weight_ =
        ∑ k in Finset.Ico i (bus.stops_.length - 1), forward k / 1000 / (v / 60) +
        ∑ k in Finset.Ico j (bus.stops_.length - 1), backward k / 1000 / (v / 60) ∧
      m.GetEdgeInfoByEdgeId id =
        .ok ⟨(((bus.stops_.length - 1 - i) + (bus.stops_.length - 1 - j) : Nat) : Int),
          some name⟩ := by
  have hmem := mem_busGroup_wayBack m.boardIdOf m.waitIdOf (m.hopTime lm)
    ⟨name, decide (bus.type_ = BusType.CIRCULAR), []⟩ bus.stops_ i j
    (by simp [hregular]) hi hj
  obtain ⟨id, h1, h2⟩ := Build_GroupEdgesPresent lm reqs w v m hbuild name bus hbus _ hmem
  obtain ⟨ht, _, hset⟩ := Build_VertexTables lm reqs w v m hbuild
  have hreg := Build_BusStopsRegistered lm reqs w v m hbuild name bus hbus
  have hp : ∀ k, k < bus.stops_.length → UMap.find m.stops_ (bus.stops_.getD k "") ≠ none :=
    fun k hk => hreg _ (getD_mem_of_lt _ k hk)
  refine ⟨id, _,
    fun k => m.distanceOf lm (bus.stops_.getD k "") (bus.stops_.getD (k + 1) ""),
    fun k => m.distanceOf lm (bus.stops_.getD (k + 1) "") (bus.stops_.getD k ""),
    h1, ?_, ?_, rfl, ?_, ?_, ?_⟩
  · exact (ht.ids_of_registered _ (hp i hi)).1
  · exact (ht.ids_of_registered _ (hp j (by omega))).2
  · intro k hk
    exact ⟨GetDistance_ok_of_registered lm m _ _ (hp k (by omega)) (hp (k + 1) hk),
      GetDistance_ok_of_registered lm m _ _ (hp (k + 1) hk) (hp k (by omega))⟩
  · simp only [wayBackEdge, segmentTime, segmentTimeBack, hopTime, GetBusVelocity, hset,
      RoutingSettings.make]
  · unfold GetEdgeInfoByEdgeId tableAt
    simp only [h2, wayBackEdge]

/-- C23, witness: in the network built from `twoWayRequests`, the REGULAR bus `1` over
`A`, `B` has the way-back edge from the board vertex of `A` through `B` back to
the wait vertex of `A` itself (`i = j = 0`), with span count 2. -/
theorem C23_way_back_edges_witness :
    ∃ (id : Nat) (e : Edge),
      twoWayNetwork.graph.edges_[id]? = some e ∧
      twoWayNetwork.GetVertexIdByStop "A" = .ok e.from_ ∧
      twoWayNetwork.GetVertexIdByWaitStop "A" = .ok e.to_ ∧
      e.weight.type_ = EdgeType.BUS ∧
      twoWayNetwork.GetEdgeInfoByEdgeId id = .ok ⟨2, some "1"⟩ := by
  obtain ⟨id, e, _, _, h1, h2, h3, h4, _, _, h7⟩ :=
    C23_way_back_edges Libm.sample twoWayRequests 5 60 twoWayNetwork "1"
      ⟨BusType.REGULAR, ["A", "B"]⟩ 0 0 twoWayNetwork_built rfl rfl (by decide) (by decide)
  exact ⟨id, e, h1, h2, h3, h4, h7⟩

/-! ## C24: the edges of a built graph and the shape of an itinerary -/

theorem busGroup_span (board wait : String → VertexId) (hop : String → String → ℚ)
    (r : BusRequest) (p : List String) :
    ∀ q ∈ busGroup board wait hop r p, 1 ≤ q.2.stops_count := by
  have hfwd : ∀ (p : List String) (i : Nat), ∀ q ∈ forwardFrom board wait hop r.name p i,
      1 ≤ q.2.stops_count := by
    intro p i q hq
    obtain ⟨d, _, rfl⟩ := List.mem_map.1 hq
    simp only [pairEdge]
    omega
  intro q hq
  unfold busGroup at hq
  rcases List.mem_append.1 hq with h | h
  · obtain ⟨i, _, h⟩ := List.mem_flatMap.1 h
    rcases List.mem_append.1 h with h | h
    · exact hfwd p i q h
    · split at h
      · simp at h
      · obtain ⟨t, ht, rfl⟩ := List.mem_map.1 h
        have := List.mem_range.1 ht
        simp only [wayBackEdge]
        omega
  · split at h
    · simp at h
    · obtain ⟨i, _, h⟩ := List.mem_flatMap.1 h
      exact hfwd _ i q h

/-- In a built network every BUS edge has metadata with a span count of at least 1. -/
theorem Build_SpansPositive (lm : Libm) (reqs : List BaseRequest) (w : Int) (v : ℚ)
    (m : TransportManager) (h : Build lm (ParseBaseRequests reqs w v) = .ok m) :
    m.SpansPositive := by
  obtain ⟨m1, h1, h2⟩ := Build_phases lm reqs w v m h
  obtain ⟨_, _, _, _, _, hinfo, _, _, hedges, _⟩ := Build_before_buses reqs w v m1 h1
  refine (BuildBuses_induct lm (fun m => m.InfoFresh ∧ m.SpansPositive) ?_ _ m1 m ?_ h2).2
  · rintro m0 r m' ⟨hfresh, hpos⟩ hs
    obtain ⟨L, hL, hE, hF, hI, _, _⟩ := BuildBuses_step_edges lm m0 m' r hfresh hs
    refine ⟨hF, ?_⟩
    intro id e he hty
    rw [hE] at he
    by_cases hid : id < m0.graph.edges_.length
    · rw [List.getElem?_append_left hid] at he
      obtain ⟨info, bus, b1, b2, b3⟩ := hpos id e he hty
      refine ⟨info, bus, ?_, b2, b3⟩
      unfold GetEdgeInfoByEdgeId tableAt at b1 ⊢
      simp only [hI id, hid, if_true]
      exact b1
    · rw [List.getElem?_append_right (Nat.le_of_not_lt hid), List.getElem?_map] at he
      cases hget : L[id - m0.graph.edges_.length]? with
      | none => simp [hget] at he
      | some p =>
        have hp : p ∈ L := List.getElem?_mem hget
        rw [hL, stepEdges_closed] at hp
        refine ⟨p.2, r.name, ?_, busGroup_span _ _ _ _ _ p hp, (busGroup_kind _ _ _ _ _ p hp).2⟩
        unfold GetEdgeInfoByEdgeId tableAt
        simp only [hI id, hid, if_false, hget, Option.map_some']
  · refine ⟨?_, ?_⟩
    · intro id _
      rw [hinfo]
      rfl
    · intro id e he hty
      have hmem : e ∈ m1.graph.edges_ := List.getElem?_mem he
      obtain ⟨r, _, i, _, rfl⟩ := forall₂_exists_left hedges e hmem
      simp [waitEdge] at hty

/-- Along a path of a graph whose WAIT edges go from an odd to an even vertex and whose
BUS edges go from an even to an odd vertex, the types of the edges alternate. -/
theorem path_alternates (g : DirectedWeightedGraph)
    (h : ∀ (id : Nat) (e : Edge), g.edges_[id]? = some e →
      (e.weight.type_ = EdgeType.WAIT ∧ vertexParity e.from_ = 1 ∧ vertexParity e.to_ = 0) ∨
      (e.weight.type_ = EdgeType.BUS ∧ vertexParity e.from_ = 0 ∧ vertexParity e.to_ = 1))
    (ids : List EdgeId) :
    ∀ (u v : VertexId), g.routeEnd u ids = some v →
      (∀ id ∈ ids, id < g.edges_.length) ∧
      ∀ (k : Nat) (id : EdgeId) (e : Edge), ids[k]? = some id → g.edges_[id]? = some e →
        e.weight.type_ = (if (k + vertexParity u) % 2 = 1 then EdgeType.WAIT
          else EdgeType.BUS) := by
  induction ids with
  | nil =>
    intro u v _
    exact ⟨by simp, by simp⟩
  | cons id0 rest ih =>
    intro u v hend
    unfold DirectedWeightedGraph.routeEnd at hend
    cases hget : g.edges_[id0]? with
    | none => simp [hget] at hend
    | some e0 =>
      simp only [hget] at hend
      by_cases hfrom : e0.from_ = u
      · rw [if_pos hfrom] at hend
        subst hfrom
        obtain ⟨i1, i2⟩ := ih e0.to_ v hend
        have hlt : id0 < g.edges_.length := (List.getElem?_eq_some.1 hget).1
        refine ⟨?_, ?_⟩
        · intro id hid
          rcases List.mem_cons.1 hid with rfl | hid
          · exact hlt
          · exact i1 id hid
        · intro k id e hk he
          cases k with
          | zero =>
            simp only [List.getElem?_cons_zero, Option.some.injEq] at hk
            subst hk
            rw [hget] at he
            simp only [Option.some.injEq] at he
            subst he
            rcases h id0 e0 hget with ⟨t, a, _⟩ | ⟨t, a, _⟩
            · rw [t, if_pos (by omega)]
            · rw [t, if_neg (by omega)]
          | succ k =>
            simp only [List.getElem?_cons_succ] at hk
            rw [i2 k id e hk he]
            rcases h id0 e0 hget with ⟨_, a, b⟩ | ⟨_, a, b⟩
            · by_cases hc : (k + vertexParity e0.to_) % 2 = 1
              · rw [if_pos hc, if_pos (by omega)]
              · rw [if_neg hc, if_neg (by omega)]
            · by_cases hc : (k + vertexParity e0.to_) % 2 = 1
              · rw [if_pos hc, if_pos (by omega)]
              · rw [if_neg hc, if_neg (by omega)]
      · rw [if_neg hfrom] at hend
        cases hend

/-- The items `RouteInfo::Process` makes for the edges of a path alternate when the
types of the edges do. -/
theorem items_alternate (m : TransportManager) (ids : List EdgeId) (items : List Json.Node)
    (hall : List.Forall₂ (RouteItemOf m) ids items)
    (htypes : ∀ (k : Nat) (id : EdgeId) (e : Edge), ids[k]? = some id →
      m.graph.edges_[id]? = some e →
      e.weight.type_ = (if k % 2 = 0 then EdgeType.WAIT else EdgeType.BUS)) :
    Alternates items := by
  intro k item hk
  obtain ⟨hlen, hget⟩ := List.forall₂_iff_get.1 hall
  obtain ⟨hk2, rfl⟩ := List.getElem?_eq_some.1 hk
  have hk1 : k < ids.length := by omega
  obtain ⟨e, he, hcase⟩ := hget k hk1 hk2
  have ht := htypes k (ids.get ⟨k, hk1⟩) e (List.getElem?_eq_getElem hk1) he
  simp only [List.get_eq_getElem] at hcase
  by_cases hpar : k % 2 = 0
  · rw [if_pos hpar] at ht
    rw [if_pos hpar]
    rcases hcase with ⟨_, S, _, _, hitem⟩ | ⟨hb, _⟩
    · exact ⟨_, hitem, by simp [Json.mapAt, UMap.find]⟩
    · rw [ht] at hb
      cases hb
  · rw [if_neg hpar] at ht
    rw [if_neg hpar]
    rcases hcase with ⟨hw, _⟩ | ⟨_, info, bus, _, _, hitem⟩
    · rw [ht] at hw
      cases hw
    · exact ⟨_, hitem, by simp [Json.mapAt, UMap.find]⟩

/-- C24: in every graph produced by `Build`, every edge is either a WAIT edge from the
wait vertex of a registered stop to the board vertex of the same stop, or a BUS
edge from the board vertex of a stop to the wait vertex of a stop whose id has
an entry in `edge_id_to_info` with a span count of at least 1 and a bus;
consequently the loop of `RouteInfo::Process` succeeds on every sequence of
edges of the graph, one item per edge, and for every path the solver returns
from the wait vertex of `from` the response is built and its itinerary
alternates Wait and Bus items, a Wait item first. -/
theorem C24_edges_and_itineraries (lm : Libm) (reqs : List BaseRequest) (w : Int) (v : ℚ)
    (m : TransportManager) (hbuild : Build lm (ParseBaseRequests reqs w v) = .ok m) :
    (∀ (id : Nat) (e : Edge), m.graph.edges_[id]? = some e →
      (e.weight.type_ = EdgeType.WAIT ∧
        ∃ S, m.GetVertexIdByWaitStop S = .ok e.from_ ∧ m.GetVertexIdByStop S = .ok e.to_ ∧
          m.GetStopByVertexId e.to_ = .ok S) ∨
      (e.weight.type_ = EdgeType.BUS ∧
        (∃ S T, m.GetVertexIdByStop S = .ok e.from_ ∧ m.GetVertexIdByWaitStop T = .ok e.to_) ∧
        ∃ info bus, m.GetEdgeInfoByEdgeId id = .ok info ∧ 1 ≤ info.stops_count ∧
          info.bus_ptr = some bus)) ∧
    (∀ ids : List EdgeId, (∀ id ∈ ids, id < m.graph.edges_.length) →
      ∃ items, Requests.RouteInfo.items m ids = .ok items ∧ items.length = ids.length) ∧
    (∀ (router : Router) (request_id : Int) (from_ to_ : String) (from_id to_id : VertexId)
        (route : RouteInfo),
      m.GetVertexIdByWaitStop from_ = .ok from_id →
      m.GetVertexIdByWaitStop to_ = .ok to_id →
      router.BuildRoute from_id to_id = some route →
      m.graph.routeEnd from_id route.edges = some to_id →
      ∃ items : List Json.Node,
        Requests.RouteInfo.Process m router request_id from_ to_ =
          .ok (Json.Node.map
            [("items", Json.Node.array items),
              ("request_id", Json.Node.int request_id),
              ("total_time", Json.Node.double (Double.finite route.weight.weight_))]) ∧
        items.length = route.edges.length ∧ Alternates items) := by
  obtain ⟨_, hknown⟩ := Build_EdgesKnown lm reqs w v m hbuild
  obtain ⟨ht, _, _⟩ := Build_VertexTables lm reqs w v m hbuild
  have hreg := Build_BusStopsRegistered lm reqs w v m hbuild
  have howned := Build_BusEdgesOwned lm reqs w v m hbuild
  have hpos := Build_SpansPositive lm reqs w v m hbuild
  have hwait := Build_wait_edge_of lm reqs w v m hbuild
  have hparity : ∀ (id : Nat) (e : Edge), m.graph.edges_[id]? = some e →
      (e.weight.type_ = EdgeType.WAIT ∧ vertexParity e.from_ = 1 ∧ vertexParity e.to_ = 0) ∨
      (e.weight.type_ = EdgeType.BUS ∧ vertexParity e.from_ = 0 ∧ vertexParity e.to_ = 1) := by
    intro id e he
    have hmem : e ∈ m.graph.edges_ := List.getElem?_mem he
    cases hty : e.weight.type_ with
    | WAIT =>
      obtain ⟨S, hS, rfl⟩ := hwait e hmem hty
      obtain ⟨i, _, hw, hb⟩ := ht.ids S hS
      refine Or.inl ⟨rfl, ?_, ?_⟩
      · simp only [stopWaitEdge, hw, vertexParity]
        omega
      · simp only [stopWaitEdge, hb, vertexParity]
        omega
    | BUS =>
      obtain ⟨S, T, ⟨name, bus, hfind, hS, hT⟩, hf, hto⟩ := howned e hmem hty
      obtain ⟨i, _, _, hb⟩ := ht.ids S (hreg name bus hfind S hS)
      obtain ⟨j, _, hw, _⟩ := ht.ids T (hreg name bus hfind T hT)
      refine Or.inr ⟨rfl, ?_, ?_⟩
      · rw [hf, hb, vertexParity]
        omega
      · rw [hto, hw, vertexParity]
        omega
  refine ⟨?_, ?_, ?_⟩
  · intro id e he
    have hmem : e ∈ m.graph.edges_ := List.getElem?_mem he
    cases hty : e.weight.type_ with
    | WAIT => exact Or.inl ⟨rfl, (hknown id e he).1 hty⟩
    | BUS =>
      obtain ⟨S, T, ⟨name, bus, hfind, hS, hT⟩, hf, hto⟩ := howned e hmem hty
      refine Or.inr ⟨rfl, ⟨S, T, ?_, ?_⟩, hpos id e he hty⟩
      · rw [hf]
        exact (ht.ids_of_registered S (hreg name bus hfind S hS)).1
      · rw [hto]
        exact (ht.ids_of_registered T (hreg name bus hfind T hT)).2
  · intro ids hids
    obtain ⟨items, hitems, hall⟩ := RouteInfo_items_spec m hknown ids hids
    exact ⟨items, hitems, hall.length_eq.symm⟩
  · intro router request_id from_ to_ from_id to_id route hfrom hto hroute hend
    obtain ⟨hids, htypes⟩ := path_alternates m.graph hparity route.edges from_id to_id hend
    obtain ⟨items, hitems, hall⟩ := RouteInfo_items_spec m hknown route.edges hids
    have hodd : vertexParity from_id = 1 := by
      have hS : UMap.find m.stops_ from_ ≠ none := by
        intro hnone
        unfold GetVertexIdByWaitStop GetStop tableAt at hfrom
        simp [hnone] at hfrom
      obtain ⟨i, _, hw, _⟩ := ht.ids from_ hS
      have h2 := (ht.ids_of_registered from_ hS).2
      rw [hfrom] at h2
      simp only [Except.ok.injEq] at h2
      rw [h2, hw, vertexParity]
      omega
    refine ⟨items, ?_, hall.length_eq.symm, ?_⟩
    · unfold Requests.RouteInfo.Process
      simp only [hfrom, hto, hroute, hitems]
      rfl
    · apply items_alternate m route.edges items hall
      intro k id e hk he
      rw [htypes k id e hk he]
      by_cases hpar : k % 2 = 0
      · rw [if_pos hpar, if_pos (by omega)]
      · rw [if_neg hpar, if_neg (by omega)]

/-- C24, witness: in the network of `twoWayRequests` the response for the path
"wait at `A`, ride bus `1` to `B`" is built and its two items alternate, the
Wait item first. -/
theorem C24_edges_and_itineraries_witness :
    ∃ items : List Json.Node,
      Requests.RouteInfo.Process twoWayNetwork twoWayRouter 9 "A" "B" =
        .ok (Json.Node.map
          [("items", Json.Node.array items),
            ("request_id", Json.Node.int 9),
            ("total_time", Json.Node.double (Double.finite 7))]) ∧
      items.length = 2 ∧ Alternates items :=
  (C24_edges_and_itineraries Libm.sample twoWayRequests 5 60 twoWayNetwork
    twoWayNetwork_built).2.2 twoWayRouter 9 "A" "B" 1 3 ⟨⟨EdgeType.BUS, 7⟩, [0, 2]⟩
    rfl rfl rfl rfl

/-! ## The reader and the printer of value trees -/

namespace Json

/-! ### The stream operations and the scalars -/

theorem toInt32_of_range (x : Int) (h1 : 0 ≤ x) (h2 : x < 2 ^ 31) : toInt32 x = x := by
  unfold toInt32
  omega

theorem skipws_spaces (ws : List Char) (c : Char) (cs : List Char)
    (hws : ∀ x ∈ ws, isspace x = true) (hc : isspace c = false) :
    skipws (ws ++ c :: cs) = c :: cs := by
  induction ws with
  | nil => simp [skipws, hc]
  | cons w ws ih =>
    simp only [List.cons_append, skipws, hws w (List.mem_cons_self _ _), if_true]
    exact ih (fun x hx => hws x (List.mem_cons_of_mem _ hx))

theorem extractChar_spaces (ws : List Char) (c : Char) (cs : List Char)
    (hws : ∀ x ∈ ws, isspace x = true) (hc : isspace c = false) :
    IStream.extractChar ⟨ws ++ c :: cs, false, false⟩ = (some c, ⟨cs, false, false⟩) := by
  simp only [IStream.extractChar, IStream.good, skipws_spaces ws c cs hws hc]
  rfl

theorem extractChar_cons (c : Char) (cs : List Char) (hc : isspace c = false) :
    IStream.extractChar ⟨c :: cs, false, false⟩ = (some c, ⟨cs, false, false⟩) :=
  extractChar_spaces [] c cs (by simp) hc

theorem getline_split_quoteFree (s rest : List Char) (h : '"' ∉ s) :
    getline.split '"' (s ++ '"' :: rest) = (s, some rest) := by
  induction s with
  | nil => simp [getline.split]
  | cons c s ih =>
    have hc : c ≠ '"' := fun e => h (e ▸ List.mem_cons_self _ _)
    have hs : '"' ∉ s := fun e => h (List.mem_cons_of_mem _ e)
    rw [List.cons_append, getline.split, if_neg hc, ih hs]

theorem LoadString_quoteFree (s : String) (rest : List Char) (h : quoteFree s) :
    LoadString ⟨s.data ++ '"' :: rest, false, false⟩ =
      (Node.string s, ⟨rest, false, false⟩) := by
  simp only [LoadString, IStream.getline, IStream.good, getline_split_quoteFree _ _ h]
  rfl

theorem matchName_self (name rest : List Char) : matchName name (name ++ rest) = ([], rest) := by
  induction name with
  | nil => cases rest <;> rfl
  | cons n ns ih =>
    simp only [List.cons_append, matchName, if_true]
    exact ih

theorem LoadBool_printed (b : Bool) (rest : List Char) :
    LoadBool ⟨(if b then "true".data else "false".data) ++ rest, false, false⟩ =
      (Node.bool b, ⟨rest, false, false⟩) := by
  cases b
  · simp [LoadBool, IStream.extractBool, IStream.good, skipws, isspace, matchName]
  · simp [LoadBool, IStream.extractBool, IStream.good, skipws, isspace, matchName]

theorem digitChar_spec (d : Nat) (h : d < 10) :
    isdigit (Nat.digitChar d) = true ∧ ((Nat.digitChar d).toNat : Int) - 48 = d := by
  interval_cases d <;> exact ⟨by decide, by decide⟩

theorem digitsValue_append (acc : Int) (L : List Char) (c : Char) :
    digitsValue acc (L ++ [c]) = digitsValue acc L * 10 + ((c.toNat : Int) - 48) := by
  simp [digitsValue, List.foldl_append]

theorem toDigitsCore_spec (fuel : Nat) : ∀ (n : Nat) (ds : List Char), n < fuel →
    ∃ L, Nat.toDigitsCore 10 fuel n ds = L ++ ds ∧ L ≠ [] ∧
      (∀ c ∈ L, isdigit c = true) ∧ digitsValue 0 L = n := by
  induction fuel with
  | zero => intro n ds h; omega
  | succ fuel ih =>
    intro n ds h
    obtain ⟨d1, d2⟩ := digitChar_spec (n % 10) (Nat.mod_lt _ (by norm_num))
    unfold Nat.toDigitsCore
    by_cases h0 : n / 10 = 0
    · simp only [h0, if_true]
      refine ⟨[Nat.digitChar (n % 10)], rfl, by simp, by simpa using d1, ?_⟩
      simp only [digitsValue, List.foldl_cons, List.foldl_nil, d2]
      omega
    · simp only [h0, if_false]
      obtain ⟨L, hL, _, hd, hv⟩ := ih (n / 10) (Nat.digitChar (n % 10) :: ds) (by omega)
      refine ⟨L ++ [Nat.digitChar (n % 10)], by simp [hL], by simp, ?_, ?_⟩
      · intro c hc
        rcases List.mem_append.1 hc with hc | hc
        · exact hd c hc
        · simp only [List.mem_singleton] at hc
          rw [hc]
          exact d1
      · rw [digitsValue_append, hv, d2]
        omega

theorem isdigit_value (c : Char) (h : isdigit c = true) :
    0 ≤ (c.toNat : Int) - 48 ∧ (c.toNat : Int) - 48 ≤ 9 := by
  simp only [isdigit, decide_eq_true_eq] at h
  omega

theorem digitsValue_ge (L : List Char) (hL : ∀ c ∈ L, isdigit c = true) :
    ∀ acc : Int, 0 ≤ acc → acc ≤ digitsValue acc L := by
  induction L with
  | nil => intro acc _; simp [digitsValue]
  | cons c L ih =>
    intro acc hacc
    have hc := isdigit_value c (hL c (List.mem_cons_self _ _))
    have := ih (fun x hx => hL x (List.mem_cons_of_mem _ hx))
      (acc * 10 + ((c.toNat : Int) - 48)) (by omega)
    simp only [digitsValue, List.foldl_cons] at this ⊢
    omega

theorem LoadInt_loop_digits (L rest : List Char) (hL : ∀ c ∈ L, isdigit c = true)
    (hrest : startsClean rest = true) :
    ∀ acc : Int, 0 ≤ acc → digitsValue acc L < 2 ^ 31 →
      LoadInt.loop (L ++ rest) acc = (digitsValue acc L, ⟨rest, rest.isEmpty, false⟩) := by
  induction L with
  | nil =>
    intro acc _ _
    cases rest with
    | nil => rfl
    | cons c cs =>
      simp only [startsClean, Bool.not_eq_true'] at hrest
      simp [LoadInt.loop, hrest, digitsValue]
  | cons c L ih =>
    intro acc hacc hbound
    have hc := isdigit_value c (hL c (List.mem_cons_self _ _))
    have hL' : ∀ x ∈ L, isdigit x = true := fun x hx => hL x (List.mem_cons_of_mem _ hx)
    have hge := digitsValue_ge L hL' (acc * 10 + ((c.toNat : Int) - 48)) (by omega)
    have hb : digitsValue (acc * 10 + ((c.toNat : Int) - 48)) L < 2 ^ 31 := hbound
    have h1 : toInt32 (acc * 10) = acc * 10 := toInt32_of_range _ (by omega) (by omega)
    have h2 : toInt32 (acc * 10 + ((c.toNat : Int) - 48)) = acc * 10 + ((c.toNat : Int) - 48) :=
      toInt32_of_range _ (by omega) (by omega)
    simp only [List.cons_append, LoadInt.loop, hL c (List.mem_cons_self _ _), if_true, h1, h2]
    exact ih hL' _ (by omega) hb

theorem digits_spec (v : Int) (h : 0 ≤ v) :
    ∃ L, PrintInt.digits v = L ∧ L ≠ [] ∧ (∀ c ∈ L, isdigit c = true) ∧ digitsValue 0 L = v := by
  obtain ⟨L, hL, hne, hd, hv⟩ := toDigitsCore_spec (v.toNat + 1) v.toNat [] (by omega)
  refine ⟨L, ?_, hne, hd, ?_⟩
  · simp only [PrintInt.digits, not_lt.2 h, if_false, Nat.toDigits, hL, List.append_nil]
  · rw [hv]
    omega

theorem LoadInt_printed (v : Int) (rest : List Char) (h0 : 0 ≤ v) (h1 : v < 2 ^ 31)
    (hrest : startsClean rest = true) :
    LoadInt ⟨PrintInt.digits v ++ rest, false, false⟩ =
      (Node.int v, ⟨rest, rest.isEmpty, false⟩) := by
  obtain ⟨L, hL, _, hd, hv⟩ := digits_spec v h0
  have := LoadInt_loop_digits L rest hd hrest 0 le_rfl (by rw [hv]; exact h1)
  simp only [LoadInt, IStream.good, hL, this, hv]
  rfl

/-! ### The text of a node -/

theorem PrintTabs_spaces (k : Nat) : ∀ x ∈ PrintTabs k, isspace x = true := by
  intro x hx
  rw [List.eq_of_mem_replicate hx]
  rfl

theorem PrintNode_first_tabs (io : DoubleText) (t : Node) (k : Nat) :
    PrintNode io t k true = PrintTabs k ++ PrintNode io t k false := by
  cases t <;>
    simp [PrintNode, PrintInt, PrintDouble, PrintBool, PrintString]

theorem isdigit_plain (c : Char) (h : isdigit c = true) :
    isspace c = false ∧ c ≠ ']' ∧ c ≠ ',' ∧ c ≠ '[' ∧ c ≠ '{' ∧ c ≠ '"' ∧ c ≠ 't' ∧ c ≠ 'f' := by
  simp only [isdigit, decide_eq_true_eq] at h
  refine ⟨?_, ?_, ?_, ?_, ?_, ?_, ?_, ?_⟩
  · simp only [isspace, decide_eq_false_iff_not, not_or]
    refine ⟨?_, ?_, ?_, ?_, ?_, ?_⟩ <;>
    · rintro rfl
      revert h
      decide
  all_goals
    rintro rfl
    revert h
    decide

/-- The first character of the text of a plain node is not whitespace and is neither
a comma nor a closing bracket. -/
theorem PrintNode_head (io : DoubleText) (t : Node) (k : Nat) (hp : t.Plain) :
    ∃ c cs, PrintNode io t k false = c :: cs ∧ isspace c = false ∧ c ≠ ']' ∧ c ≠ ',' := by
  cases t with
  | array items => exact ⟨'[', _, by rw [PrintNode]; rfl, by decide, by decide, by decide⟩
  | map entries => exact ⟨'{', _, by rw [PrintNode]; rfl, by decide, by decide, by decide⟩
  | int v =>
    simp only [Node.Plain] at hp
    obtain ⟨L, hL, hne, hd, _⟩ := digits_spec v hp
    cases L with
    | nil => exact absurd rfl hne
    | cons c cs =>
      obtain ⟨h1, h2, h3, _⟩ := isdigit_plain c (hd c (List.mem_cons_self _ _))
      exact ⟨c, cs, by simp [PrintNode, PrintInt, hL], h1, h2, h3⟩
  | double v => simp [Node.Plain] at hp
  | bool b =>
    cases b
    · exact ⟨'f', _, by simp [PrintNode, PrintBool]; rfl, by decide, by decide, by decide⟩
    · exact ⟨'t', _, by simp [PrintNode, PrintBool]; rfl, by decide, by decide, by decide⟩
  | string s =>
    exact ⟨'"', _, by rw [PrintNode, PrintString]; rfl, by decide, by decide, by decide⟩

theorem startsClean_spaces (ws : List Char) (c : Char) (rest : List Char)
    (hws : ∀ x ∈ ws, isspace x = true) (hc : isdigit c = false) :
    startsClean (ws ++ c :: rest) = true := by
  cases ws with
  | nil => simp [startsClean, hc]
  | cons w ws =>
    have hw := hws w (List.mem_cons_self _ _)
    simp only [List.cons_append, startsClean, Bool.not_eq_true']
    cases hd : isdigit w with
    | false => rfl
    | true => rw [(isdigit_plain w hd).1] at hw; cases hw

/-- What follows the text of an element in the text of an array does not start with a
digit. -/
theorem startsClean_PrintArray (io : DoubleText) (items : List Node) (k : Nat)
    (ws rest : List Char) (hws : ∀ x ∈ ws, isspace x = true) :
    startsClean (PrintArray.loop io items k false ++ (ws ++ ']' :: rest)) = true := by
  cases items with
  | nil => exact startsClean_spaces ws ']' rest hws (by decide)
  | cons n items => simp [PrintArray.loop, startsClean]; decide

theorem startsClean_PrintMap (io : DoubleText) (entries : List (String × Node)) (k : Nat)
    (ws rest : List Char) (hws : ∀ x ∈ ws, isspace x = true) :
    startsClean (PrintMap.loop io entries k false ++ (ws ++ '}' :: rest)) = true := by
  cases entries with
  | nil => exact startsClean_spaces ws '}' rest hws (by decide)
  | cons e entries =>
    obtain ⟨key, n⟩ := e
    simp [PrintMap.loop, startsClean]
    decide

/-! ### Entries emplaced in ascending order; the fuel of a node -/

theorem mapEmplace_last (done : List (String × Node)) (key : String) (v : Node)
    (h : ∀ e ∈ done, strLess e.1 key) : mapEmplace done key v = done ++ [(key, v)] := by
  induction done with
  | nil => rfl
  | cons e done ih =>
    obtain ⟨k0, v0⟩ := e
    have h0 : k0 < key := (strLess_iff _ _).1 (h (k0, v0) (List.mem_cons_self _ _))
    have h1 : ¬ strLess key k0 := fun hlt => lt_asymm h0 ((strLess_iff _ _).1 hlt)
    have h2 : key ≠ k0 := ne_of_gt h0
    rw [mapEmplace, if_neg h1, if_neg h2, ih (fun e he => h e (List.mem_cons_of_mem _ he))]
    rfl

/-- Entries emplaced in strictly ascending key order are stored in that order. -/
theorem foldl_mapEmplace_sorted (entries : List (String × Node)) :
    ∀ done : List (String × Node), ((done ++ entries).map Prod.fst).Pairwise strLess →
      entries.foldl (fun m e => mapEmplace m e.1 e.2) done = done ++ entries := by
  induction entries with
  | nil => intro done _; simp
  | cons e entries ih =>
    intro done h
    have hlast : ∀ x ∈ done, strLess x.1 e.1 := by
      intro x hx
      rw [List.map_append, List.pairwise_append] at h
      exact h.2.2 x.1 (List.mem_map.2 ⟨x, hx, rfl⟩) e.1
        (List.mem_map.2 ⟨e, List.mem_cons_self _ _, rfl⟩)
    rw [List.foldl_cons, mapEmplace_last done e.1 e.2 hlast, ih (done ++ [e]) (by simpa using h)]
    simp

theorem loadFuel_pos (t : Node) : 1 ≤ t.loadFuel := by
  cases t <;> simp [Node.loadFuel]

theorem loadFuelItems_pos (items : List Node) : 1 ≤ Node.loadFuelItems items := by
  cases items <;> simp [Node.loadFuelItems]

theorem loadFuelEntries_pos (entries : List (String × Node)) :
    1 ≤ Node.loadFuelEntries entries := by
  cases entries with
  | nil => simp [Node.loadFuelEntries]
  | cons e entries =>
    obtain ⟨k, n⟩ := e
    simp [Node.loadFuelEntries]

/-! ### Reading the text of a plain node back -/

theorem closing_spaces (b : Bool) (k : Nat) :
    ∀ x ∈ (if b then [] else '\n' :: PrintTabs k), isspace x = true := by
  intro x hx
  cases b
  · simp only [Bool.false_eq_true, if_false, List.mem_cons] at hx
    rcases hx with rfl | hx
    · rfl
    · exact PrintTabs_spaces k x hx
  · simp at hx

theorem LoadNode_step (io : DoubleText) (n : Nat) (ihA : ReadsArray io n)
    (ihD : ReadsDict io n) : ReadsNode io (n + 1) := by
  intro t k ws rest hwf hp hfuel hws hclean
  cases t with
  | array items =>
    simp only [Node.WellFormed, Node.Plain, Node.loadFuel] at hwf hp hfuel
    have hstream : ws ++ (PrintNode io (.array items) k false ++ rest) =
        ws ++ '[' :: (PrintArray.loop io items k true ++
          ((if items.isEmpty then [] else '\n' :: PrintTabs k) ++ ']' :: rest)) := by
      simp [PrintNode]
    refine ⟨false, fun _ => rfl, ?_⟩
    rw [hstream, LoadNode, extractChar_spaces ws '[' _ hws (by decide)]
    simp only [if_true]
    rw [ihA items [] k true _ rest hwf hp (by omega) (closing_spaces _ k)]
    rfl
  | map entries =>
    simp only [Node.WellFormed, Node.Plain, Node.loadFuel] at hwf hp hfuel
    have hstream : ws ++ (PrintNode io (.map entries) k false ++ rest) =
        ws ++ '{' :: (PrintMap.loop io entries k true ++
          ((if entries.isEmpty then [] else '\n' :: PrintTabs k) ++ '}' :: rest)) := by
      simp [PrintNode]
    refine ⟨false, fun _ => rfl, ?_⟩
    rw [hstream, LoadNode, extractChar_spaces ws '{' _ hws (by decide)]
    simp only [if_true, if_neg (show ¬ ('{' = '[') by decide)]
    rw [ihD entries [] k true _ rest hwf.2 hp (by omega) (closing_spaces _ k),
      foldl_mapEmplace_sorted entries [] (by simpa using hwf.1)]
    rfl
  | int v =>
    simp only [Node.WellFormed, Node.Plain] at hwf hp
    obtain ⟨L, hL, hne, hd, _⟩ := digits_spec v hp
    cases L with
    | nil => exact absurd rfl hne
    | cons c cs =>
      obtain ⟨h1, _, _, h4, h5, h6, h7, h8⟩ := isdigit_plain c (hd c (List.mem_cons_self _ _))
      have hstream : ws ++ (PrintNode io (.int v) k false ++ rest) = ws ++ c :: (cs ++ rest) := by
        simp [PrintNode, PrintInt, hL]
      refine ⟨rest.isEmpty, fun h => by cases rest with
        | nil => exact absurd rfl h
        | cons _ _ => rfl, ?_⟩
      rw [hstream, LoadNode, extractChar_spaces ws c _ hws h1]
      simp only [if_neg h4, if_neg h5, if_neg h6, h7, h8, or_self, if_false, IStream.putback,
        Bool.false_eq_true]
      have hput : c :: (cs ++ rest) = PrintInt.digits v ++ rest := by simp [hL]
      rw [hput, LoadInt_printed v rest hp hwf.2 hclean]
  | double v => simp [Node.Plain] at hp
  | bool b =>
    refine ⟨false, fun _ => rfl, ?_⟩
    cases b
    · have hstream : ws ++ (PrintNode io (.bool false) k false ++ rest) =
          ws ++ 'f' :: ("alse".data ++ rest) := by
        simp [PrintNode, PrintBool]
      rw [hstream, LoadNode, extractChar_spaces ws 'f' _ hws (by decide)]
      simp only [if_neg (show ¬ ('f' = '[') by decide), if_neg (show ¬ ('f' = '{') by decide),
        if_neg (show ¬ ('f' = '"') by decide), or_true, if_true, IStream.putback,
        Bool.false_eq_true, if_false]
      rw [show 'f' :: ("alse".data ++ rest) =
        (if false then "true".data else "false".data) ++ rest from rfl, LoadBool_printed]
    · have hstream : ws ++ (PrintNode io (.bool true) k false ++ rest) =
          ws ++ 't' :: ("rue".data ++ rest) := by
        simp [PrintNode, PrintBool]
      rw [hstream, LoadNode, extractChar_spaces ws 't' _ hws (by decide)]
      simp only [if_neg (show ¬ ('t' = '[') by decide), if_neg (show ¬ ('t' = '{') by decide),
        if_neg (show ¬ ('t' = '"') by decide), true_or, if_true, IStream.putback,
        Bool.false_eq_true, if_false]
      rw [show 't' :: ("rue".data ++ rest) =
        (if true then "true".data else "false".data) ++ rest from rfl, LoadBool_printed]
  | string s =>
    simp only [Node.Plain] at hp
    have hstream : ws ++ (PrintNode io (.string s) k false ++ rest) =
        ws ++ '"' :: (s.data ++ '"' :: rest) := by
      simp [PrintNode, PrintString]
    refine ⟨false, fun _ => rfl, ?_⟩
    rw [hstream, LoadNode, extractChar_spaces ws '"' _ hws (by decide)]
    simp only [if_neg (show ¬ ('"' = '[') by decide), if_neg (show ¬ ('"' = '{') by decide),
      if_true, LoadString_quoteFree s rest hp]

theorem line_spaces (k : Nat) : ∀ x ∈ '\n' :: PrintTabs k, isspace x = true := by
  intro x hx
  rcases List.mem_cons.1 hx with rfl | hx
  · rfl
  · exact PrintTabs_spaces k x hx

theorem LoadArray_step (io : DoubleText) (n : Nat) (ihN : ReadsNode io n)
    (ihA : ReadsArray io n) : ReadsArray io (n + 1) := by
  intro items result k first ws rest hwf hp hfuel hws
  cases items with
  | nil =>
    have hstream : PrintArray.loop io [] k first ++ (ws ++ ']' :: rest) = ws ++ ']' :: rest := by
      simp [PrintArray.loop]
    rw [hstream, LoadArray.loop, extractChar_spaces ws ']' _ hws (by decide)]
    simp
  | cons x xs =>
    simp only [Node.WellFormedItems, Node.PlainItems, Node.loadFuelItems] at hwf hp hfuel
    have hloop : PrintArray.loop io (x :: xs) k first =
        (if first then [] else [',']) ++ '\n' ::
          PrintNode io x ((k + 1) % 2 ^ 64) true ++ PrintArray.loop io xs k false := by
      rw [PrintArray.loop]
    rw [hloop]
    clear hloop
    generalize (k + 1) % 2 ^ 64 = k1
    obtain ⟨c, cs, hhead, hc1, hc2, hc3⟩ := PrintNode_head io x k1 hp.1
    have htail := startsClean_PrintArray io xs k ws rest hws
    have hne : PrintArray.loop io xs k false ++ (ws ++ ']' :: rest) ≠ [] := by simp
    obtain ⟨eof, heof, hnode0⟩ := ihN x k1 []
      (PrintArray.loop io xs k false ++ (ws ++ ']' :: rest)) hwf.1 hp.1 (by omega) (by simp) htail
    obtain ⟨eof', heof', hnode1⟩ := ihN x k1 ('\n' :: PrintTabs k1)
      (PrintArray.loop io xs k false ++ (ws ++ ']' :: rest)) hwf.1 hp.1 (by omega)
      (line_spaces _) htail
    rw [heof hne] at hnode0
    rw [heof' hne] at hnode1
    have hrest := ihA xs (result ++ [x]) k false ws rest hwf.2 hp.2 (by omega) hws
    cases first with
    | true =>
      have hstream : ((if true then [] else [',']) ++ '\n' ::
          PrintNode io x k1 true ++ PrintArray.loop io xs k false) ++ (ws ++ ']' :: rest) =
          ('\n' :: PrintTabs k1) ++ c ::
            (cs ++ (PrintArray.loop io xs k false ++ (ws ++ ']' :: rest))) := by
        simp [PrintNode_first_tabs, hhead]
      have hput : c :: (cs ++ (PrintArray.loop io xs k false ++ (ws ++ ']' :: rest))) =
          [] ++ (PrintNode io x k1 false ++
            (PrintArray.loop io xs k false ++ (ws ++ ']' :: rest))) := by
        simp [hhead]
      rw [hstream, LoadArray.loop, extractChar_spaces _ c _ (line_spaces _) hc1]
      simp only [if_neg hc2, ne_eq, hc3, not_false_eq_true, if_true, IStream.putback,
        Bool.false_eq_true, if_false]
      rw [hput, hnode0]
      simp only [hrest, List.append_assoc, List.singleton_append]
    | false =>
      have hstream : ((if false then [] else [',']) ++ '\n' ::
          PrintNode io x k1 true ++ PrintArray.loop io xs k false) ++ (ws ++ ']' :: rest) =
          ',' :: (('\n' :: PrintTabs k1) ++
            (PrintNode io x k1 false ++
              (PrintArray.loop io xs k false ++ (ws ++ ']' :: rest)))) := by
        simp [PrintNode_first_tabs]
      rw [hstream, LoadArray.loop, extractChar_cons ',' _ (by decide)]
      simp only [if_neg (show ¬ (',' = ']') by decide), ne_eq, not_true_eq_false, if_false]
      rw [hnode1]
      simp only [hrest, List.append_assoc, List.singleton_append]

theorem LoadDict_step (io : DoubleText) (n : Nat) (ihN : ReadsNode io n)
    (ihD : ReadsDict io n) : ReadsDict io (n + 1) := by
  intro entries result k first ws rest hwf hp hfuel hws
  cases entries with
  | nil =>
    have hstream : PrintMap.loop io [] k first ++ (ws ++ '}' :: rest) = ws ++ '}' :: rest := by
      simp [PrintMap.loop]
    rw [hstream, LoadDict.loop, extractChar_spaces ws '}' _ hws (by decide)]
    simp
  | cons e es =>
    obtain ⟨key, x⟩ := e
    simp only [Node.WellFormedEntries, Node.PlainEntries, Node.loadFuelEntries] at hwf hp hfuel
    have hloop : PrintMap.loop io ((key, x) :: es) k first =
        (if first then [] else [',']) ++ '\n' ::
          PrintString key ((k + 1) % 2 ^ 64) true ++ ": ".data ++
          PrintNode io x ((k + 2) % 2 ^ 64) false ++ PrintMap.loop io es k false := by
      rw [PrintMap.loop]
    rw [hloop]
    clear hloop
    generalize (k + 1) % 2 ^ 64 = k1
    generalize (k + 2) % 2 ^ 64 = k2
    obtain ⟨hquote, hkey, hpx, hpes⟩ := hp
    have htail := startsClean_PrintMap io es k ws rest hws
    have hne : PrintMap.loop io es k false ++ (ws ++ '}' :: rest) ≠ [] := by simp
    obtain ⟨eof, heof, hnode⟩ := ihN x k2 [' ']
      (PrintMap.loop io es k false ++ (ws ++ '}' :: rest)) hwf.1 hpx (by omega)
      (by intro y hy; rw [List.mem_singleton.1 hy]; rfl) htail
    rw [heof hne] at hnode
    have hrest := ihD es (mapEmplace result key x) k false ws rest hwf.2 hpes (by omega) hws
    have hstring := LoadString_quoteFree key (':' :: ([' '] ++
      (PrintNode io x k2 false ++
        (PrintMap.loop io es k false ++ (ws ++ '}' :: rest))))) hquote
    have hkey' : ¬ (key = "latitude" ∨ key = "longitude" ∨ key = "bus_velocity") := hkey
    cases first with
    | true =>
      have hstream : ((if true then [] else [',']) ++ '\n' ::
          PrintString key k1 true ++ ": ".data ++
          PrintNode io x k2 false ++ PrintMap.loop io es k false) ++ (ws ++ '}' :: rest) =
          ('\n' :: PrintTabs k1) ++ '"' :: (key.data ++ '"' :: ':' :: ([' '] ++
            (PrintNode io x k2 false ++
              (PrintMap.loop io es k false ++ (ws ++ '}' :: rest))))) := by
        simp [PrintString]
      rw [hstream, LoadDict.loop, extractChar_spaces _ '"' _ (line_spaces _) (by decide)]
      simp only [if_neg (show ¬ ('"' = '}') by decide), if_neg (show ¬ ('"' = ',') by decide),
        hstring, Node.AsString, extractChar_cons ':' _ (show isspace ':' = false by decide),
        if_neg hkey', hnode, hrest, List.foldl_cons]
    | false =>
      have hstream : ((if false then [] else [',']) ++ '\n' ::
          PrintString key k1 true ++ ": ".data ++
          PrintNode io x k2 false ++ PrintMap.loop io es k false) ++ (ws ++ '}' :: rest) =
          ',' :: (('\n' :: PrintTabs k1) ++ '"' :: (key.data ++ '"' :: ':' ::
            ([' '] ++ (PrintNode io x k2 false ++
              (PrintMap.loop io es k false ++ (ws ++ '}' :: rest)))))) := by
        simp [PrintString]
      rw [hstream, LoadDict.loop, extractChar_cons ',' _ (by decide)]
      simp only [if_neg (show ¬ (',' = '}') by decide), if_true,
        extractChar_spaces _ '"' _ (line_spaces k1)
          (show isspace '"' = false by decide),
        hstring, Node.AsString, extractChar_cons ':' _ (show isspace ':' = false by decide),
        if_neg hkey', hnode, hrest, List.foldl_cons]

/-- With enough fuel the readers read the text of plain nodes back. -/
theorem reads_back (io : DoubleText) (n : Nat) :
    ReadsNode io n ∧ ReadsArray io n ∧ ReadsDict io n := by
  induction n with
  | zero =>
    refine ⟨?_, ?_, ?_⟩
    · intro t _ _ _ _ _ hfuel
      have := loadFuel_pos t
      omega
    · intro items _ _ _ _ _ _ _ hfuel
      have := loadFuelItems_pos items
      omega
    · intro entries _ _ _ _ _ _ _ hfuel
      have := loadFuelEntries_pos entries
      omega
  | succ n ih =>
    exact ⟨LoadNode_step io n ih.2.1 ih.2.2, LoadArray_step io n ih.1 ih.2.1,
      LoadDict_step io n ih.1 ih.2.2⟩

/-- The round trip of a plain tree: with enough fuel `Load` reads the text `Print`
writes for the tree back. -/
theorem Load_Print_plain (io : DoubleText) (t : Node) (hwf : t.WellFormed) (hp : t.Plain)
    (fuel : Nat) (hfuel : t.loadFuel ≤ fuel) :
    ∃ eof : Bool, Load io fuel (IStream.ofText (Print io t)) = .value t ⟨[], eof, false⟩ := by
  obtain ⟨eof, _, h⟩ := (reads_back io fuel).1 t 0 [] [] hwf hp hfuel (by simp) rfl
  refine ⟨eof, ?_⟩
  rw [← h]
  simp [Load, IStream.ofText, Print, PrintNode_first_tabs, PrintTabs]

/-! ### What the readers return -/

theorem LoadArray_loop_value (io : DoubleText) (fuel : Nat) :
    ∀ (input : IStream) (result : List Node) (t : Node) (input' : IStream),
      LoadArray.loop io fuel input result = .value t input' → ∃ items, t = .array items := by
  induction fuel with
  | zero =>
    intro input result t input' h
    simp [LoadArray.loop] at h
  | succ fuel ih =>
    intro input result t input' h
    rw [LoadArray.loop] at h
    split at h
    · simp only [Loaded.value.injEq] at h
      exact ⟨result, h.1.symm⟩
    · split at h
      · simp only [Loaded.value.injEq] at h
        exact ⟨result, h.1.symm⟩
      · split at h
        · exact ih _ _ _ _ h
        · cases h
        · cases h
        · cases h

theorem mem_mapEmplace_keep (result : List (String × Node)) (k : String) (x : Node)
    (e : String × Node) (h : e ∈ result) : e ∈ mapEmplace result k x := by
  induction result with
  | nil => cases h
  | cons e0 result ih =>
    obtain ⟨k0, v0⟩ := e0
    rw [mapEmplace]
    by_cases h1 : strLess k k0
    · rw [if_pos h1]
      exact List.mem_cons_of_mem _ h
    · rw [if_neg h1]
      by_cases h2 : k = k0
      · rw [if_pos h2]
        exact h
      · rw [if_neg h2]
        rcases List.mem_cons.1 h with h | h
        · rw [h]
          exact List.mem_cons_self _ _
        · exact List.mem_cons_of_mem _ (ih h)

/-- The loop of `LoadDict` returns a map, which holds every entry emplaced before. -/
theorem LoadDict_loop_value (io : DoubleText) (fuel : Nat) :
    ∀ (input : IStream) (result : List (String × Node)) (t : Node) (input' : IStream),
      LoadDict.loop io fuel input result = .value t input' →
      ∃ entries, t = .map entries ∧ ∀ e ∈ result, e ∈ entries := by
  induction fuel with
  | zero =>
    intro input result t input' h
    simp [LoadDict.loop] at h
  | succ fuel ih =>
    intro input result t input' h
    rw [LoadDict.loop] at h
    split at h
    · simp only [Loaded.value.injEq] at h
      exact ⟨result, h.1.symm, fun e he => he⟩
    · split at h
      · simp only [Loaded.value.injEq] at h
        exact ⟨result, h.1.symm, fun e he => he⟩
      · rename_i c input1 _ _
        simp only [LoadString, Node.AsString] at h
        generalize (if c = ',' then input1.extractChar.2 else input1) = s at h
        split at h
        · obtain ⟨entries, h1, h2⟩ := ih _ _ _ _ h
          exact ⟨entries, h1, fun e he => h2 e (mem_mapEmplace_keep _ _ _ e he)⟩
        · split at h
          · obtain ⟨entries, h1, h2⟩ := ih _ _ _ _ h
            exact ⟨entries, h1, fun e he => h2 e (mem_mapEmplace_keep _ _ _ e he)⟩
          · cases h
          · cases h
          · cases h

/-- The node `LoadNode` returns is never a floating-point node. -/
theorem LoadNode_not_double (io : DoubleText) (fuel : Nat) (input input' : IStream) (t : Node)
    (h : LoadNode io fuel input = .value t input') : ∀ d, t ≠ .double d := by
  intro d hd
  subst hd
  cases fuel with
  | zero => simp [LoadNode] at h
  | succ fuel =>
    rw [LoadNode] at h
    split at h
    · cases h
    · split at h
      · obtain ⟨items, hitems⟩ := LoadArray_loop_value io fuel _ _ _ _ h
        cases hitems
      · split at h
        · obtain ⟨entries, hentries, _⟩ := LoadDict_loop_value io fuel _ _ _ _ h
          cases hentries
        · split at h
          · simp [LoadString] at h
          · split at h
            · simp [LoadBool] at h
            · simp only [LoadInt] at h
              split at h <;> simp at h

/-! ### An array whose element starts with a minus sign -/

theorem LoadArray_loop_minus_step (io : DoubleText) (fuel : Nat) (rest : List Char)
    (result : List Node) :
    LoadArray.loop io (fuel + 2) ⟨'-' :: rest, false, false⟩ result =
      LoadArray.loop io (fuel + 1) ⟨'-' :: rest, false, false⟩ (result ++ [Node.int 0]) := rfl

/-- On a text that starts with a minus sign the loop of `LoadArray` never ends. -/
theorem LoadArray_loop_minus (io : DoubleText) (rest : List Char) (fuel : Nat) :
    ∀ result : List Node,
      LoadArray.loop io fuel ⟨'-' :: rest, false, false⟩ result = .out_of_fuel := by
  induction fuel with
  | zero => intro result; rfl
  | succ fuel ih =>
    intro result
    cases fuel with
    | zero => rfl
    | succ fuel =>
      rw [LoadArray_loop_minus_step]
      exact ih _

end Json

/-! ## C25: the reader on an array whose element is not a value -/

open Json

/-- C25, the code at the failing input: on the text `[-1]` the loop of `LoadArray`
makes no progress.  An iteration extracts the minus sign and puts it back,
`LoadNode` does the same and `LoadInt`, finding no digit, returns the node 0
without extracting anything: the next iteration starts on the same stream
with one more element.  So no amount of fuel lets `Load` return. -/
theorem C25_array_of_minus_never_returns (io : DoubleText) :
    (∀ fuel, Load io fuel (IStream.ofText "[-1]".data) = .out_of_fuel) ∧
    (∀ fuel, LoadNode io (fuel + 1) ⟨"-1]".data, false, false⟩ =
      .value (Node.int 0) ⟨"-1]".data, false, false⟩) ∧
    (∀ fuel result, LoadArray.loop io (fuel + 2) ⟨"-1]".data, false, false⟩ result =
      LoadArray.loop io (fuel + 1) ⟨"-1]".data, false, false⟩ (result ++ [Node.int 0])) := by
  refine ⟨?_, fun _ => rfl, fun fuel result => LoadArray_loop_minus_step io fuel _ result⟩
  intro fuel
  cases fuel with
  | zero => rfl
  | succ fuel => exact LoadArray_loop_minus io _ fuel []

/-! ## C21 and C26: writing a tree and reading the text back -/

/-- C21, counterexample: the round trip fails on a negative integer (the text `-1` is
read as 0, the minus sign left in the stream), on a string with a double
quote (read up to the quote), on every floating-point node (`LoadNode` never
returns one), on an integer under the key `latitude` (read by `LoadDouble`)
and on an array with a negative integer (the loop of `LoadArray` never ends). -/
theorem C21_round_trip_counterexample :
    (∀ (io : DoubleText) (fuel : Nat),
      Load io (fuel + 1) (IStream.ofText (Print io (Node.int (-1)))) =
        .value (Node.int 0) ⟨"-1".data, false, false⟩) ∧
    (∀ (io : DoubleText) (fuel : Nat),
      Load io (fuel + 1) (IStream.ofText (Print io (Node.string "a\"b"))) =
        .value (Node.string "a") ⟨"b\"".data, false, false⟩) ∧
    (∀ (io : DoubleText) (d : Double) (fuel : Nat) (input : IStream),
      Load io fuel (IStream.ofText (Print io (Node.double d))) ≠
        .value (Node.double d) input) ∧
    (∀ (io : DoubleText) (fuel : Nat) (input : IStream),
      Load io fuel (IStream.ofText (Print io (Node.map [("latitude", Node.int 1)]))) ≠
        .value (Node.map [("latitude", Node.int 1)]) input) ∧
    (∀ (io : DoubleText) (fuel : Nat),
      Load io fuel (IStream.ofText (Print io (Node.array [Node.int (-1)]))) =
        .out_of_fuel) := by
  refine ⟨fun _ _ => rfl, fun _ _ => rfl, ?_, ?_, ?_⟩
  · intro io d fuel input h
    exact LoadNode_not_double io fuel _ _ _ h d rfl
  · intro io fuel input h
    cases fuel with
    | zero => cases h
    | succ fuel =>
      cases fuel with
      | zero => cases h
      | succ fuel =>
        have hrun : Load io (fuel + 2)
            (IStream.ofText (Print io (Node.map [("latitude", Node.int 1)]))) =
            LoadDict.loop io fuel (io.extract ⟨" 1\n\x7d".data, false, false⟩).2
              [("latitude", Node.double (io.extract ⟨" 1\n\x7d".data, false, false⟩).1)] := rfl
        rw [hrun] at h
        obtain ⟨entries, h1, h2⟩ := LoadDict_loop_value io fuel _ _ _ _ h
        simp only [Node.map.injEq] at h1
        subst h1
        have := h2 _ (List.mem_cons_self _ _)
        simp at this
  · intro io fuel
    cases fuel with
    | zero => rfl
    | succ fuel =>
      cases fuel with
      | zero => rfl
      | succ fuel =>
        cases fuel with
        | zero => rfl
        | succ fuel => exact LoadArray_loop_minus io "1\n]".data (fuel + 1) [Node.int 0]

/-- C21, amended: for every value tree with no floating-point node, whose integers are
non-negative, whose strings and map keys have no double-quote character and
none of whose map keys is `latitude`, `longitude` or `bus_velocity`, reading
the text `Print` writes gives the tree back, in structure and in every scalar
value: with the fuel `loadFuel` or more, `Load` returns the tree, having
extracted the whole text, and the stream has not failed. -/
theorem C21_round_trip_restricted (io : DoubleText) (t : Node) (hwf : t.WellFormed)
    (hplain : t.Plain) (fuel : Nat) (hfuel : t.loadFuel ≤ fuel) :
    ∃ input : IStream,
      Load io fuel (IStream.ofText (Print io t)) = .value t input ∧
      input.rest = [] ∧ input.failbit = false := by
  obtain ⟨eof, h⟩ := Load_Print_plain io t hwf hplain fuel hfuel
  exact ⟨_, h, rfl, rfl⟩

theorem plainArray_WellFormed : plainArray.WellFormed := by
  simp [plainArray, Node.WellFormed, Node.WellFormedItems, Node.WellFormedEntries]

theorem plainArray_Plain : plainArray.Plain := by
  simp only [plainArray, Node.Plain, Node.PlainItems, Node.PlainEntries, quoteFree, doubleKey]
  decide

/-- C21, witness: the array `plainArray` is read back from its text with fuel 20. -/
theorem C21_round_trip_restricted_witness :
    ∃ input : IStream,
      Load DoubleText.sample 20 (IStream.ofText (Print DoubleText.sample plainArray)) =
        .value plainArray input ∧
      input.rest = [] ∧ input.failbit = false :=
  C21_round_trip_restricted DoubleText.sample plainArray plainArray_WellFormed
    plainArray_Plain 20 (by decide)

/-- C26: for every value tree that contains no floating-point node, whose integers are
all non-negative, whose strings and map keys contain no double-quote character
and none of whose map keys is `latitude`, `longitude` or `bus_velocity`,
`Load(Print(t)) = t`: enough fuel (`loadFuel` or more) makes `Load` return the
tree from the text `Print` writes for it. -/
theorem C26_round_trip_plain (io : DoubleText) (t : Node) (hwf : t.WellFormed)
    (hplain : t.Plain) :
    ∃ enough : Nat, ∀ fuel, enough ≤ fuel →
      ∃ input : IStream, Load io fuel (IStream.ofText (Print io t)) = .value t input := by
  refine ⟨t.loadFuel, fun fuel hfuel => ?_⟩
  obtain ⟨eof, h⟩ := Load_Print_plain io t hwf hplain fuel hfuel
  exact ⟨_, h⟩

theorem plainTree_WellFormed : plainTree.WellFormed := by
  simp only [plainTree, Node.WellFormed, Node.WellFormedItems, Node.WellFormedEntries]
  refine ⟨by decide, ?_⟩
  simp

theorem plainTree_Plain : plainTree.Plain := by
  simp only [plainTree, Node.Plain, Node.PlainItems, Node.PlainEntries, quoteFree, doubleKey]
  decide

/-- C26, witness: the map `plainTree` is read back from the text written for it. -/
theorem C26_round_trip_plain_witness :
    ∃ enough : Nat, ∀ fuel, enough ≤ fuel →
      ∃ input : IStream,
        Load DoubleText.sample fuel (IStream.ofText (Print DoubleText.sample plainTree)) =
          .value plainTree input :=
  C26_round_trip_plain DoubleText.sample plainTree plainTree_WellFormed plainTree_Plain

/-! ## C3: the stop count of a bus -/

/-- The bus the bus phase records under `name`: untouched when no `Bus` request has
the name; otherwise its type is the one the last such request gives and its
stops are those it had, followed by the stops of all such requests in order. -/
theorem BuildBuses_recorded (lm : Libm) (name : String) (rs : List BusRequest) :
    ∀ (m m' : TransportManager), m.InfoFresh → BuildBuses lm m rs = .ok m' →
      (rs.filter (fun r => decide (r.name = name)) = [] →
        UMap.find m'.buses_ name = UMap.find m.buses_ name) ∧
      (∀ (earlier : List BusRequest) (last : BusRequest),
        rs.filter (fun r => decide (r.name = name)) = earlier ++ [last] →
        UMap.find m'.buses_ name =
          some ⟨last.type_,
            stopsBefore m name ++ (earlier ++ [last]).flatMap BusRequest.stops⟩) := by
  induction rs with
  | nil =>
    intro m m' _ h
    simp only [BuildBuses, Except.ok.injEq] at h
    subst h
    exact ⟨fun _ => rfl, fun earlier last he => by simp at he⟩
  | cons r rest ih =>
    intro m m' hfresh h
    unfold BuildBuses at h
    cases hs : BuildBuses.step lm m r with
    | error e => simp [hs] at h
    | ok m1 =>
      simp only [hs] at h
      obtain ⟨_, _, _, hF1, _, hbus, hother⟩ := BuildBuses_step_edges lm m m1 r hfresh hs
      obtain ⟨ih0, ih1⟩ := ih m1 m' hF1 h
      by_cases hn : r.name = name
      · have hfilter : (r :: rest).filter (fun r => decide (r.name = name)) =
            r :: rest.filter (fun r => decide (r.name = name)) := by
          simp [List.filter_cons, hn]
        have hsb : stopsBefore m1 name = stopsBefore m name ++ r.stops := by
          subst hn
          simp [stopsBefore, hbus]
        rw [hfilter]
        refine ⟨fun he => by simp at he, ?_⟩
        intro earlier last he
        cases earlier with
        | nil =>
          simp only [List.nil_append, List.cons.injEq] at he
          obtain ⟨hr, hrest⟩ := he
          subst hr
          rw [ih0 hrest]
          subst hn
          rw [hbus]
          simp
        | cons e es =>
          simp only [List.cons_append, List.cons.injEq] at he
          obtain ⟨hr, hrest⟩ := he
          subst hr
          rw [ih1 es last hrest, hsb]
          simp
      · have hfilter : (r :: rest).filter (fun r => decide (r.name = name)) =
            rest.filter (fun r => decide (r.name = name)) := by
          simp [List.filter_cons, hn]
        have hkeep : UMap.find m1.buses_ name = UMap.find m.buses_ name :=
          hother name (fun e => hn e.symm)
        have hsb : stopsBefore m1 name = stopsBefore m name := by
          simp [stopsBefore, hkeep]
        rw [hfilter]
        refine ⟨fun he => ?_, fun earlier last he => ?_⟩
        · rw [ih0 he, hkeep]
        · rw [ih1 earlier last he, hsb]

/-- The bus a built network records under `name`, in terms of the `Bus` requests with
that name: the type the last of them gives, and the stops of all of them. -/
theorem Build_recorded (lm : Libm) (reqs : List BaseRequest) (w : Int) (v : ℚ)
    (m : TransportManager) (name : String) (earlier : List BusRequest) (last : BusRequest)
    (h : Build lm (ParseBaseRequests reqs w v) = .ok m)
    (hreqs : (busRequests reqs).filter (fun r => decide (r.name = name)) = earlier ++ [last]) :
    UMap.find m.buses_ name =
      some ⟨last.type_, (earlier ++ [last]).flatMap BusRequest.stops⟩ := by
  obtain ⟨m1, h1, h2⟩ := Build_phases lm reqs w v m h
  obtain ⟨_, _, _, _, hb, hinfo, _⟩ := Build_before_buses reqs w v m1 h1
  have hfresh1 : m1.InfoFresh := by
    intro id _
    rw [hinfo]
    rfl
  rw [(BuildBuses_recorded lm name (busRequests reqs) m1 m hfresh1 h2).2 earlier last hreqs]
  simp [stopsBefore, hb, UMap.find]

/-- C3: in a built network, for every known bus, that is, every name of a `Bus`
request: the bus has the `n` stops its requests list (those of all the
requests with its name, in order) and is CIRCULAR when `is_roundtrip` is true
in the last of them, REGULAR otherwise; with `2n - 1` below `2^31`, the
response of `BusInfo::Process` is a map whose `stop_count` is `n` for a
CIRCULAR bus and `2n - 1` for a REGULAR bus (so `-1` for `n = 0` and `1` for
`n = 1`). -/
theorem C3_stop_count (lm : Libm) (reqs : List BaseRequest) (w : Int) (v : ℚ)
    (m : TransportManager) (request_id : Int) (name : String)
    (earlier : List BusRequest) (last : BusRequest)
    (hbuild : Build lm (ParseBaseRequests reqs w v) = .ok m)
    (hreqs : (busRequests reqs).filter (fun r => decide (r.name = name)) = earlier ++ [last])
    (hrange : 2 * (((earlier ++ [last]).flatMap BusRequest.stops).length : Int) - 1 < 2 ^ 31) :
    UMap.find m.buses_ name =
      some ⟨if last.is_roundtrip = true then BusType.CIRCULAR else BusType.REGULAR,
        (earlier ++ [last]).flatMap BusRequest.stops⟩ ∧
    ∃ entries, Requests.BusInfo.Process lm m request_id name = .ok (Json.Node.map entries) ∧
      UMap.find entries "stop_count" =
        some (Json.Node.int
          (if last.is_roundtrip = true
            then (((earlier ++ [last]).flatMap BusRequest.stops).length : Int)
            else 2 * (((earlier ++ [last]).flatMap BusRequest.stops).length : Int) - 1)) := by
  have hbus := Build_recorded lm reqs w v m name earlier last hbuild hreqs
  refine ⟨hbus, ?_⟩
  obtain ⟨length, _, hp⟩ := BusInfo_Process_known lm m request_id name _ hbus
    (Build_BusStopsRegistered lm reqs w v m hbuild name _ hbus)
  refine ⟨_, hp, ?_⟩
  have hfind : ∀ (a b c d e : Json.Node),
      UMap.find [("curvature", a), ("request_id", b), ("route_length", c), ("stop_count", d),
        ("unique_stop_count", e)] "stop_count" = some d := by
    intro a b c d e
    simp [UMap.find]
  rw [hfind]
  have hint : ∀ (t : BusType) (n : Int), 0 ≤ n → 2 * n - 1 < 2 ^ 31 →
      toInt32 (toInt32 (if t = BusType.REGULAR then toSizeT (toSizeT (n * 2) - 1) else n)) =
        if t = BusType.CIRCULAR then n else 2 * n - 1 := by
    intro t n h0 h1
    cases t with
    | CIRCULAR =>
      simp only [if_true, reduceCtorEq, if_false]
      unfold toInt32
      omega
    | REGULAR =>
      simp only [if_true, reduceCtorEq, if_false]
      unfold toInt32 toSizeT
      omega
  simp only [BusRequest.type_] at hint ⊢
  rw [hint _ _ (by positivity) hrange]
  cases last.is_roundtrip <;> simp

/-- C3, witness: in the network of `twoWayRequests` the REGULAR bus `1`, requested
with `is_roundtrip` false and the two stops `A`, `B`, has `stop_count = 3`; in
the network of `transferRequests` the CIRCULAR bus `2`, requested with
`is_roundtrip` true and the two stops `C`, `B`, has `stop_count = 2`; in the
network of `servedStopRequests` the CIRCULAR bus `12` with the one stop `S` has
`stop_count = 1`; and the REGULAR bus `0` of `emptyBusRequests`, without
stops, has `stop_count = 2 * 0 - 1`. -/
theorem C3_stop_count_witness :
    (UMap.find twoWayNetwork.buses_ "1" = some ⟨BusType.REGULAR, ["A", "B"]⟩ ∧
      ∃ entries, Requests.BusInfo.Process Libm.sample twoWayNetwork 7 "1" =
          .ok (Json.Node.map entries) ∧
        UMap.find entries "stop_count" = some (Json.Node.int 3)) ∧
    (UMap.find transferNetwork.buses_ "2" = some ⟨BusType.CIRCULAR, ["C", "B"]⟩ ∧
      ∃ entries, Requests.BusInfo.Process Libm.sample transferNetwork 8 "2" =
          .ok (Json.Node.map entries) ∧
        UMap.find entries "stop_count" = some (Json.Node.int 2)) ∧
    (UMap.find servedStopNetwork.buses_ "12" = some ⟨BusType.CIRCULAR, ["S"]⟩ ∧
      ∃ entries, Requests.BusInfo.Process Libm.sample servedStopNetwork 9 "12" =
          .ok (Json.Node.map entries) ∧
        UMap.find entries "stop_count" = some (Json.Node.int 1)) ∧
    (∃ m, Build Libm.sample (ParseBaseRequests emptyBusRequests 5 60) = .ok m ∧
      UMap.find m.buses_ "0" = some ⟨BusType.REGULAR, []⟩ ∧
      ∃ entries, Requests.BusInfo.Process Libm.sample m 7 "0" = .ok (Json.Node.map entries) ∧
        UMap.find entries "stop_count" = some (Json.Node.int (-1))) :=
  ⟨C3_stop_count Libm.sample twoWayRequests 5 60 twoWayNetwork 7 "1" []
      ⟨"1", false, ["A", "B"]⟩ twoWayNetwork_built rfl (by decide),
    C3_stop_count Libm.sample transferRequests 5 60 transferNetwork 8 "2" []
      ⟨"2", true, ["C", "B"]⟩ transferNetwork_built rfl (by decide),
    C3_stop_count Libm.sample servedStopRequests 5 60 servedStopNetwork 9 "12" []
      ⟨"12", true, ["S"]⟩ servedStopNetwork_built rfl (by decide),
    ⟨_, rfl, C3_stop_count Libm.sample emptyBusRequests 5 60 _ 7 "0" []
      ⟨"0", false, []⟩ rfl rfl (by decide)⟩⟩

end TransportGuide
